import Mathlib

/-! # Terrain chunk manager, ESM3 records and editor widgets of openmw

A shallow embedding of `Terrain::ChunkManager` (`components/terrain/chunkmanager.cpp`), of the
record code in `components/esm3` (`cellref.hpp`, `loadarmo.cpp`, `dialoguestate.cpp`) and of two
pieces of the editor (`collectionbase.cpp`, `scenetooltexturebrush.cpp`).

* `float` values are rationals (`ℚ`). The two `numVerts` expressions (of `createChunk` and of the
  leaf template), whose integer value depends on how the `float` operations round, are computed
  with every operation rounded to binary32 (`roundFloat`); the other `float` expressions are
  evaluated exactly. Conversions to `unsigned int` truncate toward zero and wrap to 32 bits.
* Heap objects created by `new` carry an identity taken from the allocation counter
  `ChunkManager.mNextId`; two references denote the same object exactly when the identities agree.
* Every call to a collaborator (Storage, BufferCache, TextureManager, CompositeMapRenderer,
  IncrementalCompileOperation) is appended to `ChunkManager.trace`, in call order.
* `createCompositeMapGeometry` is recursive without a structural bound, so it takes a fuel
  argument; `none` stands for a call that does not return within the fuel.
* A record is the list of its subrecords, each a name and payload bytes; a function that can
  raise an exception returns `Except` with the message of the exception.
-/

namespace Terrain

/-! ## osg value types -/

/-- The `osg::Vec2f` value type. -/
structure Vec2f where
  x : ℚ
  y : ℚ
deriving DecidableEq

/-- The `osg::Vec3f` value type. -/
structure Vec3f where
  x : ℚ
  y : ℚ
  z : ℚ
deriving DecidableEq

/-- The `osg::Vec4f` value type. -/
structure Vec4f where
  x : ℚ
  y : ℚ
  z : ℚ
  w : ℚ
deriving DecidableEq

/-- The `osg::Vec4ub` value type (one byte per channel). -/
structure Vec4ub where
  r : Nat
  g : Nat
  b : Nat
  a : Nat
deriving DecidableEq

/-- Component-wise sum, `osg::Vec2f::operator+`. -/
def Vec2f.add (a b : Vec2f) : Vec2f := ⟨a.x + b.x, a.y + b.y⟩

/-- Lexicographic comparison, `osg::Vec2f::operator<`. -/
def Vec2f.lt (a b : Vec2f) : Bool :=
  if a.x < b.x then true
  else if a.x > b.x then false
  else decide (a.y < b.y)

/-- An `osg::Array` on the heap: its identity and its elements. -/
structure OsgArray (α : Type) where
  id : Nat
  data : List α
deriving DecidableEq

/-- The `osg::Array::clone(DEEP_COPY_ALL)` operation: a new array object with the same elements. -/
def OsgArray.clone {α : Type} (a : OsgArray α) (newId : Nat) : OsgArray α := ⟨newId, a.data⟩

/-- Conversion of a `float` to `unsigned int`: the fractional part is discarded. Values outside
the range of `unsigned int` are undefined in C++; here negatives give 0 and the rest wraps. -/
def floatToUInt (q : ℚ) : Nat := (Int.toNat (if 0 ≤ q then ⌊q⌋ else ⌈q⌉)) % 2 ^ 32

/-- The `int` expression `1 << lod` for an `unsigned char` lod, wrapped to 32-bit two's complement
(the shift is undefined in C++ for `lod >= 32`). -/
def shiftLeftOne (lod : Nat) : Int := Int.bmod (2 ^ lod) (2 ^ 32)

/-- The number of binary digits of `n` (0 for 0), found by halving at most `fuel` times. -/
def bitLength : Nat → Nat → Nat
  | 0, _ => 0
  | fuel + 1, n => if n = 0 then 0 else bitLength fuel (n / 2) + 1

/-- The binary exponent `e` of a non-zero rational, `2 ^ e ≤ |q| < 2 ^ (e + 1)`: the difference
of the digit counts of numerator and denominator, or one less. -/
def binaryExponent (q : ℚ) : Int :=
  let e : Int := (bitLength q.num.natAbs q.num.natAbs : Int) - (bitLength q.den q.den : Int)
  if (2 : ℚ) ^ e ≤ |q| then e else e - 1

/-- Rounding of a rational to the nearest integer, a tie going to the even neighbour. -/
def roundHalfEven (q : ℚ) : Int :=
  if q - ⌊q⌋ < 1 / 2 then ⌊q⌋
  else if 1 / 2 < q - ⌊q⌋ then ⌊q⌋ + 1
  else if ⌊q⌋ % 2 = 0 then ⌊q⌋ else ⌊q⌋ + 1

/-- The `float` (IEEE 754 binary32) nearest to `q`, a tie going to the even significand: `q` is
rounded to a multiple of `2 ^ (e - 23)`, where `e` is its binary exponent and at least `-126`
(below that the values are subnormal). Results above the largest finite `float`, which are
infinite in binary32, are not told apart: the rounded rational is kept. -/
def roundFloat (q : ℚ) : ℚ :=
  if q = 0 then 0
  else (roundHalfEven (q / 2 ^ (max (binaryExponent q) (-126) - 23)) : ℚ)
    * 2 ^ (max (binaryExponent q) (-126) - 23)

/-! ## Keys (declared in `chunkmanager.hpp`) -/

/-- Modelled from the spec: `ChunkKey` of chunkmanager.hpp, `{center, lod, lodFlags}`, the identity
of a fully built chunk, with structural equality. -/
structure ChunkKey where
  mCenter : Vec2f
  mLod : Nat
  mLodFlags : Nat
deriving DecidableEq

/-- Modelled from the spec: `TemplateKey` of chunkmanager.hpp, `{center, lod}`, with structural
equality. -/
structure TemplateKey where
  mCenter : Vec2f
  mLod : Nat
deriving DecidableEq

/-- Modelled from the spec: the structural (component-wise, lexicographic) order of `TemplateKey`
of chunkmanager.hpp. -/
def TemplateKey.lt (l r : TemplateKey) : Bool :=
  if l.mCenter.lt r.mCenter then true
  else if r.mCenter.lt l.mCenter then false
  else decide (l.mLod < r.mLod)

/-- Modelled from the spec: the structural (component-wise, lexicographic) order of `ChunkKey`
of chunkmanager.hpp. -/
def ChunkKey.lt (l r : ChunkKey) : Bool :=
  if l.mCenter.lt r.mCenter then true
  else if r.mCenter.lt l.mCenter then false
  else if l.mLod < r.mLod then true
  else if r.mLod < l.mLod then false
  else decide (l.mLodFlags < r.mLodFlags)

/-! ## Textures, layers and state sets -/

/-- Handle of an `osg::Image` supplied by the data source. -/
abbrev Image := Nat

/-- Values of `osg::Texture::WrapMode` that occur. -/
inductive WrapMode
  | CLAMP
  | CLAMP_TO_EDGE
  | REPEAT
deriving DecidableEq

/-- Values of `osg::Texture::FilterMode` that occur. -/
inductive FilterMode
  | LINEAR
  | LINEAR_MIPMAP_LINEAR
deriving DecidableEq

/-- An `osg::Texture2D` object with the attributes the chunk manager sets. -/
structure Texture2D where
  id : Nat
  mImage : Option Image
  mTextureWidth : Nat
  mTextureHeight : Nat
  mInternalFormatRGB : Bool
  mMinFilter : FilterMode
  mMagFilter : FilterMode
  mWrapS : WrapMode
  mWrapT : WrapMode
  mResizeNonPowerOfTwoHint : Bool
deriving DecidableEq

/-- A freshly constructed `osg::Texture2D` (osg defaults). -/
def Texture2D.new (id : Nat) : Texture2D :=
  { id := id, mImage := none, mTextureWidth := 0, mTextureHeight := 0, mInternalFormatRGB := false,
    mMinFilter := FilterMode.LINEAR_MIPMAP_LINEAR, mMagFilter := FilterMode.LINEAR,
    mWrapS := WrapMode.CLAMP, mWrapT := WrapMode.CLAMP, mResizeNonPowerOfTwoHint := true }

/-- Modelled from the spec: `LayerInfo` of defs.hpp, one blend layer as returned by the data
source: texture names and the parallax / specular flags. -/
structure LayerInfo where
  mDiffuseMap : String
  mNormalMap : String
  mParallax : Bool
  mSpecular : Bool
deriving DecidableEq

/-- Modelled from the spec: `LayerInfo::requiresShaders` of defs.hpp, "any layer demands
parallax/specular/normal mapping". -/
def LayerInfo.requiresShaders (l : LayerInfo) : Bool :=
  l.mParallax || l.mSpecular || !l.mNormalMap.isEmpty

/-- Modelled from the spec: `TextureLayer` of material.hpp, `{diffuse map handle, optional normal
map handle, parallax flag, specular flag}`. -/
structure TextureLayer where
  mDiffuseMap : Texture2D
  mNormalMap : Option Texture2D
  mParallax : Bool
  mSpecular : Bool
deriving DecidableEq

/-- Blend factors of `osg::BlendFunc` that occur. -/
inductive BlendFactor
  | ZERO
  | ONE
  | SRC_COLOR
deriving DecidableEq

/-- An `osg::StateSet`, by the way it was built: `multiPassRoot` is the shared root state
`mMultiPassRoot` (opaque bin, ambient-and-diffuse material); `layerPass` is one pass of
`::Terrain::createPasses` for the layer at `index`; `blended` is a state set with `GL_BLEND`
switched on and the given blend function. -/
inductive StateSet
  | multiPassRoot
  | layerPass (useShaders : Bool) (index : Nat) (layer : TextureLayer)
      (blendmaps : List Texture2D) (blendmapScale : ℚ) (layerTileSize : ℚ)
  | blended (src : BlendFactor) (dst : BlendFactor)
deriving DecidableEq

/-- Modelled from the spec: the free function `::Terrain::createPasses` of material.cpp, "one pass
per texture layer", in layer order, each pass carrying its layer. -/
def createPasses (useShaders : Bool) (layers : List TextureLayer) (blendmaps : List Texture2D)
    (blendmapScale : ℚ) (layerTileSize : ℚ) : List StateSet :=
  layers.enum.map (fun p => StateSet.layerPass useShaders p.1 p.2 blendmaps blendmapScale layerTileSize)

/-! ## Buffers, drawables and the composite map -/

/-- Modelled from the spec: a shared UV buffer of buffercache.hpp. `BufferCache` memoizes by
parameter tuple, so the buffer is identified by the grid resolution it was requested for. -/
structure UVBuffer where
  numVerts : Nat
deriving DecidableEq

/-- Modelled from the spec: a shared index buffer of buffercache.hpp. `BufferCache` memoizes by
parameter tuple, so the buffer is identified by the grid resolution and stitching flags it was
requested for. -/
structure IndexBuffer where
  numVerts : Nat
  flags : Nat
deriving DecidableEq

/-- The template `osg::Geometry` kept in `mCompositeMapGeometryCache`. -/
structure TemplateGeom where
  id : Nat
  mVertexArray : OsgArray Vec3f
  mTexCoordArray : UVBuffer
  mPrimitiveSet : IndexBuffer
deriving DecidableEq

/-- A drawable of a composite map: `texturedQuad` is the result of
`osg::createTexturedQuadGeometry(corner, widthVec, heightVec)` with a pass as state set;
`vertexColor` is the geometry built on a template's vertex array and primitive set with a
per-vertex color array. Display lists and vertex buffer objects are off on both. -/
inductive Drawable
  | texturedQuad (id : Nat) (corner : Vec3f) (widthVec : Vec3f) (heightVec : Vec3f)
      (stateSet : StateSet)
  | vertexColor (id : Nat) (vertexArray : OsgArray Vec3f) (colorArray : OsgArray Vec4ub)
      (primitiveSet : IndexBuffer) (stateSet : StateSet)
deriving DecidableEq

/-- Modelled from the spec: `CompositeMap` of compositemaprenderer.hpp, `{target texture, ordered
sequence of drawable passes}`, a heap object with identity `id`. -/
structure CompositeMap where
  id : Nat
  mTexture : Option Texture2D
  mDrawables : List Drawable
deriving DecidableEq

/-- Modelled from the spec: `TerrainDrawable` of terraindrawable.hpp, the renderable chunk node,
with the attributes `createChunk` sets on it. -/
structure TerrainDrawable where
  id : Nat
  mVertexArray : OsgArray Vec3f
  mNormalArray : OsgArray Vec3f
  mColorArray : OsgArray Vec4ub
  mColorNormalize : Bool
  mVertexBufferObject : Nat
  mUseDisplayList : Bool
  mUseVertexBufferObjects : Bool
  mLightListCallback : Bool
  mPrimitiveSet : IndexBuffer
  mTexCoordArrayList : List UVBuffer
  mStateSet : StateSet
  mCompositeMap : Option CompositeMap
  mCompositeMapRenderer : Bool
  mPasses : List StateSet
  mWaterBoundingBox : ℚ × ℚ
  mNodeMask : Nat
deriving DecidableEq

/-! ## Collaborators -/

/-- Identity of a worldspace (`ESM::RefId`). -/
abbrev RefId := Nat

/-- The data source `Terrain::Storage` (storage.hpp), an external provider: each virtual
function is a parameter. Output arguments are returned as results. -/
structure Storage where
  getCellVertices : RefId → Int
  getCellWorldSize : RefId → ℚ
  fillVertexBuffers : Nat → ℚ → Vec2f → RefId → Bool → List Vec3f × List Vec3f × List Vec4ub
  fillVertexBuffersCompositeMap : Int → ℚ → Vec2f → RefId → List Vec4ub
  getBlendmaps : ℚ → Vec2f → RefId → List Image × List LayerInfo
  getBlendmapScale : ℚ → ℚ

/-- The queries of `Resource::SceneManager` that the chunk manager makes. -/
structure SceneManager where
  getForceShaders : Bool
  getClampLighting : Bool
  hasIncrementalCompileOperation : Bool

/-- The `Terrain::TextureManager` collaborator: the texture it serves for a name. -/
structure TextureManager where
  getTexture : String → Texture2D

/-- A call made to a collaborator, with its arguments. `compositeLeaf` is not a collaborator
call: it records that `createCompositeMapGeometry` entered its leaf branch with the given
chunk size, chunk center and texCoords. -/
inductive Event
  | getCellVertices
  | getCellWorldSize
  | fillVertexBuffers (lod : Nat) (size : ℚ) (center : Vec2f) (useCompositeMap : Bool)
  | fillVertexBuffersCompositeMap (lod : Int) (size : ℚ) (center : Vec2f)
  | getBlendmaps (size : ℚ) (center : Vec2f)
  | getBlendmapScale (size : ℚ)
  | getTexture (name : String)
  | getUVBuffer (numVerts : Nat)
  | getIndexBuffer (numVerts : Nat) (flags : Nat)
  | addCompositeMap (compositeMap : Nat) (immediate : Bool)
  | incrementalCompileAdd (geometry : Nat)
  | compositeLeaf (chunkSize : ℚ) (chunkCenter : Vec2f) (texCoords : Vec4f)
deriving DecidableEq

/-! ## The object cache -/

/-- Modelled from the spec: `Resource::GenericObjectCache<ChunkKey>` of objectcache.hpp, a
key to object store with at most one object per key. -/
structure ObjectCache where
  mItems : List (ChunkKey × TerrainDrawable)

/-- Modelled from the spec: `get(key) -> optional<Object>` of objectcache.hpp (exact match). -/
def ObjectCache.getRefFromObjectCache (c : ObjectCache) (key : ChunkKey) : Option TerrainDrawable :=
  (c.mItems.find? (fun e => decide (e.1 = key))).map (fun e => e.2)

/-- Modelled from the spec: `put(key, object)` of objectcache.hpp; the object replaces whatever
was stored under the key. -/
def ObjectCache.addEntryToObjectCache (c : ObjectCache) (key : ChunkKey) (obj : TerrainDrawable) :
    ObjectCache :=
  ⟨(key, obj) :: c.mItems.filter (fun e => !decide (e.1 = key))⟩

/-- Modelled from the spec: `lowerBound(key) -> optional<(key, object)>` of objectcache.hpp,
"returns the greatest stored key ≤ the query key under the cache's ordering, or empty". A stored
`ChunkKey` is compared with the queried `TemplateKey` on `(center, lod)`. -/
def ObjectCache.lowerBound (c : ObjectCache) (key : TemplateKey) :
    Option (ChunkKey × TerrainDrawable) :=
  (c.mItems.filter (fun e => !TemplateKey.lt key ⟨e.1.mCenter, e.1.mLod⟩)).foldl
    (fun best e =>
      match best with
      | none => some e
      | some b => if ChunkKey.lt b.1 e.1 then some e else some b)
    none

/-! ## The chunk manager -/

/-- State of a `Terrain::ChunkManager`: its members, the allocation counter and the trace of
collaborator calls. -/
structure ChunkManager where
  mStorage : Storage
  mSceneManager : SceneManager
  mTextureManager : TextureManager
  mWorldspace : RefId
  mCache : ObjectCache
  mCompositeMapGeometryCache : List (Vec4f × TemplateGeom)
  mNodeMask : Nat
  mCompositeMapSize : Nat
  mCompositeMapLevel : ℚ
  mMaxCompGeometrySize : ℚ
  mNextId : Nat
  trace : List Event

/-- The constructor `ChunkManager::ChunkManager`: empty caches, node mask 0, composite map size
512, composite map level 1 and max composite geometry size 1. -/
def ChunkManager.new (storage : Storage) (sceneMgr : SceneManager) (textureManager : TextureManager)
    (worldspace : RefId) : ChunkManager :=
  { mStorage := storage, mSceneManager := sceneMgr, mTextureManager := textureManager,
    mWorldspace := worldspace, mCache := ⟨[]⟩, mCompositeMapGeometryCache := [],
    mNodeMask := 0, mCompositeMapSize := 512, mCompositeMapLevel := 1, mMaxCompGeometrySize := 1,
    mNextId := 0, trace := [] }

/-- Appends a collaborator call to the trace. -/
def ChunkManager.log (m : ChunkManager) (e : Event) : ChunkManager :=
  { m with trace := m.trace ++ [e] }

/-- The `new` expression: the identity of the object created, and the advanced counter. -/
def ChunkManager.alloc (m : ChunkManager) : Nat × ChunkManager :=
  (m.mNextId, { m with mNextId := m.mNextId + 1 })

/-- The render target of `ChunkManager::createCompositeMapRTT`: a square RGB texture of side
`mCompositeMapSize`, linear filters, clamped to edge on both axes. -/
def ChunkManager.createCompositeMapRTT (m : ChunkManager) : Texture2D × ChunkManager :=
  ({ Texture2D.new m.alloc.1 with
      mTextureWidth := m.mCompositeMapSize, mTextureHeight := m.mCompositeMapSize,
      mInternalFormatRGB := true, mMinFilter := FilterMode.LINEAR, mMagFilter := FilterMode.LINEAR,
      mWrapS := WrapMode.CLAMP_TO_EDGE, mWrapT := WrapMode.CLAMP_TO_EDGE }, m.alloc.2)

/-- The loop over `layerList` in `ChunkManager::createPasses`: one `TextureLayer` per `LayerInfo`,
pushed back in order; `useShaders` is raised by any layer that requires shaders. -/
def ChunkManager.createPassesLayers (forCompositeMap : Bool) :
    List LayerInfo → List TextureLayer → Bool → ChunkManager →
      List TextureLayer × Bool × ChunkManager
  | [], layers, useShaders, m => (layers, useShaders, m)
  | it :: rest, layers, useShaders, m =>
    let m1 := m.log (Event.getTexture it.mDiffuseMap)
    let m2 := if !forCompositeMap && !it.mNormalMap.isEmpty
      then m1.log (Event.getTexture it.mNormalMap) else m1
    let textureLayer : TextureLayer :=
      { mParallax := it.mParallax, mSpecular := it.mSpecular,
        mDiffuseMap := m.mTextureManager.getTexture it.mDiffuseMap,
        mNormalMap := if !forCompositeMap && !it.mNormalMap.isEmpty
          then some (m.mTextureManager.getTexture it.mNormalMap) else none }
    ChunkManager.createPassesLayers forCompositeMap rest (layers ++ [textureLayer])
      (if it.requiresShaders then true else useShaders) m2

/-- The loop over `blendmaps` in `ChunkManager::createPasses`: one new texture per image, clamped
to edge on both axes, pushed back in order. -/
def ChunkManager.createPassesBlendmaps :
    List Image → List Texture2D → ChunkManager → List Texture2D × ChunkManager
  | [], blendmapTextures, m => (blendmapTextures, m)
  | it :: rest, blendmapTextures, m =>
    let texture : Texture2D :=
      { Texture2D.new m.alloc.1 with
          mImage := some it, mWrapS := WrapMode.CLAMP_TO_EDGE, mWrapT := WrapMode.CLAMP_TO_EDGE,
          mResizeNonPowerOfTwoHint := false }
    ChunkManager.createPassesBlendmaps rest (blendmapTextures ++ [texture]) m.alloc.2

/-- The member function `ChunkManager::createPasses`. -/
def ChunkManager.createPasses (m : ChunkManager) (chunkSize : ℚ) (chunkCenter : Vec2f)
    (forCompositeMap : Bool) : List StateSet × ChunkManager :=
  let blendmaps := (m.mStorage.getBlendmaps chunkSize chunkCenter m.mWorldspace).1
  let layerList := (m.mStorage.getBlendmaps chunkSize chunkCenter m.mWorldspace).2
  let m1 := m.log (Event.getBlendmaps chunkSize chunkCenter)
  let useShaders0 := if !m.mSceneManager.getClampLighting then true
    else m.mSceneManager.getForceShaders
  let r := ChunkManager.createPassesLayers forCompositeMap layerList [] useShaders0 m1
  let useShaders := if forCompositeMap then false else r.2.1
  let b := ChunkManager.createPassesBlendmaps blendmaps [] r.2.2
  let blendmapScale := m.mStorage.getBlendmapScale chunkSize
  (Terrain.createPasses useShaders r.1 b.1 blendmapScale blendmapScale,
    b.2.log (Event.getBlendmapScale chunkSize))

/-- The nested loops that fill the template positions of a composite-map leaf: the array has
`numVerts * numVerts` zero-initialised elements and slot `vertY + vertX * numVerts` is assigned
for every `vertY`, `vertX` below `numVerts` (unsigned 32-bit index arithmetic). -/
def templatePositions (numVerts : Nat) (width height posX posY : ℚ) : List Vec3f :=
  (List.range numVerts).foldl
    (fun positions vertY =>
      (List.range numVerts).foldl
        (fun positions vertX =>
          positions.set ((vertY + vertX * numVerts) % 2 ^ 32)
            ⟨((vertX : ℚ) / (((numVerts + 2 ^ 32 - 1) % 2 ^ 32 : Nat) : ℚ) - 1 / 2) * width + posX,
             ((vertY : ℚ) / (((numVerts + 2 ^ 32 - 1) % 2 ^ 32 : Nat) : ℚ) - 1 / 2) * height + posY,
             0⟩)
        positions)
    (List.replicate ((numVerts * numVerts) % 2 ^ 32) ⟨0, 0, 0⟩)

/-- The loop over `passes` in the leaf branch of `createCompositeMapGeometry`: one textured quad
per pass, appended to the composite map's drawables in pass order. -/
def ChunkManager.leafQuads (left top width2 height2 : ℚ) :
    List StateSet → CompositeMap → ChunkManager → CompositeMap × ChunkManager
  | [], compositeMap, m => (compositeMap, m)
  | it :: rest, compositeMap, m =>
    let geom := Drawable.texturedQuad m.alloc.1 ⟨left, top, 0⟩ ⟨width2, 0, 0⟩ ⟨0, height2, 0⟩ it
    ChunkManager.leafQuads left top width2 height2 rest
      { compositeMap with mDrawables := compositeMap.mDrawables ++ [geom] } m.alloc.2

/-- The template geometry lookup of the leaf branch of `createCompositeMapGeometry`: the cached
geometry for `geomKey`, or a new one that is then stored under `geomKey`. -/
def ChunkManager.leafTemplateGeom (m : ChunkManager) (chunkSize : ℚ) (posX posY width height : ℚ)
    (compositeMapLod : Nat) : TemplateGeom × ChunkManager :=
  let geomKey : Vec4f := ⟨chunkSize, posX, posY, width⟩
  match m.mCompositeMapGeometryCache.lookup geomKey with
  | some found => (found, m)
  | none =>
    let m1 := m.log Event.getCellVertices
    let numVerts := floatToUInt
      (roundFloat
        (roundFloat
            (roundFloat
                (((m.mStorage.getCellVertices m.mWorldspace - 1) >>> compositeMapLod : Int) : ℚ)
              * chunkSize)
          + 1))
    let positions : OsgArray Vec3f := ⟨m1.alloc.1, templatePositions numVerts width height posX posY⟩
    let m2 := (m1.alloc.2.log (Event.getUVBuffer numVerts)).log (Event.getIndexBuffer numVerts 0)
    let templateGeom : TemplateGeom :=
      { id := m2.alloc.1, mVertexArray := positions, mTexCoordArray := ⟨numVerts⟩,
        mPrimitiveSet := ⟨numVerts, 0⟩ }
    (templateGeom,
      { m2.alloc.2 with
          mCompositeMapGeometryCache :=
            (geomKey, templateGeom) :: m2.mCompositeMapGeometryCache.filter
              (fun e => !decide (e.1 = geomKey)) })

/-- The leaf (else) branch of `ChunkManager::createCompositeMapGeometry`. -/
def ChunkManager.createCompositeMapGeometryLeaf (m : ChunkManager) (chunkSize : ℚ)
    (chunkCenter : Vec2f) (texCoords : Vec4f) (compositeMap : CompositeMap) :
    CompositeMap × ChunkManager :=
  let m0 := m.log (Event.compositeLeaf chunkSize chunkCenter texCoords)
  let posX := texCoords.x * 2 - 1 + texCoords.z
  let posY := texCoords.y * 2 - 1 + texCoords.w
  let width := texCoords.z * 2
  let height := texCoords.w * (-2)
  let compositeMapLod : Nat := 0
  let t := m0.leafTemplateGeom chunkSize posX posY width height compositeMapLod
  let left := texCoords.x * 2 - 1
  let top := texCoords.y * 2 - 1
  let width2 := texCoords.z * 2
  let height2 := texCoords.w * 2
  let m1 := t.2.alloc.2.log (Event.fillVertexBuffersCompositeMap compositeMapLod chunkSize chunkCenter)
  let colors : OsgArray Vec4ub :=
    ⟨t.2.alloc.1, m.mStorage.fillVertexBuffersCompositeMap compositeMapLod chunkSize chunkCenter
      m.mWorldspace⟩
  let p := m1.createPasses chunkSize chunkCenter true
  let q := ChunkManager.leafQuads left top width2 height2 p.1 compositeMap p.2
  let geom := Drawable.vertexColor q.2.alloc.1 t.1.mVertexArray colors t.1.mPrimitiveSet
    (StateSet.blended BlendFactor.ZERO BlendFactor.SRC_COLOR)
  ({ q.1 with mDrawables := q.1.mDrawables ++ [geom] }, q.2.alloc.2)

/-- The member function `ChunkManager::createCompositeMapGeometry`: above the threshold
`mMaxCompGeometrySize` it recurses into four quadrants of half the size, otherwise it emits the
leaf geometry. `fuel` bounds the recursion depth. -/
def ChunkManager.createCompositeMapGeometry : Nat → ChunkManager → Int → ℚ → Vec2f → Vec4f →
    CompositeMap → Option (CompositeMap × ChunkManager)
  | 0, _, _, _, _, _, _ => none
  | fuel + 1, m, lod, chunkSize, chunkCenter, texCoords, compositeMap =>
    if chunkSize > m.mMaxCompGeometrySize then
      (ChunkManager.createCompositeMapGeometry fuel m lod (chunkSize / 2)
        (chunkCenter.add ⟨chunkSize / 4, chunkSize / 4⟩)
        ⟨texCoords.x + texCoords.z / 2, texCoords.y, texCoords.z / 2, texCoords.w / 2⟩
        compositeMap).bind fun r1 =>
      (ChunkManager.createCompositeMapGeometry fuel r1.2 lod (chunkSize / 2)
        (chunkCenter.add ⟨-chunkSize / 4, chunkSize / 4⟩)
        ⟨texCoords.x, texCoords.y, texCoords.z / 2, texCoords.w / 2⟩ r1.1).bind fun r2 =>
      (ChunkManager.createCompositeMapGeometry fuel r2.2 lod (chunkSize / 2)
        (chunkCenter.add ⟨chunkSize / 4, -chunkSize / 4⟩)
        ⟨texCoords.x + texCoords.z / 2, texCoords.y + texCoords.w / 2, texCoords.z / 2,
          texCoords.w / 2⟩ r2.1).bind fun r3 =>
      ChunkManager.createCompositeMapGeometry fuel r3.2 lod (chunkSize / 2)
        (chunkCenter.add ⟨-chunkSize / 4, -chunkSize / 4⟩)
        ⟨texCoords.x, texCoords.y + texCoords.w / 2, texCoords.z / 2, texCoords.w / 2⟩ r3.1
    else
      some (m.createCompositeMapGeometryLeaf chunkSize chunkCenter texCoords compositeMap)

/-- The vertex data of a chunk: positions, normals, colors, whether the colors are normalized,
and the vertex buffer object the three arrays are attached to. -/
structure ChunkArrays where
  positions : OsgArray Vec3f
  normals : OsgArray Vec3f
  colors : OsgArray Vec4ub
  colorNormalize : Bool
  vbo : Nat
deriving DecidableEq

/-- First part of `ChunkManager::createChunk`: without a template the three arrays are new and
filled by `Storage::fillVertexBuffers`; with a template they are deep copies of the template's
arrays. Either way they are attached to a new vertex buffer object. -/
def ChunkManager.createChunkArrays (m : ChunkManager) (chunkSize : ℚ) (chunkCenter : Vec2f)
    (lod : Nat) (useCompositeMap : Bool) (templateGeometry : Option TerrainDrawable) :
    ChunkArrays × ChunkManager :=
  match templateGeometry with
  | none =>
    let a1 := m.alloc
    let a2 := a1.2.alloc
    let a3 := a2.2.alloc
    let filled := m.mStorage.fillVertexBuffers lod chunkSize chunkCenter m.mWorldspace useCompositeMap
    let m1 := a3.2.log (Event.fillVertexBuffers lod chunkSize chunkCenter useCompositeMap)
    ({ positions := ⟨a1.1, filled.1⟩, normals := ⟨a2.1, filled.2.1⟩, colors := ⟨a3.1, filled.2.2⟩,
       colorNormalize := true, vbo := m1.alloc.1 }, m1.alloc.2)
  | some t =>
    let a1 := m.alloc
    let a2 := a1.2.alloc
    let a3 := a2.2.alloc
    ({ positions := t.mVertexArray.clone a1.1, normals := t.mNormalArray.clone a2.1,
       colors := t.mColorArray.clone a3.1, colorNormalize := t.mColorNormalize,
       vbo := a3.2.alloc.1 }, a3.2.alloc.2)

/-- The material of a chunk: its composite map (if any), whether the composite map renderer was
set on it, and its passes. -/
structure ChunkMaterial where
  compositeMap : Option CompositeMap
  compositeMapRenderer : Bool
  passes : List StateSet
deriving DecidableEq

/-- Second part of `ChunkManager::createChunk`: with a template, the composite map and the passes
are the template's; without one, either a new composite map is built, registered with the
renderer and used as the only layer, or the passes are those of `createPasses`. -/
def ChunkManager.createChunkMaterial (fuel : Nat) (m : ChunkManager) (chunkSize : ℚ)
    (chunkCenter : Vec2f) (lod : Nat) (useCompositeMap : Bool)
    (templateGeometry : Option TerrainDrawable) : Option (ChunkMaterial × ChunkManager) :=
  match templateGeometry with
  | some t =>
    some ({ compositeMap := t.mCompositeMap, compositeMapRenderer := t.mCompositeMap.isSome,
            passes := t.mPasses }, m)
  | none =>
    if useCompositeMap then
      let rtt := m.alloc.2.createCompositeMapRTT
      let compositeMap : CompositeMap :=
        { id := m.alloc.1, mTexture := some rtt.1, mDrawables := [] }
      (ChunkManager.createCompositeMapGeometry fuel rtt.2 lod chunkSize chunkCenter ⟨0, 0, 1, 1⟩
        compositeMap).map fun r =>
        let layer : TextureLayer :=
          { mDiffuseMap := rtt.1, mNormalMap := none, mParallax := false, mSpecular := false }
        ({ compositeMap := some r.1, compositeMapRenderer := true,
           passes := Terrain.createPasses
             (m.mSceneManager.getForceShaders || !m.mSceneManager.getClampLighting)
             [layer] [] 1 1 },
          r.2.log (Event.addCompositeMap r.1.id false))
    else
      let p := m.createPasses chunkSize chunkCenter false
      some ({ compositeMap := none, compositeMapRenderer := false, passes := p.1 }, p.2)

/-- The grid resolution `numVerts` computed in `ChunkManager::createChunk`:
`(mStorage->getCellVertices(mWorldspace) - 1) * chunkSize / (1 << lod) + 1`, evaluated in `float`
and converted to `unsigned int`. The `int` operands `getCellVertices - 1` and `1 << lod` are
converted to `float`, and the product, the quotient and the sum are each rounded to `float`. -/
def ChunkManager.createChunkNumVerts (m : ChunkManager) (chunkSize : ℚ) (lod : Nat) : Nat :=
  floatToUInt
    (roundFloat
      (roundFloat
          (roundFloat
              (roundFloat ((m.mStorage.getCellVertices m.mWorldspace - 1 : Int) : ℚ) * chunkSize)
            / roundFloat ((shiftLeftOne lod : Int) : ℚ))
        + 1))

/-- The member function `ChunkManager::createChunk`. -/
def ChunkManager.createChunk (fuel : Nat) (m : ChunkManager) (chunkSize : ℚ) (chunkCenter : Vec2f)
    (lod : Nat) (lodFlags : Nat) (compile : Bool) (templateGeometry : Option TerrainDrawable) :
    Option (TerrainDrawable × ChunkManager) :=
  let useCompositeMap : Bool := decide (chunkSize ≥ m.mCompositeMapLevel)
  let numUvSets : Nat := if useCompositeMap then 1 else 2
  let arrays := m.alloc.2.createChunkArrays chunkSize chunkCenter lod useCompositeMap templateGeometry
  let numVerts : Nat := m.createChunkNumVerts chunkSize lod
  let m1 := ((arrays.2.log Event.getCellVertices).log (Event.getIndexBuffer numVerts lodFlags)).log
    (Event.getUVBuffer numVerts)
  (m1.createChunkMaterial fuel chunkSize chunkCenter lod useCompositeMap templateGeometry).map
    fun material =>
      let m2 := material.2.log Event.getCellWorldSize
      let geometry : TerrainDrawable :=
        { id := m.alloc.1,
          mVertexArray := arrays.1.positions,
          mNormalArray := arrays.1.normals,
          mColorArray := arrays.1.colors,
          mColorNormalize := arrays.1.colorNormalize,
          mVertexBufferObject := arrays.1.vbo,
          mUseDisplayList := false,
          mUseVertexBufferObjects := true,
          mLightListCallback := decide (chunkSize ≤ 1),
          mPrimitiveSet := ⟨numVerts, lodFlags⟩,
          mTexCoordArrayList := List.replicate numUvSets ⟨numVerts⟩,
          mStateSet := StateSet.multiPassRoot,
          mCompositeMap := material.1.compositeMap,
          mCompositeMapRenderer := material.1.compositeMapRenderer,
          mPasses := material.1.passes,
          mWaterBoundingBox :=
            (-1, chunkSize * m.mStorage.getCellWorldSize m.mWorldspace / (numVerts : ℚ)),
          mNodeMask := m.mNodeMask }
      (geometry,
        if templateGeometry.isNone && compile && m.mSceneManager.hasIncrementalCompileOperation
        then m2.log (Event.incrementalCompileAdd geometry.id) else m2)

/-- The template lookup of `ChunkManager::getChunk`: the entry returned by `lowerBound` for the
`TemplateKey {center, lod}` is the template when the `(mCenter, mLod)` of its key equals the
template key, otherwise there is no template (`nullptr`). -/
def ChunkManager.getChunkTemplate (m : ChunkManager) (center : Vec2f) (lod : Nat) :
    Option TerrainDrawable :=
  let templateKey : TemplateKey := { mCenter := center, mLod := lod }
  match m.mCache.lowerBound templateKey with
  | some pair =>
    if templateKey = { mCenter := pair.1.mCenter, mLod := pair.1.mLod } then some pair.2 else none
  | none => none

/-- The member function `ChunkManager::getChunk`. The `lod` argument is overwritten with bits 16
and up of `lodFlags`, cast to `unsigned char`. -/
def ChunkManager.getChunk (fuel : Nat) (m : ChunkManager) (size : ℚ) (center : Vec2f) (_lod : Nat)
    (lodFlags : Nat) (_activeGrid : Bool) (_viewPoint : Vec3f) (compile : Bool) :
    Option (TerrainDrawable × ChunkManager) :=
  let lod : Nat := (lodFlags >>> (4 * 4)) % 256
  let key : ChunkKey := { mCenter := center, mLod := lod, mLodFlags := lodFlags }
  match m.mCache.getRefFromObjectCache key with
  | some obj => some (obj, m)
  | none =>
    let templateGeometry := m.getChunkTemplate center lod
    (m.createChunk fuel size center lod lodFlags compile templateGeometry).map fun r =>
      (r.1, { r.2 with mCache := r.2.mCache.addEntryToObjectCache key r.1 })

/-! ## Reading the trace -/

/-- Events the trace of `m'` holds beyond the trace of `m`: the collaborator calls made on the way
from state `m` to state `m'`. -/
def ChunkManager.since (m m' : ChunkManager) : List Event := m'.trace.drop m.trace.length

/-- Whether an event is one of the three data-source sampling calls. -/
def Event.isSampling : Event → Bool
  | Event.fillVertexBuffers _ _ _ _ => true
  | Event.fillVertexBuffersCompositeMap _ _ _ => true
  | Event.getBlendmaps _ _ => true
  | _ => false

/-- The leaf calls recorded in a list of events: chunk size and texCoords of each, in order. -/
def leafCalls : List Event → List (ℚ × Vec4f)
  | [] => []
  | Event.compositeLeaf chunkSize _ texCoords :: rest => (chunkSize, texCoords) :: leafCalls rest
  | _ :: rest => leafCalls rest

/-- State `m'` arises from `m` by collaborator calls that all satisfy `P`, by allocations and by
updates of the composite geometry cache; every other member is as in `m`. -/
def ChunkManager.Evolves (P : Event → Prop) (m m' : ChunkManager) : Prop :=
  ∃ evs n gc, m' = { m with trace := m.trace ++ evs, mNextId := m.mNextId + n,
                            mCompositeMapGeometryCache := gc } ∧ ∀ e ∈ evs, P e

/-- Events of `ChunkManager::createPasses`. -/
def Event.isPasses : Event → Bool
  | Event.getBlendmaps _ _ => true
  | Event.getBlendmapScale _ => true
  | Event.getTexture _ => true
  | _ => false

/-- Events of the body of a composite-map leaf. -/
def Event.isLeafBody : Event → Bool
  | Event.getCellVertices => true
  | Event.getUVBuffer _ => true
  | Event.getIndexBuffer _ _ => true
  | Event.fillVertexBuffersCompositeMap _ _ _ => true
  | e => e.isPasses

/-- Events of `createCompositeMapGeometry`. -/
def Event.isComposite : Event → Bool
  | Event.compositeLeaf _ _ _ => true
  | e => e.isLeafBody

/-- Events of the material part of `createChunk`. -/
def Event.isMaterial : Event → Bool
  | Event.addCompositeMap _ _ => true
  | e => e.isComposite

/-- Sum of the areas `z * w` of the texCoords rectangles of a list of leaf calls. -/
def leafArea (l : List (ℚ × Vec4f)) : ℚ := (l.map (fun p => p.2.z * p.2.w)).sum

/-- The state in which `createChunk` enters its material part. -/
def ChunkManager.createChunkMid (m : ChunkManager) (chunkSize : ℚ) (chunkCenter : Vec2f)
    (lod : Nat) (lodFlags : Nat) (templateGeometry : Option TerrainDrawable) : ChunkManager :=
  (((m.alloc.2.createChunkArrays chunkSize chunkCenter lod (decide (chunkSize ≥ m.mCompositeMapLevel))
    templateGeometry).2.log Event.getCellVertices).log
      (Event.getIndexBuffer (m.createChunkNumVerts chunkSize lod) lodFlags)).log
        (Event.getUVBuffer (m.createChunkNumVerts chunkSize lod))

/-- The events `createChunk` adds after its material part. -/
def ChunkManager.createChunkTail (m : ChunkManager) (compile : Bool)
    (templateGeometry : Option TerrainDrawable) : List Event :=
  Event.getCellWorldSize ::
    (if templateGeometry.isNone && compile && m.mSceneManager.hasIncrementalCompileOperation
     then [Event.incrementalCompileAdd m.alloc.1] else [])

/-- Whether an event is a `Storage::fillVertexBuffers` call. -/
def Event.isFillVertexBuffers : Event → Bool
  | Event.fillVertexBuffers _ _ _ _ => true
  | _ => false

/-- Whether an event is an `IncrementalCompileOperation::add` call. -/
def Event.isCompileAdd : Event → Bool
  | Event.incrementalCompileAdd _ => true
  | _ => false

/-- Whether an event is a `CompositeMapRenderer::addCompositeMap` call. -/
def Event.isAddCompositeMap : Event → Bool
  | Event.addCompositeMap _ _ => true
  | _ => false

/-- Every array of every cached chunk was allocated before the current allocation counter. -/
def ChunkManager.heapOk (m : ChunkManager) : Prop :=
  ∀ e ∈ m.mCache.mItems, e.2.mVertexArray.id < m.mNextId ∧ e.2.mNormalArray.id < m.mNextId
    ∧ e.2.mColorArray.id < m.mNextId

/-! ## Concrete instances -/

/-- A data source with three vertices per cell side, one blend-map image and two texture layers. -/
def flatStorage : Storage :=
  { getCellVertices := fun _ => 3,
    getCellWorldSize := fun _ => 8192,
    fillVertexBuffers := fun _ _ _ _ _ =>
      ([⟨0, 0, 0⟩, ⟨1, 0, 0⟩], [⟨0, 0, 1⟩, ⟨0, 0, 1⟩], [⟨255, 255, 255, 255⟩, ⟨0, 0, 0, 255⟩]),
    fillVertexBuffersCompositeMap := fun _ _ _ _ => [⟨255, 255, 255, 255⟩],
    getBlendmaps := fun _ _ _ => ([7], [⟨"sand", "", false, false⟩, ⟨"rock", "rock_n", false, true⟩]),
    getBlendmapScale := fun _ => 16 }

/-- A scene manager with clamped lighting, no forced shaders and an incremental compile
operation. -/
def plainSceneManager : SceneManager :=
  { getForceShaders := false, getClampLighting := true, hasIncrementalCompileOperation := true }

/-- A texture manager that serves a texture whose identity is derived from the name. -/
def plainTextureManager : TextureManager :=
  { getTexture := fun name => Texture2D.new (1000 + name.length) }

/-- A newly constructed chunk manager over `flatStorage`. -/
def freshManager : ChunkManager :=
  ChunkManager.new flatStorage plainSceneManager plainTextureManager 0

/-- Result of the first request on `freshManager`: the chunk of size `1 / 2` at the origin with
`lodFlags = 0`. -/
def firstRequest : Option (TerrainDrawable × ChunkManager) :=
  freshManager.getChunk 2 (1 / 2) ⟨0, 0⟩ 0 0 true ⟨0, 0, 0⟩ true

/-- The chunk returned by `firstRequest`. -/
def firstChunk : TerrainDrawable := (firstRequest.get (by decide!)).1

/-- The chunk manager after `firstRequest`. -/
def warmManager : ChunkManager := (firstRequest.get (by decide!)).2

/-- A newly constructed chunk manager over a data source with five vertices per cell side. -/
def fiveVertexManager : ChunkManager :=
  ChunkManager.new { flatStorage with getCellVertices := fun _ => 5 } plainSceneManager
    plainTextureManager 0

/-- A newly constructed chunk manager over a data source with 65 vertices per cell side. -/
def sixtyFiveVertexManager : ChunkManager :=
  ChunkManager.new { flatStorage with getCellVertices := fun _ => 65 } plainSceneManager
    plainTextureManager 0

/-- A newly constructed chunk manager over a data source with 65536 vertices per cell side. -/
def wideGridManager : ChunkManager :=
  ChunkManager.new { flatStorage with getCellVertices := fun _ => 65536 } plainSceneManager
    plainTextureManager 0

/-- A chunk manager whose max composite geometry size has been set to 4. -/
def coarseManager : ChunkManager := { freshManager with mMaxCompGeometrySize := 4 }

/-! ## Rectangles of texture coordinates -/

/-- The texCoords rectangles `(x, y, z, w)` handed to the four recursive calls of a subdividing
step of `createCompositeMapGeometry`, in call order. -/
def Vec4f.quadrants (t : Vec4f) : List Vec4f :=
  [⟨t.x + t.z / 2, t.y, t.z / 2, t.w / 2⟩,
   ⟨t.x, t.y, t.z / 2, t.w / 2⟩,
   ⟨t.x + t.z / 2, t.y + t.w / 2, t.z / 2, t.w / 2⟩,
   ⟨t.x, t.y + t.w / 2, t.z / 2, t.w / 2⟩]

/-- The point `(px, py)` lies in the closed rectangle with corner `(x, y)` and extent `(z, w)`. -/
def Vec4f.covers (r : Vec4f) (px py : ℚ) : Prop :=
  r.x ≤ px ∧ px ≤ r.x + r.z ∧ r.y ≤ py ∧ py ≤ r.y + r.w

/-- The point `(px, py)` lies in the interior of the rectangle with corner `(x, y)` and extent
`(z, w)`. -/
def Vec4f.interior (r : Vec4f) (px py : ℚ) : Prop :=
  r.x < px ∧ px < r.x + r.z ∧ r.y < py ∧ py < r.y + r.w

/-- Two rectangles overlap when their interiors share a point. -/
def Vec4f.overlaps (a b : Vec4f) : Prop := ∃ px py, a.interior px py ∧ b.interior px py

/-- Rectangle `a` has positive extent and lies inside rectangle `b`, coordinate by coordinate. -/
def Vec4f.inside (a b : Vec4f) : Prop :=
  b.x ≤ a.x ∧ a.x + a.z ≤ b.x + b.z ∧ b.y ≤ a.y ∧ a.y + a.w ≤ b.y + b.w ∧ 0 < a.z ∧ 0 < a.w

/-- The texCoords rectangles of the leaf calls recorded in a list of events, in order. -/
def leafRects (evs : List Event) : List Vec4f := (leafCalls evs).map fun l => l.2

/-! ## The parts of a leaf call -/

/-- The memoization key `geomKey` of a leaf call: `(chunkSize, posX, posY, width)`. -/
def ChunkManager.leafGeomKey (chunkSize : ℚ) (texCoords : Vec4f) : Vec4f :=
  ⟨chunkSize, texCoords.x * 2 - 1 + texCoords.z, texCoords.y * 2 - 1 + texCoords.w,
    texCoords.z * 2⟩

/-- The template geometry `templateGeom` that a leaf call of `createCompositeMapGeometry` works
with, and the state after its lookup or creation. -/
def ChunkManager.leafTemplate (m : ChunkManager) (chunkSize : ℚ) (chunkCenter : Vec2f)
    (texCoords : Vec4f) : TemplateGeom × ChunkManager :=
  (m.log (Event.compositeLeaf chunkSize chunkCenter texCoords)).leafTemplateGeom chunkSize
    (texCoords.x * 2 - 1 + texCoords.z) (texCoords.y * 2 - 1 + texCoords.w) (texCoords.z * 2)
    (texCoords.w * (-2)) 0

/-- The vector `passes` of a leaf call of `createCompositeMapGeometry`, the result of
`createPasses(chunkSize, chunkCenter, true)`, and the state after that call. -/
def ChunkManager.leafPasses (m : ChunkManager) (chunkSize : ℚ) (chunkCenter : Vec2f)
    (texCoords : Vec4f) : List StateSet × ChunkManager :=
  ((m.leafTemplate chunkSize chunkCenter texCoords).2.alloc.2.log
    (Event.fillVertexBuffersCompositeMap ((0 : Nat) : Int) chunkSize chunkCenter)).createPasses
      chunkSize chunkCenter true

/-- Whether an event is one of the calls made when a leaf builds a new template geometry. -/
def Event.isTemplateBuild : Event → Bool
  | Event.getCellVertices => true
  | Event.getUVBuffer _ => true
  | Event.getIndexBuffer _ _ => true
  | _ => false

/-! ## The arguments `createPasses` passes on -/

/-- The vector `layers` that `ChunkManager::createPasses` has built when it calls
`::Terrain::createPasses`. -/
def ChunkManager.createPassesTextureLayers (m : ChunkManager) (chunkSize : ℚ) (chunkCenter : Vec2f)
    (forCompositeMap : Bool) : List TextureLayer :=
  (ChunkManager.createPassesLayers forCompositeMap
    (m.mStorage.getBlendmaps chunkSize chunkCenter m.mWorldspace).2 []
    (if !m.mSceneManager.getClampLighting then true else m.mSceneManager.getForceShaders)
    (m.log (Event.getBlendmaps chunkSize chunkCenter))).1

/-- The value of `useShaders` that `ChunkManager::createPasses` passes on to
`::Terrain::createPasses`. -/
def ChunkManager.createPassesUseShaders (m : ChunkManager) (chunkSize : ℚ) (chunkCenter : Vec2f)
    (forCompositeMap : Bool) : Bool :=
  if forCompositeMap then false
  else (ChunkManager.createPassesLayers forCompositeMap
    (m.mStorage.getBlendmaps chunkSize chunkCenter m.mWorldspace).2 []
    (if !m.mSceneManager.getClampLighting then true else m.mSceneManager.getForceShaders)
    (m.log (Event.getBlendmaps chunkSize chunkCenter))).2.1

/-- The vector `blendmapTextures` that `ChunkManager::createPasses` has built when it calls
`::Terrain::createPasses`. -/
def ChunkManager.createPassesBlendmapTextures (m : ChunkManager) (chunkSize : ℚ)
    (chunkCenter : Vec2f) (forCompositeMap : Bool) : List Texture2D :=
  (ChunkManager.createPassesBlendmaps
    (m.mStorage.getBlendmaps chunkSize chunkCenter m.mWorldspace).1 []
    (ChunkManager.createPassesLayers forCompositeMap
      (m.mStorage.getBlendmaps chunkSize chunkCenter m.mWorldspace).2 []
      (if !m.mSceneManager.getClampLighting then true else m.mSceneManager.getForceShaders)
      (m.log (Event.getBlendmaps chunkSize chunkCenter))).2.2).1

/-- A data source with one blend-map image and a single layer without normal map, parallax or
specular. -/
def plainStorage : Storage :=
  { flatStorage with getBlendmaps := fun _ _ _ => ([7], [⟨"sand", "", false, false⟩]) }

/-- A newly constructed chunk manager over `plainStorage` whose scene manager forces shaders and
has clamped lighting. -/
def forcedShaderManager : ChunkManager :=
  ChunkManager.new plainStorage
    { getForceShaders := true, getClampLighting := true, hasIncrementalCompileOperation := true }
    plainTextureManager 0

/-- Whether a pass made by `::Terrain::createPasses` was made with `useShaders` set. -/
def StateSet.usesShaders : StateSet → Bool
  | StateSet.layerPass useShaders _ _ _ _ _ => useShaders
  | _ => false

/-- The grid resolution `numVerts` that the leaf branch of `createCompositeMapGeometry` computes
for a new template geometry (`compositeMapLod` is 0):
`((mStorage->getCellVertices(mWorldspace) - 1) >> compositeMapLod) * chunkSize + 1`, with the
`int` operand converted to `float` and the product and the sum each rounded to `float`. -/
def ChunkManager.leafNumVerts (m : ChunkManager) (chunkSize : ℚ) : Nat :=
  floatToUInt
    (roundFloat
      (roundFloat
          (roundFloat (((m.mStorage.getCellVertices m.mWorldspace - 1) >>> (0 : Nat) : Int) : ℚ)
            * chunkSize)
        + 1))

/-- The position array that a leaf call with the given chunk size and texCoords computes when
its key is not in the cache: `posX`, `posY`, `width`, `height` as in the source. -/
def ChunkManager.leafFreshPositions (m : ChunkManager) (chunkSize : ℚ) (texCoords : Vec4f) :
    List Vec3f :=
  templatePositions (m.leafNumVerts chunkSize) (texCoords.z * 2) (texCoords.w * (-2))
    (texCoords.x * 2 - 1 + texCoords.z) (texCoords.y * 2 - 1 + texCoords.w)

/-- Every geometry in `mCompositeMapGeometryCache` has the positions that a leaf call with
`z = w` whose key is the entry's key would compute afresh. -/
def ChunkManager.geomCacheSound (m : ChunkManager) : Prop :=
  ∀ e ∈ m.mCompositeMapGeometryCache, ∀ (chunkSize : ℚ) (texCoords : Vec4f),
    texCoords.z = texCoords.w → ChunkManager.leafGeomKey chunkSize texCoords = e.1 →
    e.2.mVertexArray.data = m.leafFreshPositions chunkSize texCoords

/-- Going from state `a` to state `b` keeps the data source and keeps the composite geometry
cache sound. -/
def ChunkManager.KeepsGeomCache (a b : ChunkManager) : Prop :=
  b.mStorage = a.mStorage ∧ b.mWorldspace = a.mWorldspace
    ∧ (a.geomCacheSound → b.geomCacheSound)

/-- The request for a chunk of size 1 on a newly constructed manager: the chunk gets a composite
map with a single leaf. -/
def compositeRequest : Option (TerrainDrawable × ChunkManager) :=
  freshManager.getChunk 2 1 ⟨0, 0⟩ 0 0 true ⟨0, 0, 0⟩ true

/-- The chunk manager after `compositeRequest`. -/
def compositeManager : ChunkManager := (compositeRequest.get (by decide!)).2

end Terrain

/-! # Records of the ESM3 format (`components/esm3`) -/

namespace ESM

/-! ## Reference numbers (`components/esm3/cellref.hpp`) -/

/-- The struct `ESM::RefNum`: `unsigned int mIndex`, `int mContentFile`. -/
structure RefNum where
  mIndex : Nat
  mContentFile : Int
deriving DecidableEq

/-- The function `operator==(const RefNum&, const RefNum&)`. -/
def RefNum.eq (left right : RefNum) : Bool :=
  left.mIndex == right.mIndex && left.mContentFile == right.mContentFile

/-- The function `operator<(const RefNum&, const RefNum&)`. -/
def RefNum.lt (left right : RefNum) : Bool :=
  if left.mIndex < right.mIndex then true
  else if left.mIndex > right.mIndex then false
  else decide (left.mContentFile < right.mContentFile)

/-! ## Records, readers and writers (`components/esm3/esmreader.hpp`, `esmwriter.hpp`) -/

/-- Modelled from the spec: `ESM::RefId` of refid.hpp, known here through `stringRefId` and
`getRefIdString` only: an id that holds a string. -/
abbrev RefId := String

/-- Modelled from the spec: a subrecord of the stream that `ESMReader` reads and `ESMWriter`
writes, with its four-character name and its payload bytes. -/
structure SubRecord where
  name : String
  data : List Nat
deriving DecidableEq

/-- Modelled from the spec: `ESMReader` positioned inside a record: the flags of the record and
the subrecords not yet read. -/
structure ESMReader where
  mRecordFlags : Nat
  subs : List SubRecord
deriving DecidableEq

/-- Modelled from the spec: the payload bytes of a string, as `ESMWriter::writeHNString` writes
them. -/
def stringBytes (s : String) : List Nat := s.toList.map Char.toNat

/-- Modelled from the spec: the string that `ESMReader::getHString` makes of payload bytes. -/
def bytesString (b : List Nat) : String := String.mk (b.map Char.ofNat)

/-- Modelled from the spec: the payload that `ESMWriter::writeHNT` writes for an `int`: four
bytes, two's complement, least significant first. -/
def intBytes (v : Int) : List Nat :=
  let u := (v % 2 ^ 32).toNat
  [u % 256, u / 256 % 256, u / 65536 % 256, u / 16777216 % 256]

/-- Modelled from the spec: the `int` that `ESMReader::getHT` reads from a payload, which must
have four bytes. -/
def bytesInt : List Nat → Option Int
  | [b0, b1, b2, b3] =>
    some (Int.bmod ((b0 + 256 * b1 + 65536 * b2 + 16777216 * b3 : Nat) : Int) (2 ^ 32))
  | _ => none

/-- Modelled from the spec: `ESMReader::getRefId` on the subrecord just entered:
`RefId::stringRefId(getHString())`. -/
def SubRecord.getRefId (sub : SubRecord) : RefId := bytesString sub.data

/-- Modelled from the spec: `ESMReader::getHNOString(name)`: the string of the next subrecord,
which is then consumed, if it has the given name, and the empty string otherwise. -/
def getHNOString (name : String) : List SubRecord → String × List SubRecord
  | [] => ("", [])
  | sub :: rest => if sub.name = name then (bytesString sub.data, rest) else ("", sub :: rest)

/-- Modelled from the spec: `ESMWriter::writeHNString(name, data)`. -/
def writeHNString (name : String) (data : String) : SubRecord := ⟨name, stringBytes data⟩

/-- Modelled from the spec: `ESMWriter::writeHNT(name, data)` for an `int`. -/
def writeHNT (name : String) (data : Int) : SubRecord := ⟨name, intBytes data⟩

/-- Modelled from the spec: the constant `SREC_NAME` of defs.hpp. -/
def SREC_NAME : String := "NAME"

/-- Modelled from the spec: the constant `SREC_DELE` of defs.hpp. -/
def SREC_DELE : String := "DELE"

/-! ## Armor records (`components/esm3/loadarmo.cpp`) -/

/-- The struct `PartReference` (loadarmo.hpp): the body part index and the two part ids. -/
structure PartReference where
  mPart : Nat
  mMale : RefId
  mFemale : RefId
deriving DecidableEq

/-- The struct `PartReferenceList`. -/
structure PartReferenceList where
  mParts : List PartReference
deriving DecidableEq

/-- The function `PartReferenceList::add`, called when the reader has entered the INDX
subrecord `indx`: the INDX byte is read with `getHT`, which fails unless the payload has one
byte, then the optional BNAM and CNAM strings. -/
def PartReferenceList.add (l : PartReferenceList) (indx : SubRecord) (rest : List SubRecord) :
    Except String (PartReferenceList × List SubRecord) :=
  match indx.data with
  | [mPart] =>
    let male := getHNOString "BNAM" rest
    let female := getHNOString "CNAM" male.2
    Except.ok (⟨l.mParts ++ [⟨mPart, male.1, female.1⟩]⟩, female.2)
  | _ => Except.error "record size mismatch"

/-- The members of `ESM::Armor` (loadarmo.hpp); `mData` holds the 24 bytes of the AODT
structure. -/
structure Armor where
  mRecordFlags : Nat
  mData : List Nat
  mParts : PartReferenceList
  mId : RefId
  mEnchant : RefId
  mScript : RefId
  mName : String
  mModel : String
  mIcon : String
deriving DecidableEq

/-- The local variables of `Armor::load` that live across the loop. -/
structure ArmorLoad where
  armor : Armor
  isDeleted : Bool
  hasName : Bool
  hasData : Bool
deriving DecidableEq

/-- The loop `while (esm.hasMoreSubs())` of `Armor::load`, on the subrecords not yet read.
Every iteration reads at least one subrecord; `fuel` bounds the number of iterations. -/
def Armor.loadSubs : Nat → List SubRecord → ArmorLoad → Except String ArmorLoad
  | _, [], st => Except.ok st
  | 0, _ :: _, _ => Except.error "out of fuel"
  | fuel + 1, sub :: rest, st =>
    if sub.name = SREC_NAME then
      Armor.loadSubs fuel rest
        { st with armor := { st.armor with mId := sub.getRefId }, hasName := true }
    else if sub.name = "MODL" then
      Armor.loadSubs fuel rest { st with armor := { st.armor with mModel := bytesString sub.data } }
    else if sub.name = "FNAM" then
      Armor.loadSubs fuel rest { st with armor := { st.armor with mName := bytesString sub.data } }
    else if sub.name = "AODT" then
      if sub.data.length = 24 then
        Armor.loadSubs fuel rest { st with armor := { st.armor with mData := sub.data },
                                           hasData := true }
      else Except.error "record size mismatch"
    else if sub.name = "SCRI" then
      Armor.loadSubs fuel rest { st with armor := { st.armor with mScript := sub.getRefId } }
    else if sub.name = "ITEX" then
      Armor.loadSubs fuel rest { st with armor := { st.armor with mIcon := bytesString sub.data } }
    else if sub.name = "ENAM" then
      Armor.loadSubs fuel rest { st with armor := { st.armor with mEnchant := sub.getRefId } }
    else if sub.name = "INDX" then
      match st.armor.mParts.add sub rest with
      | Except.ok added =>
        Armor.loadSubs fuel added.2 { st with armor := { st.armor with mParts := added.1 } }
      | Except.error e => Except.error e
    else if sub.name = SREC_DELE then
      Armor.loadSubs fuel rest { st with isDeleted := true }
    else Except.error "Unknown subrecord"

/-- The function `Armor::load`: the armor after loading and the output argument `isDeleted`, or
the message of the failure raised by `esm.fail`. -/
def Armor.load (a : Armor) (esm : ESMReader) : Except String (Armor × Bool) :=
  let a0 : Armor := { a with mRecordFlags := esm.mRecordFlags, mParts := ⟨[]⟩ }
  match Armor.loadSubs esm.subs.length esm.subs ⟨a0, false, false, false⟩ with
  | Except.error e => Except.error e
  | Except.ok st =>
    if !st.hasName then Except.error "Missing NAME subrecord"
    else if !st.hasData && !st.isDeleted then Except.error "Missing AODT subrecord"
    else Except.ok (st.armor, st.isDeleted)

/-- The subrecord names that have a case in the switch of `Armor::load`. -/
def Armor.switchNames : List String :=
  [SREC_NAME, "MODL", "FNAM", "AODT", "SCRI", "ITEX", "ENAM", "INDX", SREC_DELE]

/-- The subrecords of a stream that reach the switch of `Armor::load`: all of them but a BNAM
directly after an INDX and a CNAM directly after an INDX or after such a BNAM, which
`PartReferenceList::add` reads. `pending` lists the names `add` may still read. -/
def Armor.switchSubsFrom : List String → List SubRecord → List SubRecord
  | _, [] => []
  | pending, sub :: rest =>
    if sub.name ∈ pending then
      Armor.switchSubsFrom ((pending.dropWhile fun n => n ≠ sub.name).tail) rest
    else sub :: Armor.switchSubsFrom (if sub.name = "INDX" then ["BNAM", "CNAM"] else []) rest

/-- The subrecords of a record that reach the switch of `Armor::load`. -/
def Armor.switchSubs (subs : List SubRecord) : List SubRecord := Armor.switchSubsFrom [] subs

/-- Whether the switch of `Armor::load` fails on a subrecord: its name has no case, or it is an
AODT whose size is not 24, or an INDX whose size is not 1. -/
def Armor.rejects (sub : SubRecord) : Bool :=
  !(Armor.switchNames.contains sub.name) || (sub.name == "AODT" && sub.data.length != 24)
    || (sub.name == "INDX" && sub.data.length != 1)

/-- One part per INDX subrecord of a stream, in stream order: the INDX byte, the string of a
BNAM that directly follows, and the string of a CNAM that follows next. -/
def Armor.partReferences : List SubRecord → List PartReference
  | [] => []
  | sub :: rest =>
    if sub.name = "INDX" then
      ⟨sub.data.headD 0, (getHNOString "BNAM" rest).1,
        (getHNOString "CNAM" (getHNOString "BNAM" rest).2).1⟩ :: Armor.partReferences rest
    else Armor.partReferences rest

/-- What the loop of `Armor::load` makes of the subrecords `subs` when entered with the local
variables `st`: it fails exactly when the switch rejects a subrecord that reaches it, and
otherwise it raises the three flags for the DELE, NAME and AODT subrecords met and appends one
part per INDX subrecord. -/
def Armor.LoadsTo (subs : List SubRecord) (st : ArmorLoad) : Except String ArmorLoad → Prop
  | Except.error _ => ∃ s ∈ Armor.switchSubs subs, Armor.rejects s = true
  | Except.ok st1 =>
    (∀ s ∈ Armor.switchSubs subs, Armor.rejects s = false)
    ∧ st1.isDeleted = (st.isDeleted || subs.any fun s => s.name == SREC_DELE)
    ∧ st1.hasName = (st.hasName || subs.any fun s => s.name == SREC_NAME)
    ∧ st1.hasData = (st.hasData || subs.any fun s => s.name == "AODT")
    ∧ st1.armor.mParts.mParts = st.armor.mParts.mParts ++ Armor.partReferences subs

/-- An armor with no data. -/
def Armor.blankArmor : Armor :=
  { mRecordFlags := 0, mData := [], mParts := ⟨[]⟩, mId := "", mEnchant := "", mScript := "",
    mName := "", mModel := "", mIcon := "" }

/-- A record as `Armor::save` writes it for an armor with one part: NAME, AODT (24 bytes), INDX
and the BNAM of the part. -/
def armorRecord : ESMReader :=
  ⟨0, [⟨"NAME", stringBytes "helm"⟩, ⟨"AODT", List.replicate 24 0⟩, ⟨"INDX", [1]⟩,
    ⟨"BNAM", stringBytes "a_helm"⟩]⟩

/-- A record whose AODT subrecord has three bytes. -/
def shortDataRecord : ESMReader := ⟨0, [⟨"NAME", stringBytes "helm"⟩, ⟨"AODT", [0, 0, 0]⟩]⟩

/-! ## Dialogue state (`components/esm3/dialoguestate.cpp`) -/

/-- The struct `DialogueState` (dialoguestate.hpp). The `std::map` members are the lists of
their entries in increasing key order. -/
structure DialogueState where
  mKnownTopics : List RefId
  mChangedFactionReaction : List (RefId × List (RefId × Int))
deriving DecidableEq

/-- The assignment `map[key] = value` on a `std::map` given by its entries in increasing key
order. -/
def mapAssign {V : Type} (key : RefId) (value : V) : List (RefId × V) → List (RefId × V)
  | [] => [(key, value)]
  | e :: rest =>
    if key < e.1 then (key, value) :: e :: rest
    else if e.1 < key then e :: mapAssign key value rest
    else (key, value) :: rest

/-- The value stored under a key of a `std::map`, if any. -/
def mapFind {V : Type} (key : RefId) : List (RefId × V) → Option V
  | [] => none
  | e :: rest => if e.1 = key then some e.2 else mapFind key rest

/-- The statement `mChangedFactionReaction[faction][faction2] = reaction`: the first subscript
inserts an empty map when the faction has no entry. -/
def DialogueState.setReaction (faction faction2 : RefId) (reaction : Int)
    (m : List (RefId × List (RefId × Int))) : List (RefId × List (RefId × Int)) :=
  mapAssign faction (mapAssign faction2 reaction ((mapFind faction m).getD [])) m

/-- The loop `while (esm.isNextSub("TOPI")) mKnownTopics.push_back(esm.getRefId());`. -/
def DialogueState.loadTopics : List SubRecord → List RefId → List RefId × List SubRecord
  | [], topics => (topics, [])
  | sub :: rest, topics =>
    if sub.name = "TOPI" then DialogueState.loadTopics rest (topics ++ [sub.getRefId])
    else (topics, sub :: rest)

/-- The loop `while (esm.isNextSub("REA2"))`: `getHNT(reaction, "INTV")` fails unless the next
subrecord is an INTV of four bytes. -/
def DialogueState.loadReactions (faction : RefId) :
    List SubRecord → List (RefId × List (RefId × Int)) →
      Except String (List (RefId × List (RefId × Int)) × List SubRecord)
  | [], m => Except.ok (m, [])
  | [sub], m =>
    if sub.name = "REA2" then Except.error "Expected subrecord INTV" else Except.ok (m, [sub])
  | sub :: intv :: rest, m =>
    if sub.name = "REA2" then
      if intv.name = "INTV" then
        match bytesInt intv.data with
        | some reaction =>
          DialogueState.loadReactions faction rest
            (DialogueState.setReaction faction sub.getRefId reaction m)
        | none => Except.error "record size mismatch"
      else Except.error "Expected subrecord INTV"
    else Except.ok (m, sub :: intv :: rest)

/-- The loop `while (esm.isNextSub("REAC"))`, which skips the REAC subrecord and the subrecord
after it; a REAC that ends the record leaves nothing for `getSubName` to read. -/
def DialogueState.loadObsolete : List SubRecord → Except String (List SubRecord)
  | [] => Except.ok []
  | [sub] => if sub.name = "REAC" then Except.error "unexpected end of record" else Except.ok [sub]
  | sub :: next :: rest =>
    if sub.name = "REAC" then DialogueState.loadObsolete rest
    else Except.ok (sub :: next :: rest)

/-- The loop `while (esm.isNextSub("FACT"))`. Every iteration reads at least one subrecord;
`fuel` bounds the number of iterations. -/
def DialogueState.loadFactions : Nat → List SubRecord → List (RefId × List (RefId × Int)) →
    Except String (List (RefId × List (RefId × Int)) × List SubRecord)
  | _, [], m => Except.ok (m, [])
  | 0, _ :: _, _ => Except.error "out of fuel"
  | fuel + 1, sub :: rest, m =>
    if sub.name = "FACT" then
      let faction := sub.getRefId
      match DialogueState.loadReactions faction rest m with
      | Except.error e => Except.error e
      | Except.ok r =>
        match DialogueState.loadObsolete r.2 with
        | Except.error e => Except.error e
        | Except.ok rest2 => DialogueState.loadFactions fuel rest2 r.1
    else Except.ok (m, sub :: rest)

/-- The function `DialogueState::load`: the state after loading and the reader after it, or the
message of the failure. -/
def DialogueState.load (s : DialogueState) (esm : ESMReader) :
    Except String (DialogueState × ESMReader) :=
  let t := DialogueState.loadTopics esm.subs s.mKnownTopics
  match DialogueState.loadFactions t.2.length t.2 s.mChangedFactionReaction with
  | Except.error e => Except.error e
  | Except.ok r => Except.ok (⟨t.1, r.1⟩, { esm with subs := r.2 })

/-- The function `DialogueState::save`: the subrecords written, in order. -/
def DialogueState.save (s : DialogueState) : List SubRecord :=
  s.mKnownTopics.map (fun topic => writeHNString "TOPI" topic)
    ++ s.mChangedFactionReaction.flatMap fun faction =>
        writeHNString "FACT" faction.1
          :: faction.2.flatMap fun reaction =>
              [writeHNString "REA2" reaction.1, writeHNT "INTV" reaction.2]

/-- The maps of a state are `std::map`s (keys strictly increasing) and every reaction is an
`int`. -/
def DialogueState.wellFormed (s : DialogueState) : Prop :=
  (s.mChangedFactionReaction.map fun f => f.1).Pairwise (fun a b => a < b)
  ∧ ∀ f ∈ s.mChangedFactionReaction,
      (f.2.map fun r => r.1).Pairwise (fun a b => a < b)
      ∧ ∀ r ∈ f.2, -2 ^ 31 ≤ r.2 ∧ r.2 < 2 ^ 31

/-- A dialogue state in which a faction has an entry with no reaction. -/
def emptyReactionState : DialogueState := ⟨["greeting"], [("hlaalu", [])]⟩

/-- A dialogue state with two known topics and reactions of one faction towards two others. -/
def sampleState : DialogueState :=
  ⟨["greeting", "background"], [("hlaalu", [("redoran", -2), ("telvanni", 3)])]⟩

end ESM

/-! # The editor (`apps/opencs`) -/

namespace CSMWorld

/-! ## Column lookup (`apps/opencs/model/world/collectionbase.cpp`) -/

/-- The member of `ColumnBase` (columnbase.hpp) that the lookup reads: `int mColumnId`. -/
structure ColumnBase where
  mColumnId : Int

/-- The abstract class `CollectionBase`: its pure virtual functions `getColumns` and `getColumn`
are parameters. -/
structure CollectionBase where
  getColumns : Int
  getColumn : Int → ColumnBase

/-- The loop `for (int i = 0; i < columns; ++i)` of `searchColumnIndex`, entered at `i` with
`columns - i` iterations left; `-1` is the value returned after the loop. -/
def CollectionBase.searchColumnIndexLoop (c : CollectionBase) (id : Int) : Nat → Int → Int
  | 0, _ => -1
  | left + 1, i =>
    if (c.getColumn i).mColumnId = id then i else c.searchColumnIndexLoop id left (i + 1)

/-- The member function `CollectionBase::searchColumnIndex`. -/
def CollectionBase.searchColumnIndex (c : CollectionBase) (id : Int) : Int :=
  let columns := c.getColumns
  c.searchColumnIndexLoop id columns.toNat 0

/-- The member function `CollectionBase::findColumnIndex`; the exception `std::logic_error` is
the error result, with its message. -/
def CollectionBase.findColumnIndex (c : CollectionBase) (id : Int) : Except String Int :=
  let index := c.searchColumnIndex id
  if index = -1 then Except.error "invalid column index" else Except.ok index

/-- A collection with the three columns 7, 4, 7. -/
def threeColumns : CollectionBase :=
  { getColumns := 3, getColumn := fun i => if i = 1 then ⟨4⟩ else ⟨7⟩ }

end CSMWorld

namespace CSVWidget

/-! ## Texture brush history (`apps/opencs/view/widget/scenetooltexturebrush.cpp`) -/

/-- The members of `SceneToolTextureBrush` that its history functions read and write:
the history vector, the brush texture of its `TextureBrushWindow`, the row count of `mTable`,
whether `mPanel` is shown, and the texture ids passed by the signal `passTextureId`. -/
structure SceneToolTextureBrush where
  mBrushHistory : List String
  mBrushTexture : String
  mTableRows : Nat
  mPanelVisible : Bool
  passedTextureIds : List String
deriving DecidableEq

/-- The constructor: the history is resized to one entry, `"L0#0"`; the brush window starts with
brush texture `"L0#0"`; the table is created with no rows. -/
def SceneToolTextureBrush.new : SceneToolTextureBrush :=
  { mBrushHistory := ["L0#0"], mBrushTexture := "L0#0", mTableRows := 0, mPanelVisible := false,
    passedTextureIds := [] }

/-- The member function `updatePanel`: the table gets one row per history entry. -/
def SceneToolTextureBrush.updatePanel (s : SceneToolTextureBrush) : SceneToolTextureBrush :=
  { s with mTableRows := s.mBrushHistory.length }

/-- The member function `showPanel`. -/
def SceneToolTextureBrush.showPanel (s : SceneToolTextureBrush) : SceneToolTextureBrush :=
  { s.updatePanel with mPanelVisible := true }

/-- The member function `updateBrushHistory`: `insert` at `begin()`, then `pop_back` when the
size exceeds 5. -/
def SceneToolTextureBrush.updateBrushHistory (s : SceneToolTextureBrush) (brushTexture : String) :
    SceneToolTextureBrush :=
  let inserted := brushTexture :: s.mBrushHistory
  { s with mBrushHistory := if inserted.length > 5 then inserted.dropLast else inserted }

/-- The member function `clicked` for a model index with the given row and column. Indexing the
history vector outside its bounds is undefined in C++: the result is `none`. -/
def SceneToolTextureBrush.clicked (s : SceneToolTextureBrush) (row column : Int) :
    Option SceneToolTextureBrush :=
  if column = 0 then
    if 0 ≤ row then
      match s.mBrushHistory[row.toNat]?, s.mBrushHistory[0]? with
      | some brushTexture, some first =>
        let swapped := (s.mBrushHistory.set row.toNat first).set 0 brushTexture
        let s1 := { s with mBrushHistory := swapped, mBrushTexture := brushTexture,
                           passedTextureIds := s.passedTextureIds ++ [brushTexture] }
        some { s1.updatePanel with mPanelVisible := false }
      | _, _ => none
    else none
  else if column = 1 then some { s with mPanelVisible := false }
  else some s

/-- A call of one of the functions that touch the history. -/
inductive Call
  | updateBrushHistory (brushTexture : String)
  | clicked (row column : Int)
  | showPanel
deriving DecidableEq

/-- The state after one call. -/
def SceneToolTextureBrush.call (s : SceneToolTextureBrush) : Call → Option SceneToolTextureBrush
  | Call.updateBrushHistory brushTexture => some (s.updateBrushHistory brushTexture)
  | Call.clicked row column => s.clicked row column
  | Call.showPanel => some s.showPanel

/-- The state after a sequence of calls. -/
def SceneToolTextureBrush.run (s : SceneToolTextureBrush) : List Call → Option SceneToolTextureBrush
  | [] => some s
  | c :: rest => (s.call c).bind fun s1 => s1.run rest

/-- Whether a call can be made in a state: a click names a row of the table as `updatePanel`
last filled it, or has no valid index (row and column -1, or another column). -/
def SceneToolTextureBrush.accepts (s : SceneToolTextureBrush) : Call → Prop
  | Call.clicked row column => column = 0 → 0 ≤ row ∧ row < s.mTableRows
  | _ => True

/-- The history holds between 1 and 5 entries and the table has no more rows than the history
has entries. -/
def SceneToolTextureBrush.historyOk (s : SceneToolTextureBrush) : Prop :=
  1 ≤ s.mBrushHistory.length ∧ s.mBrushHistory.length ≤ 5 ∧ s.mTableRows ≤ s.mBrushHistory.length

end CSVWidget

namespace Terrain

/-! # Lemmas -/

/-! ## How calls change the state -/

theorem ChunkManager.Evolves.refl (P : Event → Prop) (m : ChunkManager) : m.Evolves P m :=
  ⟨[], 0, m.mCompositeMapGeometryCache, by simp, by simp⟩

theorem ChunkManager.Evolves.trans {P : Event → Prop} {a b c : ChunkManager}
    (h1 : a.Evolves P b) (h2 : b.Evolves P c) : a.Evolves P c := by
  obtain ⟨e1, n1, g1, rfl, p1⟩ := h1
  obtain ⟨e2, n2, g2, rfl, p2⟩ := h2
  refine ⟨e1 ++ e2, n1 + n2, g2, by simp [Nat.add_assoc], ?_⟩
  intro e he
  rcases List.mem_append.mp he with h | h
  · exact p1 e h
  · exact p2 e h

theorem ChunkManager.Evolves.mono {P Q : Event → Prop} {a b : ChunkManager}
    (h : a.Evolves P b) (hPQ : ∀ e, P e → Q e) : a.Evolves Q b := by
  obtain ⟨e1, n1, g1, rfl, p1⟩ := h
  exact ⟨e1, n1, g1, rfl, fun e he => hPQ e (p1 e he)⟩

theorem ChunkManager.Evolves.log {P : Event → Prop} (m : ChunkManager) {e : Event} (h : P e) :
    m.Evolves P (m.log e) :=
  ⟨[e], 0, m.mCompositeMapGeometryCache, by simp [ChunkManager.log], by simpa using h⟩

theorem ChunkManager.Evolves.alloc (P : Event → Prop) (m : ChunkManager) :
    m.Evolves P m.alloc.2 :=
  ⟨[], 1, m.mCompositeMapGeometryCache, by simp [ChunkManager.alloc], by simp⟩

theorem ChunkManager.Evolves.setGeomCache (P : Event → Prop) (m : ChunkManager)
    (gc : List (Vec4f × TemplateGeom)) :
    m.Evolves P { m with mCompositeMapGeometryCache := gc } :=
  ⟨[], 0, gc, by simp, by simp⟩

theorem ChunkManager.Evolves.trace_eq {P : Event → Prop} {a b : ChunkManager}
    (h : a.Evolves P b) : b.trace = a.trace ++ a.since b := by
  obtain ⟨e1, n1, g1, rfl, _⟩ := h
  simp [ChunkManager.since]

theorem ChunkManager.Evolves.since_all {P : Event → Prop} {a b : ChunkManager}
    (h : a.Evolves P b) : ∀ e ∈ a.since b, P e := by
  obtain ⟨e1, n1, g1, rfl, p1⟩ := h
  simpa [ChunkManager.since] using p1

theorem ChunkManager.Evolves.since_trans {P Q : Event → Prop} {a b c : ChunkManager}
    (h1 : a.Evolves P b) (h2 : b.Evolves Q c) : a.since c = a.since b ++ b.since c := by
  obtain ⟨e1, n1, g1, rfl, _⟩ := h1
  obtain ⟨e2, n2, g2, rfl, _⟩ := h2
  simp [ChunkManager.since]

theorem ChunkManager.Evolves.mCache_eq {P : Event → Prop} {a b : ChunkManager}
    (h : a.Evolves P b) : b.mCache = a.mCache := by
  obtain ⟨e1, n1, g1, rfl, _⟩ := h
  rfl

theorem ChunkManager.Evolves.mMaxCompGeometrySize_eq {P : Event → Prop} {a b : ChunkManager}
    (h : a.Evolves P b) : b.mMaxCompGeometrySize = a.mMaxCompGeometrySize := by
  obtain ⟨e1, n1, g1, rfl, _⟩ := h
  rfl

theorem ChunkManager.Evolves.mNextId_le {P : Event → Prop} {a b : ChunkManager}
    (h : a.Evolves P b) : a.mNextId ≤ b.mNextId := by
  obtain ⟨e1, n1, g1, rfl, _⟩ := h
  simp

theorem ChunkManager.since_self (m : ChunkManager) : m.since m = [] := by
  simp [ChunkManager.since]

theorem ChunkManager.since_log (m : ChunkManager) (e : Event) : m.since (m.log e) = [e] := by
  simp [ChunkManager.since, ChunkManager.log]

/-! ## createPasses -/

theorem ChunkManager.createPassesLayers_evolves (forCompositeMap : Bool) (layerList : List LayerInfo) :
    ∀ (layers : List TextureLayer) (useShaders : Bool) (m : ChunkManager),
      m.Evolves (fun e => e.isPasses = true)
        (ChunkManager.createPassesLayers forCompositeMap layerList layers useShaders m).2.2 := by
  induction layerList with
  | nil => intro layers useShaders m; exact ChunkManager.Evolves.refl _ m
  | cons it rest ih =>
    intro layers useShaders m
    simp only [ChunkManager.createPassesLayers]
    refine ChunkManager.Evolves.trans ?_ (ih _ _ _)
    refine ChunkManager.Evolves.trans (ChunkManager.Evolves.log m (e := Event.getTexture it.mDiffuseMap) rfl) ?_
    split
    · exact ChunkManager.Evolves.log _ rfl
    · exact ChunkManager.Evolves.refl _ _

theorem ChunkManager.createPassesBlendmaps_evolves (blendmaps : List Image) :
    ∀ (ts : List Texture2D) (m : ChunkManager),
      m.Evolves (fun e => e.isPasses = true)
        (ChunkManager.createPassesBlendmaps blendmaps ts m).2 := by
  induction blendmaps with
  | nil => intro ts m; exact ChunkManager.Evolves.refl _ m
  | cons it rest ih =>
    intro ts m
    simp only [ChunkManager.createPassesBlendmaps]
    exact ChunkManager.Evolves.trans (ChunkManager.Evolves.alloc _ m) (ih _ _)

theorem ChunkManager.createPasses_evolves (m : ChunkManager) (chunkSize : ℚ) (chunkCenter : Vec2f)
    (forCompositeMap : Bool) :
    m.Evolves (fun e => e.isPasses = true) (m.createPasses chunkSize chunkCenter forCompositeMap).2 := by
  simp only [ChunkManager.createPasses]
  have h1 : m.Evolves (fun e => e.isPasses = true) (m.log (Event.getBlendmaps chunkSize chunkCenter)) :=
    ChunkManager.Evolves.log m rfl
  have h2 := ChunkManager.createPassesLayers_evolves forCompositeMap
    (m.mStorage.getBlendmaps chunkSize chunkCenter m.mWorldspace).2 []
    (if (!m.mSceneManager.getClampLighting) = true then true else m.mSceneManager.getForceShaders)
    (m.log (Event.getBlendmaps chunkSize chunkCenter))
  refine ((h1.trans h2).trans (ChunkManager.createPassesBlendmaps_evolves
    (m.mStorage.getBlendmaps chunkSize chunkCenter m.mWorldspace).1 [] _)).trans
    (ChunkManager.Evolves.log _ rfl)

/-! ## Composite map geometry -/

theorem Event.isLeafBody_of_isPasses {e : Event} (h : e.isPasses = true) : e.isLeafBody = true := by
  cases e <;> first | rfl | exact absurd h Bool.false_ne_true

theorem Event.isComposite_of_isLeafBody {e : Event} (h : e.isLeafBody = true) :
    e.isComposite = true := by
  cases e <;> first | rfl | exact absurd h Bool.false_ne_true

theorem ChunkManager.leafQuads_evolves (left top width2 height2 : ℚ) (passes : List StateSet) :
    ∀ (compositeMap : CompositeMap) (m : ChunkManager),
      m.Evolves (fun e => e.isLeafBody = true)
        (ChunkManager.leafQuads left top width2 height2 passes compositeMap m).2 := by
  induction passes with
  | nil => intro cm m; exact ChunkManager.Evolves.refl _ m
  | cons it rest ih =>
    intro cm m
    simp only [ChunkManager.leafQuads]
    exact ChunkManager.Evolves.trans (ChunkManager.Evolves.alloc _ m) (ih _ _)

theorem ChunkManager.leafTemplateGeom_evolves (m : ChunkManager) (chunkSize posX posY width height : ℚ)
    (compositeMapLod : Nat) :
    m.Evolves (fun e => e.isLeafBody = true)
      (m.leafTemplateGeom chunkSize posX posY width height compositeMapLod).2 := by
  simp only [ChunkManager.leafTemplateGeom]
  split
  · exact ChunkManager.Evolves.refl _ m
  · refine ChunkManager.Evolves.trans ?_ (ChunkManager.Evolves.setGeomCache _ _ _)
    refine ChunkManager.Evolves.trans ?_ (ChunkManager.Evolves.alloc _ _)
    refine ChunkManager.Evolves.trans ?_ (ChunkManager.Evolves.log _ (e := Event.getIndexBuffer _ 0) rfl)
    refine ChunkManager.Evolves.trans ?_ (ChunkManager.Evolves.log _ (e := Event.getUVBuffer _) rfl)
    refine ChunkManager.Evolves.trans ?_ (ChunkManager.Evolves.alloc _ _)
    exact ChunkManager.Evolves.log m (e := Event.getCellVertices) rfl

theorem ChunkManager.createCompositeMapGeometryLeaf_evolves (m : ChunkManager) (chunkSize : ℚ)
    (chunkCenter : Vec2f) (texCoords : Vec4f) (compositeMap : CompositeMap) :
    (m.log (Event.compositeLeaf chunkSize chunkCenter texCoords)).Evolves
      (fun e => e.isLeafBody = true)
      (m.createCompositeMapGeometryLeaf chunkSize chunkCenter texCoords compositeMap).2 := by
  simp only [ChunkManager.createCompositeMapGeometryLeaf]
  refine ChunkManager.Evolves.trans ?_ (ChunkManager.Evolves.alloc _ _)
  refine ChunkManager.Evolves.trans ?_ (ChunkManager.leafQuads_evolves _ _ _ _ _ _ _)
  refine ChunkManager.Evolves.trans ?_
    ((ChunkManager.createPasses_evolves _ _ _ _).mono fun e => Event.isLeafBody_of_isPasses)
  refine ChunkManager.Evolves.trans ?_
    (ChunkManager.Evolves.log _ (e := Event.fillVertexBuffersCompositeMap _ _ _) rfl)
  refine ChunkManager.Evolves.trans ?_ (ChunkManager.Evolves.alloc _ _)
  exact ChunkManager.leafTemplateGeom_evolves _ _ _ _ _ _ _

theorem leafCalls_append (a b : List Event) : leafCalls (a ++ b) = leafCalls a ++ leafCalls b := by
  induction a with
  | nil => rfl
  | cons e rest ih => cases e <;> simp [leafCalls, ih]

theorem leafCalls_eq_nil {l : List Event} (h : ∀ e ∈ l, e.isLeafBody = true) : leafCalls l = [] := by
  induction l with
  | nil => rfl
  | cons e rest ih =>
    have he := h e (List.mem_cons_self _ _)
    have hr := ih fun x hx => h x (List.mem_cons_of_mem _ hx)
    cases e <;> first | exact hr | exact absurd he Bool.false_ne_true

/-- A leaf call records itself, and nothing else, as a leaf. -/
theorem ChunkManager.createCompositeMapGeometryLeaf_leafCalls (m : ChunkManager) (chunkSize : ℚ)
    (chunkCenter : Vec2f) (texCoords : Vec4f) (compositeMap : CompositeMap) :
    leafCalls (m.since (m.createCompositeMapGeometryLeaf chunkSize chunkCenter texCoords compositeMap).2)
      = [(chunkSize, texCoords)] := by
  have h0 : m.Evolves (fun _ => True) (m.log (Event.compositeLeaf chunkSize chunkCenter texCoords)) :=
    ChunkManager.Evolves.log m trivial
  have h1 := ChunkManager.createCompositeMapGeometryLeaf_evolves m chunkSize chunkCenter texCoords
    compositeMap
  rw [ChunkManager.Evolves.since_trans h0 h1, leafCalls_append, ChunkManager.since_log,
    leafCalls_eq_nil h1.since_all]
  rfl

theorem ChunkManager.createCompositeMapGeometryLeaf_evolves_composite (m : ChunkManager)
    (chunkSize : ℚ) (chunkCenter : Vec2f) (texCoords : Vec4f) (compositeMap : CompositeMap) :
    m.Evolves (fun e => e.isComposite = true)
      (m.createCompositeMapGeometryLeaf chunkSize chunkCenter texCoords compositeMap).2 :=
  ChunkManager.Evolves.trans (ChunkManager.Evolves.log m (e := Event.compositeLeaf _ _ _) rfl)
    ((ChunkManager.createCompositeMapGeometryLeaf_evolves m chunkSize chunkCenter texCoords
      compositeMap).mono fun _ => Event.isComposite_of_isLeafBody)

/-- Every returning call of `createCompositeMapGeometry` only adds composite-map events. -/
theorem ChunkManager.createCompositeMapGeometry_evolves (fuel : Nat) :
    ∀ (m : ChunkManager) (lod : Int) (chunkSize : ℚ) (chunkCenter : Vec2f) (texCoords : Vec4f)
      (compositeMap : CompositeMap) (r : CompositeMap × ChunkManager),
      ChunkManager.createCompositeMapGeometry fuel m lod chunkSize chunkCenter texCoords compositeMap
        = some r → m.Evolves (fun e => e.isComposite = true) r.2 := by
  induction fuel with
  | zero => intro m lod cs cc tc cm r h; simp [ChunkManager.createCompositeMapGeometry] at h
  | succ fuel ih =>
    intro m lod cs cc tc cm r h
    rw [ChunkManager.createCompositeMapGeometry] at h
    split at h
    · simp only [Option.bind_eq_some] at h
      obtain ⟨r1, h1, r2, h2, r3, h3, h4⟩ := h
      exact ((ih _ _ _ _ _ _ _ h1).trans (ih _ _ _ _ _ _ _ h2)).trans
        ((ih _ _ _ _ _ _ _ h3).trans (ih _ _ _ _ _ _ _ h4))
    · simp only [Option.some.injEq] at h
      subst h
      exact ChunkManager.createCompositeMapGeometryLeaf_evolves_composite _ _ _ _ _

/-- More fuel does not change the result of a returning call. -/
theorem ChunkManager.createCompositeMapGeometry_mono (fuel : Nat) :
    ∀ (fuel' : Nat) (m : ChunkManager) (lod : Int) (chunkSize : ℚ) (chunkCenter : Vec2f)
      (texCoords : Vec4f) (compositeMap : CompositeMap) (r : CompositeMap × ChunkManager),
      fuel ≤ fuel' →
      ChunkManager.createCompositeMapGeometry fuel m lod chunkSize chunkCenter texCoords compositeMap
        = some r →
      ChunkManager.createCompositeMapGeometry fuel' m lod chunkSize chunkCenter texCoords compositeMap
        = some r := by
  induction fuel with
  | zero => intro fuel' m lod cs cc tc cm r _ h; simp [ChunkManager.createCompositeMapGeometry] at h
  | succ fuel ih =>
    intro fuel' m lod cs cc tc cm r hle h
    obtain ⟨k, rfl⟩ : ∃ k, fuel' = k + 1 := ⟨fuel' - 1, by omega⟩
    have hk : fuel ≤ k := by omega
    rw [ChunkManager.createCompositeMapGeometry] at h ⊢
    split at h
    · rename_i hgt
      simp only [Option.bind_eq_some] at h
      obtain ⟨r1, h1, r2, h2, r3, h3, h4⟩ := h
      simp only [if_pos hgt, Option.bind_eq_some]
      exact ⟨r1, ih _ _ _ _ _ _ _ _ hk h1, r2, ih _ _ _ _ _ _ _ _ hk h2, r3,
        ih _ _ _ _ _ _ _ _ hk h3, ih _ _ _ _ _ _ _ _ hk h4⟩
    · rename_i hgt
      simpa only [if_neg hgt] using h

theorem leafArea_append (a b : List (ℚ × Vec4f)) : leafArea (a ++ b) = leafArea a + leafArea b := by
  simp [leafArea]

/-- The events of a subdividing call are those of its four recursive calls, in order. -/
theorem ChunkManager.createCompositeMapGeometry_since {fuel : Nat} {m : ChunkManager} {lod : Int}
    {r1 r2 r3 r4 : CompositeMap × ChunkManager}
    {s1 s2 s3 s4 : ℚ} {c1 c2 c3 c4 : Vec2f} {t1 t2 t3 t4 : Vec4f} {cm : CompositeMap}
    (h1 : ChunkManager.createCompositeMapGeometry fuel m lod s1 c1 t1 cm = some r1)
    (h2 : ChunkManager.createCompositeMapGeometry fuel r1.2 lod s2 c2 t2 r1.1 = some r2)
    (h3 : ChunkManager.createCompositeMapGeometry fuel r2.2 lod s3 c3 t3 r2.1 = some r3)
    (h4 : ChunkManager.createCompositeMapGeometry fuel r3.2 lod s4 c4 t4 r3.1 = some r4) :
    leafCalls (m.since r4.2) = leafCalls (m.since r1.2) ++ leafCalls (r1.2.since r2.2)
      ++ leafCalls (r2.2.since r3.2) ++ leafCalls (r3.2.since r4.2) := by
  have e1 := ChunkManager.createCompositeMapGeometry_evolves _ _ _ _ _ _ _ _ h1
  have e2 := ChunkManager.createCompositeMapGeometry_evolves _ _ _ _ _ _ _ _ h2
  have e3 := ChunkManager.createCompositeMapGeometry_evolves _ _ _ _ _ _ _ _ h3
  have e4 := ChunkManager.createCompositeMapGeometry_evolves _ _ _ _ _ _ _ _ h4
  rw [ChunkManager.Evolves.since_trans ((e1.trans e2).trans e3) e4,
    ChunkManager.Evolves.since_trans (e1.trans e2) e3, ChunkManager.Evolves.since_trans e1 e2]
  simp [leafCalls_append]

/-- The leaf areas of a returning call add up to the area of its texCoords rectangle. -/
theorem ChunkManager.createCompositeMapGeometry_area (fuel : Nat) :
    ∀ (m : ChunkManager) (lod : Int) (chunkSize : ℚ) (chunkCenter : Vec2f) (texCoords : Vec4f)
      (compositeMap : CompositeMap) (r : CompositeMap × ChunkManager),
      ChunkManager.createCompositeMapGeometry fuel m lod chunkSize chunkCenter texCoords compositeMap
        = some r → leafArea (leafCalls (m.since r.2)) = texCoords.z * texCoords.w := by
  induction fuel with
  | zero => intro m lod cs cc tc cm r h; simp [ChunkManager.createCompositeMapGeometry] at h
  | succ fuel ih =>
    intro m lod cs cc tc cm r h
    rw [ChunkManager.createCompositeMapGeometry] at h
    split at h
    · simp only [Option.bind_eq_some] at h
      obtain ⟨r1, h1, r2, h2, r3, h3, h4⟩ := h
      rw [ChunkManager.createCompositeMapGeometry_since h1 h2 h3 h4, leafArea_append,
        leafArea_append, leafArea_append, ih _ _ _ _ _ _ _ h1, ih _ _ _ _ _ _ _ h2,
        ih _ _ _ _ _ _ _ h3, ih _ _ _ _ _ _ _ h4]
      ring
    · simp only [Option.some.injEq] at h
      subst h
      rw [ChunkManager.createCompositeMapGeometryLeaf_leafCalls]
      simp [leafArea]

/-- A call whose chunk size is at most `2 ^ k` thresholds returns with fuel `k + 1`. -/
theorem ChunkManager.createCompositeMapGeometry_returns (k : Nat) :
    ∀ (m : ChunkManager) (lod : Int) (chunkSize : ℚ) (chunkCenter : Vec2f) (texCoords : Vec4f)
      (compositeMap : CompositeMap),
      0 < m.mMaxCompGeometrySize → chunkSize ≤ m.mMaxCompGeometrySize * 2 ^ k →
      ∃ r, ChunkManager.createCompositeMapGeometry (k + 1) m lod chunkSize chunkCenter texCoords
        compositeMap = some r := by
  induction k with
  | zero =>
    intro m lod cs cc tc cm _ hle
    rw [ChunkManager.createCompositeMapGeometry]
    simp only [pow_zero, mul_one] at hle
    rw [if_neg (not_lt.mpr hle)]
    exact ⟨_, rfl⟩
  | succ k ih =>
    intro m lod cs cc tc cm ht hle
    rw [ChunkManager.createCompositeMapGeometry]
    split
    · have hhalf : cs / 2 ≤ m.mMaxCompGeometrySize * 2 ^ k := by
        rw [pow_succ] at hle
        linarith
      obtain ⟨r1, h1⟩ := ih m lod (cs / 2) (cc.add ⟨cs / 4, cs / 4⟩)
        ⟨tc.x + tc.z / 2, tc.y, tc.z / 2, tc.w / 2⟩ cm ht hhalf
      have e1 := (ChunkManager.createCompositeMapGeometry_evolves _ _ _ _ _ _ _ _ h1).mMaxCompGeometrySize_eq
      obtain ⟨r2, h2⟩ := ih r1.2 lod (cs / 2) (cc.add ⟨-cs / 4, cs / 4⟩)
        ⟨tc.x, tc.y, tc.z / 2, tc.w / 2⟩ r1.1 (e1 ▸ ht) (e1 ▸ hhalf)
      have e2 := (ChunkManager.createCompositeMapGeometry_evolves _ _ _ _ _ _ _ _ h2).mMaxCompGeometrySize_eq
      obtain ⟨r3, h3⟩ := ih r2.2 lod (cs / 2) (cc.add ⟨cs / 4, -cs / 4⟩)
        ⟨tc.x + tc.z / 2, tc.y + tc.w / 2, tc.z / 2, tc.w / 2⟩ r2.1 (e2 ▸ e1 ▸ ht) (e2 ▸ e1 ▸ hhalf)
      have e3 := (ChunkManager.createCompositeMapGeometry_evolves _ _ _ _ _ _ _ _ h3).mMaxCompGeometrySize_eq
      obtain ⟨r4, h4⟩ := ih r3.2 lod (cs / 2) (cc.add ⟨-cs / 4, -cs / 4⟩)
        ⟨tc.x, tc.y + tc.w / 2, tc.z / 2, tc.w / 2⟩ r3.1 (e3 ▸ e2 ▸ e1 ▸ ht) (e3 ▸ e2 ▸ e1 ▸ hhalf)
      exact ⟨r4, by simp [h1, h2, h3, h4]⟩
    · exact ⟨_, rfl⟩

/-- Every chunk size is at most some power-of-two multiple of a positive threshold. -/
theorem exists_pow_bound (chunkSize t : ℚ) (ht : 0 < t) : ∃ k : Nat, chunkSize ≤ t * 2 ^ k := by
  obtain ⟨n, hn⟩ := exists_nat_gt (chunkSize / t)
  refine ⟨n, ?_⟩
  have h2 : (n : ℚ) < 2 ^ n := by exact_mod_cast Nat.lt_two_pow n
  have h3 : chunkSize / t < 2 ^ n := lt_trans hn h2
  have := (div_lt_iff₀ ht).mp h3
  linarith

/-- With a positive threshold, `createCompositeMapGeometry` returns once the fuel is large
enough. -/
theorem ChunkManager.createCompositeMapGeometry_total (m : ChunkManager) (lod : Int) (chunkSize : ℚ)
    (chunkCenter : Vec2f) (texCoords : Vec4f) (compositeMap : CompositeMap)
    (ht : 0 < m.mMaxCompGeometrySize) :
    ∃ fuel0 r, ∀ fuel, fuel0 ≤ fuel →
      ChunkManager.createCompositeMapGeometry fuel m lod chunkSize chunkCenter texCoords compositeMap
        = some r := by
  obtain ⟨k, hk⟩ := exists_pow_bound chunkSize m.mMaxCompGeometrySize ht
  obtain ⟨r, hr⟩ := ChunkManager.createCompositeMapGeometry_returns k m lod chunkSize chunkCenter
    texCoords compositeMap ht hk
  exact ⟨k + 1, r, fun fuel hf =>
    ChunkManager.createCompositeMapGeometry_mono _ _ _ _ _ _ _ _ _ hf hr⟩

/-- A call with chunk size `t * 2 ^ k`, `t` the positive threshold, returns with fuel `k + 1` and
reaches `4 ^ k` leaves, each of chunk size `t`. -/
theorem ChunkManager.createCompositeMapGeometry_pow (k : Nat) :
    ∀ (m : ChunkManager) (lod : Int) (chunkCenter : Vec2f) (texCoords : Vec4f)
      (compositeMap : CompositeMap) (t : ℚ), m.mMaxCompGeometrySize = t → 0 < t →
      ∃ r, ChunkManager.createCompositeMapGeometry (k + 1) m lod (t * 2 ^ k) chunkCenter texCoords
          compositeMap = some r
        ∧ (leafCalls (m.since r.2)).length = 4 ^ k
        ∧ ∀ l ∈ leafCalls (m.since r.2), l.1 = t := by
  induction k with
  | zero =>
    intro m lod cc tc cm t hm ht
    rw [ChunkManager.createCompositeMapGeometry]
    simp only [pow_zero, mul_one, hm, lt_self_iff_false, if_false]
    refine ⟨_, rfl, ?_, ?_⟩
    · rw [ChunkManager.createCompositeMapGeometryLeaf_leafCalls]; rfl
    · rw [ChunkManager.createCompositeMapGeometryLeaf_leafCalls]; simp
  | succ k ih =>
    intro m lod cc tc cm t hm ht
    have hgt : t * 2 ^ (k + 1) > m.mMaxCompGeometrySize := by
      rw [hm]
      have h1 : (1 : ℚ) < 2 ^ (k + 1) := one_lt_pow₀ (by norm_num) (by omega)
      nlinarith
    have hhalf : t * 2 ^ (k + 1) / 2 = t * 2 ^ k := by rw [pow_succ]; ring
    rw [ChunkManager.createCompositeMapGeometry, if_pos hgt, hhalf]
    obtain ⟨r1, h1, n1, a1⟩ := ih m lod (cc.add ⟨t * 2 ^ (k + 1) / 4, t * 2 ^ (k + 1) / 4⟩)
      ⟨tc.x + tc.z / 2, tc.y, tc.z / 2, tc.w / 2⟩ cm t hm ht
    have e1 := (ChunkManager.createCompositeMapGeometry_evolves _ _ _ _ _ _ _ _ h1).mMaxCompGeometrySize_eq
    obtain ⟨r2, h2, n2, a2⟩ := ih r1.2 lod (cc.add ⟨-(t * 2 ^ (k + 1)) / 4, t * 2 ^ (k + 1) / 4⟩)
      ⟨tc.x, tc.y, tc.z / 2, tc.w / 2⟩ r1.1 t (e1.trans hm) ht
    have e2 := (ChunkManager.createCompositeMapGeometry_evolves _ _ _ _ _ _ _ _ h2).mMaxCompGeometrySize_eq
    obtain ⟨r3, h3, n3, a3⟩ := ih r2.2 lod (cc.add ⟨t * 2 ^ (k + 1) / 4, -(t * 2 ^ (k + 1)) / 4⟩)
      ⟨tc.x + tc.z / 2, tc.y + tc.w / 2, tc.z / 2, tc.w / 2⟩ r2.1 t (e2.trans (e1.trans hm)) ht
    have e3 := (ChunkManager.createCompositeMapGeometry_evolves _ _ _ _ _ _ _ _ h3).mMaxCompGeometrySize_eq
    obtain ⟨r4, h4, n4, a4⟩ := ih r3.2 lod (cc.add ⟨-(t * 2 ^ (k + 1)) / 4, -(t * 2 ^ (k + 1)) / 4⟩)
      ⟨tc.x, tc.y + tc.w / 2, tc.z / 2, tc.w / 2⟩ r3.1 t (e3.trans (e2.trans (e1.trans hm))) ht
    refine ⟨r4, by simp [h1, h2, h3, h4], ?_, ?_⟩
    · rw [ChunkManager.createCompositeMapGeometry_since h1 h2 h3 h4]
      simp only [List.length_append, n1, n2, n3, n4]
      ring
    · rw [ChunkManager.createCompositeMapGeometry_since h1 h2 h3 h4]
      intro l hl
      simp only [List.mem_append] at hl
      rcases hl with ((hl | hl) | hl) | hl
      · exact a1 l hl
      · exact a2 l hl
      · exact a3 l hl
      · exact a4 l hl

/-! ## createChunk -/

theorem Event.isMaterial_of_isComposite {e : Event} (h : e.isComposite = true) :
    e.isMaterial = true := by
  cases e <;> first | rfl | exact absurd h Bool.false_ne_true

theorem Event.isMaterial_of_isPasses {e : Event} (h : e.isPasses = true) : e.isMaterial = true :=
  Event.isMaterial_of_isComposite (Event.isComposite_of_isLeafBody (Event.isLeafBody_of_isPasses h))

theorem ChunkManager.createChunkMaterial_evolves {fuel : Nat} {m : ChunkManager} {chunkSize : ℚ}
    {chunkCenter : Vec2f} {lod : Nat} {useCompositeMap : Bool}
    {templateGeometry : Option TerrainDrawable} {r : ChunkMaterial × ChunkManager}
    (h : m.createChunkMaterial fuel chunkSize chunkCenter lod useCompositeMap templateGeometry
      = some r) : m.Evolves (fun e => e.isMaterial = true) r.2 := by
  unfold ChunkManager.createChunkMaterial at h
  split at h
  · simp only [Option.some.injEq] at h
    subst h
    exact ChunkManager.Evolves.refl _ m
  · split at h
    · simp only [Option.map_eq_some'] at h
      obtain ⟨c, hc, rfl⟩ := h
      refine ChunkManager.Evolves.trans ?_
        (ChunkManager.Evolves.log _ (e := Event.addCompositeMap _ _) rfl)
      refine ChunkManager.Evolves.trans ?_
        ((ChunkManager.createCompositeMapGeometry_evolves _ _ _ _ _ _ _ _ hc).mono
          fun _ => Event.isMaterial_of_isComposite)
      exact ChunkManager.Evolves.trans (ChunkManager.Evolves.alloc _ m)
        (ChunkManager.Evolves.alloc _ _)
    · simp only [Option.some.injEq] at h
      subst h
      exact (ChunkManager.createPasses_evolves _ _ _ _).mono fun _ => Event.isMaterial_of_isPasses

/-- With a positive threshold the material part of `createChunk` returns once the fuel is large
enough. -/
theorem ChunkManager.createChunkMaterial_total (m : ChunkManager) (chunkSize : ℚ)
    (chunkCenter : Vec2f) (lod : Nat) (useCompositeMap : Bool)
    (templateGeometry : Option TerrainDrawable) (ht : 0 < m.mMaxCompGeometrySize) :
    ∃ fuel0 r, ∀ fuel, fuel0 ≤ fuel →
      m.createChunkMaterial fuel chunkSize chunkCenter lod useCompositeMap templateGeometry
        = some r := by
  unfold ChunkManager.createChunkMaterial
  cases templateGeometry with
  | some t => exact ⟨0, _, fun _ _ => rfl⟩
  | none =>
    cases useCompositeMap with
    | false => exact ⟨0, _, fun _ _ => rfl⟩
    | true =>
      obtain ⟨fuel0, c, hc⟩ := ChunkManager.createCompositeMapGeometry_total
        m.alloc.2.createCompositeMapRTT.2 lod chunkSize chunkCenter ⟨0, 0, 1, 1⟩
        { id := m.alloc.1, mTexture := some m.alloc.2.createCompositeMapRTT.1, mDrawables := [] } ht
      exact ⟨fuel0,
        ({ compositeMap := some c.1, compositeMapRenderer := true,
           passes := Terrain.createPasses
             (m.mSceneManager.getForceShaders || !m.mSceneManager.getClampLighting)
             [{ mDiffuseMap := m.alloc.2.createCompositeMapRTT.1, mNormalMap := none,
                mParallax := false, mSpecular := false }] [] 1 1 },
          c.2.log (Event.addCompositeMap c.1.id false)),
        fun fuel hf => by simp only [if_true, hc fuel hf, Option.map_some']⟩

theorem ChunkManager.createChunkArrays_evolves (m : ChunkManager) (chunkSize : ℚ)
    (chunkCenter : Vec2f) (lod : Nat) (useCompositeMap : Bool)
    (templateGeometry : Option TerrainDrawable) :
    m.Evolves (fun _ => True)
      (m.createChunkArrays chunkSize chunkCenter lod useCompositeMap templateGeometry).2 := by
  cases templateGeometry with
  | none =>
    exact ⟨[Event.fillVertexBuffers lod chunkSize chunkCenter useCompositeMap], 4,
      m.mCompositeMapGeometryCache,
      by simp [ChunkManager.createChunkArrays, ChunkManager.alloc, ChunkManager.log], by simp⟩
  | some t =>
    exact ⟨[], 4, m.mCompositeMapGeometryCache,
      by simp [ChunkManager.createChunkArrays, ChunkManager.alloc], by simp⟩

theorem ChunkManager.createChunkArrays_since_none (m : ChunkManager) (chunkSize : ℚ)
    (chunkCenter : Vec2f) (lod : Nat) (useCompositeMap : Bool) :
    m.since (m.createChunkArrays chunkSize chunkCenter lod useCompositeMap none).2
      = [Event.fillVertexBuffers lod chunkSize chunkCenter useCompositeMap] := by
  simp [ChunkManager.createChunkArrays, ChunkManager.alloc, ChunkManager.log, ChunkManager.since]

theorem ChunkManager.createChunkArrays_since_some (m : ChunkManager) (chunkSize : ℚ)
    (chunkCenter : Vec2f) (lod : Nat) (useCompositeMap : Bool) (t : TerrainDrawable) :
    m.since (m.createChunkArrays chunkSize chunkCenter lod useCompositeMap (some t)).2 = [] := by
  simp [ChunkManager.createChunkArrays, ChunkManager.alloc, ChunkManager.since]

/-- Anatomy of a returning `createChunk` call: the material part returned, the node carries the
arrays, buffers and material built on the way, and the trace grew by the events of the array part,
the three buffer-size calls, the material events and the tail. -/
theorem ChunkManager.createChunk_some {fuel : Nat} {m : ChunkManager} {chunkSize : ℚ}
    {chunkCenter : Vec2f} {lod lodFlags : Nat} {compile : Bool}
    {templateGeometry : Option TerrainDrawable} {r : TerrainDrawable × ChunkManager}
    (h : m.createChunk fuel chunkSize chunkCenter lod lodFlags compile templateGeometry = some r) :
    ∃ mat : ChunkMaterial × ChunkManager,
      (m.createChunkMid chunkSize chunkCenter lod lodFlags templateGeometry).createChunkMaterial fuel
          chunkSize chunkCenter lod (decide (chunkSize ≥ m.mCompositeMapLevel)) templateGeometry
        = some mat
      ∧ r.1.id = m.alloc.1
      ∧ r.1.mVertexArray = (m.alloc.2.createChunkArrays chunkSize chunkCenter lod
          (decide (chunkSize ≥ m.mCompositeMapLevel)) templateGeometry).1.positions
      ∧ r.1.mNormalArray = (m.alloc.2.createChunkArrays chunkSize chunkCenter lod
          (decide (chunkSize ≥ m.mCompositeMapLevel)) templateGeometry).1.normals
      ∧ r.1.mColorArray = (m.alloc.2.createChunkArrays chunkSize chunkCenter lod
          (decide (chunkSize ≥ m.mCompositeMapLevel)) templateGeometry).1.colors
      ∧ r.1.mPrimitiveSet = ⟨m.createChunkNumVerts chunkSize lod, lodFlags⟩
      ∧ r.1.mTexCoordArrayList = List.replicate
          (if decide (chunkSize ≥ m.mCompositeMapLevel) = true then 1 else 2)
          ⟨m.createChunkNumVerts chunkSize lod⟩
      ∧ r.1.mCompositeMap = mat.1.compositeMap
      ∧ r.1.mPasses = mat.1.passes
      ∧ m.Evolves (fun _ => True) r.2
      ∧ m.since r.2 =
          m.alloc.2.since (m.alloc.2.createChunkArrays chunkSize chunkCenter lod
            (decide (chunkSize ≥ m.mCompositeMapLevel)) templateGeometry).2
          ++ [Event.getCellVertices,
              Event.getIndexBuffer (m.createChunkNumVerts chunkSize lod) lodFlags,
              Event.getUVBuffer (m.createChunkNumVerts chunkSize lod)]
          ++ (m.createChunkMid chunkSize chunkCenter lod lodFlags templateGeometry).since mat.2
          ++ m.createChunkTail compile templateGeometry := by
  unfold ChunkManager.createChunk at h
  simp only [Option.map_eq_some'] at h
  obtain ⟨mat, hmat, rfl⟩ := h
  have e0 : m.Evolves (fun _ => True) m.alloc.2 := ChunkManager.Evolves.alloc _ m
  have e1 := ChunkManager.createChunkArrays_evolves m.alloc.2 chunkSize chunkCenter lod
    (decide (chunkSize ≥ m.mCompositeMapLevel)) templateGeometry
  have e2 : (m.alloc.2.createChunkArrays chunkSize chunkCenter lod
      (decide (chunkSize ≥ m.mCompositeMapLevel)) templateGeometry).2.Evolves (fun _ => True)
      (m.createChunkMid chunkSize chunkCenter lod lodFlags templateGeometry) :=
    ((ChunkManager.Evolves.log _ trivial).trans (ChunkManager.Evolves.log _ trivial)).trans
      (ChunkManager.Evolves.log _ trivial)
  have e3 := (ChunkManager.createChunkMaterial_evolves hmat).mono (Q := fun _ => True)
    fun _ _ => trivial
  have e4 : mat.2.Evolves (fun _ => True)
      (if (templateGeometry.isNone && compile && m.mSceneManager.hasIncrementalCompileOperation) = true
       then (mat.2.log Event.getCellWorldSize).log (Event.incrementalCompileAdd m.alloc.1)
       else mat.2.log Event.getCellWorldSize) := by
    split
    · exact (ChunkManager.Evolves.log _ trivial).trans (ChunkManager.Evolves.log _ trivial)
    · exact ChunkManager.Evolves.log _ trivial
  have s0 : m.since m.alloc.2 = [] := by simp [ChunkManager.since, ChunkManager.alloc]
  have s2 : (m.alloc.2.createChunkArrays chunkSize chunkCenter lod
      (decide (chunkSize ≥ m.mCompositeMapLevel)) templateGeometry).2.since
      (m.createChunkMid chunkSize chunkCenter lod lodFlags templateGeometry)
      = [Event.getCellVertices,
          Event.getIndexBuffer (m.createChunkNumVerts chunkSize lod) lodFlags,
          Event.getUVBuffer (m.createChunkNumVerts chunkSize lod)] := by
    simp [ChunkManager.since, ChunkManager.createChunkMid, ChunkManager.log]
  have s4 : mat.2.since
      (if (templateGeometry.isNone && compile && m.mSceneManager.hasIncrementalCompileOperation) = true
       then (mat.2.log Event.getCellWorldSize).log (Event.incrementalCompileAdd m.alloc.1)
       else mat.2.log Event.getCellWorldSize) = m.createChunkTail compile templateGeometry := by
    unfold ChunkManager.createChunkTail
    split <;> simp [ChunkManager.since, ChunkManager.log]
  refine ⟨mat, hmat, rfl, rfl, rfl, rfl, rfl, rfl, rfl, rfl,
    (((e0.trans e1).trans e2).trans e3).trans e4, ?_⟩
  rw [ChunkManager.Evolves.since_trans (((e0.trans e1).trans e2).trans e3) e4,
    ChunkManager.Evolves.since_trans ((e0.trans e1).trans e2) e3,
    ChunkManager.Evolves.since_trans (e0.trans e1) e2,
    ChunkManager.Evolves.since_trans e0 e1, s0, s2, s4]
  rfl

/-! ## createChunk and getChunk as a whole -/

/-- An object put into the cache is what a later exact lookup of its key returns. -/
theorem ObjectCache.getRefFromObjectCache_addEntryToObjectCache (c : ObjectCache) (key : ChunkKey)
    (obj : TerrainDrawable) :
    (c.addEntryToObjectCache key obj).getRefFromObjectCache key = some obj := by
  simp [ObjectCache.getRefFromObjectCache, ObjectCache.addEntryToObjectCache]

/-- With a template, `createChunk` returns whatever the fuel, and its result does not depend on
the fuel. -/
theorem ChunkManager.createChunk_template (m : ChunkManager) (chunkSize : ℚ) (chunkCenter : Vec2f)
    (lod lodFlags : Nat) (compile : Bool) (t : TerrainDrawable) :
    ∃ r, ∀ fuel, m.createChunk fuel chunkSize chunkCenter lod lodFlags compile (some t) = some r :=
  ⟨_, fun _ => rfl⟩

/-- With a positive threshold, `createChunk` returns once the fuel is large enough. -/
theorem ChunkManager.createChunk_total (m : ChunkManager) (chunkSize : ℚ) (chunkCenter : Vec2f)
    (lod lodFlags : Nat) (compile : Bool) (templateGeometry : Option TerrainDrawable)
    (ht : 0 < m.mMaxCompGeometrySize) :
    ∃ fuel0 r, ∀ fuel, fuel0 ≤ fuel →
      m.createChunk fuel chunkSize chunkCenter lod lodFlags compile templateGeometry = some r := by
  have hmid : (m.createChunkMid chunkSize chunkCenter lod lodFlags templateGeometry).mMaxCompGeometrySize
      = m.mMaxCompGeometrySize := by
    have e1 := ChunkManager.createChunkArrays_evolves m.alloc.2 chunkSize chunkCenter lod
      (decide (chunkSize ≥ m.mCompositeMapLevel)) templateGeometry
    have := e1.mMaxCompGeometrySize_eq
    simpa [ChunkManager.createChunkMid, ChunkManager.log, ChunkManager.alloc] using this
  obtain ⟨fuel0, mat, hmat⟩ := ChunkManager.createChunkMaterial_total
    (m.createChunkMid chunkSize chunkCenter lod lodFlags templateGeometry) chunkSize chunkCenter lod
    (decide (chunkSize ≥ m.mCompositeMapLevel)) templateGeometry (hmid ▸ ht)
  have hfuel : ∀ fuel, fuel0 ≤ fuel →
      m.createChunk fuel chunkSize chunkCenter lod lodFlags compile templateGeometry
        = m.createChunk fuel0 chunkSize chunkCenter lod lodFlags compile templateGeometry := by
    intro fuel hf
    have h1 := hmat fuel hf
    have h0 := hmat fuel0 le_rfl
    unfold ChunkManager.createChunkMid at h0 h1
    unfold ChunkManager.createChunk
    simp only [h0, h1]
  have h0 : ∃ r, m.createChunk fuel0 chunkSize chunkCenter lod lodFlags compile templateGeometry
      = some r := by
    have h0 := hmat fuel0 le_rfl
    unfold ChunkManager.createChunkMid at h0
    unfold ChunkManager.createChunk
    simp only [h0, Option.map_some']
    exact ⟨_, rfl⟩
  obtain ⟨r, hr⟩ := h0
  exact ⟨fuel0, r, fun fuel hf => (hfuel fuel hf).trans hr⟩

/-- A returning `createChunk` call leaves at least one event in the trace. -/
theorem ChunkManager.createChunk_since_ne_nil {fuel : Nat} {m : ChunkManager} {chunkSize : ℚ}
    {chunkCenter : Vec2f} {lod lodFlags : Nat} {compile : Bool}
    {templateGeometry : Option TerrainDrawable} {r : TerrainDrawable × ChunkManager}
    (h : m.createChunk fuel chunkSize chunkCenter lod lodFlags compile templateGeometry = some r) :
    m.since r.2 ≠ [] := by
  obtain ⟨mat, -, -, -, -, -, -, -, -, -, -, hs⟩ := ChunkManager.createChunk_some h
  rw [hs]
  simp

theorem ChunkManager.getChunk_hit {m : ChunkManager} {center : Vec2f} {lodFlags : Nat}
    {obj : TerrainDrawable}
    (hit : m.mCache.getRefFromObjectCache ⟨center, (lodFlags >>> 16) % 256, lodFlags⟩ = some obj)
    (fuel : Nat) (size : ℚ) (lod : Nat) (activeGrid : Bool) (viewPoint : Vec3f) (compile : Bool) :
    m.getChunk fuel size center lod lodFlags activeGrid viewPoint compile = some (obj, m) := by
  simp only [ChunkManager.getChunk, Nat.reduceMul, hit]

theorem ChunkManager.getChunk_miss {m : ChunkManager} {center : Vec2f} {lodFlags : Nat}
    (miss : m.mCache.getRefFromObjectCache ⟨center, (lodFlags >>> 16) % 256, lodFlags⟩ = none)
    (fuel : Nat) (size : ℚ) (lod : Nat) (activeGrid : Bool) (viewPoint : Vec3f) (compile : Bool) :
    m.getChunk fuel size center lod lodFlags activeGrid viewPoint compile
      = (m.createChunk fuel size center ((lodFlags >>> 16) % 256) lodFlags compile
          (m.getChunkTemplate center ((lodFlags >>> 16) % 256))).map fun r =>
          (r.1, { r.2 with
            mCache := r.2.mCache.addEntryToObjectCache ⟨center, (lodFlags >>> 16) % 256, lodFlags⟩ r.1 }) := by
  simp only [ChunkManager.getChunk, Nat.reduceMul, miss]

/-- With a positive threshold, `getChunk` returns once the fuel is large enough. -/
theorem ChunkManager.getChunk_total (m : ChunkManager) (size : ℚ) (center : Vec2f) (lod : Nat)
    (lodFlags : Nat) (activeGrid : Bool) (viewPoint : Vec3f) (compile : Bool)
    (ht : 0 < m.mMaxCompGeometrySize) :
    ∃ fuel0 r, ∀ fuel, fuel0 ≤ fuel →
      m.getChunk fuel size center lod lodFlags activeGrid viewPoint compile = some r := by
  cases hget : m.mCache.getRefFromObjectCache ⟨center, (lodFlags >>> 16) % 256, lodFlags⟩ with
  | some obj => exact ⟨0, _, fun fuel _ => ChunkManager.getChunk_hit hget fuel _ _ _ _ _⟩
  | none =>
    obtain ⟨fuel0, r, hr⟩ := ChunkManager.createChunk_total m size center ((lodFlags >>> 16) % 256)
      lodFlags compile (m.getChunkTemplate center ((lodFlags >>> 16) % 256)) ht
    exact ⟨fuel0, _, fun fuel hf => by
      rw [ChunkManager.getChunk_miss hget, hr fuel hf, Option.map_some']⟩

theorem filter_isFillVertexBuffers_of_isMaterial {l : List Event}
    (h : ∀ e ∈ l, e.isMaterial = true) : l.filter Event.isFillVertexBuffers = [] := by
  rw [List.filter_eq_nil_iff]
  intro e he
  have := h e he
  cases e <;> first | exact Bool.false_ne_true | exact absurd this Bool.false_ne_true

theorem filter_isCompileAdd_of_isMaterial {l : List Event}
    (h : ∀ e ∈ l, e.isMaterial = true) : l.filter Event.isCompileAdd = [] := by
  rw [List.filter_eq_nil_iff]
  intro e he
  have := h e he
  cases e <;> first | exact Bool.false_ne_true | exact absurd this Bool.false_ne_true

/-- Without a template, a returning `createChunk` call makes exactly one `fillVertexBuffers`
call, with the call's lod, chunk size and chunk center. -/
theorem ChunkManager.createChunk_fresh_fill {fuel : Nat} {m : ChunkManager} {chunkSize : ℚ}
    {chunkCenter : Vec2f} {lod lodFlags : Nat} {compile : Bool}
    {r : TerrainDrawable × ChunkManager}
    (h : m.createChunk fuel chunkSize chunkCenter lod lodFlags compile none = some r) :
    (m.since r.2).filter Event.isFillVertexBuffers
      = [Event.fillVertexBuffers lod chunkSize chunkCenter (decide (chunkSize ≥ m.mCompositeMapLevel))] := by
  obtain ⟨mat, hmat, -, -, -, -, -, -, -, -, -, hs⟩ := ChunkManager.createChunk_some h
  have hm := (ChunkManager.createChunkMaterial_evolves hmat).since_all
  rw [hs, ChunkManager.createChunkArrays_since_none]
  simp only [List.filter_append, filter_isFillVertexBuffers_of_isMaterial hm]
  unfold ChunkManager.createChunkTail
  split <;> simp [Event.isFillVertexBuffers]

/-- With a template, `createChunk` makes four collaborator calls and no other. -/
theorem ChunkManager.createChunk_template_since {fuel : Nat} {m : ChunkManager} {chunkSize : ℚ}
    {chunkCenter : Vec2f} {lod lodFlags : Nat} {compile : Bool} {t : TerrainDrawable}
    {r : TerrainDrawable × ChunkManager}
    (h : m.createChunk fuel chunkSize chunkCenter lod lodFlags compile (some t) = some r) :
    m.since r.2 = [Event.getCellVertices,
      Event.getIndexBuffer (m.createChunkNumVerts chunkSize lod) lodFlags,
      Event.getUVBuffer (m.createChunkNumVerts chunkSize lod), Event.getCellWorldSize]
    ∧ r.2.mNextId = m.mNextId + 5
    ∧ r.2.mCompositeMapGeometryCache = m.mCompositeMapGeometryCache
    ∧ r.2.mCache = m.mCache
    ∧ r.1.mPasses = t.mPasses ∧ r.1.mCompositeMap = t.mCompositeMap
    ∧ r.1.mVertexArray = t.mVertexArray.clone (m.mNextId + 1)
    ∧ r.1.mNormalArray = t.mNormalArray.clone (m.mNextId + 2)
    ∧ r.1.mColorArray = t.mColorArray.clone (m.mNextId + 3) := by
  simp only [ChunkManager.createChunk, ChunkManager.createChunkMaterial, Option.map_some',
    Option.some.injEq] at h
  subst h
  simp [ChunkManager.since, ChunkManager.log, ChunkManager.alloc, ChunkManager.createChunkArrays]

/-! ## Rounding to `float` -/

/-- Zero has no binary digit. -/
theorem bitLength_zero (fuel : Nat) : bitLength fuel 0 = 0 := by
  cases fuel <;> simp [bitLength]

/-- A positive `n` lies between the powers of two given by its digit count. -/
theorem bitLength_spec : ∀ (fuel n : Nat), 0 < n → n ≤ fuel →
    1 ≤ bitLength fuel n ∧ 2 ^ (bitLength fuel n - 1) ≤ n ∧ n < 2 ^ bitLength fuel n
  | 0, n, h0, h => by omega
  | fuel + 1, n, h0, h => by
    have hne : n ≠ 0 := by omega
    rw [bitLength, if_neg hne]
    by_cases h1 : n = 1
    · subst h1
      simp [bitLength_zero]
    · have hpos : 0 < n / 2 := Nat.div_pos (by omega) (by norm_num)
      have hle : n / 2 ≤ fuel := by omega
      obtain ⟨hl, hlo, hhi⟩ := bitLength_spec fuel (n / 2) hpos hle
      refine ⟨by omega, ?_, ?_⟩
      · have e : bitLength fuel (n / 2) + 1 - 1 = (bitLength fuel (n / 2) - 1) + 1 := by omega
        rw [e, pow_succ]
        omega
      · rw [pow_succ]
        omega

/-- The absolute value of a rational as a quotient of natural numbers. -/
theorem abs_eq_natAbs_div_den (q : ℚ) : |q| = (q.num.natAbs : ℚ) / (q.den : ℚ) := by
  conv_lhs => rw [← Rat.num_div_den q]
  rw [abs_div, Nat.abs_cast, Nat.cast_natAbs, Int.cast_abs]

/-- The binary exponent brackets the absolute value. -/
theorem binaryExponent_spec {q : ℚ} (hq : q ≠ 0) :
    (2 : ℚ) ^ binaryExponent q ≤ |q| ∧ |q| < 2 ^ (binaryExponent q + 1) := by
  have ha : 0 < q.num.natAbs := Int.natAbs_pos.mpr (Rat.num_ne_zero.mpr hq)
  have hb : 0 < q.den := q.den_pos
  obtain ⟨ha1, ha2, ha3⟩ := bitLength_spec _ _ ha le_rfl
  obtain ⟨hb1, hb2, hb3⟩ := bitLength_spec _ _ hb le_rfl
  have habs := abs_eq_natAbs_div_den q
  have hbq : (0 : ℚ) < (q.den : ℚ) := by exact_mod_cast hb
  have ha2q : (2 : ℚ) ^ (bitLength q.num.natAbs q.num.natAbs - 1) ≤ (q.num.natAbs : ℚ) := by
    exact_mod_cast ha2
  have ha3q : (q.num.natAbs : ℚ) < 2 ^ (bitLength q.num.natAbs q.num.natAbs) := by
    exact_mod_cast ha3
  have hb2q : (2 : ℚ) ^ (bitLength q.den q.den - 1) ≤ (q.den : ℚ) := by exact_mod_cast hb2
  have hb3q : (q.den : ℚ) < 2 ^ (bitLength q.den q.den) := by exact_mod_cast hb3
  have hlow : (2 : ℚ) ^ ((bitLength q.num.natAbs q.num.natAbs : Int)
      - (bitLength q.den q.den : Int) - 1) ≤ |q| := by
    rw [habs, le_div_iff₀ hbq]
    have e : ((bitLength q.num.natAbs q.num.natAbs : Int) - (bitLength q.den q.den : Int) - 1)
        = ((bitLength q.num.natAbs q.num.natAbs - 1 : Nat) : Int)
          - ((bitLength q.den q.den : Nat) : Int) := by omega
    rw [e, zpow_sub₀ (by norm_num), zpow_natCast, zpow_natCast, div_mul_eq_mul_div,
      div_le_iff₀ (by positivity)]
    have : (2 : ℚ) ^ (bitLength q.num.natAbs q.num.natAbs - 1) * (q.den : ℚ)
        ≤ (q.num.natAbs : ℚ) * 2 ^ bitLength q.den q.den := by
      calc (2 : ℚ) ^ (bitLength q.num.natAbs q.num.natAbs - 1) * (q.den : ℚ)
          ≤ (q.num.natAbs : ℚ) * (q.den : ℚ) := by
            exact mul_le_mul_of_nonneg_right ha2q hbq.le
        _ ≤ (q.num.natAbs : ℚ) * 2 ^ bitLength q.den q.den := by
            exact mul_le_mul_of_nonneg_left hb3q.le (by positivity)
    exact this
  have hhigh : |q| < (2 : ℚ) ^ ((bitLength q.num.natAbs q.num.natAbs : Int)
      - (bitLength q.den q.den : Int) + 1) := by
    rw [habs, div_lt_iff₀ hbq]
    have e : ((bitLength q.num.natAbs q.num.natAbs : Int) - (bitLength q.den q.den : Int) + 1)
        = ((bitLength q.num.natAbs q.num.natAbs : Nat) : Int)
          - ((bitLength q.den q.den - 1 : Nat) : Int) := by omega
    rw [e, zpow_sub₀ (by norm_num), zpow_natCast, zpow_natCast, div_mul_eq_mul_div,
      lt_div_iff₀ (by positivity)]
    calc (q.num.natAbs : ℚ) * 2 ^ (bitLength q.den q.den - 1)
        < 2 ^ bitLength q.num.natAbs q.num.natAbs * 2 ^ (bitLength q.den q.den - 1) := by
          exact mul_lt_mul_of_pos_right ha3q (by positivity)
      _ ≤ 2 ^ bitLength q.num.natAbs q.num.natAbs * (q.den : ℚ) := by
          exact mul_le_mul_of_nonneg_left hb2q (by positivity)
  unfold binaryExponent
  simp only
  split
  · next h => exact ⟨h, hhigh⟩
  · next h =>
    refine ⟨hlow, ?_⟩
    rw [sub_add_cancel]
    exact not_le.mp h

/-- An integer is its own nearest integer. -/
theorem roundHalfEven_intCast (n : Int) : roundHalfEven (n : ℚ) = n := by
  unfold roundHalfEven
  simp

/-- Rounding to the nearest integer moves a rational by at most one half. -/
theorem roundHalfEven_error (q : ℚ) : |(roundHalfEven q : ℚ) - q| ≤ 1 / 2 := by
  have h1 := Int.floor_le q
  have h2 := Int.lt_floor_add_one q
  unfold roundHalfEven
  rw [abs_le]
  split
  · constructor <;> linarith
  · split
    · push_cast; constructor <;> linarith
    · split
      · constructor <;> linarith
      · push_cast; constructor <;> linarith

/-- The `float` nearest to `q` differs from `q` by at most half a unit in the last place. -/
theorem roundFloat_error (q : ℚ) :
    |roundFloat q - q| ≤ 2 ^ (max (binaryExponent q) (-126) - 23) / 2 := by
  unfold roundFloat
  split
  · next h => subst h; simp; positivity
  · have hu : (0 : ℚ) < 2 ^ (max (binaryExponent q) (-126) - 23) := by positivity
    have h := roundHalfEven_error (q / 2 ^ (max (binaryExponent q) (-126) - 23))
    have e : (roundHalfEven (q / 2 ^ (max (binaryExponent q) (-126) - 23)) : ℚ)
          * 2 ^ (max (binaryExponent q) (-126) - 23) - q
        = ((roundHalfEven (q / 2 ^ (max (binaryExponent q) (-126) - 23)) : ℚ)
            - q / 2 ^ (max (binaryExponent q) (-126) - 23))
          * 2 ^ (max (binaryExponent q) (-126) - 23) := by
      field_simp
    rw [e, abs_mul, abs_of_pos hu]
    calc _ ≤ 1 / 2 * 2 ^ (max (binaryExponent q) (-126) - 23) :=
          mul_le_mul_of_nonneg_right h hu.le
      _ = _ := by ring

/-- A significand of fewer than 24 bits times a power of two not below `2 ^ (-149)` is a `float`:
rounding leaves it unchanged. -/
theorem roundFloat_exact (n k : Int) (hn : |n| < 2 ^ 24) (hk : -149 ≤ k) :
    roundFloat ((n : ℚ) * 2 ^ k) = (n : ℚ) * 2 ^ k := by
  by_cases hq : (n : ℚ) * (2 : ℚ) ^ k = 0
  · rw [hq]; simp [roundFloat]
  · unfold roundFloat
    rw [if_neg hq]
    obtain ⟨hlo, -⟩ := binaryExponent_spec hq
    have hle : max (binaryExponent ((n : ℚ) * 2 ^ k)) (-126) - 23 ≤ k := by
      rcases le_total (binaryExponent ((n : ℚ) * 2 ^ k)) (-126) with h | h
      · rw [max_eq_right h]; omega
      · rw [max_eq_left h]
        have habs : |(n : ℚ) * 2 ^ k| < 2 ^ (24 + k) := by
          rw [abs_mul, abs_of_pos (by positivity : (0 : ℚ) < 2 ^ k), zpow_add₀ (by norm_num)]
          apply mul_lt_mul_of_pos_right _ (by positivity)
          have : ((|n| : Int) : ℚ) < ((2 ^ 24 : Int) : ℚ) := by exact_mod_cast hn
          rw [Int.cast_abs] at this
          norm_num at this ⊢
          exact this
        have hlt := lt_of_le_of_lt hlo habs
        have := (zpow_lt_zpow_iff_right₀ (by norm_num : (1 : ℚ) < 2)).mp hlt
        omega
    generalize max (binaryExponent ((n : ℚ) * 2 ^ k)) (-126) - 23 = E at hle
    obtain ⟨d, rfl⟩ : ∃ d : Nat, k = E + d := ⟨(k - E).toNat, by omega⟩
    have e : (n : ℚ) * 2 ^ (E + (d : Int)) / 2 ^ E = ((n * 2 ^ d : Int) : ℚ) := by
      rw [zpow_add₀ (by norm_num)]
      field_simp
      ring
    rw [e, roundHalfEven_intCast]
    rw [zpow_add₀ (by norm_num), zpow_natCast]
    push_cast
    ring

/-- Values of `roundFloat`: a third, a tenth, ties above `2 ^ 24` and subnormal values. -/
theorem roundFloat_examples :
    roundFloat (1 / 3) = 11184811 / 2 ^ 25 ∧ roundFloat (1 / 10) = 13421773 / 2 ^ 27
    ∧ roundFloat 16777217 = 16777216 ∧ roundFloat 16777219 = 16777220
    ∧ roundFloat (-(1 / 3)) = -(11184811 / 2 ^ 25)
    ∧ roundFloat (1 / 2 ^ 149) = 1 / 2 ^ 149 ∧ roundFloat (1 / 2 ^ 150) = 0
    ∧ roundFloat (3 / 2 ^ 150) = 2 / 2 ^ 149 := by
  decide!

/-- Rounding to the nearest integer does not go below an integer under the argument. -/
theorem le_roundHalfEven {q : ℚ} {n : Int} (h : (n : ℚ) ≤ q) : n ≤ roundHalfEven q := by
  have hf : n ≤ ⌊q⌋ := Int.le_floor.mpr h
  unfold roundHalfEven
  split_ifs <;> omega

/-- Rounding to `float` does not go below a normal power of two under the argument. -/
theorem roundFloat_ge_two_pow {q : ℚ} (j : Int) (hj : -126 ≤ j) (h : (2 : ℚ) ^ j ≤ q) :
    (2 : ℚ) ^ j ≤ roundFloat q := by
  have hpos : (0 : ℚ) < q := lt_of_lt_of_le (by positivity) h
  have hq : q ≠ 0 := hpos.ne'
  obtain ⟨hlo, hhi⟩ := binaryExponent_spec hq
  rw [abs_of_pos hpos] at hlo hhi
  have hje : j ≤ binaryExponent q := by
    have h1 := lt_of_le_of_lt h hhi
    have h2 := (zpow_lt_zpow_iff_right₀ (by norm_num : (1 : ℚ) < 2)).mp h1
    omega
  unfold roundFloat
  rw [if_neg hq, max_eq_left (by omega)]
  have hsplit : (((2 : Int) ^ 23 : Int) : ℚ) * 2 ^ (binaryExponent q - 23)
      = 2 ^ binaryExponent q := by
    rw [zpow_sub₀ (by norm_num)]
    push_cast
    field_simp
    norm_num
    ring
  have hN : (((2 : Int) ^ 23 : Int) : ℚ) ≤ q / 2 ^ (binaryExponent q - 23) := by
    rw [le_div_iff₀ (by positivity), hsplit]
    exact hlo
  have hr : (((2 : Int) ^ 23 : Int) : ℚ)
      ≤ (roundHalfEven (q / 2 ^ (binaryExponent q - 23)) : ℚ) := by
    exact_mod_cast le_roundHalfEven hN
  calc (2 : ℚ) ^ j ≤ 2 ^ binaryExponent q := zpow_le_zpow_right₀ (by norm_num) hje
    _ = (((2 : Int) ^ 23 : Int) : ℚ) * 2 ^ (binaryExponent q - 23) := hsplit.symm
    _ ≤ _ := mul_le_mul_of_nonneg_right hr (by positivity)

/-- Below `2 ^ 32` rounding to `float` adds at most `2 ^ 7`. -/
theorem roundFloat_le_add {q : ℚ} (h0 : 0 < q) (h : q < 2 ^ 32) : roundFloat q ≤ q + 2 ^ 7 := by
  obtain ⟨hlo, -⟩ := binaryExponent_spec h0.ne'
  rw [abs_of_pos h0] at hlo
  have he : binaryExponent q < 32 := by
    have h1 : (2 : ℚ) ^ binaryExponent q < 2 ^ (32 : Int) := lt_of_le_of_lt hlo (by exact_mod_cast h)
    exact (zpow_lt_zpow_iff_right₀ (by norm_num : (1 : ℚ) < 2)).mp h1
  have herr := roundFloat_error q
  have hu : (2 : ℚ) ^ (max (binaryExponent q) (-126) - 23) ≤ 2 ^ (8 : Int) :=
    zpow_le_zpow_right₀ (by norm_num) (by
      rcases le_total (binaryExponent q) (-126) with h' | h'
      · rw [max_eq_right h']; omega
      · rw [max_eq_left h']; omega)
  have h2 := (abs_le.mp herr).2
  have h8 : (2 : ℚ) ^ (8 : Int) = 2 ^ 7 * 2 := by norm_num
  linarith

/-! ## The grid resolution of a chunk -/

/-- Truncation of a value in `[2, 2 ^ 32)` gives at least 2. -/
theorem floatToUInt_ge_two {t : ℚ} (h2 : 2 ≤ t) (h : t < 2 ^ 32) : 2 ≤ floatToUInt t := by
  have h0 : (0 : ℚ) ≤ t := by linarith
  have hf2 : 2 ≤ ⌊t⌋ := Int.le_floor.mpr (by exact_mod_cast h2)
  have hf : ⌊t⌋ < 2 ^ 32 := Int.floor_lt.mpr (by exact_mod_cast h)
  unfold floatToUInt
  rw [if_pos h0]
  have hlt : ⌊t⌋.toNat < 2 ^ 32 := by omega
  rw [Nat.mod_eq_of_lt hlt]
  omega

theorem shiftLeftOne_of_lt {lod : Nat} (h : lod < 31) : shiftLeftOne lod = 2 ^ lod := by
  unfold shiftLeftOne
  interval_cases lod <;> rfl

/-- For a non-negative argument whose integer part fits 32 bits, the conversion to
`unsigned int` of `x + 1` is `⌊x⌋ + 1`. -/
theorem floatToUInt_add_one {x : ℚ} (h0 : 0 ≤ x) (hfit : ⌊x⌋ + 1 < 2 ^ 32) :
    (floatToUInt (x + 1) : ℤ) = ⌊x⌋ + 1 := by
  have h1 : (0 : ℚ) ≤ x + 1 := by linarith
  have hfl : 0 ≤ ⌊x⌋ := Int.floor_nonneg.mpr h0
  unfold floatToUInt
  rw [if_pos h1, Int.floor_add_one]
  have hlt : (⌊x⌋ + 1).toNat < 2 ^ 32 := by omega
  rw [Nat.mod_eq_of_lt hlt]
  omega

/-- Powers of two with a natural exponent are `float` values. -/
theorem roundFloat_two_pow (lod : Nat) : roundFloat ((2 : ℚ) ^ lod) = 2 ^ lod := by
  have h := roundFloat_exact 1 (lod : Int) (by norm_num) (by omega)
  simpa using h

/-- When none of the `float` operations of `numVerts` rounds, `numVerts` is the floor of the
quotient plus one. -/
theorem ChunkManager.createChunkNumVerts_eq (m : ChunkManager) (chunkSize : ℚ) (lod : Nat)
    (hcv : 1 ≤ m.mStorage.getCellVertices m.mWorldspace) (hcs : 0 ≤ chunkSize) (hlod : lod < 31)
    (h0 : roundFloat ((m.mStorage.getCellVertices m.mWorldspace - 1 : ℤ) : ℚ)
      = ((m.mStorage.getCellVertices m.mWorldspace - 1 : ℤ) : ℚ))
    (h1 : roundFloat (((m.mStorage.getCellVertices m.mWorldspace - 1 : ℤ) : ℚ) * chunkSize)
      = ((m.mStorage.getCellVertices m.mWorldspace - 1 : ℤ) : ℚ) * chunkSize)
    (h2 : roundFloat (((m.mStorage.getCellVertices m.mWorldspace - 1 : ℤ) : ℚ) * chunkSize
        / 2 ^ lod)
      = ((m.mStorage.getCellVertices m.mWorldspace - 1 : ℤ) : ℚ) * chunkSize / 2 ^ lod)
    (h3 : roundFloat (((m.mStorage.getCellVertices m.mWorldspace - 1 : ℤ) : ℚ) * chunkSize
        / 2 ^ lod + 1)
      = ((m.mStorage.getCellVertices m.mWorldspace - 1 : ℤ) : ℚ) * chunkSize / 2 ^ lod + 1)
    (hfit : ⌊((m.mStorage.getCellVertices m.mWorldspace - 1 : ℤ) : ℚ) * chunkSize / 2 ^ lod⌋ + 1
      < 2 ^ 32) :
    (m.createChunkNumVerts chunkSize lod : ℤ)
      = ⌊((m.mStorage.getCellVertices m.mWorldspace - 1 : ℤ) : ℚ) * chunkSize / 2 ^ lod⌋ + 1 := by
  unfold ChunkManager.createChunkNumVerts
  rw [shiftLeftOne_of_lt hlod]
  have hcast : (((2 : ℤ) ^ lod : ℤ) : ℚ) = 2 ^ lod := by push_cast; rfl
  rw [hcast, roundFloat_two_pow lod, h0, h1, h2, h3]
  apply floatToUInt_add_one _ hfit
  have ha : (0 : ℚ) ≤ ((m.mStorage.getCellVertices m.mWorldspace - 1 : ℤ) : ℚ) := by
    exact_mod_cast (by omega : (0 : ℤ) ≤ m.mStorage.getCellVertices m.mWorldspace - 1)
  positivity

/-! ## Allocation and the cache -/

theorem ObjectCache.lowerBound_foldl_mem (l : List (ChunkKey × TerrainDrawable)) :
    ∀ (best : Option (ChunkKey × TerrainDrawable)) (e : ChunkKey × TerrainDrawable),
      l.foldl (fun best e =>
        match best with
        | none => some e
        | some b => if ChunkKey.lt b.1 e.1 then some e else some b) best = some e →
      e ∈ l ∨ best = some e := by
  induction l with
  | nil => intro best e h; exact Or.inr h
  | cons x rest ih =>
    intro best e h
    rw [List.foldl_cons] at h
    rcases ih _ e h with hmem | hbest
    · exact Or.inl (List.mem_cons_of_mem _ hmem)
    · cases best with
      | none =>
        simp only [Option.some.injEq] at hbest
        exact Or.inl (hbest ▸ List.mem_cons_self _ _)
      | some b =>
        simp only at hbest
        split at hbest
        · simp only [Option.some.injEq] at hbest
          exact Or.inl (hbest ▸ List.mem_cons_self _ _)
        · exact Or.inr hbest

/-- What `lowerBound` returns is an entry of the cache. -/
theorem ObjectCache.lowerBound_mem {c : ObjectCache} {key : TemplateKey}
    {e : ChunkKey × TerrainDrawable} (h : c.lowerBound key = some e) : e ∈ c.mItems := by
  unfold ObjectCache.lowerBound at h
  rcases ObjectCache.lowerBound_foldl_mem _ _ _ h with hmem | hnone
  · exact (List.mem_filter.mp hmem).1
  · cases hnone

/-- The arrays of a chunk built by `createChunk` are the three objects allocated right after the
drawable, and at least five objects are allocated; the chunk cache is not touched. -/
theorem ChunkManager.createChunk_array_ids {fuel : Nat} {m : ChunkManager} {chunkSize : ℚ}
    {chunkCenter : Vec2f} {lod lodFlags : Nat} {compile : Bool}
    {templateGeometry : Option TerrainDrawable} {r : TerrainDrawable × ChunkManager}
    (h : m.createChunk fuel chunkSize chunkCenter lod lodFlags compile templateGeometry = some r) :
    r.1.mVertexArray.id = m.mNextId + 1 ∧ r.1.mNormalArray.id = m.mNextId + 2
    ∧ r.1.mColorArray.id = m.mNextId + 3 ∧ m.mNextId + 5 ≤ r.2.mNextId
    ∧ r.2.mCache = m.mCache := by
  obtain ⟨mat, hmat, -, hv, hn, hc, -, -, -, -, hev, -⟩ := ChunkManager.createChunk_some h
  have hmid : (m.createChunkMid chunkSize chunkCenter lod lodFlags templateGeometry).mNextId
      = m.mNextId + 5 := by
    cases templateGeometry <;>
      simp [ChunkManager.createChunkMid, ChunkManager.createChunkArrays, ChunkManager.log,
        ChunkManager.alloc]
  have hle := (ChunkManager.createChunkMaterial_evolves hmat).mNextId_le
  have hr2 : r.2.mNextId = mat.2.mNextId := by
    unfold ChunkManager.createChunk at h
    simp only [Option.map_eq_some'] at h
    obtain ⟨mat', hmat', rfl⟩ := h
    unfold ChunkManager.createChunkMid at hmat
    rw [hmat] at hmat'
    injection hmat' with hmat'
    subst hmat'
    simp only
    split <;> rfl
  refine ⟨?_, ?_, ?_, by omega, hev.mCache_eq⟩
  · rw [hv]; cases templateGeometry <;> rfl
  · rw [hn]; cases templateGeometry <;> rfl
  · rw [hc]; cases templateGeometry <;> rfl

/-- A newly constructed manager has an empty cache. -/
theorem ChunkManager.heapOk_new (storage : Storage) (sceneMgr : SceneManager)
    (textureManager : TextureManager) (worldspace : RefId) :
    (ChunkManager.new storage sceneMgr textureManager worldspace).heapOk := by
  intro e he
  simp [ChunkManager.new] at he

/-- Every `getChunk` call keeps the arrays of cached chunks below the allocation counter. -/
theorem ChunkManager.heapOk_getChunk {fuel : Nat} {m : ChunkManager} {size : ℚ} {center : Vec2f}
    {lod lodFlags : Nat} {activeGrid : Bool} {viewPoint : Vec3f} {compile : Bool}
    {r : TerrainDrawable × ChunkManager} (hm : m.heapOk)
    (h : m.getChunk fuel size center lod lodFlags activeGrid viewPoint compile = some r) :
    r.2.heapOk := by
  cases hget : m.mCache.getRefFromObjectCache ⟨center, (lodFlags >>> 16) % 256, lodFlags⟩ with
  | some obj =>
    rw [ChunkManager.getChunk_hit hget] at h
    injection h with h
    subst h
    exact hm
  | none =>
    rw [ChunkManager.getChunk_miss hget, Option.map_eq_some'] at h
    obtain ⟨c, hc, rfl⟩ := h
    obtain ⟨h1, h2, h3, h5, hcache⟩ := ChunkManager.createChunk_array_ids hc
    intro e he
    simp only [ObjectCache.addEntryToObjectCache, List.mem_cons, List.mem_filter] at he
    rcases he with rfl | ⟨hold, -⟩
    · simp only [h1, h2, h3]
      omega
    · rw [hcache] at hold
      have := hm e hold
      simp only
      omega

/-! ## The material of a fresh chunk -/

theorem ChunkManager.Evolves.mSceneManager_eq {P : Event → Prop} {a b : ChunkManager}
    (h : a.Evolves P b) : b.mSceneManager = a.mSceneManager := by
  obtain ⟨e1, n1, g1, rfl, _⟩ := h
  rfl

theorem ChunkManager.leafQuads_texture (left top width2 height2 : ℚ) (passes : List StateSet) :
    ∀ (compositeMap : CompositeMap) (m : ChunkManager),
      (ChunkManager.leafQuads left top width2 height2 passes compositeMap m).1.mTexture
          = compositeMap.mTexture
      ∧ (ChunkManager.leafQuads left top width2 height2 passes compositeMap m).1.id
          = compositeMap.id := by
  induction passes with
  | nil => intro cm m; exact ⟨rfl, rfl⟩
  | cons it rest ih =>
    intro cm m
    simp only [ChunkManager.leafQuads]
    exact ih _ _

/-- The recursion adds drawables to the composite map and keeps its texture and identity. -/
theorem ChunkManager.createCompositeMapGeometry_texture (fuel : Nat) :
    ∀ (m : ChunkManager) (lod : Int) (chunkSize : ℚ) (chunkCenter : Vec2f) (texCoords : Vec4f)
      (compositeMap : CompositeMap) (r : CompositeMap × ChunkManager),
      ChunkManager.createCompositeMapGeometry fuel m lod chunkSize chunkCenter texCoords compositeMap
        = some r → r.1.mTexture = compositeMap.mTexture ∧ r.1.id = compositeMap.id := by
  induction fuel with
  | zero => intro m lod cs cc tc cm r h; simp [ChunkManager.createCompositeMapGeometry] at h
  | succ fuel ih =>
    intro m lod cs cc tc cm r h
    rw [ChunkManager.createCompositeMapGeometry] at h
    split at h
    · simp only [Option.bind_eq_some] at h
      obtain ⟨r1, h1, r2, h2, r3, h3, h4⟩ := h
      have t1 := ih _ _ _ _ _ _ _ h1
      have t2 := ih _ _ _ _ _ _ _ h2
      have t3 := ih _ _ _ _ _ _ _ h3
      have t4 := ih _ _ _ _ _ _ _ h4
      exact ⟨t4.1.trans (t3.1.trans (t2.1.trans t1.1)), t4.2.trans (t3.2.trans (t2.2.trans t1.2))⟩
    · simp only [Option.some.injEq] at h
      subst h
      simp only [ChunkManager.createCompositeMapGeometryLeaf]
      exact ChunkManager.leafQuads_texture _ _ _ _ _ _ _

/-- Material of a chunk built without a template: at or above the composite threshold a
composite map whose texture is the only layer of a single pass, registered with the renderer
(deferred); below it no composite map and the passes of `createPasses`. -/
theorem ChunkManager.createChunkMaterial_fresh {fuel : Nat} {m : ChunkManager} {chunkSize : ℚ}
    {chunkCenter : Vec2f} {lod : Nat} {useCompositeMap : Bool} {mat : ChunkMaterial × ChunkManager}
    (h : m.createChunkMaterial fuel chunkSize chunkCenter lod useCompositeMap none = some mat) :
    (useCompositeMap = true → ∃ (cm : CompositeMap) (tex : Texture2D),
        mat.1.compositeMap = some cm ∧ cm.mTexture = some tex
        ∧ mat.1.passes = [StateSet.layerPass
            (m.mSceneManager.getForceShaders || !m.mSceneManager.getClampLighting) 0
            { mDiffuseMap := tex, mNormalMap := none, mParallax := false, mSpecular := false }
            [] 1 1]
        ∧ leafArea (leafCalls (m.since mat.2)) = 1)
    ∧ (useCompositeMap = false → mat.1.compositeMap = none
        ∧ mat.1.passes = (m.createPasses chunkSize chunkCenter false).1
        ∧ leafCalls (m.since mat.2) = []) := by
  cases useCompositeMap with
  | true =>
    refine ⟨fun _ => ?_, fun hf => by cases hf⟩
    simp only [ChunkManager.createChunkMaterial, if_true, Option.map_eq_some'] at h
    obtain ⟨c, hc, rfl⟩ := h
    have htex := ChunkManager.createCompositeMapGeometry_texture _ _ _ _ _ _ _ _ hc
    have e1 : m.Evolves (fun _ => True) m.alloc.2.createCompositeMapRTT.2 :=
      (ChunkManager.Evolves.alloc _ m).trans (ChunkManager.Evolves.alloc _ _)
    have e2 := ChunkManager.createCompositeMapGeometry_evolves _ _ _ _ _ _ _ _ hc
    have e3 : c.2.Evolves (fun _ => True) (c.2.log (Event.addCompositeMap c.1.id false)) :=
      ChunkManager.Evolves.log _ trivial
    have s1 : m.since m.alloc.2.createCompositeMapRTT.2 = [] := by
      simp [ChunkManager.since, ChunkManager.alloc, ChunkManager.createCompositeMapRTT]
    refine ⟨c.1, m.alloc.2.createCompositeMapRTT.1, rfl, htex.1, rfl, ?_⟩
    rw [ChunkManager.Evolves.since_trans (e1.trans (e2.mono fun _ _ => trivial)) e3,
      ChunkManager.Evolves.since_trans e1 e2, s1, ChunkManager.since_log, List.nil_append,
      leafCalls_append, leafArea_append,
      ChunkManager.createCompositeMapGeometry_area _ _ _ _ _ _ _ _ hc]
    simp [leafCalls, leafArea]
  | false =>
    refine ⟨fun hf => (by cases hf), fun _ => ?_⟩
    simp only [ChunkManager.createChunkMaterial, Bool.false_eq_true, if_false,
      Option.some.injEq] at h
    subst h
    refine ⟨rfl, rfl, ?_⟩
    exact leafCalls_eq_nil fun e he => Event.isLeafBody_of_isPasses
      ((ChunkManager.createPasses_evolves m chunkSize chunkCenter false).since_all e he)

/-- Without a template, the arrays of the chunk hold what `fillVertexBuffers` returned. -/
theorem ChunkManager.createChunk_fresh_arrays {fuel : Nat} {m : ChunkManager} {chunkSize : ℚ}
    {chunkCenter : Vec2f} {lod lodFlags : Nat} {compile : Bool}
    {r : TerrainDrawable × ChunkManager}
    (h : m.createChunk fuel chunkSize chunkCenter lod lodFlags compile none = some r) :
    r.1.mVertexArray.data = (m.mStorage.fillVertexBuffers lod chunkSize chunkCenter m.mWorldspace
        (decide (chunkSize ≥ m.mCompositeMapLevel))).1
    ∧ r.1.mNormalArray.data = (m.mStorage.fillVertexBuffers lod chunkSize chunkCenter m.mWorldspace
        (decide (chunkSize ≥ m.mCompositeMapLevel))).2.1
    ∧ r.1.mColorArray.data = (m.mStorage.fillVertexBuffers lod chunkSize chunkCenter m.mWorldspace
        (decide (chunkSize ≥ m.mCompositeMapLevel))).2.2 := by
  obtain ⟨mat, -, -, hv, hn, hc, -⟩ := ChunkManager.createChunk_some h
  rw [hv, hn, hc]
  exact ⟨rfl, rfl, rfl⟩

theorem firstRequest_eq : freshManager.getChunk 2 (1 / 2) ⟨0, 0⟩ 0 0 true ⟨0, 0, 0⟩ true
    = some (firstChunk, warmManager) := by
  have h : firstRequest = some (firstRequest.get (by decide!)) := (Option.some_get _).symm
  exact h

/-! ## The leaves of a run -/

/-- Induction over the call tree of `createCompositeMapGeometry`: a property of (chunk size,
texCoords, leaves reached) that holds at every leaf call and passes from the four recursive calls
of a subdividing step to the step holds for every returning call. -/
theorem ChunkManager.createCompositeMapGeometry_leaves_induction (t : ℚ)
    (Q : ℚ → Vec4f → List (ℚ × Vec4f) → Prop)
    (hleaf : ∀ (chunkSize : ℚ) (texCoords : Vec4f), ¬ chunkSize > t →
      Q chunkSize texCoords [(chunkSize, texCoords)])
    (hstep : ∀ (chunkSize : ℚ) (texCoords : Vec4f) (l1 l2 l3 l4 : List (ℚ × Vec4f)),
      chunkSize > t →
      Q (chunkSize / 2) ⟨texCoords.x + texCoords.z / 2, texCoords.y, texCoords.z / 2,
        texCoords.w / 2⟩ l1 →
      Q (chunkSize / 2) ⟨texCoords.x, texCoords.y, texCoords.z / 2, texCoords.w / 2⟩ l2 →
      Q (chunkSize / 2) ⟨texCoords.x + texCoords.z / 2, texCoords.y + texCoords.w / 2,
        texCoords.z / 2, texCoords.w / 2⟩ l3 →
      Q (chunkSize / 2) ⟨texCoords.x, texCoords.y + texCoords.w / 2, texCoords.z / 2,
        texCoords.w / 2⟩ l4 →
      Q chunkSize texCoords (l1 ++ l2 ++ l3 ++ l4))
    (fuel : Nat) :
    ∀ (m : ChunkManager) (lod : Int) (chunkSize : ℚ) (chunkCenter : Vec2f) (texCoords : Vec4f)
      (compositeMap : CompositeMap) (r : CompositeMap × ChunkManager),
      m.mMaxCompGeometrySize = t →
      ChunkManager.createCompositeMapGeometry fuel m lod chunkSize chunkCenter texCoords compositeMap
        = some r → Q chunkSize texCoords (leafCalls (m.since r.2)) := by
  induction fuel with
  | zero => intro m lod cs cc tc cm r _ h; simp [ChunkManager.createCompositeMapGeometry] at h
  | succ fuel ih =>
    intro m lod cs cc tc cm r hm h
    rw [ChunkManager.createCompositeMapGeometry] at h
    split at h
    · rename_i hgt
      simp only [Option.bind_eq_some] at h
      obtain ⟨r1, h1, r2, h2, r3, h3, h4⟩ := h
      have e1 := (ChunkManager.createCompositeMapGeometry_evolves _ _ _ _ _ _ _ _ h1).mMaxCompGeometrySize_eq
      have e2 := (ChunkManager.createCompositeMapGeometry_evolves _ _ _ _ _ _ _ _ h2).mMaxCompGeometrySize_eq
      have e3 := (ChunkManager.createCompositeMapGeometry_evolves _ _ _ _ _ _ _ _ h3).mMaxCompGeometrySize_eq
      rw [ChunkManager.createCompositeMapGeometry_since h1 h2 h3 h4]
      exact hstep cs tc _ _ _ _ (hm ▸ hgt) (ih _ _ _ _ _ _ _ hm h1)
        (ih _ _ _ _ _ _ _ (e1.trans hm) h2) (ih _ _ _ _ _ _ _ (e2.trans (e1.trans hm)) h3)
        (ih _ _ _ _ _ _ _ (e3.trans (e2.trans (e1.trans hm))) h4)
    · rename_i hgt
      simp only [Option.some.injEq] at h
      subst h
      rw [ChunkManager.createCompositeMapGeometryLeaf_leafCalls]
      exact hleaf cs tc (hm ▸ hgt)

/-- A subdividing call that returns has made the four recursive calls, on half the chunk size and
on the four quadrants, each returning; its leaves are theirs, in call order. -/
theorem ChunkManager.createCompositeMapGeometry_step {fuel : Nat} {m : ChunkManager} {lod : Int}
    {chunkSize : ℚ} {chunkCenter : Vec2f} {texCoords : Vec4f} {compositeMap : CompositeMap}
    {r : CompositeMap × ChunkManager} (hgt : chunkSize > m.mMaxCompGeometrySize)
    (h : ChunkManager.createCompositeMapGeometry (fuel + 1) m lod chunkSize chunkCenter texCoords
      compositeMap = some r) :
    ∃ r1 r2 r3 : CompositeMap × ChunkManager,
      ChunkManager.createCompositeMapGeometry fuel m lod (chunkSize / 2)
        (chunkCenter.add ⟨chunkSize / 4, chunkSize / 4⟩)
        ⟨texCoords.x + texCoords.z / 2, texCoords.y, texCoords.z / 2, texCoords.w / 2⟩
        compositeMap = some r1
      ∧ ChunkManager.createCompositeMapGeometry fuel r1.2 lod (chunkSize / 2)
        (chunkCenter.add ⟨-chunkSize / 4, chunkSize / 4⟩)
        ⟨texCoords.x, texCoords.y, texCoords.z / 2, texCoords.w / 2⟩ r1.1 = some r2
      ∧ ChunkManager.createCompositeMapGeometry fuel r2.2 lod (chunkSize / 2)
        (chunkCenter.add ⟨chunkSize / 4, -chunkSize / 4⟩)
        ⟨texCoords.x + texCoords.z / 2, texCoords.y + texCoords.w / 2, texCoords.z / 2,
          texCoords.w / 2⟩ r2.1 = some r3
      ∧ ChunkManager.createCompositeMapGeometry fuel r3.2 lod (chunkSize / 2)
        (chunkCenter.add ⟨-chunkSize / 4, -chunkSize / 4⟩)
        ⟨texCoords.x, texCoords.y + texCoords.w / 2, texCoords.z / 2, texCoords.w / 2⟩ r3.1
          = some r
      ∧ leafCalls (m.since r.2) = leafCalls (m.since r1.2) ++ leafCalls (r1.2.since r2.2)
          ++ leafCalls (r2.2.since r3.2) ++ leafCalls (r3.2.since r.2) := by
  rw [ChunkManager.createCompositeMapGeometry, if_pos hgt] at h
  simp only [Option.bind_eq_some] at h
  obtain ⟨r1, h1, r2, h2, r3, h3, h4⟩ := h
  exact ⟨r1, r2, r3, h1, h2, h3, h4, ChunkManager.createCompositeMapGeometry_since h1 h2 h3 h4⟩

/-! ## Geometry of the quadrants -/

theorem Vec4f.quadrants_extent (t q : Vec4f) (hq : q ∈ t.quadrants) :
    q.z = t.z / 2 ∧ q.w = t.w / 2 ∧ q.z * q.w = t.z * t.w / 4 := by
  simp only [Vec4f.quadrants, List.mem_cons, List.mem_singleton, List.not_mem_nil, or_false] at hq
  rcases hq with rfl | rfl | rfl | rfl <;> refine ⟨rfl, rfl, ?_⟩ <;> simp only <;> ring

/-- The interior of a quadrant lies in the interior of the parent rectangle. -/
theorem Vec4f.quadrants_interior (t q : Vec4f) (hq : q ∈ t.quadrants) (px py : ℚ)
    (h : q.interior px py) : t.interior px py := by
  simp only [Vec4f.quadrants, List.mem_cons, List.mem_singleton, List.not_mem_nil, or_false] at hq
  rcases hq with rfl | rfl | rfl | rfl <;>
    (simp only [Vec4f.interior] at h ⊢
     obtain ⟨h1, h2, h3, h4⟩ := h
     refine ⟨?_, ?_, ?_, ?_⟩ <;> linarith)

/-- No two of the four quadrants overlap. -/
theorem Vec4f.quadrants_pairwise (t : Vec4f) :
    t.quadrants.Pairwise fun a b => ¬ a.overlaps b := by
  simp only [Vec4f.quadrants, List.pairwise_cons, List.mem_cons, List.mem_singleton,
    List.not_mem_nil, forall_eq_or_imp, forall_eq, Vec4f.overlaps, Vec4f.interior,
    List.Pairwise.nil, and_true, IsEmpty.forall_iff, implies_true]
  refine ⟨⟨?_, ?_, ?_⟩, ⟨?_, ?_⟩, ?_⟩ <;>
    (rintro ⟨px, py, ⟨a1, a2, a3, a4⟩, b1, b2, b3, b4⟩
     linarith)

/-- The four quadrants together cover exactly the parent rectangle. -/
theorem Vec4f.quadrants_cover (t : Vec4f) (px py : ℚ) :
    t.covers px py ↔ ∃ q ∈ t.quadrants, q.covers px py := by
  simp only [Vec4f.quadrants, List.mem_cons, List.mem_singleton, List.not_mem_nil, or_false,
    exists_eq_or_imp, exists_eq_left, Vec4f.covers]
  constructor
  · rintro ⟨h1, h2, h3, h4⟩
    rcases le_total px (t.x + t.z / 2) with hx | hx <;>
      rcases le_total py (t.y + t.w / 2) with hy | hy
    · right; left; exact ⟨h1, hx, h3, hy⟩
    · right; right; right; exact ⟨h1, hx, hy, by linarith⟩
    · left; exact ⟨hx, by linarith, h3, hy⟩
    · right; right; left; exact ⟨hx, by linarith, hy, by linarith⟩
  · rintro (⟨h1, h2, h3, h4⟩ | ⟨h1, h2, h3, h4⟩ | ⟨h1, h2, h3, h4⟩ | ⟨h1, h2, h3, h4⟩) <;>
      refine ⟨?_, ?_, ?_, ?_⟩ <;> linarith

/-- The interiors of the leaf rectangles of a returning call lie in the interior of the initial
rectangle, and no two leaf rectangles overlap. -/
theorem ChunkManager.createCompositeMapGeometry_leaves_disjoint {fuel : Nat} {m : ChunkManager}
    {lod : Int} {chunkSize : ℚ} {chunkCenter : Vec2f} {texCoords : Vec4f}
    {compositeMap : CompositeMap} {r : CompositeMap × ChunkManager}
    (h : ChunkManager.createCompositeMapGeometry fuel m lod chunkSize chunkCenter texCoords
      compositeMap = some r) :
    (∀ e ∈ leafCalls (m.since r.2), ∀ px py, e.2.interior px py → texCoords.interior px py)
    ∧ (leafCalls (m.since r.2)).Pairwise fun a b => ¬ a.2.overlaps b.2 := by
  refine ChunkManager.createCompositeMapGeometry_leaves_induction m.mMaxCompGeometrySize
    (fun _ tc l => (∀ e ∈ l, ∀ px py, e.2.interior px py → tc.interior px py)
      ∧ l.Pairwise fun a b => ¬ a.2.overlaps b.2) ?_ ?_ fuel m lod chunkSize chunkCenter texCoords
      compositeMap r rfl h
  · intro cs tc _
    exact ⟨fun e he px py hp => by simp only [List.mem_singleton] at he; subst he; exact hp,
      List.pairwise_singleton _ _⟩
  · intro cs tc l1 l2 l3 l4 _ ⟨i1, p1⟩ ⟨i2, p2⟩ ⟨i3, p3⟩ ⟨i4, p4⟩
    have q1 : (⟨tc.x + tc.z / 2, tc.y, tc.z / 2, tc.w / 2⟩ : Vec4f) ∈ tc.quadrants := by
      simp [Vec4f.quadrants]
    have q2 : (⟨tc.x, tc.y, tc.z / 2, tc.w / 2⟩ : Vec4f) ∈ tc.quadrants := by
      simp [Vec4f.quadrants]
    have q3 : (⟨tc.x + tc.z / 2, tc.y + tc.w / 2, tc.z / 2, tc.w / 2⟩ : Vec4f) ∈ tc.quadrants := by
      simp [Vec4f.quadrants]
    have q4 : (⟨tc.x, tc.y + tc.w / 2, tc.z / 2, tc.w / 2⟩ : Vec4f) ∈ tc.quadrants := by
      simp [Vec4f.quadrants]
    have hq := Vec4f.quadrants_pairwise tc
    simp only [Vec4f.quadrants, List.pairwise_cons, List.mem_cons, List.mem_singleton,
      List.not_mem_nil, forall_eq_or_imp, forall_eq, List.Pairwise.nil, and_true,
      IsEmpty.forall_iff, implies_true] at hq
    obtain ⟨⟨d12, d13, d14⟩, ⟨d23, d24⟩, d34⟩ := hq
    have cross : ∀ {qa qb : Vec4f} {la lb : List (ℚ × Vec4f)}, ¬ qa.overlaps qb →
        (∀ e ∈ la, ∀ px py, e.2.interior px py → qa.interior px py) →
        (∀ e ∈ lb, ∀ px py, e.2.interior px py → qb.interior px py) →
        ∀ a ∈ la, ∀ b ∈ lb, ¬ a.2.overlaps b.2 := by
      intro qa qb la lb hd ha hb a hal b hbl ⟨px, py, hpa, hpb⟩
      exact hd ⟨px, py, ha a hal px py hpa, hb b hbl px py hpb⟩
    constructor
    · intro e he px py hp
      simp only [List.mem_append] at he
      rcases he with ((he | he) | he) | he
      · exact Vec4f.quadrants_interior tc _ q1 px py (i1 e he px py hp)
      · exact Vec4f.quadrants_interior tc _ q2 px py (i2 e he px py hp)
      · exact Vec4f.quadrants_interior tc _ q3 px py (i3 e he px py hp)
      · exact Vec4f.quadrants_interior tc _ q4 px py (i4 e he px py hp)
    · rw [List.pairwise_append, List.pairwise_append, List.pairwise_append]
      refine ⟨⟨⟨p1, p2, cross d12 i1 i2⟩, p3, ?_⟩, p4, ?_⟩
      · intro a ha b hb
        simp only [List.mem_append] at ha
        rcases ha with ha | ha
        · exact cross d13 i1 i3 a ha b hb
        · exact cross d23 i2 i3 a ha b hb
      · intro a ha b hb
        simp only [List.mem_append] at ha
        rcases ha with (ha | ha) | ha
        · exact cross d14 i1 i4 a ha b hb
        · exact cross d24 i2 i4 a ha b hb
        · exact cross d34 i3 i4 a ha b hb

/-- Started on a rectangle of positive extent, every leaf rectangle of a returning call has
positive extent and lies inside the initial rectangle. -/
theorem ChunkManager.createCompositeMapGeometry_leaves_inside {fuel : Nat} {m : ChunkManager}
    {lod : Int} {chunkSize : ℚ} {chunkCenter : Vec2f} {texCoords : Vec4f}
    {compositeMap : CompositeMap} {r : CompositeMap × ChunkManager}
    (h : ChunkManager.createCompositeMapGeometry fuel m lod chunkSize chunkCenter texCoords
      compositeMap = some r) (hz : 0 < texCoords.z) (hw : 0 < texCoords.w) :
    ∀ e ∈ leafCalls (m.since r.2), e.2.inside texCoords := by
  refine ChunkManager.createCompositeMapGeometry_leaves_induction m.mMaxCompGeometrySize
    (fun _ tc l => 0 < tc.z → 0 < tc.w → ∀ e ∈ l, e.2.inside tc) ?_ ?_ fuel m lod chunkSize
      chunkCenter texCoords compositeMap r rfl h hz hw
  · intro cs tc _ hz hw e he
    simp only [List.mem_singleton] at he
    subst he
    exact ⟨le_refl _, le_refl _, le_refl _, le_refl _, hz, hw⟩
  · intro cs tc l1 l2 l3 l4 _ i1 i2 i3 i4 hz hw e he
    have hz2 : 0 < tc.z / 2 := by linarith
    have hw2 : 0 < tc.w / 2 := by linarith
    simp only [List.mem_append] at he
    rcases he with ((he | he) | he) | he
    · obtain ⟨a, b, c, d, e1, e2⟩ := i1 hz2 hw2 e he
      simp only at a b c d
      exact ⟨by linarith, by linarith, by linarith, by linarith, e1, e2⟩
    · obtain ⟨a, b, c, d, e1, e2⟩ := i2 hz2 hw2 e he
      simp only at a b c d
      exact ⟨by linarith, by linarith, by linarith, by linarith, e1, e2⟩
    · obtain ⟨a, b, c, d, e1, e2⟩ := i3 hz2 hw2 e he
      simp only at a b c d
      exact ⟨by linarith, by linarith, by linarith, by linarith, e1, e2⟩
    · obtain ⟨a, b, c, d, e1, e2⟩ := i4 hz2 hw2 e he
      simp only at a b c d
      exact ⟨by linarith, by linarith, by linarith, by linarith, e1, e2⟩

/-- The leaf rectangles of a returning call cover the initial rectangle. -/
theorem ChunkManager.createCompositeMapGeometry_leaves_cover {fuel : Nat} {m : ChunkManager}
    {lod : Int} {chunkSize : ℚ} {chunkCenter : Vec2f} {texCoords : Vec4f}
    {compositeMap : CompositeMap} {r : CompositeMap × ChunkManager}
    (h : ChunkManager.createCompositeMapGeometry fuel m lod chunkSize chunkCenter texCoords
      compositeMap = some r) :
    ∀ px py, texCoords.covers px py → ∃ e ∈ leafCalls (m.since r.2), e.2.covers px py := by
  refine ChunkManager.createCompositeMapGeometry_leaves_induction m.mMaxCompGeometrySize
    (fun _ tc l => ∀ px py, tc.covers px py → ∃ e ∈ l, e.2.covers px py) ?_ ?_ fuel m lod chunkSize
      chunkCenter texCoords compositeMap r rfl h
  · intro cs tc _ px py hp
    exact ⟨(cs, tc), List.mem_singleton.mpr rfl, hp⟩
  · intro cs tc l1 l2 l3 l4 _ i1 i2 i3 i4 px py hp
    obtain ⟨q, hq, hqp⟩ := (Vec4f.quadrants_cover tc px py).mp hp
    simp only [Vec4f.quadrants, List.mem_cons, List.mem_singleton, List.not_mem_nil,
      or_false] at hq
    rcases hq with rfl | rfl | rfl | rfl
    · obtain ⟨e, he, hc⟩ := i1 px py hqp
      exact ⟨e, by simp [he], hc⟩
    · obtain ⟨e, he, hc⟩ := i2 px py hqp
      exact ⟨e, by simp [he], hc⟩
    · obtain ⟨e, he, hc⟩ := i3 px py hqp
      exact ⟨e, by simp [he], hc⟩
    · obtain ⟨e, he, hc⟩ := i4 px py hqp
      exact ⟨e, by simp [he], hc⟩

/-! ## Depth of the recursion -/

/-- A returning call whose chunk size is at most `2 ^ k` thresholds reaches at most `4 ^ k`
leaves. -/
theorem ChunkManager.createCompositeMapGeometry_leaf_bound {fuel : Nat} {m : ChunkManager}
    {lod : Int} {chunkSize : ℚ} {chunkCenter : Vec2f} {texCoords : Vec4f}
    {compositeMap : CompositeMap} {r : CompositeMap × ChunkManager}
    (h : ChunkManager.createCompositeMapGeometry fuel m lod chunkSize chunkCenter texCoords
      compositeMap = some r) :
    ∀ k : Nat, chunkSize ≤ m.mMaxCompGeometrySize * 2 ^ k →
      (leafCalls (m.since r.2)).length ≤ 4 ^ k := by
  refine ChunkManager.createCompositeMapGeometry_leaves_induction m.mMaxCompGeometrySize
    (fun cs _ l => ∀ k : Nat, cs ≤ m.mMaxCompGeometrySize * 2 ^ k → l.length ≤ 4 ^ k) ?_ ?_ fuel
      m lod chunkSize chunkCenter texCoords compositeMap r rfl h
  · intro cs tc _ k _
    simp only [List.length_singleton]
    exact Nat.one_le_pow _ _ (by norm_num)
  · intro cs tc l1 l2 l3 l4 hgt i1 i2 i3 i4 k hk
    cases k with
    | zero =>
      simp only [pow_zero, mul_one] at hk
      exact absurd hgt (not_lt.mpr hk)
    | succ k =>
      have hhalf : cs / 2 ≤ m.mMaxCompGeometrySize * 2 ^ k := by
        rw [pow_succ] at hk
        linarith
      have b1 := i1 k hhalf
      have b2 := i2 k hhalf
      have b3 := i3 k hhalf
      have b4 := i4 k hhalf
      simp only [List.length_append]
      rw [pow_succ]
      omega

/-- The recursion depth for chunk size `s` and positive threshold `t`: a number `d` of halvings,
0 when `s ≤ t` and otherwise at least 1 with `t * 2 ^ (d - 1) < s ≤ t * 2 ^ d`, such that every
call returns exactly when its fuel exceeds `d` and every leaf has chunk size `s / 2 ^ d`. -/
theorem ChunkManager.createCompositeMapGeometry_depth (k : Nat) :
    ∀ (s t : ℚ), 0 < t → s ≤ t * 2 ^ k →
      ∃ d : Nat, d ≤ k ∧ (s ≤ t → d = 0) ∧ (t < s → 1 ≤ d ∧ t * 2 ^ (d - 1) < s) ∧ s ≤ t * 2 ^ d
        ∧ ∀ (m : ChunkManager) (lod : Int) (chunkCenter : Vec2f) (texCoords : Vec4f)
            (compositeMap : CompositeMap), m.mMaxCompGeometrySize = t →
            (∀ fuel : Nat, (ChunkManager.createCompositeMapGeometry fuel m lod s chunkCenter
                texCoords compositeMap).isSome = true ↔ d < fuel)
            ∧ (∀ (fuel : Nat) (r : CompositeMap × ChunkManager),
                ChunkManager.createCompositeMapGeometry fuel m lod s chunkCenter texCoords
                  compositeMap = some r →
                ∀ l ∈ leafCalls (m.since r.2), l.1 = s / 2 ^ d) := by
  have leafCase : ∀ (s t : ℚ), s ≤ t →
      ∀ (m : ChunkManager) (lod : Int) (chunkCenter : Vec2f) (texCoords : Vec4f)
        (compositeMap : CompositeMap), m.mMaxCompGeometrySize = t →
        (∀ fuel : Nat, (ChunkManager.createCompositeMapGeometry fuel m lod s chunkCenter
            texCoords compositeMap).isSome = true ↔ 0 < fuel)
        ∧ (∀ (fuel : Nat) (r : CompositeMap × ChunkManager),
            ChunkManager.createCompositeMapGeometry fuel m lod s chunkCenter texCoords
              compositeMap = some r →
            ∀ l ∈ leafCalls (m.since r.2), l.1 = s / 2 ^ 0) := by
    intro s t hst m lod cc tc cm hm
    have hng : ¬ s > m.mMaxCompGeometrySize := by rw [hm]; exact not_lt.mpr hst
    constructor
    · intro fuel
      cases fuel with
      | zero => simp [ChunkManager.createCompositeMapGeometry]
      | succ fuel => simp [ChunkManager.createCompositeMapGeometry, hng]
    · intro fuel r h
      cases fuel with
      | zero => simp [ChunkManager.createCompositeMapGeometry] at h
      | succ fuel =>
        rw [ChunkManager.createCompositeMapGeometry, if_neg hng] at h
        injection h with h
        subst h
        rw [ChunkManager.createCompositeMapGeometryLeaf_leafCalls]
        intro l hl
        simp only [List.mem_singleton] at hl
        subst hl
        simp
  induction k with
  | zero =>
    intro s t _ hle
    simp only [pow_zero, mul_one] at hle
    exact ⟨0, le_refl _, fun _ => rfl, fun h => absurd h (not_lt.mpr hle), by simpa using hle,
      leafCase s t hle⟩
  | succ k ih =>
    intro s t ht hle
    by_cases hst : s ≤ t
    · exact ⟨0, Nat.zero_le _, fun _ => rfl, fun h => absurd h (not_lt.mpr hst),
        by simpa using hst, leafCase s t hst⟩
    · have hgt : t < s := not_le.mp hst
      have hhalf : s / 2 ≤ t * 2 ^ k := by
        rw [pow_succ] at hle
        linarith
      obtain ⟨d, hdk, hd0, hd1, hdle, hrun⟩ := ih (s / 2) t ht hhalf
      refine ⟨d + 1, by omega, fun h => absurd h hst, fun _ => ⟨by omega, ?_⟩, ?_, ?_⟩
      · simp only [Nat.add_sub_cancel]
        by_cases h2 : s / 2 ≤ t
        · rw [hd0 h2]
          simpa using hgt
        · obtain ⟨h1d, hlt⟩ := hd1 (not_le.mp h2)
          obtain ⟨j, rfl⟩ : ∃ j, d = j + 1 := ⟨d - 1, by omega⟩
          simp only [Nat.add_sub_cancel] at hlt
          rw [pow_succ]
          linarith
      · rw [pow_succ]
        linarith
      · intro m lod cc tc cm hm
        have hgm : s > m.mMaxCompGeometrySize := by rw [hm]; exact hgt
        constructor
        · intro fuel
          cases fuel with
          | zero => simp [ChunkManager.createCompositeMapGeometry]
          | succ fuel =>
            rw [ChunkManager.createCompositeMapGeometry, if_pos hgm]
            constructor
            · intro h
              have h1 : (ChunkManager.createCompositeMapGeometry fuel m lod (s / 2)
                  (cc.add ⟨s / 4, s / 4⟩) ⟨tc.x + tc.z / 2, tc.y, tc.z / 2, tc.w / 2⟩
                  cm).isSome = true := by
                cases hc : ChunkManager.createCompositeMapGeometry fuel m lod (s / 2)
                  (cc.add ⟨s / 4, s / 4⟩) ⟨tc.x + tc.z / 2, tc.y, tc.z / 2, tc.w / 2⟩ cm with
                | none => rw [hc] at h; simp at h
                | some _ => rfl
              have := ((hrun m lod _ _ _ hm).1 fuel).mp h1
              omega
            · intro h
              have hd : d < fuel := by omega
              obtain ⟨r1, h1⟩ := Option.isSome_iff_exists.mp
                (((hrun m lod (cc.add ⟨s / 4, s / 4⟩)
                  ⟨tc.x + tc.z / 2, tc.y, tc.z / 2, tc.w / 2⟩ cm hm).1 fuel).mpr hd)
              have e1 := (ChunkManager.createCompositeMapGeometry_evolves _ _ _ _ _ _ _ _
                h1).mMaxCompGeometrySize_eq
              obtain ⟨r2, h2⟩ := Option.isSome_iff_exists.mp
                (((hrun r1.2 lod (cc.add ⟨-s / 4, s / 4⟩)
                  ⟨tc.x, tc.y, tc.z / 2, tc.w / 2⟩ r1.1 (e1.trans hm)).1 fuel).mpr hd)
              have e2 := (ChunkManager.createCompositeMapGeometry_evolves _ _ _ _ _ _ _ _
                h2).mMaxCompGeometrySize_eq
              obtain ⟨r3, h3⟩ := Option.isSome_iff_exists.mp
                (((hrun r2.2 lod (cc.add ⟨s / 4, -s / 4⟩)
                  ⟨tc.x + tc.z / 2, tc.y + tc.w / 2, tc.z / 2, tc.w / 2⟩ r2.1
                  (e2.trans (e1.trans hm))).1 fuel).mpr hd)
              have e3 := (ChunkManager.createCompositeMapGeometry_evolves _ _ _ _ _ _ _ _
                h3).mMaxCompGeometrySize_eq
              obtain ⟨r4, h4⟩ := Option.isSome_iff_exists.mp
                (((hrun r3.2 lod (cc.add ⟨-s / 4, -s / 4⟩)
                  ⟨tc.x, tc.y + tc.w / 2, tc.z / 2, tc.w / 2⟩ r3.1
                  (e3.trans (e2.trans (e1.trans hm)))).1 fuel).mpr hd)
              simp [h1, h2, h3, h4]
        · intro fuel r h
          cases fuel with
          | zero => simp [ChunkManager.createCompositeMapGeometry] at h
          | succ fuel =>
            obtain ⟨r1, r2, r3, h1, h2, h3, h4, hleaves⟩ :=
              ChunkManager.createCompositeMapGeometry_step hgm h
            have e1 := (ChunkManager.createCompositeMapGeometry_evolves _ _ _ _ _ _ _ _
              h1).mMaxCompGeometrySize_eq
            have e2 := (ChunkManager.createCompositeMapGeometry_evolves _ _ _ _ _ _ _ _
              h2).mMaxCompGeometrySize_eq
            have e3 := (ChunkManager.createCompositeMapGeometry_evolves _ _ _ _ _ _ _ _
              h3).mMaxCompGeometrySize_eq
            have hsz : s / 2 / 2 ^ d = s / 2 ^ (d + 1) := by rw [div_div, pow_succ, mul_comm]
            intro l hl
            rw [hleaves, List.mem_append, List.mem_append, List.mem_append] at hl
            rw [← hsz]
            rcases hl with ((hl | hl) | hl) | hl
            · exact (hrun m lod _ _ _ hm).2 fuel r1 h1 l hl
            · exact (hrun r1.2 lod _ _ _ (e1.trans hm)).2 fuel r2 h2 l hl
            · exact (hrun r2.2 lod _ _ _ (e2.trans (e1.trans hm))).2 fuel r3 h3 l hl
            · exact (hrun r3.2 lod _ _ _ (e3.trans (e2.trans (e1.trans hm)))).2 fuel r h4 l hl

/-! ## The composite-map constants -/

/-- The loop over the passes appends one textured quad per pass, in pass order, allocating one
object for each; nothing else changes. -/
theorem ChunkManager.leafQuads_eq (left top width2 height2 : ℚ) (passes : List StateSet) :
    ∀ (compositeMap : CompositeMap) (m : ChunkManager),
      ChunkManager.leafQuads left top width2 height2 passes compositeMap m
        = ({ compositeMap with
              mDrawables := compositeMap.mDrawables ++ (passes.enumFrom m.mNextId).map fun p =>
                Drawable.texturedQuad p.1 ⟨left, top, 0⟩ ⟨width2, 0, 0⟩ ⟨0, height2, 0⟩ p.2 },
           { m with mNextId := m.mNextId + passes.length }) := by
  induction passes with
  | nil => intro cm m; simp [ChunkManager.leafQuads]
  | cons it rest ih =>
    intro cm m
    simp only [ChunkManager.leafQuads, ih, ChunkManager.alloc, List.enumFrom_cons, List.map_cons,
      List.append_assoc, List.singleton_append, List.length_cons]
    congr 2
    omega

/-- The drawables of the composite map after a leaf call: those it had, then one textured quad
per pass, then the vertex-color drawable. -/
theorem ChunkManager.createCompositeMapGeometryLeaf_drawables (m : ChunkManager) (chunkSize : ℚ)
    (chunkCenter : Vec2f) (texCoords : Vec4f) (compositeMap : CompositeMap) :
    (m.createCompositeMapGeometryLeaf chunkSize chunkCenter texCoords compositeMap).1.mDrawables
      = compositeMap.mDrawables
        ++ ((m.leafPasses chunkSize chunkCenter texCoords).1.enumFrom
              (m.leafPasses chunkSize chunkCenter texCoords).2.mNextId).map (fun p =>
            Drawable.texturedQuad p.1 ⟨texCoords.x * 2 - 1, texCoords.y * 2 - 1, 0⟩
              ⟨texCoords.z * 2, 0, 0⟩ ⟨0, texCoords.w * 2, 0⟩ p.2)
        ++ [Drawable.vertexColor
              ((m.leafPasses chunkSize chunkCenter texCoords).2.mNextId
                + (m.leafPasses chunkSize chunkCenter texCoords).1.length)
              (m.leafTemplate chunkSize chunkCenter texCoords).1.mVertexArray
              ⟨(m.leafTemplate chunkSize chunkCenter texCoords).2.mNextId,
                m.mStorage.fillVertexBuffersCompositeMap ((0 : Nat) : Int) chunkSize chunkCenter
                  m.mWorldspace⟩
              (m.leafTemplate chunkSize chunkCenter texCoords).1.mPrimitiveSet
              (StateSet.blended BlendFactor.ZERO BlendFactor.SRC_COLOR)] := by
  simp only [ChunkManager.createCompositeMapGeometryLeaf, ChunkManager.leafQuads_eq,
    ChunkManager.leafPasses, ChunkManager.leafTemplate, ChunkManager.alloc]

/-! ## The composite geometry cache -/

theorem ChunkManager.createPassesLayers_geomCache (forCompositeMap : Bool)
    (layerList : List LayerInfo) :
    ∀ (layers : List TextureLayer) (useShaders : Bool) (m : ChunkManager),
      (ChunkManager.createPassesLayers forCompositeMap layerList layers useShaders
          m).2.2.mCompositeMapGeometryCache = m.mCompositeMapGeometryCache := by
  induction layerList with
  | nil => intro layers useShaders m; rfl
  | cons it rest ih =>
    intro layers useShaders m
    simp only [ChunkManager.createPassesLayers, ih]
    split <;> rfl

theorem ChunkManager.createPassesBlendmaps_geomCache (blendmaps : List Image) :
    ∀ (ts : List Texture2D) (m : ChunkManager),
      (ChunkManager.createPassesBlendmaps blendmaps ts m).2.mCompositeMapGeometryCache
        = m.mCompositeMapGeometryCache := by
  induction blendmaps with
  | nil => intro ts m; rfl
  | cons it rest ih =>
    intro ts m
    simp only [ChunkManager.createPassesBlendmaps, ih]
    rfl

/-- The member function `createPasses` does not touch the composite geometry cache. -/
theorem ChunkManager.createPasses_geomCache (m : ChunkManager) (chunkSize : ℚ)
    (chunkCenter : Vec2f) (forCompositeMap : Bool) :
    (m.createPasses chunkSize chunkCenter forCompositeMap).2.mCompositeMapGeometryCache
      = m.mCompositeMapGeometryCache := by
  simp only [ChunkManager.createPasses, ChunkManager.log,
    ChunkManager.createPassesBlendmaps_geomCache, ChunkManager.createPassesLayers_geomCache]

/-- After the template lookup, a leaf call changes the composite geometry cache no more. -/
theorem ChunkManager.createCompositeMapGeometryLeaf_geomCache (m : ChunkManager) (chunkSize : ℚ)
    (chunkCenter : Vec2f) (texCoords : Vec4f) (compositeMap : CompositeMap) :
    (m.createCompositeMapGeometryLeaf chunkSize chunkCenter texCoords
        compositeMap).2.mCompositeMapGeometryCache
      = (m.leafTemplate chunkSize chunkCenter texCoords).2.mCompositeMapGeometryCache := by
  simp only [ChunkManager.createCompositeMapGeometryLeaf, ChunkManager.leafQuads_eq,
    ChunkManager.alloc, ChunkManager.createPasses_geomCache, ChunkManager.log,
    ChunkManager.leafTemplate]

/-- A key found in the cache: the leaf works with the cached geometry and builds nothing. -/
theorem ChunkManager.leafTemplate_hit {m : ChunkManager} {chunkSize : ℚ} {chunkCenter : Vec2f}
    {texCoords : Vec4f} {g : TemplateGeom}
    (h : m.mCompositeMapGeometryCache.lookup (ChunkManager.leafGeomKey chunkSize texCoords)
      = some g) :
    m.leafTemplate chunkSize chunkCenter texCoords
      = (g, m.log (Event.compositeLeaf chunkSize chunkCenter texCoords)) := by
  have h' : (m.log (Event.compositeLeaf chunkSize chunkCenter texCoords)).mCompositeMapGeometryCache.lookup
      ⟨chunkSize, texCoords.x * 2 - 1 + texCoords.z, texCoords.y * 2 - 1 + texCoords.w,
        texCoords.z * 2⟩ = some g := h
  simp only [ChunkManager.leafTemplate, ChunkManager.leafTemplateGeom, h']

theorem List.filter_ne_of_lookup_none {α β : Type} [DecidableEq α] (k : α) :
    ∀ (l : List (α × β)), l.lookup k = none → l.filter (fun e => !decide (e.1 = k)) = l := by
  intro l
  induction l with
  | nil => intro _; rfl
  | cons e rest ih =>
    intro h
    obtain ⟨a, b⟩ := e
    rw [List.lookup_cons] at h
    by_cases hk : k = a
    · subst hk
      simp at h
    · have hb : (k == a) = false := by simpa using hk
      rw [hb] at h
      have hne : ¬ a = k := fun h' => hk h'.symm
      simp only [List.filter_cons, hne, decide_False, Bool.not_false, if_true, ih h]

/-- The grid resolution `numVerts` of a newly built leaf template geometry. -/
theorem ChunkManager.leafTemplate_miss {m : ChunkManager} {chunkSize : ℚ} {chunkCenter : Vec2f}
    {texCoords : Vec4f}
    (h : m.mCompositeMapGeometryCache.lookup (ChunkManager.leafGeomKey chunkSize texCoords)
      = none) :
    (m.leafTemplate chunkSize chunkCenter texCoords).2.mCompositeMapGeometryCache
      = (ChunkManager.leafGeomKey chunkSize texCoords,
          (m.leafTemplate chunkSize chunkCenter texCoords).1) :: m.mCompositeMapGeometryCache
    ∧ (m.leafTemplate chunkSize chunkCenter texCoords).1.mVertexArray.id = m.mNextId
    ∧ (m.leafTemplate chunkSize chunkCenter texCoords).1.id = m.mNextId + 1
    ∧ (m.leafTemplate chunkSize chunkCenter texCoords).2.mNextId = m.mNextId + 2
    ∧ (m.log (Event.compositeLeaf chunkSize chunkCenter texCoords)).since
        (m.leafTemplate chunkSize chunkCenter texCoords).2
        = [Event.getCellVertices,
            Event.getUVBuffer (m.leafTemplate chunkSize chunkCenter texCoords).1.mPrimitiveSet.numVerts,
            Event.getIndexBuffer
              (m.leafTemplate chunkSize chunkCenter texCoords).1.mPrimitiveSet.numVerts 0] := by
  have h' : (m.log (Event.compositeLeaf chunkSize chunkCenter texCoords)).mCompositeMapGeometryCache.lookup
      ⟨chunkSize, texCoords.x * 2 - 1 + texCoords.z, texCoords.y * 2 - 1 + texCoords.w,
        texCoords.z * 2⟩ = none := h
  have hf := List.filter_ne_of_lookup_none (ChunkManager.leafGeomKey chunkSize texCoords)
    m.mCompositeMapGeometryCache h
  simp only [ChunkManager.leafGeomKey] at hf
  simp only [ChunkManager.leafTemplate, ChunkManager.leafTemplateGeom, h']
  refine ⟨?_, rfl, rfl, rfl, ?_⟩
  · simp only [ChunkManager.log, ChunkManager.alloc, ChunkManager.leafGeomKey, hf]
  · simp [ChunkManager.since, ChunkManager.log, ChunkManager.alloc]

/-- Whether the key was cached or not, after the lookup the cache holds the geometry the leaf
works with under the leaf's key. -/
theorem ChunkManager.leafTemplate_lookup (m : ChunkManager) (chunkSize : ℚ) (chunkCenter : Vec2f)
    (texCoords : Vec4f) :
    (m.leafTemplate chunkSize chunkCenter texCoords).2.mCompositeMapGeometryCache.lookup
        (ChunkManager.leafGeomKey chunkSize texCoords)
      = some (m.leafTemplate chunkSize chunkCenter texCoords).1 := by
  cases h : m.mCompositeMapGeometryCache.lookup (ChunkManager.leafGeomKey chunkSize texCoords) with
  | some g =>
    rw [ChunkManager.leafTemplate_hit h]
    exact h
  | none =>
    rw [(ChunkManager.leafTemplate_miss h).1]
    simp [List.lookup_cons]

theorem ChunkManager.leafTemplate_evolves (m : ChunkManager) (chunkSize : ℚ) (chunkCenter : Vec2f)
    (texCoords : Vec4f) :
    (m.log (Event.compositeLeaf chunkSize chunkCenter texCoords)).Evolves
      (fun e => e.isTemplateBuild = true) (m.leafTemplate chunkSize chunkCenter texCoords).2 := by
  cases h : m.mCompositeMapGeometryCache.lookup (ChunkManager.leafGeomKey chunkSize texCoords) with
  | some g =>
    rw [ChunkManager.leafTemplate_hit h]
    exact ChunkManager.Evolves.refl _ _
  | none =>
    have h' : (m.log (Event.compositeLeaf chunkSize chunkCenter
        texCoords)).mCompositeMapGeometryCache.lookup
        ⟨chunkSize, texCoords.x * 2 - 1 + texCoords.z, texCoords.y * 2 - 1 + texCoords.w,
          texCoords.z * 2⟩ = none := h
    simp only [ChunkManager.leafTemplate, ChunkManager.leafTemplateGeom, h']
    refine ChunkManager.Evolves.trans ?_ (ChunkManager.Evolves.setGeomCache _ _ _)
    refine ChunkManager.Evolves.trans ?_ (ChunkManager.Evolves.alloc _ _)
    refine ChunkManager.Evolves.trans ?_
      (ChunkManager.Evolves.log _ (e := Event.getIndexBuffer _ 0) rfl)
    refine ChunkManager.Evolves.trans ?_ (ChunkManager.Evolves.log _ (e := Event.getUVBuffer _) rfl)
    refine ChunkManager.Evolves.trans ?_ (ChunkManager.Evolves.alloc _ _)
    exact ChunkManager.Evolves.log _ (e := Event.getCellVertices) rfl

/-- The events of a leaf call: the leaf marker, the events of the template lookup, the
`fillVertexBuffersCompositeMap` call and the events of `createPasses`; and the objects it
allocates after the template lookup: the color array, what `createPasses` allocates, one quad per
pass and the vertex-color drawable. -/
theorem ChunkManager.createCompositeMapGeometryLeaf_since (m : ChunkManager) (chunkSize : ℚ)
    (chunkCenter : Vec2f) (texCoords : Vec4f) (compositeMap : CompositeMap) :
    m.since (m.createCompositeMapGeometryLeaf chunkSize chunkCenter texCoords compositeMap).2
      = Event.compositeLeaf chunkSize chunkCenter texCoords
        :: ((m.log (Event.compositeLeaf chunkSize chunkCenter texCoords)).since
              (m.leafTemplate chunkSize chunkCenter texCoords).2
            ++ Event.fillVertexBuffersCompositeMap ((0 : Nat) : Int) chunkSize chunkCenter
              :: ((m.leafTemplate chunkSize chunkCenter texCoords).2.alloc.2.log
                    (Event.fillVertexBuffersCompositeMap ((0 : Nat) : Int) chunkSize
                      chunkCenter)).since (m.leafPasses chunkSize chunkCenter texCoords).2)
    ∧ (m.createCompositeMapGeometryLeaf chunkSize chunkCenter texCoords compositeMap).2.mNextId
        = (m.leafPasses chunkSize chunkCenter texCoords).2.mNextId
          + (m.leafPasses chunkSize chunkCenter texCoords).1.length + 1
    ∧ (m.leafTemplate chunkSize chunkCenter texCoords).2.mNextId + 1
        ≤ (m.leafPasses chunkSize chunkCenter texCoords).2.mNextId
    ∧ m.mNextId ≤ (m.leafTemplate chunkSize chunkCenter texCoords).2.mNextId := by
  have e0 : m.Evolves (fun _ => True) (m.log (Event.compositeLeaf chunkSize chunkCenter texCoords)) :=
    ChunkManager.Evolves.log m trivial
  have e1 := ChunkManager.leafTemplate_evolves m chunkSize chunkCenter texCoords
  have e2 : (m.leafTemplate chunkSize chunkCenter texCoords).2.Evolves (fun _ => True)
      ((m.leafTemplate chunkSize chunkCenter texCoords).2.alloc.2.log
        (Event.fillVertexBuffersCompositeMap ((0 : Nat) : Int) chunkSize chunkCenter)) :=
    (ChunkManager.Evolves.alloc _ _).trans (ChunkManager.Evolves.log _ trivial)
  have s2 : (m.leafTemplate chunkSize chunkCenter texCoords).2.since
      ((m.leafTemplate chunkSize chunkCenter texCoords).2.alloc.2.log
        (Event.fillVertexBuffersCompositeMap ((0 : Nat) : Int) chunkSize chunkCenter))
      = [Event.fillVertexBuffersCompositeMap ((0 : Nat) : Int) chunkSize chunkCenter] := by
    simp [ChunkManager.since, ChunkManager.log, ChunkManager.alloc]
  have e3 : ((m.leafTemplate chunkSize chunkCenter texCoords).2.alloc.2.log
        (Event.fillVertexBuffersCompositeMap ((0 : Nat) : Int) chunkSize chunkCenter)).Evolves
      (fun e => e.isPasses = true) (m.leafPasses chunkSize chunkCenter texCoords).2 :=
    ChunkManager.createPasses_evolves _ _ _ _
  have hres : (m.createCompositeMapGeometryLeaf chunkSize chunkCenter texCoords compositeMap).2
      = { (m.leafPasses chunkSize chunkCenter texCoords).2 with
          mNextId := (m.leafPasses chunkSize chunkCenter texCoords).2.mNextId
            + (m.leafPasses chunkSize chunkCenter texCoords).1.length + 1 } := by
    simp only [ChunkManager.createCompositeMapGeometryLeaf, ChunkManager.leafQuads_eq,
      ChunkManager.alloc, ChunkManager.leafPasses, ChunkManager.leafTemplate]
  have e4 : (m.leafPasses chunkSize chunkCenter texCoords).2.Evolves (fun _ => True)
      (m.createCompositeMapGeometryLeaf chunkSize chunkCenter texCoords compositeMap).2 := by
    rw [hres]
    exact ⟨[], (m.leafPasses chunkSize chunkCenter texCoords).1.length + 1,
      (m.leafPasses chunkSize chunkCenter texCoords).2.mCompositeMapGeometryCache,
      by simp [Nat.add_assoc], by simp⟩
  have s4 : (m.leafPasses chunkSize chunkCenter texCoords).2.since
      (m.createCompositeMapGeometryLeaf chunkSize chunkCenter texCoords compositeMap).2 = [] := by
    rw [hres]
    simp [ChunkManager.since]
  refine ⟨?_, by rw [hres], ?_, ?_⟩
  · rw [ChunkManager.Evolves.since_trans
        (((e0.trans (e1.mono fun _ _ => trivial)).trans e2).trans (e3.mono fun _ _ => trivial)) e4,
      ChunkManager.Evolves.since_trans ((e0.trans (e1.mono fun _ _ => trivial)).trans e2) e3,
      ChunkManager.Evolves.since_trans (e0.trans (e1.mono fun _ _ => trivial)) e2,
      ChunkManager.Evolves.since_trans e0 e1, ChunkManager.since_log, s2, s4]
    simp
  · have := e3.mNextId_le
    simpa [ChunkManager.log, ChunkManager.alloc] using this
  · have := e1.mNextId_le
    simpa [ChunkManager.log] using this

/-! ## Template-building calls of a leaf -/

theorem filter_isTemplateBuild_of_isPasses {l : List Event}
    (h : ∀ e ∈ l, e.isPasses = true) : l.filter Event.isTemplateBuild = [] := by
  rw [List.filter_eq_nil_iff]
  intro e he
  have := h e he
  cases e <;> first | exact Bool.false_ne_true | exact absurd this Bool.false_ne_true

theorem filter_isTemplateBuild_self {l : List Event}
    (h : ∀ e ∈ l, e.isTemplateBuild = true) : l.filter Event.isTemplateBuild = l :=
  List.filter_eq_self.mpr h

/-- The template-building calls of a leaf call are those of its template lookup. -/
theorem ChunkManager.createCompositeMapGeometryLeaf_templateBuild (m : ChunkManager)
    (chunkSize : ℚ) (chunkCenter : Vec2f) (texCoords : Vec4f) (compositeMap : CompositeMap) :
    (m.since (m.createCompositeMapGeometryLeaf chunkSize chunkCenter texCoords
        compositeMap).2).filter Event.isTemplateBuild
      = (m.log (Event.compositeLeaf chunkSize chunkCenter texCoords)).since
          (m.leafTemplate chunkSize chunkCenter texCoords).2 := by
  rw [(ChunkManager.createCompositeMapGeometryLeaf_since m chunkSize chunkCenter texCoords
    compositeMap).1]
  have h1 := (ChunkManager.leafTemplate_evolves m chunkSize chunkCenter texCoords).since_all
  have h3 : ∀ e ∈ ((m.leafTemplate chunkSize chunkCenter texCoords).2.alloc.2.log
      (Event.fillVertexBuffersCompositeMap ((0 : Nat) : Int) chunkSize chunkCenter)).since
      (m.leafPasses chunkSize chunkCenter texCoords).2, e.isPasses = true :=
    (ChunkManager.createPasses_evolves _ _ _ _).since_all
  simp only [List.filter_cons, List.filter_append, filter_isTemplateBuild_self h1,
    filter_isTemplateBuild_of_isPasses h3, Event.isTemplateBuild, Bool.false_eq_true, if_false,
    List.append_nil]

/-- The vertex-color drawable of a leaf call is the last drawable of the composite map. -/
theorem ChunkManager.createCompositeMapGeometryLeaf_last (m : ChunkManager) (chunkSize : ℚ)
    (chunkCenter : Vec2f) (texCoords : Vec4f) (compositeMap : CompositeMap) :
    (m.createCompositeMapGeometryLeaf chunkSize chunkCenter texCoords
        compositeMap).1.mDrawables.getLast?
      = some (Drawable.vertexColor
          ((m.leafPasses chunkSize chunkCenter texCoords).2.mNextId
            + (m.leafPasses chunkSize chunkCenter texCoords).1.length)
          (m.leafTemplate chunkSize chunkCenter texCoords).1.mVertexArray
          ⟨(m.leafTemplate chunkSize chunkCenter texCoords).2.mNextId,
            m.mStorage.fillVertexBuffersCompositeMap ((0 : Nat) : Int) chunkSize chunkCenter
              m.mWorldspace⟩
          (m.leafTemplate chunkSize chunkCenter texCoords).1.mPrimitiveSet
          (StateSet.blended BlendFactor.ZERO BlendFactor.SRC_COLOR)) := by
  rw [ChunkManager.createCompositeMapGeometryLeaf_drawables, List.getLast?_concat]

/-! ## Registration with the composite map renderer -/

theorem filter_isAddCompositeMap_of_isComposite {l : List Event}
    (h : ∀ e ∈ l, e.isComposite = true) : l.filter Event.isAddCompositeMap = [] := by
  rw [List.filter_eq_nil_iff]
  intro e he
  have := h e he
  cases e <;> first | exact Bool.false_ne_true | exact absurd this Bool.false_ne_true

/-- The `addCompositeMap` calls of the material part of `createChunk`: one, deferred, for the
composite map it builds when there is no template and the chunk is composited; none otherwise. -/
theorem ChunkManager.createChunkMaterial_addCompositeMap {fuel : Nat} {m : ChunkManager}
    {chunkSize : ℚ} {chunkCenter : Vec2f} {lod : Nat} {useCompositeMap : Bool}
    {templateGeometry : Option TerrainDrawable} {mat : ChunkMaterial × ChunkManager}
    (h : m.createChunkMaterial fuel chunkSize chunkCenter lod useCompositeMap templateGeometry
      = some mat) :
    (templateGeometry = none → useCompositeMap = true →
        ∃ cm : CompositeMap, mat.1.compositeMap = some cm
          ∧ (m.since mat.2).filter Event.isAddCompositeMap = [Event.addCompositeMap cm.id false])
    ∧ (¬ (templateGeometry = none ∧ useCompositeMap = true) →
        (m.since mat.2).filter Event.isAddCompositeMap = []) := by
  cases templateGeometry with
  | some t =>
    simp only [ChunkManager.createChunkMaterial, Option.some.injEq] at h
    subst h
    exact ⟨fun hn => (by cases hn), fun _ => (by rw [ChunkManager.since_self]; rfl)⟩
  | none =>
    cases useCompositeMap with
    | false =>
      simp only [ChunkManager.createChunkMaterial, Bool.false_eq_true, if_false,
        Option.some.injEq] at h
      subst h
      refine ⟨fun _ hf => (by cases hf), fun _ => ?_⟩
      exact filter_isAddCompositeMap_of_isComposite fun e he =>
        Event.isComposite_of_isLeafBody (Event.isLeafBody_of_isPasses
          ((ChunkManager.createPasses_evolves m chunkSize chunkCenter false).since_all e he))
    | true =>
      simp only [ChunkManager.createChunkMaterial, if_true, Option.map_eq_some'] at h
      obtain ⟨c, hc, rfl⟩ := h
      refine ⟨fun _ _ => ⟨c.1, rfl, ?_⟩, fun hn => absurd ⟨rfl, rfl⟩ hn⟩
      have e1 : m.Evolves (fun _ => True) m.alloc.2.createCompositeMapRTT.2 :=
        (ChunkManager.Evolves.alloc _ m).trans (ChunkManager.Evolves.alloc _ _)
      have e2 := ChunkManager.createCompositeMapGeometry_evolves _ _ _ _ _ _ _ _ hc
      have e3 : c.2.Evolves (fun _ => True) (c.2.log (Event.addCompositeMap c.1.id false)) :=
        ChunkManager.Evolves.log _ trivial
      have s1 : m.since m.alloc.2.createCompositeMapRTT.2 = [] := by
        simp [ChunkManager.since, ChunkManager.alloc, ChunkManager.createCompositeMapRTT]
      rw [ChunkManager.Evolves.since_trans (e1.trans (e2.mono fun _ _ => trivial)) e3,
        ChunkManager.Evolves.since_trans e1 e2, s1, ChunkManager.since_log, List.nil_append,
        List.filter_append, filter_isAddCompositeMap_of_isComposite e2.since_all]
      rfl

/-! ## What `createPasses` builds -/

/-- The loop over the layers: one `TextureLayer` per `LayerInfo`, in order; `useShaders` is
raised when some layer requires shaders; the texture manager and the allocation counter are as
before. -/
theorem ChunkManager.createPassesLayers_eq (forCompositeMap : Bool) (layerList : List LayerInfo) :
    ∀ (layers : List TextureLayer) (useShaders : Bool) (m : ChunkManager),
      (ChunkManager.createPassesLayers forCompositeMap layerList layers useShaders m).1
        = layers ++ layerList.map (fun it =>
            { mDiffuseMap := m.mTextureManager.getTexture it.mDiffuseMap,
              mNormalMap := if !forCompositeMap && !it.mNormalMap.isEmpty
                then some (m.mTextureManager.getTexture it.mNormalMap) else none,
              mParallax := it.mParallax, mSpecular := it.mSpecular })
      ∧ (ChunkManager.createPassesLayers forCompositeMap layerList layers useShaders m).2.1
        = (useShaders || layerList.any LayerInfo.requiresShaders)
      ∧ (ChunkManager.createPassesLayers forCompositeMap layerList layers useShaders m).2.2.mNextId
        = m.mNextId := by
  induction layerList with
  | nil => intro layers useShaders m; simp [ChunkManager.createPassesLayers]
  | cons it rest ih =>
    intro layers useShaders m
    simp only [ChunkManager.createPassesLayers]
    have hm2 : ∀ m2 : ChunkManager,
        m2 = (if (!forCompositeMap && !it.mNormalMap.isEmpty) = true
          then (m.log (Event.getTexture it.mDiffuseMap)).log (Event.getTexture it.mNormalMap)
          else m.log (Event.getTexture it.mDiffuseMap)) →
        m2.mTextureManager = m.mTextureManager ∧ m2.mNextId = m.mNextId := by
      intro m2 h
      subst h
      split <;> exact ⟨rfl, rfl⟩
    obtain ⟨htm, hid⟩ := hm2 _ rfl
    obtain ⟨h1, h2, h3⟩ := ih
      (layers ++ [(⟨m.mTextureManager.getTexture it.mDiffuseMap,
        if (!forCompositeMap && !it.mNormalMap.isEmpty) = true
          then some (m.mTextureManager.getTexture it.mNormalMap) else none,
        it.mParallax, it.mSpecular⟩ : TextureLayer)])
      (if it.requiresShaders = true then true else useShaders)
      (if (!forCompositeMap && !it.mNormalMap.isEmpty) = true
          then (m.log (Event.getTexture it.mDiffuseMap)).log (Event.getTexture it.mNormalMap)
          else m.log (Event.getTexture it.mDiffuseMap))
    refine ⟨?_, ?_, ?_⟩
    · rw [h1, htm]
      simp
    · rw [h2, List.any_cons]
      cases it.requiresShaders <;> cases useShaders <;> simp
    · rw [h3, hid]

/-- The loop over the blend-map images: one new texture per image, in order, wrapping the image
and clamped to edge on both axes. -/
theorem ChunkManager.createPassesBlendmaps_eq (blendmaps : List Image) :
    ∀ (ts : List Texture2D) (m : ChunkManager),
      (ChunkManager.createPassesBlendmaps blendmaps ts m).1
        = ts ++ (blendmaps.enumFrom m.mNextId).map (fun p =>
            { Texture2D.new p.1 with
                mImage := some p.2, mWrapS := WrapMode.CLAMP_TO_EDGE,
                mWrapT := WrapMode.CLAMP_TO_EDGE, mResizeNonPowerOfTwoHint := false }) := by
  induction blendmaps with
  | nil => intro ts m; simp [ChunkManager.createPassesBlendmaps]
  | cons it rest ih =>
    intro ts m
    simp only [ChunkManager.createPassesBlendmaps, ih, ChunkManager.alloc, List.enumFrom_cons,
      List.map_cons, List.append_assoc, List.singleton_append]

/-- The passes returned by `ChunkManager::createPasses` are those that `::Terrain::createPasses`
makes of the `useShaders` flag, the layers and the blend-map textures built on the way, with the
blend-map scale of the data source given twice. -/
theorem ChunkManager.createPasses_args (m : ChunkManager) (chunkSize : ℚ) (chunkCenter : Vec2f)
    (forCompositeMap : Bool) :
    (m.createPasses chunkSize chunkCenter forCompositeMap).1
      = Terrain.createPasses (m.createPassesUseShaders chunkSize chunkCenter forCompositeMap)
          (m.createPassesTextureLayers chunkSize chunkCenter forCompositeMap)
          (m.createPassesBlendmapTextures chunkSize chunkCenter forCompositeMap)
          (m.mStorage.getBlendmapScale chunkSize) (m.mStorage.getBlendmapScale chunkSize) :=
  rfl

theorem ChunkManager.createPassesTextureLayers_eq (m : ChunkManager) (chunkSize : ℚ)
    (chunkCenter : Vec2f) (forCompositeMap : Bool) :
    m.createPassesTextureLayers chunkSize chunkCenter forCompositeMap
      = (m.mStorage.getBlendmaps chunkSize chunkCenter m.mWorldspace).2.map (fun it =>
          { mDiffuseMap := m.mTextureManager.getTexture it.mDiffuseMap,
            mNormalMap := if !forCompositeMap && !it.mNormalMap.isEmpty
              then some (m.mTextureManager.getTexture it.mNormalMap) else none,
            mParallax := it.mParallax, mSpecular := it.mSpecular }) := by
  unfold ChunkManager.createPassesTextureLayers
  rw [(ChunkManager.createPassesLayers_eq _ _ _ _ _).1]
  rfl

theorem ChunkManager.createPassesBlendmapTextures_eq (m : ChunkManager) (chunkSize : ℚ)
    (chunkCenter : Vec2f) (forCompositeMap : Bool) :
    m.createPassesBlendmapTextures chunkSize chunkCenter forCompositeMap
      = ((m.mStorage.getBlendmaps chunkSize chunkCenter m.mWorldspace).1.enumFrom m.mNextId).map
          (fun p =>
            { Texture2D.new p.1 with
                mImage := some p.2, mWrapS := WrapMode.CLAMP_TO_EDGE,
                mWrapT := WrapMode.CLAMP_TO_EDGE, mResizeNonPowerOfTwoHint := false }) := by
  unfold ChunkManager.createPassesBlendmapTextures
  rw [ChunkManager.createPassesBlendmaps_eq, (ChunkManager.createPassesLayers_eq _ _ _ _ _).2.2]
  rfl

theorem ChunkManager.createPassesUseShaders_eq (m : ChunkManager) (chunkSize : ℚ)
    (chunkCenter : Vec2f) (forCompositeMap : Bool) :
    m.createPassesUseShaders chunkSize chunkCenter forCompositeMap
      = (!forCompositeMap && (m.mSceneManager.getForceShaders || !m.mSceneManager.getClampLighting
          || (m.mStorage.getBlendmaps chunkSize chunkCenter m.mWorldspace).2.any
              LayerInfo.requiresShaders)) := by
  unfold ChunkManager.createPassesUseShaders
  rw [(ChunkManager.createPassesLayers_eq _ _ _ _ _).2.1]
  cases forCompositeMap <;> cases m.mSceneManager.getForceShaders <;>
    cases m.mSceneManager.getClampLighting <;> simp

/-- The first call `createPasses` makes is `Storage::getBlendmaps` for its chunk. -/
theorem ChunkManager.createPasses_getBlendmaps (m : ChunkManager) (chunkSize : ℚ)
    (chunkCenter : Vec2f) (forCompositeMap : Bool) :
    Event.getBlendmaps chunkSize chunkCenter
      ∈ m.since (m.createPasses chunkSize chunkCenter forCompositeMap).2 := by
  have h1 : m.Evolves (fun _ => True) (m.log (Event.getBlendmaps chunkSize chunkCenter)) :=
    ChunkManager.Evolves.log m trivial
  have h2 : (m.log (Event.getBlendmaps chunkSize chunkCenter)).Evolves
      (fun e => e.isPasses = true) (m.createPasses chunkSize chunkCenter forCompositeMap).2 := by
    simp only [ChunkManager.createPasses]
    exact ((ChunkManager.createPassesLayers_evolves forCompositeMap _ [] _ _).trans
      (ChunkManager.createPassesBlendmaps_evolves _ [] _)).trans (ChunkManager.Evolves.log _ rfl)
  rw [ChunkManager.Evolves.since_trans h1 h2, ChunkManager.since_log]
  simp

/-! ## Soundness of the composite geometry cache -/

theorem ChunkManager.KeepsGeomCache.same (m : ChunkManager) : m.KeepsGeomCache m :=
  ⟨rfl, rfl, id⟩

theorem ChunkManager.KeepsGeomCache.andThen {a b c : ChunkManager} (h1 : a.KeepsGeomCache b)
    (h2 : b.KeepsGeomCache c) : a.KeepsGeomCache c :=
  ⟨h2.1.trans h1.1, h2.2.1.trans h1.2.1, fun h => h2.2.2 (h1.2.2 h)⟩

/-- A step that changes neither the data source nor the composite geometry cache. -/
theorem ChunkManager.KeepsGeomCache.of_eq {a b : ChunkManager} (hs : b.mStorage = a.mStorage)
    (hw : b.mWorldspace = a.mWorldspace)
    (hc : b.mCompositeMapGeometryCache = a.mCompositeMapGeometryCache) : a.KeepsGeomCache b := by
  refine ⟨hs, hw, fun h e he cs tc hzw hk => ?_⟩
  rw [hc] at he
  have := h e he cs tc hzw hk
  simpa only [ChunkManager.leafFreshPositions, ChunkManager.leafNumVerts, hs, hw] using this

theorem ChunkManager.Evolves.mStorage_eq {P : Event → Prop} {a b : ChunkManager}
    (h : a.Evolves P b) : b.mStorage = a.mStorage ∧ b.mWorldspace = a.mWorldspace := by
  obtain ⟨e1, n1, g1, rfl, _⟩ := h
  exact ⟨rfl, rfl⟩

/-- The position array of a newly built template geometry. -/
theorem ChunkManager.leafTemplate_positions {m : ChunkManager} {chunkSize : ℚ}
    {chunkCenter : Vec2f} {texCoords : Vec4f}
    (h : m.mCompositeMapGeometryCache.lookup (ChunkManager.leafGeomKey chunkSize texCoords)
      = none) :
    (m.leafTemplate chunkSize chunkCenter texCoords).1.mVertexArray.data
      = m.leafFreshPositions chunkSize texCoords := by
  have h' : (m.log (Event.compositeLeaf chunkSize chunkCenter
      texCoords)).mCompositeMapGeometryCache.lookup
      ⟨chunkSize, texCoords.x * 2 - 1 + texCoords.z, texCoords.y * 2 - 1 + texCoords.w,
        texCoords.z * 2⟩ = none := h
  simp only [ChunkManager.leafTemplate, ChunkManager.leafTemplateGeom, h']
  rfl

/-- With `z = w` the freshly computed positions are a function of the key. -/
theorem ChunkManager.leafFreshPositions_key (m : ChunkManager) {chunkSize1 chunkSize2 : ℚ}
    {texCoords1 texCoords2 : Vec4f} (h1 : texCoords1.z = texCoords1.w)
    (h2 : texCoords2.z = texCoords2.w)
    (hk : ChunkManager.leafGeomKey chunkSize1 texCoords1
      = ChunkManager.leafGeomKey chunkSize2 texCoords2) :
    m.leafFreshPositions chunkSize1 texCoords1 = m.leafFreshPositions chunkSize2 texCoords2 := by
  simp only [ChunkManager.leafGeomKey, Vec4f.mk.injEq] at hk
  obtain ⟨hs, hx, hy, hz⟩ := hk
  have hw : texCoords1.w * (-2) = texCoords2.w * (-2) := by
    rw [← h1, ← h2]
    linarith
  simp only [ChunkManager.leafFreshPositions, hs, hx, hy, hz, hw]

theorem List.mem_of_lookup_some {α β : Type} [DecidableEq α] (k : α) (v : β) :
    ∀ (l : List (α × β)), l.lookup k = some v → (k, v) ∈ l := by
  intro l
  induction l with
  | nil => intro h; cases h
  | cons e rest ih =>
    intro h
    obtain ⟨a, b⟩ := e
    rw [List.lookup_cons] at h
    by_cases hk : k = a
    · subst hk
      simp at h
      subst h
      exact List.mem_cons_self _ _
    · have hb : (k == a) = false := by simpa using hk
      rw [hb] at h
      exact List.mem_cons_of_mem _ (ih h)

/-- A leaf call on texCoords with `z = w` keeps the composite geometry cache sound. -/
theorem ChunkManager.createCompositeMapGeometryLeaf_keeps (m : ChunkManager) (chunkSize : ℚ)
    (chunkCenter : Vec2f) (texCoords : Vec4f) (compositeMap : CompositeMap)
    (hzw : texCoords.z = texCoords.w) :
    m.KeepsGeomCache
      (m.createCompositeMapGeometryLeaf chunkSize chunkCenter texCoords compositeMap).2 := by
  obtain ⟨hs, hw⟩ := (ChunkManager.createCompositeMapGeometryLeaf_evolves m chunkSize chunkCenter
    texCoords compositeMap).mStorage_eq
  cases h : m.mCompositeMapGeometryCache.lookup (ChunkManager.leafGeomKey chunkSize texCoords) with
  | some g =>
    refine ChunkManager.KeepsGeomCache.of_eq hs hw ?_
    rw [ChunkManager.createCompositeMapGeometryLeaf_geomCache, ChunkManager.leafTemplate_hit h]
    rfl
  | none =>
    refine ⟨hs, hw, fun hm e he cs tc hzw2 hk => ?_⟩
    rw [ChunkManager.createCompositeMapGeometryLeaf_geomCache,
      (ChunkManager.leafTemplate_miss h).1] at he
    have hfresh : ∀ (a : ChunkManager), a.mStorage = m.mStorage → a.mWorldspace = m.mWorldspace →
        a.leafFreshPositions cs tc = m.leafFreshPositions cs tc := by
      intro a h1 h2
      simp only [ChunkManager.leafFreshPositions, ChunkManager.leafNumVerts, h1, h2]
    rw [hfresh _ hs hw]
    rcases List.mem_cons.mp he with rfl | hold
    · rw [ChunkManager.leafTemplate_positions h]
      exact (ChunkManager.leafFreshPositions_key m hzw2 hzw hk).symm
    · exact hm e hold cs tc hzw2 hk

/-- The recursion started on texCoords with `z = w` reaches only leaves with `z = w` and keeps
the composite geometry cache sound. -/
theorem ChunkManager.createCompositeMapGeometry_keeps (fuel : Nat) :
    ∀ (m : ChunkManager) (lod : Int) (chunkSize : ℚ) (chunkCenter : Vec2f) (texCoords : Vec4f)
      (compositeMap : CompositeMap) (r : CompositeMap × ChunkManager),
      texCoords.z = texCoords.w →
      ChunkManager.createCompositeMapGeometry fuel m lod chunkSize chunkCenter texCoords compositeMap
        = some r →
      m.KeepsGeomCache r.2 ∧ ∀ l ∈ leafCalls (m.since r.2), l.2.z = l.2.w := by
  induction fuel with
  | zero => intro m lod cs cc tc cm r _ h; cases h
  | succ fuel ih =>
    intro m lod cs cc tc cm r hzw h
    by_cases hgt : cs > m.mMaxCompGeometrySize
    · obtain ⟨r1, r2, r3, h1, h2, h3, h4, hleaves⟩ := ChunkManager.createCompositeMapGeometry_step hgt h
      have hq : tc.z / 2 = tc.w / 2 := by rw [hzw]
      obtain ⟨k1, l1⟩ := ih _ _ _ _ _ _ _ hq h1
      obtain ⟨k2, l2⟩ := ih _ _ _ _ _ _ _ hq h2
      obtain ⟨k3, l3⟩ := ih _ _ _ _ _ _ _ hq h3
      obtain ⟨k4, l4⟩ := ih _ _ _ _ _ _ _ hq h4
      refine ⟨((k1.andThen k2).andThen k3).andThen k4, fun l hl => ?_⟩
      rw [hleaves] at hl
      simp only [List.mem_append] at hl
      rcases hl with ((hl | hl) | hl) | hl
      · exact l1 l hl
      · exact l2 l hl
      · exact l3 l hl
      · exact l4 l hl
    · simp only [ChunkManager.createCompositeMapGeometry, hgt, if_false] at h
      injection h with h
      subst h
      refine ⟨ChunkManager.createCompositeMapGeometryLeaf_keeps m cs cc tc cm hzw, fun l hl => ?_⟩
      rw [ChunkManager.createCompositeMapGeometryLeaf_leafCalls] at hl
      rw [List.mem_singleton.mp hl]
      exact hzw

theorem ChunkManager.createChunkMaterial_keeps {fuel : Nat} {m : ChunkManager} {chunkSize : ℚ}
    {chunkCenter : Vec2f} {lod : Nat} {useCompositeMap : Bool}
    {templateGeometry : Option TerrainDrawable} {r : ChunkMaterial × ChunkManager}
    (h : m.createChunkMaterial fuel chunkSize chunkCenter lod useCompositeMap templateGeometry
      = some r) : m.KeepsGeomCache r.2 := by
  cases templateGeometry with
  | some t =>
    simp only [ChunkManager.createChunkMaterial] at h
    injection h with h
    subst h
    exact ChunkManager.KeepsGeomCache.same m
  | none =>
    cases useCompositeMap with
    | true =>
      simp only [ChunkManager.createChunkMaterial, if_true, Option.map_eq_some'] at h
      obtain ⟨c, hc, rfl⟩ := h
      have k0 : m.KeepsGeomCache m.alloc.2.createCompositeMapRTT.2 :=
        ChunkManager.KeepsGeomCache.of_eq rfl rfl rfl
      have k1 := (ChunkManager.createCompositeMapGeometry_keeps fuel _ _ _ _ _ _ _ rfl hc).1
      exact (k0.andThen k1).andThen (ChunkManager.KeepsGeomCache.of_eq rfl rfl rfl)
    | false =>
      simp only [ChunkManager.createChunkMaterial, Bool.false_eq_true, if_false] at h
      injection h with h
      subst h
      obtain ⟨hs, hw⟩ := (ChunkManager.createPasses_evolves m chunkSize chunkCenter false).mStorage_eq
      exact ChunkManager.KeepsGeomCache.of_eq hs hw (ChunkManager.createPasses_geomCache _ _ _ _)

theorem ChunkManager.createChunkArrays_frame (m : ChunkManager) (chunkSize : ℚ)
    (chunkCenter : Vec2f) (lod : Nat) (useCompositeMap : Bool)
    (templateGeometry : Option TerrainDrawable) :
    (m.createChunkArrays chunkSize chunkCenter lod useCompositeMap templateGeometry).2.mStorage
        = m.mStorage
    ∧ (m.createChunkArrays chunkSize chunkCenter lod useCompositeMap
        templateGeometry).2.mWorldspace = m.mWorldspace
    ∧ (m.createChunkArrays chunkSize chunkCenter lod useCompositeMap
        templateGeometry).2.mCompositeMapGeometryCache = m.mCompositeMapGeometryCache := by
  cases templateGeometry <;>
    simp [ChunkManager.createChunkArrays, ChunkManager.alloc, ChunkManager.log]

theorem ChunkManager.createChunk_keeps {fuel : Nat} {m : ChunkManager} {chunkSize : ℚ}
    {chunkCenter : Vec2f} {lod lodFlags : Nat} {compile : Bool}
    {templateGeometry : Option TerrainDrawable} {r : TerrainDrawable × ChunkManager}
    (h : m.createChunk fuel chunkSize chunkCenter lod lodFlags compile templateGeometry = some r) :
    m.KeepsGeomCache r.2 := by
  unfold ChunkManager.createChunk at h
  simp only [Option.map_eq_some'] at h
  obtain ⟨mat, hmat, hr⟩ := h
  obtain ⟨a1, a2, a3⟩ := ChunkManager.createChunkArrays_frame m.alloc.2 chunkSize chunkCenter lod
    (decide (chunkSize ≥ m.mCompositeMapLevel)) templateGeometry
  have k0 : m.KeepsGeomCache (m.createChunkMid chunkSize chunkCenter lod lodFlags
      templateGeometry) := ChunkManager.KeepsGeomCache.of_eq a1 a2 a3
  have k1 : (m.createChunkMid chunkSize chunkCenter lod lodFlags templateGeometry).KeepsGeomCache
      mat.2 := ChunkManager.createChunkMaterial_keeps hmat
  have hr2 : r.2 = if (templateGeometry.isNone && compile
      && m.mSceneManager.hasIncrementalCompileOperation) = true
      then (mat.2.log Event.getCellWorldSize).log (Event.incrementalCompileAdd m.alloc.1)
      else mat.2.log Event.getCellWorldSize := by
    rw [← hr]
  rw [hr2]
  refine (k0.andThen k1).andThen ?_
  split <;> exact ChunkManager.KeepsGeomCache.of_eq rfl rfl rfl

theorem ChunkManager.getChunk_keeps {fuel : Nat} {m : ChunkManager} {size : ℚ} {center : Vec2f}
    {lod lodFlags : Nat} {activeGrid : Bool} {viewPoint : Vec3f} {compile : Bool}
    {r : TerrainDrawable × ChunkManager}
    (h : m.getChunk fuel size center lod lodFlags activeGrid viewPoint compile = some r) :
    m.KeepsGeomCache r.2 := by
  cases hget : m.mCache.getRefFromObjectCache ⟨center, (lodFlags >>> 16) % 256, lodFlags⟩ with
  | some obj =>
    rw [ChunkManager.getChunk_hit hget] at h
    injection h with h
    subst h
    exact ChunkManager.KeepsGeomCache.same m
  | none =>
    rw [ChunkManager.getChunk_miss hget, Option.map_eq_some'] at h
    obtain ⟨c, hc, rfl⟩ := h
    exact (ChunkManager.createChunk_keeps hc).andThen (ChunkManager.KeepsGeomCache.of_eq rfl rfl rfl)

/-! ## The loops that fill the template positions -/

theorem List.foldl_set_length {α β : Type} (idx : α → Nat) (val : α → β) :
    ∀ (l : List α) (init : List β),
      (l.foldl (fun acc b => acc.set (idx b) (val b)) init).length = init.length := by
  intro l
  induction l with
  | nil => intro init; rfl
  | cons b t ih => intro init; rw [List.foldl_cons, ih, List.length_set]

/-- Writes that all agree with the value a slot holds leave that value in the slot. -/
theorem List.foldl_set_keep {α β : Type} (idx : α → Nat) (val : α → β) (k : Nat) (v : β) :
    ∀ (l : List α) (init : List β), (∀ b ∈ l, idx b = k → val b = v) → init[k]? = some v →
      (l.foldl (fun acc b => acc.set (idx b) (val b)) init)[k]? = some v := by
  intro l
  induction l with
  | nil => intro init _ h; exact h
  | cons b t ih =>
    intro init hall h
    rw [List.foldl_cons]
    refine ih _ (fun c hc => hall c (List.mem_cons_of_mem _ hc)) ?_
    rw [List.getElem?_set]
    by_cases hb : idx b = k
    · have hlt : k < init.length := by
        by_contra hge
        rw [List.getElem?_eq_none (Nat.le_of_not_lt hge)] at h
        cases h
      rw [if_pos hb, hb, if_pos hlt, hall b (List.mem_cons_self _ _) hb]
    · rw [if_neg hb]
      exact h

/-- A slot written by an element of the list holds that element's value when every write to the
slot writes the same value. -/
theorem List.foldl_set_get {α β : Type} (idx : α → Nat) (val : α → β) (a : α) :
    ∀ (l : List α) (init : List β), a ∈ l → (∀ b ∈ l, idx b = idx a → val b = val a) →
      idx a < init.length →
      (l.foldl (fun acc b => acc.set (idx b) (val b)) init)[idx a]? = some (val a) := by
  intro l
  induction l with
  | nil => intro init ha; cases ha
  | cons b t ih =>
    intro init ha hall hlt
    rw [List.foldl_cons]
    by_cases hat : a ∈ t
    · exact ih _ hat (fun c hc => hall c (List.mem_cons_of_mem _ hc))
        (by rw [List.length_set]; exact hlt)
    · have hab : a = b := by
        rcases List.mem_cons.mp ha with h | h
        · exact h
        · exact absurd h hat
      subst hab
      refine List.foldl_set_keep idx val _ _ t _ (fun c hc => hall c (List.mem_cons_of_mem _ hc)) ?_
      rw [List.getElem?_set, if_pos rfl, if_pos hlt]

theorem List.foldl_foldl_set_length {α β γ : Type} (idx : α → β → Nat) (val : α → β → γ)
    (xs : List β) :
    ∀ (ys : List α) (init : List γ),
      (ys.foldl (fun acc y => xs.foldl (fun acc x => acc.set (idx y x) (val y x)) acc) init).length
        = init.length := by
  intro ys
  induction ys with
  | nil => intro init; rfl
  | cons y t ih =>
    intro init
    rw [List.foldl_cons, ih, List.foldl_set_length (idx y) (val y)]

theorem List.foldl_foldl_set_keep {α β γ : Type} (idx : α → β → Nat) (val : α → β → γ)
    (xs : List β) (k : Nat) (v : γ) :
    ∀ (ys : List α) (init : List γ), (∀ y ∈ ys, ∀ x ∈ xs, idx y x = k → val y x = v) →
      init[k]? = some v →
      (ys.foldl (fun acc y => xs.foldl (fun acc x => acc.set (idx y x) (val y x)) acc) init)[k]?
        = some v := by
  intro ys
  induction ys with
  | nil => intro init _ h; exact h
  | cons y t ih =>
    intro init hall h
    rw [List.foldl_cons]
    exact ih _ (fun c hc => hall c (List.mem_cons_of_mem _ hc))
      (List.foldl_set_keep (idx y) (val y) k v xs init (hall y (List.mem_cons_self _ _)) h)

/-- The nested loops: a slot written for `(y0, x0)` holds the value written for it when every
write to that slot writes the same value. -/
theorem List.foldl_foldl_set_get {α β γ : Type} (idx : α → β → Nat) (val : α → β → γ)
    (xs : List β) (y0 : α) (x0 : β) (hx : x0 ∈ xs) :
    ∀ (ys : List α) (init : List γ), y0 ∈ ys →
      (∀ y ∈ ys, ∀ x ∈ xs, idx y x = idx y0 x0 → val y x = val y0 x0) →
      idx y0 x0 < init.length →
      (ys.foldl (fun acc y => xs.foldl (fun acc x => acc.set (idx y x) (val y x)) acc)
        init)[idx y0 x0]? = some (val y0 x0) := by
  intro ys
  induction ys with
  | nil => intro init hy; cases hy
  | cons y t ih =>
    intro init hy hall hlt
    rw [List.foldl_cons]
    by_cases hyt : y0 ∈ t
    · exact ih _ hyt (fun c hc => hall c (List.mem_cons_of_mem _ hc))
        (by rw [List.foldl_set_length (idx y) (val y)]; exact hlt)
    · have hyy : y0 = y := by
        rcases List.mem_cons.mp hy with h | h
        · exact h
        · exact absurd h hyt
      subst hyy
      exact List.foldl_foldl_set_keep idx val xs _ _ t _
        (fun c hc => hall c (List.mem_cons_of_mem _ hc))
        (List.foldl_set_get (idx y0) (val y0) x0 xs init hx
          (hall y0 (List.mem_cons_self _ _)) hlt)

/-- A grid index `vertY + vertX * numVerts` decomposes in one way only. -/
theorem grid_index_inj {n x y x2 y2 : Nat} (hy : y < n) (hy2 : y2 < n)
    (h : y + x * n = y2 + x2 * n) : x = x2 ∧ y = y2 := by
  have hn : 0 < n := Nat.lt_of_le_of_lt (Nat.zero_le _) hy
  have h1 : (y + x * n) / n = x := by
    rw [Nat.add_mul_div_right _ _ hn, Nat.div_eq_of_lt hy, Nat.zero_add]
  have h2 : (y2 + x2 * n) / n = x2 := by
    rw [Nat.add_mul_div_right _ _ hn, Nat.div_eq_of_lt hy2, Nat.zero_add]
  have hx : x = x2 := by rw [← h1, ← h2, h]
  subst hx
  exact ⟨rfl, Nat.add_right_cancel h⟩

theorem grid_index_lt {n x y : Nat} (hx : x < n) (hy : y < n) : y + x * n < n * n := by
  calc y + x * n < n + x * n := Nat.add_lt_add_right hy _
    _ = (x + 1) * n := by ring
    _ ≤ n * n := Nat.mul_le_mul_right _ hx

theorem templatePositions_length (numVerts : Nat) (width height posX posY : ℚ) :
    (templatePositions numVerts width height posX posY).length = (numVerts * numVerts) % 2 ^ 32 := by
  unfold templatePositions
  rw [List.foldl_foldl_set_length (fun vertY vertX => (vertY + vertX * numVerts) % 2 ^ 32)
    (fun vertY vertX => (⟨((vertX : ℚ) / (((numVerts + 2 ^ 32 - 1) % 2 ^ 32 : Nat) : ℚ) - 1 / 2)
        * width + posX,
      ((vertY : ℚ) / (((numVerts + 2 ^ 32 - 1) % 2 ^ 32 : Nat) : ℚ) - 1 / 2) * height + posY,
      0⟩ : Vec3f)), List.length_replicate]

/-- The slot `vertY + vertX * numVerts` of the template positions, when `numVerts * numVerts`
fits `unsigned int`. -/
theorem templatePositions_slot {numVerts : Nat} (width height posX posY : ℚ)
    (hfit : numVerts * numVerts < 2 ^ 32) {vertX vertY : Nat} (hx : vertX < numVerts)
    (hy : vertY < numVerts) :
    (templatePositions numVerts width height posX posY)[vertY + vertX * numVerts]?
      = some ⟨((vertX : ℚ) / ((numVerts : ℚ) - 1) - 1 / 2) * width + posX,
          ((vertY : ℚ) / ((numVerts : ℚ) - 1) - 1 / 2) * height + posY, 0⟩ := by
  have hn : 1 ≤ numVerts := Nat.lt_of_le_of_lt (Nat.zero_le _) hx
  have hn32 : numVerts < 2 ^ 32 := lt_of_le_of_lt (Nat.le_mul_of_pos_left _ hn) hfit
  have hdiv : (numVerts + 2 ^ 32 - 1) % 2 ^ 32 = numVerts - 1 := by omega
  have hcast : (((numVerts + 2 ^ 32 - 1) % 2 ^ 32 : Nat) : ℚ) = (numVerts : ℚ) - 1 := by
    rw [hdiv, Nat.cast_sub hn, Nat.cast_one]
  have hidx : ∀ {x y : Nat}, x < numVerts → y < numVerts →
      (y + x * numVerts) % 2 ^ 32 = y + x * numVerts := fun hx hy =>
    Nat.mod_eq_of_lt (lt_trans (grid_index_lt hx hy) hfit)
  have key := List.foldl_foldl_set_get
    (fun vertY vertX => (vertY + vertX * numVerts) % 2 ^ 32)
    (fun vertY vertX => (⟨((vertX : ℚ) / (((numVerts + 2 ^ 32 - 1) % 2 ^ 32 : Nat) : ℚ) - 1 / 2)
        * width + posX,
      ((vertY : ℚ) / (((numVerts + 2 ^ 32 - 1) % 2 ^ 32 : Nat) : ℚ) - 1 / 2) * height + posY,
      0⟩ : Vec3f))
    (List.range numVerts) vertY vertX (List.mem_range.mpr hx) (List.range numVerts)
    (List.replicate ((numVerts * numVerts) % 2 ^ 32) ⟨0, 0, 0⟩) (List.mem_range.mpr hy)
    (by
      intro y hym x hxm h
      have hy2 := List.mem_range.mp hym
      have hx2 := List.mem_range.mp hxm
      simp only at h
      rw [hidx hx2 hy2, hidx hx hy] at h
      obtain ⟨rfl, rfl⟩ := grid_index_inj hy2 hy h
      rfl)
    (by
      simp only
      rw [List.length_replicate, Nat.mod_eq_of_lt hfit, hidx hx hy]
      exact grid_index_lt hx hy)
  simp only [hidx hx hy, hcast] at key
  unfold templatePositions
  simp only [hcast]
  exact key

/-- The position at grid coordinates `(vertX, vertY)` lies in the rectangle of the textured
quads, with the grid corners on the rectangle's corners. -/
theorem grid_position_bounds {n vertX vertY : Nat} (hn : 2 ≤ n) (hx : vertX < n) (hy : vertY < n)
    (t : Vec4f) (hz : 0 ≤ t.z) (hw : 0 ≤ t.w) :
    (t.x * 2 - 1 ≤ ((vertX : ℚ) / ((n : ℚ) - 1) - 1 / 2) * (t.z * 2) + (t.x * 2 - 1 + t.z)
      ∧ ((vertX : ℚ) / ((n : ℚ) - 1) - 1 / 2) * (t.z * 2) + (t.x * 2 - 1 + t.z)
          ≤ t.x * 2 - 1 + t.z * 2
      ∧ t.y * 2 - 1 ≤ ((vertY : ℚ) / ((n : ℚ) - 1) - 1 / 2) * (t.w * (-2)) + (t.y * 2 - 1 + t.w)
      ∧ ((vertY : ℚ) / ((n : ℚ) - 1) - 1 / 2) * (t.w * (-2)) + (t.y * 2 - 1 + t.w)
          ≤ t.y * 2 - 1 + t.w * 2)
    ∧ (vertX = 0 →
        ((vertX : ℚ) / ((n : ℚ) - 1) - 1 / 2) * (t.z * 2) + (t.x * 2 - 1 + t.z) = t.x * 2 - 1)
    ∧ (vertX = n - 1 →
        ((vertX : ℚ) / ((n : ℚ) - 1) - 1 / 2) * (t.z * 2) + (t.x * 2 - 1 + t.z)
          = t.x * 2 - 1 + t.z * 2)
    ∧ (vertY = 0 →
        ((vertY : ℚ) / ((n : ℚ) - 1) - 1 / 2) * (t.w * (-2)) + (t.y * 2 - 1 + t.w)
          = t.y * 2 - 1 + t.w * 2)
    ∧ (vertY = n - 1 →
        ((vertY : ℚ) / ((n : ℚ) - 1) - 1 / 2) * (t.w * (-2)) + (t.y * 2 - 1 + t.w)
          = t.y * 2 - 1) := by
  have hD : (0 : ℚ) < (n : ℚ) - 1 := by
    have : (2 : ℚ) ≤ (n : ℚ) := by exact_mod_cast hn
    linarith
  have hlast : (((n - 1 : Nat) : ℚ)) = (n : ℚ) - 1 := by
    rw [Nat.cast_sub (by omega), Nat.cast_one]
  have frac : ∀ {v : Nat}, v < n →
      0 ≤ (v : ℚ) / ((n : ℚ) - 1) ∧ (v : ℚ) / ((n : ℚ) - 1) ≤ 1 := by
    intro v hv
    have hv1 : (v : ℚ) ≤ (n : ℚ) - 1 := by
      rw [← hlast]
      exact_mod_cast Nat.le_sub_one_of_lt hv
    exact ⟨div_nonneg (Nat.cast_nonneg _) hD.le, (div_le_one hD).mpr hv1⟩
  obtain ⟨hx0, hx1⟩ := frac hx
  obtain ⟨hy0, hy1⟩ := frac hy
  refine ⟨⟨?_, ?_, ?_, ?_⟩, ?_, ?_, ?_, ?_⟩
  · nlinarith [mul_nonneg hx0 hz]
  · nlinarith [mul_nonneg (sub_nonneg.mpr hx1) hz]
  · nlinarith [mul_nonneg (sub_nonneg.mpr hy1) hw]
  · nlinarith [mul_nonneg hy0 hw]
  · intro h
    rw [h, Nat.cast_zero, zero_div]
    ring
  · intro h
    rw [h, hlast, div_self hD.ne']
    ring
  · intro h
    rw [h, Nat.cast_zero, zero_div]
    ring
  · intro h
    rw [h, hlast, div_self hD.ne']
    ring

/-! ## The leaves of a chunk's composite map -/

/-- The material part of `createChunk` reaches leaves only through the one call of
`createCompositeMapGeometry` on `(0, 0, 1, 1)` that builds a new composite map. -/
theorem ChunkManager.createChunkMaterial_leaves {fuel : Nat} {m : ChunkManager} {chunkSize : ℚ}
    {chunkCenter : Vec2f} {lod : Nat} {useCompositeMap : Bool}
    {templateGeometry : Option TerrainDrawable} {mat : ChunkMaterial × ChunkManager}
    (h : m.createChunkMaterial fuel chunkSize chunkCenter lod useCompositeMap templateGeometry
      = some mat) :
    leafCalls (m.since mat.2) = []
    ∨ (templateGeometry = none ∧ useCompositeMap = true
        ∧ ∃ (cm : CompositeMap) (c : CompositeMap × ChunkManager),
          ChunkManager.createCompositeMapGeometry fuel m.alloc.2.createCompositeMapRTT.2 lod
            chunkSize chunkCenter ⟨0, 0, 1, 1⟩ cm = some c
          ∧ leafCalls (m.since mat.2)
            = leafCalls (m.alloc.2.createCompositeMapRTT.2.since c.2)) := by
  cases templateGeometry with
  | some t =>
    simp only [ChunkManager.createChunkMaterial] at h
    injection h with h
    subst h
    left
    rw [ChunkManager.since_self]
    rfl
  | none =>
    cases useCompositeMap with
    | false => exact Or.inl ((ChunkManager.createChunkMaterial_fresh h).2 rfl).2.2
    | true =>
      right
      simp only [ChunkManager.createChunkMaterial, if_true, Option.map_eq_some'] at h
      obtain ⟨c, hc, rfl⟩ := h
      have e1 : m.Evolves (fun _ => True) m.alloc.2.createCompositeMapRTT.2 :=
        (ChunkManager.Evolves.alloc _ m).trans (ChunkManager.Evolves.alloc _ _)
      have e2 := ChunkManager.createCompositeMapGeometry_evolves _ _ _ _ _ _ _ _ hc
      have e3 : c.2.Evolves (fun _ => True) (c.2.log (Event.addCompositeMap c.1.id false)) :=
        ChunkManager.Evolves.log _ trivial
      have s1 : m.since m.alloc.2.createCompositeMapRTT.2 = [] := by
        simp [ChunkManager.since, ChunkManager.alloc, ChunkManager.createCompositeMapRTT]
      refine ⟨rfl, rfl, _, c, hc, ?_⟩
      rw [ChunkManager.Evolves.since_trans (e1.trans (e2.mono fun _ _ => trivial)) e3,
        ChunkManager.Evolves.since_trans e1 e2, s1, ChunkManager.since_log, List.nil_append,
        leafCalls_append]
      simp [leafCalls]

/-- The leaves in the trace of a `createChunk` call: none, or those of the one call of
`createCompositeMapGeometry` on `(0, 0, 1, 1)` made for a chunk without template whose size is at
least `mCompositeMapLevel`. -/
theorem ChunkManager.createChunk_leaves {fuel : Nat} {m : ChunkManager} {chunkSize : ℚ}
    {chunkCenter : Vec2f} {lod lodFlags : Nat} {compile : Bool}
    {templateGeometry : Option TerrainDrawable} {r : TerrainDrawable × ChunkManager}
    (h : m.createChunk fuel chunkSize chunkCenter lod lodFlags compile templateGeometry = some r) :
    leafCalls (m.since r.2) = []
    ∨ (templateGeometry = none ∧ chunkSize ≥ m.mCompositeMapLevel
        ∧ ∃ (m0 : ChunkManager) (cm : CompositeMap) (c : CompositeMap × ChunkManager),
          m0.mMaxCompGeometrySize = m.mMaxCompGeometrySize
          ∧ ChunkManager.createCompositeMapGeometry fuel m0 lod chunkSize chunkCenter ⟨0, 0, 1, 1⟩
              cm = some c
          ∧ leafCalls (m.since r.2) = leafCalls (m0.since c.2)) := by
  obtain ⟨mat, hmat, -, -, -, -, -, -, -, -, -, hs⟩ := ChunkManager.createChunk_some h
  have harr : leafCalls (m.alloc.2.since (m.alloc.2.createChunkArrays chunkSize chunkCenter lod
      (decide (chunkSize ≥ m.mCompositeMapLevel)) templateGeometry).2) = [] := by
    cases templateGeometry with
    | none => rw [ChunkManager.createChunkArrays_since_none]; rfl
    | some t => rw [ChunkManager.createChunkArrays_since_some]; rfl
  have htail : leafCalls (m.createChunkTail compile templateGeometry) = [] := by
    unfold ChunkManager.createChunkTail
    split <;> rfl
  have hall : leafCalls (m.since r.2) = leafCalls
      ((m.createChunkMid chunkSize chunkCenter lod lodFlags templateGeometry).since mat.2) := by
    rw [hs, leafCalls_append, leafCalls_append, leafCalls_append, harr, htail]
    simp [leafCalls]
  have emid : m.Evolves (fun _ => True)
      (m.createChunkMid chunkSize chunkCenter lod lodFlags templateGeometry) :=
    ((ChunkManager.Evolves.alloc _ m).trans (ChunkManager.createChunkArrays_evolves m.alloc.2
      chunkSize chunkCenter lod (decide (chunkSize ≥ m.mCompositeMapLevel)) templateGeometry)).trans
      (((ChunkManager.Evolves.log _ trivial).trans (ChunkManager.Evolves.log _ trivial)).trans
        (ChunkManager.Evolves.log _ trivial))
  rcases ChunkManager.createChunkMaterial_leaves hmat with hnil | ⟨ht, hu, cm, c, hc, hl⟩
  · exact Or.inl (hall.trans hnil)
  · refine Or.inr ⟨ht, of_decide_eq_true hu, _, cm, c, ?_, hc, hall.trans hl⟩
    have e1 : (m.createChunkMid chunkSize chunkCenter lod lodFlags templateGeometry).Evolves
        (fun _ => True) (m.createChunkMid chunkSize chunkCenter lod lodFlags
          templateGeometry).alloc.2.createCompositeMapRTT.2 :=
      (ChunkManager.Evolves.alloc _ _).trans (ChunkManager.Evolves.alloc _ _)
    exact (emid.trans e1).mMaxCompGeometrySize_eq

/-- The grid resolution of a leaf whose chunk size lies in `(1/2, 1]`, for a data source with at
least three vertices per cell side (an `int`): at least 2. -/
theorem ChunkManager.leafNumVerts_ge_two (m : ChunkManager) {s : ℚ}
    (hcv : 3 ≤ m.mStorage.getCellVertices m.mWorldspace)
    (hint : m.mStorage.getCellVertices m.mWorldspace < 2 ^ 31) (hs0 : 1 / 2 < s) (hs1 : s ≤ 1) :
    2 ≤ m.leafNumVerts s := by
  have hsh : ∀ x : Int, x >>> (0 : Nat) = x := by
    intro x
    cases x <;> rfl
  have hc : (2 : ℚ) ≤ ((m.mStorage.getCellVertices m.mWorldspace - 1 : Int) : ℚ) := by
    exact_mod_cast (by omega : (2 : Int) ≤ m.mStorage.getCellVertices m.mWorldspace - 1)
  have hc2 : ((m.mStorage.getCellVertices m.mWorldspace - 1 : Int) : ℚ) ≤ 2 ^ 31 := by
    exact_mod_cast (by omega : m.mStorage.getCellVertices m.mWorldspace - 1 ≤ (2 : Int) ^ 31)
  have ha2 : (2 : ℚ) ≤ roundFloat ((m.mStorage.getCellVertices m.mWorldspace - 1 : Int) : ℚ) := by
    have := roundFloat_ge_two_pow 1 (by norm_num) (by simpa using hc)
    simpa using this
  have ha3 : roundFloat ((m.mStorage.getCellVertices m.mWorldspace - 1 : Int) : ℚ)
      ≤ 2 ^ 31 + 2 ^ 7 :=
    (roundFloat_le_add (by linarith) (by linarith)).trans (by linarith)
  have hp1 : (1 : ℚ) ≤ roundFloat ((m.mStorage.getCellVertices m.mWorldspace - 1 : Int) : ℚ) * s := by
    nlinarith
  have hp3 : roundFloat ((m.mStorage.getCellVertices m.mWorldspace - 1 : Int) : ℚ) * s
      ≤ 2 ^ 31 + 2 ^ 7 := by
    nlinarith
  have hq1 : (1 : ℚ)
      ≤ roundFloat (roundFloat ((m.mStorage.getCellVertices m.mWorldspace - 1 : Int) : ℚ) * s) := by
    have := roundFloat_ge_two_pow 0 (by norm_num) (by simpa using hp1)
    simpa using this
  have hq3 : roundFloat (roundFloat ((m.mStorage.getCellVertices m.mWorldspace - 1 : Int) : ℚ) * s)
      ≤ 2 ^ 31 + 2 ^ 8 :=
    (roundFloat_le_add (by linarith) (by linarith)).trans (by linarith)
  have ht2 : (2 : ℚ) ≤ roundFloat
      (roundFloat (roundFloat ((m.mStorage.getCellVertices m.mWorldspace - 1 : Int) : ℚ) * s)
        + 1) := by
    have := roundFloat_ge_two_pow 1 (by norm_num)
      (by simpa using (by linarith : (2 : ℚ) ≤ roundFloat
        (roundFloat ((m.mStorage.getCellVertices m.mWorldspace - 1 : Int) : ℚ) * s) + 1))
    simpa using this
  have ht3 : roundFloat
      (roundFloat (roundFloat ((m.mStorage.getCellVertices m.mWorldspace - 1 : Int) : ℚ) * s)
        + 1) < 2 ^ 32 :=
    lt_of_le_of_lt (roundFloat_le_add (by linarith) (by linarith)) (by linarith)
  unfold ChunkManager.leafNumVerts
  rw [hsh]
  exact floatToUInt_ge_two ht2 ht3

/-! ## The claims -/

/-- C1: if the chunk cache holds an object under the exact ChunkKey that `getChunk` builds
(center, bits 16 and up of lodFlags as lod, lodFlags), `getChunk` returns that very object and
leaves the whole state as it was: no collaborator call is added to the trace (no Storage call, no
BufferCache call), the cache is not touched and nothing is allocated. No `createChunk` call was
made, since every returning `createChunk` call extends the trace. -/
theorem getChunk_hit_returns_cached (fuel : Nat) (m : ChunkManager) (size : ℚ) (center : Vec2f)
    (lod lodFlags : Nat) (activeGrid : Bool) (viewPoint : Vec3f) (compile : Bool)
    (obj : TerrainDrawable)
    (hit : m.mCache.getRefFromObjectCache ⟨center, (lodFlags >>> 16) % 256, lodFlags⟩ = some obj) :
    m.getChunk fuel size center lod lodFlags activeGrid viewPoint compile = some (obj, m)
    ∧ ∀ (fuel' : Nat) (chunkSize : ℚ) (chunkCenter : Vec2f) (lod' lodFlags' : Nat) (compile' : Bool)
        (templateGeometry : Option TerrainDrawable) (r : TerrainDrawable × ChunkManager),
        m.createChunk fuel' chunkSize chunkCenter lod' lodFlags' compile' templateGeometry = some r →
        m.since r.2 ≠ [] :=
  ⟨ChunkManager.getChunk_hit hit fuel size lod activeGrid viewPoint compile,
    fun _ _ _ _ _ _ _ _ h => ChunkManager.createChunk_since_ne_nil h⟩

/-- Witness of C1: the chunk built by the first request is served from the cache on the second
request, with the state unchanged. -/
theorem getChunk_hit_returns_cached_witness :
    warmManager.mCache.getRefFromObjectCache ⟨⟨0, 0⟩, (0 >>> 16) % 256, 0⟩ = some firstChunk
    ∧ (warmManager.getChunk 0 (1 / 2) ⟨0, 0⟩ 7 0 true ⟨0, 0, 0⟩ true = some (firstChunk, warmManager)
      ∧ ∀ (fuel' : Nat) (chunkSize : ℚ) (chunkCenter : Vec2f) (lod' lodFlags' : Nat)
          (compile' : Bool) (templateGeometry : Option TerrainDrawable)
          (r : TerrainDrawable × ChunkManager),
          warmManager.createChunk fuel' chunkSize chunkCenter lod' lodFlags' compile'
            templateGeometry = some r →
          warmManager.since r.2 ≠ []) :=
  ⟨by decide!, getChunk_hit_returns_cached 0 warmManager (1 / 2) ⟨0, 0⟩ 7 0 true ⟨0, 0, 0⟩ true
    firstChunk (by decide!)⟩

/-- C2: when `getChunk` misses, every returning call has stored the node it built under the exact
ChunkKey; a second call with identical arguments on the resulting state returns the same node and
leaves the state, hence the trace and the number of data-source sampling calls in it, unchanged.
With a positive `mMaxCompGeometrySize` the first call returns once the fuel is large enough. -/
theorem getChunk_twice_same_node (m : ChunkManager) (size : ℚ) (center : Vec2f)
    (lod lodFlags : Nat) (activeGrid : Bool) (viewPoint : Vec3f) (compile : Bool)
    (miss : m.mCache.getRefFromObjectCache ⟨center, (lodFlags >>> 16) % 256, lodFlags⟩ = none) :
    (∀ (fuel : Nat) (r : TerrainDrawable × ChunkManager),
        m.getChunk fuel size center lod lodFlags activeGrid viewPoint compile = some r →
        r.2.mCache.getRefFromObjectCache ⟨center, (lodFlags >>> 16) % 256, lodFlags⟩ = some r.1
        ∧ ∀ fuel' : Nat, ∃ r' : TerrainDrawable × ChunkManager,
            r.2.getChunk fuel' size center lod lodFlags activeGrid viewPoint compile = some r'
            ∧ r'.1 = r.1 ∧ r'.2.trace = r.2.trace
            ∧ (r'.2.trace.filter Event.isSampling).length
                = (r.2.trace.filter Event.isSampling).length)
    ∧ (0 < m.mMaxCompGeometrySize → ∃ (fuel0 : Nat) (r : TerrainDrawable × ChunkManager),
        ∀ fuel, fuel0 ≤ fuel →
          m.getChunk fuel size center lod lodFlags activeGrid viewPoint compile = some r) := by
  refine ⟨fun fuel r h => ?_, fun ht =>
    ChunkManager.getChunk_total m size center lod lodFlags activeGrid viewPoint compile ht⟩
  rw [ChunkManager.getChunk_miss miss, Option.map_eq_some'] at h
  obtain ⟨c, -, rfl⟩ := h
  have hstored := ObjectCache.getRefFromObjectCache_addEntryToObjectCache c.2.mCache
    ⟨center, (lodFlags >>> 16) % 256, lodFlags⟩ c.1
  exact ⟨hstored, fun fuel' =>
    ⟨_, ChunkManager.getChunk_hit hstored fuel' size lod activeGrid viewPoint compile, rfl, rfl, rfl⟩⟩

/-- Witness of C2: on a newly constructed manager the request misses, and the threshold is
positive. -/
theorem getChunk_twice_same_node_witness :
    freshManager.mCache.getRefFromObjectCache ⟨⟨0, 0⟩, (0 >>> 16) % 256, 0⟩ = none
    ∧ 0 < freshManager.mMaxCompGeometrySize
    ∧ ((∀ (fuel : Nat) (r : TerrainDrawable × ChunkManager),
        freshManager.getChunk fuel 1 ⟨0, 0⟩ 0 0 true ⟨0, 0, 0⟩ true = some r →
        r.2.mCache.getRefFromObjectCache ⟨⟨0, 0⟩, (0 >>> 16) % 256, 0⟩ = some r.1
        ∧ ∀ fuel' : Nat, ∃ r' : TerrainDrawable × ChunkManager,
            r.2.getChunk fuel' 1 ⟨0, 0⟩ 0 0 true ⟨0, 0, 0⟩ true = some r'
            ∧ r'.1 = r.1 ∧ r'.2.trace = r.2.trace
            ∧ (r'.2.trace.filter Event.isSampling).length
                = (r.2.trace.filter Event.isSampling).length)
      ∧ (0 < freshManager.mMaxCompGeometrySize →
          ∃ (fuel0 : Nat) (r : TerrainDrawable × ChunkManager), ∀ fuel, fuel0 ≤ fuel →
            freshManager.getChunk fuel 1 ⟨0, 0⟩ 0 0 true ⟨0, 0, 0⟩ true = some r)) :=
  ⟨by decide!, by decide!,
    getChunk_twice_same_node freshManager 1 ⟨0, 0⟩ 0 0 true ⟨0, 0, 0⟩ true (by decide!)⟩

/-- C3: in `getChunk` the entry returned by `lowerBound` becomes the template exactly when the
`(mCenter, mLod)` of its key equals the requested TemplateKey; when `lowerBound` returns nothing,
or an entry whose center or lod differs, there is no template. On a miss `getChunk` is
`createChunk` with that template followed by the cache insertion, and `createChunk` without a
template fills the arrays from the data source with exactly one `fillVertexBuffers` call. -/
theorem getChunk_template_iff_key_match (m : ChunkManager) (size : ℚ) (center : Vec2f)
    (lod lodFlags : Nat) (activeGrid : Bool) (viewPoint : Vec3f) (compile : Bool)
    (miss : m.mCache.getRefFromObjectCache ⟨center, (lodFlags >>> 16) % 256, lodFlags⟩ = none) :
    (∀ t : TerrainDrawable, m.getChunkTemplate center ((lodFlags >>> 16) % 256) = some t ↔
        ∃ k : ChunkKey, m.mCache.lowerBound ⟨center, (lodFlags >>> 16) % 256⟩ = some (k, t)
          ∧ k.mCenter = center ∧ k.mLod = (lodFlags >>> 16) % 256)
    ∧ (m.mCache.lowerBound ⟨center, (lodFlags >>> 16) % 256⟩ = none →
        m.getChunkTemplate center ((lodFlags >>> 16) % 256) = none)
    ∧ (∀ (k : ChunkKey) (t : TerrainDrawable),
        m.mCache.lowerBound ⟨center, (lodFlags >>> 16) % 256⟩ = some (k, t) →
        (k.mCenter ≠ center ∨ k.mLod ≠ (lodFlags >>> 16) % 256) →
        m.getChunkTemplate center ((lodFlags >>> 16) % 256) = none)
    ∧ (∀ fuel : Nat, m.getChunk fuel size center lod lodFlags activeGrid viewPoint compile
        = (m.createChunk fuel size center ((lodFlags >>> 16) % 256) lodFlags compile
            (m.getChunkTemplate center ((lodFlags >>> 16) % 256))).map fun r =>
            (r.1, { r.2 with
              mCache := r.2.mCache.addEntryToObjectCache ⟨center, (lodFlags >>> 16) % 256, lodFlags⟩ r.1 }))
    ∧ (∀ (fuel : Nat) (r : TerrainDrawable × ChunkManager),
        m.createChunk fuel size center ((lodFlags >>> 16) % 256) lodFlags compile none = some r →
        (m.since r.2).filter Event.isFillVertexBuffers
          = [Event.fillVertexBuffers ((lodFlags >>> 16) % 256) size center
              (decide (size ≥ m.mCompositeMapLevel))]
        ∧ r.1.mVertexArray.data = (m.mStorage.fillVertexBuffers ((lodFlags >>> 16) % 256) size
            center m.mWorldspace (decide (size ≥ m.mCompositeMapLevel))).1
        ∧ r.1.mNormalArray.data = (m.mStorage.fillVertexBuffers ((lodFlags >>> 16) % 256) size
            center m.mWorldspace (decide (size ≥ m.mCompositeMapLevel))).2.1
        ∧ r.1.mColorArray.data = (m.mStorage.fillVertexBuffers ((lodFlags >>> 16) % 256) size
            center m.mWorldspace (decide (size ≥ m.mCompositeMapLevel))).2.2) := by
  refine ⟨fun t => ?_, fun hnone => ?_, fun k t hlb hne => ?_,
    fun fuel => ChunkManager.getChunk_miss miss fuel size lod activeGrid viewPoint compile,
    fun fuel r h => ⟨ChunkManager.createChunk_fresh_fill h, ChunkManager.createChunk_fresh_arrays h⟩⟩
  · cases hlb : m.mCache.lowerBound ⟨center, (lodFlags >>> 16) % 256⟩ with
    | none => simp [ChunkManager.getChunkTemplate, hlb]
    | some pair =>
      obtain ⟨k, t'⟩ := pair
      by_cases hkey : k.mCenter = center ∧ k.mLod = (lodFlags >>> 16) % 256
      · have hsel : m.getChunkTemplate center ((lodFlags >>> 16) % 256) = some t' := by
          simp [ChunkManager.getChunkTemplate, hlb, hkey.1, hkey.2]
        rw [hsel]
        constructor
        · intro h
          injection h with h
          subst h
          exact ⟨k, rfl, hkey.1, hkey.2⟩
        · rintro ⟨k', h, -⟩
          injection h with h
          injection h with h1 h2
          rw [h2]
      · have hsel : m.getChunkTemplate center ((lodFlags >>> 16) % 256) = none := by
          simp only [ChunkManager.getChunkTemplate, hlb]
          rw [if_neg]
          intro h
          injection h with h1 h2
          exact hkey ⟨h1.symm, h2.symm⟩
        rw [hsel]
        constructor
        · intro h; cases h
        · rintro ⟨k', h, hc, hl⟩
          injection h with h
          injection h with h1 h2
          subst h1
          exact absurd ⟨hc, hl⟩ hkey
  · simp [ChunkManager.getChunkTemplate, hnone]
  · simp only [ChunkManager.getChunkTemplate, hlb]
    rw [if_neg]
    intro h
    injection h with h1 h2
    rcases hne with hc | hl
    · exact hc h1.symm
    · exact hl h2.symm

/-- Witness of C3: after the first request, a request for the same center with other stitching
flags misses, and `lowerBound` finds the first chunk under a key with the requested center and
lod. -/
theorem getChunk_template_iff_key_match_witness :
    warmManager.mCache.getRefFromObjectCache ⟨⟨0, 0⟩, (1 >>> 16) % 256, 1⟩ = none
    ∧ warmManager.mCache.lowerBound ⟨⟨0, 0⟩, (1 >>> 16) % 256⟩ = some (⟨⟨0, 0⟩, 0, 0⟩, firstChunk)
    ∧ warmManager.getChunkTemplate ⟨0, 0⟩ ((1 >>> 16) % 256) = some firstChunk :=
  ⟨by decide!, by decide!,
    ((getChunk_template_iff_key_match warmManager (1 / 2) ⟨0, 0⟩ 0 1 true ⟨0, 0, 0⟩ true
      (by decide!)).1 firstChunk).2 ⟨⟨⟨0, 0⟩, 0, 0⟩, by decide!, rfl, by decide!⟩⟩

/-- C4: with a template, `createChunk` returns for every fuel, makes no data-source sampling call
(`fillVertexBuffers`, `fillVertexBuffersCompositeMap`, `getBlendmaps`), registers no composite map
and enters no composite-map leaf, allocates only the drawable, the three array copies and the
vertex buffer object, leaves the composite geometry cache alone, and the chunk has the template's
passes and composite map. Without a template, every returning call makes exactly one
`fillVertexBuffers` call, with the call's lod, chunk size and chunk center; with a positive
`mMaxCompGeometrySize` the call returns once the fuel is large enough. -/
theorem createChunk_template_skips_sampling (fuel : Nat) (m : ChunkManager) (chunkSize : ℚ)
    (chunkCenter : Vec2f) (lod lodFlags : Nat) (compile : Bool) :
    (∀ t : TerrainDrawable, ∃ r : TerrainDrawable × ChunkManager,
        m.createChunk fuel chunkSize chunkCenter lod lodFlags compile (some t) = some r
        ∧ (m.since r.2).filter Event.isSampling = []
        ∧ (m.since r.2).filter Event.isAddCompositeMap = []
        ∧ leafCalls (m.since r.2) = []
        ∧ r.2.mNextId = m.mNextId + 5
        ∧ r.2.mCompositeMapGeometryCache = m.mCompositeMapGeometryCache
        ∧ r.1.mPasses = t.mPasses ∧ r.1.mCompositeMap = t.mCompositeMap)
    ∧ (∀ r : TerrainDrawable × ChunkManager,
        m.createChunk fuel chunkSize chunkCenter lod lodFlags compile none = some r →
        (m.since r.2).filter Event.isFillVertexBuffers
          = [Event.fillVertexBuffers lod chunkSize chunkCenter
              (decide (chunkSize ≥ m.mCompositeMapLevel))])
    ∧ (0 < m.mMaxCompGeometrySize → ∃ (fuel0 : Nat) (r : TerrainDrawable × ChunkManager),
        ∀ fuel', fuel0 ≤ fuel' →
          m.createChunk fuel' chunkSize chunkCenter lod lodFlags compile none = some r) := by
  refine ⟨fun t => ?_, fun r h => ChunkManager.createChunk_fresh_fill h,
    fun ht => ChunkManager.createChunk_total m chunkSize chunkCenter lod lodFlags compile none ht⟩
  obtain ⟨r, hr⟩ := ChunkManager.createChunk_template m chunkSize chunkCenter lod lodFlags compile t
  obtain ⟨hs, hn, hg, -, hp, hc, -⟩ := ChunkManager.createChunk_template_since (hr fuel)
  refine ⟨r, hr fuel, ?_, ?_, ?_, hn, hg, hp, hc⟩ <;> rw [hs] <;> rfl

/-- Witness of C4: on a newly constructed manager the call without a template returns with
fuel 2, and the threshold is positive. -/
theorem createChunk_template_skips_sampling_witness :
    (freshManager.createChunk 2 1 ⟨0, 0⟩ 0 0 true none).isSome = true
    ∧ 0 < freshManager.mMaxCompGeometrySize
    ∧ ∃ (fuel0 : Nat) (r : TerrainDrawable × ChunkManager), ∀ fuel', fuel0 ≤ fuel' →
        freshManager.createChunk fuel' 1 ⟨0, 0⟩ 0 0 true none = some r :=
  ⟨by decide!, by decide!,
    (createChunk_template_skips_sampling 2 freshManager 1 ⟨0, 0⟩ 0 0 true).2.2 (by decide!)⟩

/-- C5: let a first chunk be obtained from `getChunk` in a state whose cached arrays were all
allocated earlier, and let a second request for the same center and the same effective lod miss
the cache while `lowerBound` finds the first chunk. Then the second request returns for every
fuel, the two requests differ in their lodFlags, and the position, normal and color arrays of the
second chunk have the same elements in the same order as those of the first, while being
different array objects. -/
theorem getChunk_template_arrays_equal (m : ChunkManager) (hm : m.heapOk) (size1 size2 : ℚ)
    (center : Vec2f) (lod1 lod2 lodFlags1 lodFlags2 : Nat) (activeGrid1 activeGrid2 : Bool)
    (viewPoint1 viewPoint2 : Vec3f) (compile1 compile2 : Bool) (fuel1 : Nat)
    (r1 : TerrainDrawable × ChunkManager)
    (h1 : m.getChunk fuel1 size1 center lod1 lodFlags1 activeGrid1 viewPoint1 compile1 = some r1)
    (hlod : (lodFlags1 >>> 16) % 256 = (lodFlags2 >>> 16) % 256)
    (hmiss : r1.2.mCache.getRefFromObjectCache ⟨center, (lodFlags2 >>> 16) % 256, lodFlags2⟩ = none)
    (hfound : r1.2.mCache.lowerBound ⟨center, (lodFlags2 >>> 16) % 256⟩
      = some (⟨center, (lodFlags1 >>> 16) % 256, lodFlags1⟩, r1.1)) :
    lodFlags1 ≠ lodFlags2
    ∧ ∀ fuel2 : Nat, ∃ r2 : TerrainDrawable × ChunkManager,
        r1.2.getChunk fuel2 size2 center lod2 lodFlags2 activeGrid2 viewPoint2 compile2 = some r2
        ∧ r2.1.mVertexArray.data = r1.1.mVertexArray.data
        ∧ r2.1.mNormalArray.data = r1.1.mNormalArray.data
        ∧ r2.1.mColorArray.data = r1.1.mColorArray.data
        ∧ r2.1.mVertexArray.id ≠ r1.1.mVertexArray.id
        ∧ r2.1.mNormalArray.id ≠ r1.1.mNormalArray.id
        ∧ r2.1.mColorArray.id ≠ r1.1.mColorArray.id := by
  have hstored : r1.2.mCache.getRefFromObjectCache ⟨center, (lodFlags1 >>> 16) % 256, lodFlags1⟩
      = some r1.1 := by
    cases hget : m.mCache.getRefFromObjectCache ⟨center, (lodFlags1 >>> 16) % 256, lodFlags1⟩ with
    | some obj =>
      rw [ChunkManager.getChunk_hit hget] at h1
      injection h1 with h1
      subst h1
      exact hget
    | none =>
      rw [ChunkManager.getChunk_miss hget, Option.map_eq_some'] at h1
      obtain ⟨c, -, rfl⟩ := h1
      exact ObjectCache.getRefFromObjectCache_addEntryToObjectCache _ _ _
  have hflags : lodFlags1 ≠ lodFlags2 := by
    intro heq
    rw [heq, hmiss] at hstored
    cases hstored
  refine ⟨hflags, fun fuel2 => ?_⟩
  have htmpl : r1.2.getChunkTemplate center ((lodFlags2 >>> 16) % 256) = some r1.1 := by
    simp [ChunkManager.getChunkTemplate, hfound, hlod]
  have hok := ChunkManager.heapOk_getChunk hm h1
  have hids : r1.1.mVertexArray.id < r1.2.mNextId ∧ r1.1.mNormalArray.id < r1.2.mNextId
      ∧ r1.1.mColorArray.id < r1.2.mNextId := hok _ (ObjectCache.lowerBound_mem hfound)
  clear hflags hlod hstored
  obtain ⟨c, hc⟩ := ChunkManager.createChunk_template r1.2 size2 center
    ((lodFlags2 >>> 16) % 256) lodFlags2 compile2 r1.1
  obtain ⟨-, -, -, -, -, -, hv, hn, hcol⟩ := ChunkManager.createChunk_template_since (hc fuel2)
  refine ⟨_, by rw [ChunkManager.getChunk_miss hmiss, htmpl, hc fuel2, Option.map_some'],
    ?_, ?_, ?_, ?_, ?_, ?_⟩
  · simp only [hv]; rfl
  · simp only [hn]; rfl
  · simp only [hcol]; rfl
  · simp only [hv, OsgArray.clone]; omega
  · simp only [hn, OsgArray.clone]; omega
  · simp only [hcol, OsgArray.clone]; omega

/-- Witness of C5: on a newly constructed manager, the chunk at the origin is requested with
`lodFlags = 0` and then with `lodFlags = 1`. -/
theorem getChunk_template_arrays_equal_witness :
    freshManager.heapOk
    ∧ freshManager.getChunk 2 (1 / 2) ⟨0, 0⟩ 0 0 true ⟨0, 0, 0⟩ true = some (firstChunk, warmManager)
    ∧ (0 >>> 16) % 256 = (1 >>> 16) % 256
    ∧ warmManager.mCache.getRefFromObjectCache ⟨⟨0, 0⟩, (1 >>> 16) % 256, 1⟩ = none
    ∧ warmManager.mCache.lowerBound ⟨⟨0, 0⟩, (1 >>> 16) % 256⟩
        = some (⟨⟨0, 0⟩, (0 >>> 16) % 256, 0⟩, firstChunk)
    ∧ ∃ r2 : TerrainDrawable × ChunkManager,
        warmManager.getChunk 0 (1 / 2) ⟨0, 0⟩ 0 1 true ⟨0, 0, 0⟩ true = some r2
        ∧ r2.1.mVertexArray.data = firstChunk.mVertexArray.data
        ∧ r2.1.mNormalArray.data = firstChunk.mNormalArray.data
        ∧ r2.1.mColorArray.data = firstChunk.mColorArray.data
        ∧ r2.1.mVertexArray.id ≠ firstChunk.mVertexArray.id
        ∧ r2.1.mNormalArray.id ≠ firstChunk.mNormalArray.id
        ∧ r2.1.mColorArray.id ≠ firstChunk.mColorArray.id :=
  ⟨ChunkManager.heapOk_new _ _ _ _, firstRequest_eq, by decide, by decide!, by decide!,
    (getChunk_template_arrays_equal freshManager (ChunkManager.heapOk_new _ _ _ _) (1 / 2) (1 / 2)
      ⟨0, 0⟩ 0 0 0 1 true true ⟨0, 0, 0⟩ ⟨0, 0, 0⟩ true true 2 (firstChunk, warmManager)
      firstRequest_eq (by decide) (by decide!) (by decide!)).2 0⟩

/-- Counterexample to C6 as stated: after the first request (size `1 / 2`, below the threshold 1)
the chunk manager finds the first chunk as template for the key `(center, lod 0)`; `createChunk`
with chunk size 2, at or above the threshold, and that template returns a chunk without a
composite map, whose passes are the template's and not a pass over a composite texture. -/
theorem createChunk_composite_by_size_counterexample :
    warmManager.getChunkTemplate ⟨0, 0⟩ ((1 >>> 16) % 256) = some firstChunk
    ∧ 2 ≥ warmManager.mCompositeMapLevel
    ∧ (warmManager.createChunk 0 2 ⟨0, 0⟩ 0 1 true (some firstChunk)).map
        (fun r => (r.1.mCompositeMap, decide (r.1.mPasses = firstChunk.mPasses))) = some (none, true)
    ∧ (warmManager.getChunk 0 2 ⟨0, 0⟩ 0 1 true ⟨0, 0, 0⟩ true).map
        (fun r => r.1.mCompositeMap) = some none := by
  decide!

/-- C6 (amended): for every chunk that `createChunk` builds without a template, if `chunkSize` is
at or above `mCompositeMapLevel` the chunk has a composite map and a single pass whose only layer
is the composite map's texture, otherwise it has no composite map and its passes are those of
`createPasses(chunkSize, chunkCenter, false)`. A chunk built from a template has the template's
composite map and passes, whatever its chunk size. With a template the call returns for every
fuel; without one it returns once the fuel is large enough when `mMaxCompGeometrySize` is
positive. -/
theorem createChunk_composite_without_template (m : ChunkManager) (chunkSize : ℚ)
    (chunkCenter : Vec2f) (lod lodFlags : Nat) (compile : Bool) :
    (∀ (fuel : Nat) (r : TerrainDrawable × ChunkManager),
        m.createChunk fuel chunkSize chunkCenter lod lodFlags compile none = some r →
        (chunkSize ≥ m.mCompositeMapLevel → ∃ (cm : CompositeMap) (tex : Texture2D),
            r.1.mCompositeMap = some cm ∧ cm.mTexture = some tex
            ∧ r.1.mPasses = [StateSet.layerPass
                (m.mSceneManager.getForceShaders || !m.mSceneManager.getClampLighting) 0
                { mDiffuseMap := tex, mNormalMap := none, mParallax := false, mSpecular := false }
                [] 1 1])
        ∧ (¬ chunkSize ≥ m.mCompositeMapLevel → r.1.mCompositeMap = none
            ∧ r.1.mPasses = ((m.createChunkMid chunkSize chunkCenter lod lodFlags none).createPasses
                chunkSize chunkCenter false).1))
    ∧ (∀ (t : TerrainDrawable) (fuel : Nat), ∃ r : TerrainDrawable × ChunkManager,
        m.createChunk fuel chunkSize chunkCenter lod lodFlags compile (some t) = some r
        ∧ r.1.mCompositeMap = t.mCompositeMap ∧ r.1.mPasses = t.mPasses)
    ∧ (0 < m.mMaxCompGeometrySize → ∃ (fuel0 : Nat) (r : TerrainDrawable × ChunkManager),
        ∀ fuel, fuel0 ≤ fuel →
          m.createChunk fuel chunkSize chunkCenter lod lodFlags compile none = some r) := by
  refine ⟨fun fuel r h => ?_, fun t fuel => ?_,
    fun ht => ChunkManager.createChunk_total m chunkSize chunkCenter lod lodFlags compile none ht⟩
  · obtain ⟨mat, hmat, -, -, -, -, -, -, hcm, hp, -, -⟩ := ChunkManager.createChunk_some h
    obtain ⟨hcomp, hplain⟩ := ChunkManager.createChunkMaterial_fresh hmat
    have hscene : (m.createChunkMid chunkSize chunkCenter lod lodFlags none).mSceneManager
        = m.mSceneManager := by
      simp [ChunkManager.createChunkMid, ChunkManager.createChunkArrays, ChunkManager.log,
        ChunkManager.alloc]
    constructor
    · intro hge
      obtain ⟨cm, tex, h1, h2, h3, -⟩ := hcomp (decide_eq_true hge)
      rw [hscene] at h3
      exact ⟨cm, tex, hcm.trans h1, h2, hp.trans h3⟩
    · intro hlt
      obtain ⟨h1, h2, -⟩ := hplain (decide_eq_false hlt)
      exact ⟨hcm.trans h1, hp.trans h2⟩
  · obtain ⟨r, hr⟩ := ChunkManager.createChunk_template m chunkSize chunkCenter lod lodFlags compile t
    obtain ⟨-, -, -, -, hp, hc, -⟩ := ChunkManager.createChunk_template_since (hr fuel)
    exact ⟨r, hr fuel, hc, hp⟩

/-- Witness of C6 (amended): on a newly constructed manager a chunk of size 1, at the threshold,
is built without a template with fuel 2 and has a composite map and a single pass. -/
theorem createChunk_composite_without_template_witness :
    (1 : ℚ) ≥ freshManager.mCompositeMapLevel
    ∧ ∃ r : TerrainDrawable × ChunkManager,
        freshManager.createChunk 2 1 ⟨0, 0⟩ 0 0 true none = some r
        ∧ ∃ (cm : CompositeMap) (tex : Texture2D),
            r.1.mCompositeMap = some cm ∧ cm.mTexture = some tex
            ∧ r.1.mPasses = [StateSet.layerPass
                (freshManager.mSceneManager.getForceShaders
                  || !freshManager.mSceneManager.getClampLighting) 0
                { mDiffuseMap := tex, mNormalMap := none, mParallax := false, mSpecular := false }
                [] 1 1] := by
  have hsome : (freshManager.createChunk 2 1 ⟨0, 0⟩ 0 0 true none).isSome = true := by decide!
  obtain ⟨r, hr⟩ := Option.isSome_iff_exists.mp hsome
  exact ⟨by decide!, r, hr,
    ((createChunk_composite_without_template freshManager 1 ⟨0, 0⟩ 0 0 true).1 2 r hr).1
      (by decide!)⟩

/-- C7: a returning `createChunk` call hands the new geometry to the incremental compile queue
if and only if no template was used, the compile flag is set and the scene manager has an
incremental compile operation; nothing else is ever handed over, and it is handed over at most
once. A chunk built from a template is never submitted, whatever the compile flag. The call
returns for every fuel with a template, and once the fuel is large enough when
`mMaxCompGeometrySize` is positive. -/
theorem createChunk_compile_iff (m : ChunkManager) (chunkSize : ℚ) (chunkCenter : Vec2f)
    (lod lodFlags : Nat) (compile : Bool) (templateGeometry : Option TerrainDrawable) :
    (∀ (fuel : Nat) (r : TerrainDrawable × ChunkManager),
        m.createChunk fuel chunkSize chunkCenter lod lodFlags compile templateGeometry = some r →
        (Event.incrementalCompileAdd r.1.id ∈ m.since r.2 ↔
          templateGeometry = none ∧ compile = true
            ∧ m.mSceneManager.hasIncrementalCompileOperation = true)
        ∧ (m.since r.2).filter Event.isCompileAdd
            = if (templateGeometry.isNone && compile
                && m.mSceneManager.hasIncrementalCompileOperation) = true
              then [Event.incrementalCompileAdd r.1.id] else [])
    ∧ (∀ (t : TerrainDrawable) (compile' : Bool) (fuel : Nat), ∃ r : TerrainDrawable × ChunkManager,
        m.createChunk fuel chunkSize chunkCenter lod lodFlags compile' (some t) = some r
        ∧ (m.since r.2).filter Event.isCompileAdd = [])
    ∧ (0 < m.mMaxCompGeometrySize → ∃ (fuel0 : Nat) (r : TerrainDrawable × ChunkManager),
        ∀ fuel, fuel0 ≤ fuel →
          m.createChunk fuel chunkSize chunkCenter lod lodFlags compile templateGeometry
            = some r) := by
  have key : ∀ (fuel : Nat) (c : Bool) (tg : Option TerrainDrawable)
      (r : TerrainDrawable × ChunkManager),
      m.createChunk fuel chunkSize chunkCenter lod lodFlags c tg = some r →
      (m.since r.2).filter Event.isCompileAdd
        = if (tg.isNone && c && m.mSceneManager.hasIncrementalCompileOperation) = true
          then [Event.incrementalCompileAdd r.1.id] else [] := by
    intro fuel c tg r h
    obtain ⟨mat, hmat, hid, -, -, -, -, -, -, -, -, hs⟩ := ChunkManager.createChunk_some h
    have hm := (ChunkManager.createChunkMaterial_evolves hmat).since_all
    have harr : (m.alloc.2.since (m.alloc.2.createChunkArrays chunkSize chunkCenter lod
        (decide (chunkSize ≥ m.mCompositeMapLevel)) tg).2).filter Event.isCompileAdd = [] := by
      cases tg with
      | none => rw [ChunkManager.createChunkArrays_since_none]; rfl
      | some t => rw [ChunkManager.createChunkArrays_since_some]; rfl
    rw [hs, hid]
    simp only [List.filter_append, filter_isCompileAdd_of_isMaterial hm, harr]
    unfold ChunkManager.createChunkTail
    split <;> simp [Event.isCompileAdd]
  refine ⟨fun fuel r h => ⟨?_, key fuel compile templateGeometry r h⟩, fun t c fuel => ?_,
    fun ht => ChunkManager.createChunk_total m chunkSize chunkCenter lod lodFlags compile
      templateGeometry ht⟩
  · have hk := key fuel compile templateGeometry r h
    have hmem : Event.incrementalCompileAdd r.1.id ∈ m.since r.2 ↔
        Event.incrementalCompileAdd r.1.id ∈ (m.since r.2).filter Event.isCompileAdd := by
      rw [List.mem_filter]
      exact ⟨fun h => ⟨h, rfl⟩, fun h => h.1⟩
    rw [hmem, hk]
    cases templateGeometry <;> cases compile <;>
      cases m.mSceneManager.hasIncrementalCompileOperation <;> simp
  · obtain ⟨r, hr⟩ := ChunkManager.createChunk_template m chunkSize chunkCenter lod lodFlags c t
    exact ⟨r, hr fuel, by simpa using key fuel c (some t) r (hr fuel)⟩

/-- Witness of C7: on a newly constructed manager with an incremental compile operation, the
call without a template and with the compile flag returns with fuel 2 and hands over the new
geometry. -/
theorem createChunk_compile_iff_witness :
    ∃ r : TerrainDrawable × ChunkManager,
      freshManager.createChunk 2 1 ⟨0, 0⟩ 0 0 true none = some r
      ∧ Event.incrementalCompileAdd r.1.id ∈ freshManager.since r.2 := by
  have hsome : (freshManager.createChunk 2 1 ⟨0, 0⟩ 0 0 true none).isSome = true := by decide!
  obtain ⟨r, hr⟩ := Option.isSome_iff_exists.mp hsome
  exact ⟨r, hr, (((createChunk_compile_iff freshManager 1 ⟨0, 0⟩ 0 0 true none).1 2 r hr).1).2
    ⟨rfl, rfl, rfl⟩⟩

/-- Counterexample to C8 as stated: with 65 vertices per cell side, the non-negative `float`
`chunkSize = 16777215 / 16777216` and `lod = 0`, the product `64 * chunkSize = 64 - 2 ^ (-18)` is
exactly representable and so is the quotient by `2 ^ 0`, but the sum with 1 lies halfway between
two `float` values and rounds up to 65: `numVerts` is 65 and not
`floor(64 * chunkSize / 2 ^ 0) + 1 = 64`, and `createChunk` asks the buffer cache for the index
buffer and the UV buffer of resolution 65. -/
theorem createChunk_numVerts_counterexample :
    sixtyFiveVertexManager.mStorage.getCellVertices sixtyFiveVertexManager.mWorldspace = 65
    ∧ (0 : ℚ) ≤ 16777215 / 16777216
    ∧ roundFloat (16777215 / 16777216) = 16777215 / 16777216
    ∧ roundFloat (((65 - 1 : ℤ) : ℚ) * (16777215 / 16777216))
        = ((65 - 1 : ℤ) : ℚ) * (16777215 / 16777216)
    ∧ roundFloat (((65 - 1 : ℤ) : ℚ) * (16777215 / 16777216) / 2 ^ 0)
        = ((65 - 1 : ℤ) : ℚ) * (16777215 / 16777216) / 2 ^ 0
    ∧ roundFloat (((65 - 1 : ℤ) : ℚ) * (16777215 / 16777216) / 2 ^ 0 + 1) = 65
    ∧ ⌊((65 - 1 : ℤ) : ℚ) * (16777215 / 16777216) / 2 ^ 0⌋ + 1 = 64
    ∧ sixtyFiveVertexManager.createChunkNumVerts (16777215 / 16777216) 0 = 65
    ∧ ∃ r : TerrainDrawable × ChunkManager,
        sixtyFiveVertexManager.createChunk 2 (16777215 / 16777216) ⟨0, 0⟩ 0 0 false none = some r
        ∧ Event.getIndexBuffer 65 0 ∈ sixtyFiveVertexManager.since r.2
        ∧ Event.getUVBuffer 65 ∈ sixtyFiveVertexManager.since r.2
        ∧ r.1.mPrimitiveSet = ⟨65, 0⟩ := by
  have hn : sixtyFiveVertexManager.createChunkNumVerts (16777215 / 16777216) 0 = 65 := by decide!
  have hsome : (sixtyFiveVertexManager.createChunk 2 (16777215 / 16777216) ⟨0, 0⟩ 0 0 false
      none).isSome = true := by decide!
  obtain ⟨r, hr⟩ := Option.isSome_iff_exists.mp hsome
  obtain ⟨mat, -, -, -, -, -, hp, -, -, -, -, hs⟩ := ChunkManager.createChunk_some hr
  rw [hn] at hp hs
  refine ⟨rfl, by norm_num, by decide!, by decide!, by decide!, by decide!, by decide!, hn, r, hr,
    ?_, ?_, hp⟩
  · rw [hs]; simp
  · rw [hs]; simp

/-- C8 (amended): the grid resolution `numVerts` that `createChunk` passes to
`BufferCache::getIndexBuffer` and `BufferCache::getUVBuffer` is
`floor((cellVertices - 1) * chunkSize / 2 ^ lod) + 1` for every `lod < 31`, every
`cellVertices >= 1` and every non-negative chunk size for which none of the `float` operations
rounds, that is `cellVertices - 1`, the product, the quotient and the quotient plus one are all
exactly representable, and for which that value fits `unsigned int`; the chunk's index buffer and
UV buffers are the ones for `numVerts`. For `chunkSize = 1`, `lod = 0` and `cellVertices = 5` it
is 5: a grid of 25 vertices with 4 x 4 cells, 32 triangles. -/
theorem createChunk_numVerts (m : ChunkManager) :
    (∀ (chunkSize : ℚ) (lod : Nat), 1 ≤ m.mStorage.getCellVertices m.mWorldspace → 0 ≤ chunkSize →
        lod < 31 →
        roundFloat ((m.mStorage.getCellVertices m.mWorldspace - 1 : ℤ) : ℚ)
          = ((m.mStorage.getCellVertices m.mWorldspace - 1 : ℤ) : ℚ) →
        roundFloat (((m.mStorage.getCellVertices m.mWorldspace - 1 : ℤ) : ℚ) * chunkSize)
          = ((m.mStorage.getCellVertices m.mWorldspace - 1 : ℤ) : ℚ) * chunkSize →
        roundFloat (((m.mStorage.getCellVertices m.mWorldspace - 1 : ℤ) : ℚ) * chunkSize / 2 ^ lod)
          = ((m.mStorage.getCellVertices m.mWorldspace - 1 : ℤ) : ℚ) * chunkSize / 2 ^ lod →
        roundFloat (((m.mStorage.getCellVertices m.mWorldspace - 1 : ℤ) : ℚ) * chunkSize / 2 ^ lod
            + 1)
          = ((m.mStorage.getCellVertices m.mWorldspace - 1 : ℤ) : ℚ) * chunkSize / 2 ^ lod + 1 →
        ⌊((m.mStorage.getCellVertices m.mWorldspace - 1 : ℤ) : ℚ) * chunkSize / 2 ^ lod⌋ + 1 < 2 ^ 32 →
        (m.createChunkNumVerts chunkSize lod : ℤ)
          = ⌊((m.mStorage.getCellVertices m.mWorldspace - 1 : ℤ) : ℚ) * chunkSize / 2 ^ lod⌋ + 1)
    ∧ (∀ (fuel : Nat) (chunkSize : ℚ) (chunkCenter : Vec2f) (lod lodFlags : Nat) (compile : Bool)
        (templateGeometry : Option TerrainDrawable) (r : TerrainDrawable × ChunkManager),
        m.createChunk fuel chunkSize chunkCenter lod lodFlags compile templateGeometry = some r →
        Event.getIndexBuffer (m.createChunkNumVerts chunkSize lod) lodFlags ∈ m.since r.2
        ∧ Event.getUVBuffer (m.createChunkNumVerts chunkSize lod) ∈ m.since r.2
        ∧ r.1.mPrimitiveSet = ⟨m.createChunkNumVerts chunkSize lod, lodFlags⟩
        ∧ ∀ uv ∈ r.1.mTexCoordArrayList, uv = ⟨m.createChunkNumVerts chunkSize lod⟩)
    ∧ (m.mStorage.getCellVertices m.mWorldspace = 5 →
        m.createChunkNumVerts 1 0 = 5
        ∧ m.createChunkNumVerts 1 0 * m.createChunkNumVerts 1 0 = 25
        ∧ (m.createChunkNumVerts 1 0 - 1) * (m.createChunkNumVerts 1 0 - 1) = 16
        ∧ 2 * ((m.createChunkNumVerts 1 0 - 1) * (m.createChunkNumVerts 1 0 - 1)) = 32) := by
  refine ⟨fun chunkSize lod hcv hcs hlod h0 h1 h2 h3 hfit =>
    ChunkManager.createChunkNumVerts_eq m chunkSize lod hcv hcs hlod h0 h1 h2 h3 hfit, ?_, ?_⟩
  · intro fuel chunkSize chunkCenter lod lodFlags compile templateGeometry r h
    obtain ⟨mat, -, -, -, -, -, hp, ht, -, -, -, hs⟩ := ChunkManager.createChunk_some h
    refine ⟨?_, ?_, hp, ?_⟩
    · rw [hs]; simp
    · rw [hs]; simp
    · rw [ht]
      intro uv huv
      exact (List.mem_replicate.mp huv).2
  · intro h5
    have h'' : m.createChunkNumVerts 1 0 = 5 := by
      unfold ChunkManager.createChunkNumVerts
      rw [h5]
      decide!
    rw [h'']
    exact ⟨rfl, rfl, rfl, rfl⟩

/-- Witness of C8 (amended): a data source with five vertices per cell side, chunk size 1 and lod 0, where
no operation rounds. -/
theorem createChunk_numVerts_witness :
    fiveVertexManager.mStorage.getCellVertices fiveVertexManager.mWorldspace = 5
    ∧ (1 : ℤ) ≤ fiveVertexManager.mStorage.getCellVertices fiveVertexManager.mWorldspace
    ∧ (0 : ℚ) ≤ 1 ∧ 0 < 31
    ∧ roundFloat (((5 - 1 : ℤ) : ℚ) * 1 / 2 ^ 0 + 1) = ((5 - 1 : ℤ) : ℚ) * 1 / 2 ^ 0 + 1
    ∧ fiveVertexManager.createChunkNumVerts 1 0 = 5
    ∧ (fiveVertexManager.createChunkNumVerts 1 0 : ℤ)
        = ⌊((fiveVertexManager.mStorage.getCellVertices fiveVertexManager.mWorldspace - 1 : ℤ) : ℚ)
            * 1 / 2 ^ 0⌋ + 1 :=
  ⟨rfl, by decide, by norm_num, by norm_num, by decide!,
    ((createChunk_numVerts fiveVertexManager).2.2 rfl).1,
    (createChunk_numVerts fiveVertexManager).1 1 0 (by decide) (by norm_num) (by norm_num)
      (by decide!) (by decide!) (by decide!) (by decide!) (by decide!)⟩

/-- C9: with a positive threshold `t = mMaxCompGeometrySize`, `createCompositeMapGeometry` called
with chunk size `t * 2 ^ k` returns for every fuel above `k`, every returning call gives the same
result, and it reaches exactly `4 ^ k = (s / t) ^ 2` leaves, each of chunk size `t`. -/
theorem createCompositeMapGeometry_leaf_count (m : ChunkManager) (lod : Int) (chunkCenter : Vec2f)
    (texCoords : Vec4f) (compositeMap : CompositeMap) (k : Nat)
    (ht : 0 < m.mMaxCompGeometrySize) :
    ∃ r : CompositeMap × ChunkManager,
      (∀ fuel, k + 1 ≤ fuel →
        ChunkManager.createCompositeMapGeometry fuel m lod (m.mMaxCompGeometrySize * 2 ^ k)
          chunkCenter texCoords compositeMap = some r)
      ∧ (∀ (fuel : Nat) (r' : CompositeMap × ChunkManager),
          ChunkManager.createCompositeMapGeometry fuel m lod (m.mMaxCompGeometrySize * 2 ^ k)
            chunkCenter texCoords compositeMap = some r' → r' = r)
      ∧ (leafCalls (m.since r.2)).length = 4 ^ k
      ∧ (∀ l ∈ leafCalls (m.since r.2), l.1 = m.mMaxCompGeometrySize)
      ∧ (m.mMaxCompGeometrySize * 2 ^ k / m.mMaxCompGeometrySize) ^ 2 = 4 ^ k := by
  obtain ⟨r, hr, hlen, hall⟩ := ChunkManager.createCompositeMapGeometry_pow k m lod chunkCenter
    texCoords compositeMap m.mMaxCompGeometrySize rfl ht
  refine ⟨r, fun fuel hf => ChunkManager.createCompositeMapGeometry_mono _ _ _ _ _ _ _ _ _ hf hr,
    fun fuel r' hr' => ?_, hlen, hall, ?_⟩
  · have h1 := ChunkManager.createCompositeMapGeometry_mono _ (max fuel (k + 1)) _ _ _ _ _ _ _
      (le_max_left _ _) hr'
    have h2 := ChunkManager.createCompositeMapGeometry_mono _ (max fuel (k + 1)) _ _ _ _ _ _ _
      (le_max_right _ _) hr
    rw [h1] at h2
    injection h2
  · rw [mul_div_cancel_left₀ _ (ne_of_gt ht), ← pow_mul, mul_comm, pow_mul]
    norm_num

/-- Witness of C9: chunk size 8 with threshold 4 reaches 4 leaves, each of size 4. -/
theorem createCompositeMapGeometry_leaf_count_witness :
    0 < coarseManager.mMaxCompGeometrySize
    ∧ coarseManager.mMaxCompGeometrySize * 2 ^ 1 = 8
    ∧ ∃ r : CompositeMap × ChunkManager,
        (∀ fuel, 1 + 1 ≤ fuel →
          ChunkManager.createCompositeMapGeometry fuel coarseManager 2
            (coarseManager.mMaxCompGeometrySize * 2 ^ 1) ⟨0, 0⟩ ⟨0, 0, 1, 1⟩ ⟨0, none, []⟩ = some r)
        ∧ (leafCalls (coarseManager.since r.2)).length = 4 ^ 1
        ∧ (∀ l ∈ leafCalls (coarseManager.since r.2), l.1 = coarseManager.mMaxCompGeometrySize) := by
  obtain ⟨r, h1, -, h3, h4, -⟩ := createCompositeMapGeometry_leaf_count coarseManager 2 ⟨0, 0⟩
    ⟨0, 0, 1, 1⟩ ⟨0, none, []⟩ 1 (by decide!)
  exact ⟨by decide!, by decide!, r, h1, h3, h4⟩

/-- C10: for every returning call of `createCompositeMapGeometry` the areas `z * w` of the
texCoords rectangles of the leaves reached add up to the area of the initial rectangle; started
with texCoords `(0, 0, 1, 1)`, and so for the composite map of every chunk that `createChunk`
builds without a template at or above the composite threshold, they add up to exactly 1. With a
positive threshold the call returns once the fuel is large enough. -/
theorem createCompositeMapGeometry_leaf_areas (m : ChunkManager) (chunkSize : ℚ)
    (chunkCenter : Vec2f) :
    (∀ (fuel : Nat) (lod : Int) (texCoords : Vec4f) (compositeMap : CompositeMap)
        (r : CompositeMap × ChunkManager),
        ChunkManager.createCompositeMapGeometry fuel m lod chunkSize chunkCenter texCoords
          compositeMap = some r →
        leafArea (leafCalls (m.since r.2)) = texCoords.z * texCoords.w)
    ∧ (∀ (fuel : Nat) (lod : Int) (compositeMap : CompositeMap) (r : CompositeMap × ChunkManager),
        ChunkManager.createCompositeMapGeometry fuel m lod chunkSize chunkCenter ⟨0, 0, 1, 1⟩
          compositeMap = some r →
        leafArea (leafCalls (m.since r.2)) = 1)
    ∧ (∀ (fuel : Nat) (lod lodFlags : Nat) (compile : Bool) (r : TerrainDrawable × ChunkManager),
        m.createChunk fuel chunkSize chunkCenter lod lodFlags compile none = some r →
        chunkSize ≥ m.mCompositeMapLevel →
        leafArea (leafCalls (m.since r.2)) = 1)
    ∧ (0 < m.mMaxCompGeometrySize → ∀ (lod : Int) (texCoords : Vec4f) (compositeMap : CompositeMap),
        ∃ (fuel0 : Nat) (r : CompositeMap × ChunkManager), ∀ fuel, fuel0 ≤ fuel →
          ChunkManager.createCompositeMapGeometry fuel m lod chunkSize chunkCenter texCoords
            compositeMap = some r) := by
  refine ⟨fun fuel lod tc cm r h => ChunkManager.createCompositeMapGeometry_area _ _ _ _ _ _ _ _ h,
    fun fuel lod cm r h => ?_, fun fuel lod lodFlags compile r h hge => ?_,
    fun ht lod tc cm => ChunkManager.createCompositeMapGeometry_total m lod chunkSize chunkCenter
      tc cm ht⟩
  · rw [ChunkManager.createCompositeMapGeometry_area _ _ _ _ _ _ _ _ h]
    norm_num
  · obtain ⟨mat, hmat, -, -, -, -, -, -, -, -, -, hs⟩ := ChunkManager.createChunk_some h
    obtain ⟨cm, tex, -, -, -, harea⟩ :=
      (ChunkManager.createChunkMaterial_fresh hmat).1 (decide_eq_true hge)
    rw [hs, ChunkManager.createChunkArrays_since_none]
    simp only [leafCalls_append, leafArea_append, harea]
    unfold ChunkManager.createChunkTail
    split <;> simp [leafCalls, leafArea]

/-- Witness of C10: on a newly constructed manager the call for chunk size 2 started with
texCoords `(0, 0, 1, 1)` returns with fuel 2, and its leaf areas add up to 1. -/
theorem createCompositeMapGeometry_leaf_areas_witness :
    ∃ r : CompositeMap × ChunkManager,
      ChunkManager.createCompositeMapGeometry 2 freshManager 0 2 ⟨0, 0⟩ ⟨0, 0, 1, 1⟩ ⟨0, none, []⟩
        = some r
      ∧ leafArea (leafCalls (freshManager.since r.2)) = 1 := by
  have hsome : (ChunkManager.createCompositeMapGeometry 2 freshManager 0 2 ⟨0, 0⟩ ⟨0, 0, 1, 1⟩
      ⟨0, none, []⟩).isSome = true := by decide!
  obtain ⟨r, hr⟩ := Option.isSome_iff_exists.mp hsome
  exact ⟨r, hr, (createCompositeMapGeometry_leaf_areas freshManager 2 ⟨0, 0⟩).2.1 2 0 ⟨0, none, []⟩
    r hr⟩

/-- C11: a subdividing step of `createCompositeMapGeometry` makes its four recursive calls on
chunk size `chunkSize / 2` and on the texCoords rectangles `(x + z/2, y)`, `(x, y)`,
`(x + z/2, y + w/2)`, `(x, y + w/2)`, each of extent `(z/2, w/2)`. These four rectangles each have
a quarter of the parent's area, no two of them overlap (their interiors share no point) and
together they cover exactly the parent rectangle. Consequently the leaf rectangles of every
returning call do not overlap pairwise, have their interiors in the initial rectangle and cover
it, and in a run started at `(0, 0, 1, 1)` every leaf rectangle lies inside the unit square. -/
theorem createCompositeMapGeometry_quadrants_partition (m : ChunkManager) (lod : Int)
    (chunkSize : ℚ) (chunkCenter : Vec2f) (texCoords : Vec4f) (compositeMap : CompositeMap) :
    (∀ (fuel : Nat) (r : CompositeMap × ChunkManager), chunkSize > m.mMaxCompGeometrySize →
        ChunkManager.createCompositeMapGeometry (fuel + 1) m lod chunkSize chunkCenter texCoords
          compositeMap = some r →
        ∃ r1 r2 r3 : CompositeMap × ChunkManager,
          ChunkManager.createCompositeMapGeometry fuel m lod (chunkSize / 2)
            (chunkCenter.add ⟨chunkSize / 4, chunkSize / 4⟩)
            ⟨texCoords.x + texCoords.z / 2, texCoords.y, texCoords.z / 2, texCoords.w / 2⟩
            compositeMap = some r1
          ∧ ChunkManager.createCompositeMapGeometry fuel r1.2 lod (chunkSize / 2)
            (chunkCenter.add ⟨-chunkSize / 4, chunkSize / 4⟩)
            ⟨texCoords.x, texCoords.y, texCoords.z / 2, texCoords.w / 2⟩ r1.1 = some r2
          ∧ ChunkManager.createCompositeMapGeometry fuel r2.2 lod (chunkSize / 2)
            (chunkCenter.add ⟨chunkSize / 4, -chunkSize / 4⟩)
            ⟨texCoords.x + texCoords.z / 2, texCoords.y + texCoords.w / 2, texCoords.z / 2,
              texCoords.w / 2⟩ r2.1 = some r3
          ∧ ChunkManager.createCompositeMapGeometry fuel r3.2 lod (chunkSize / 2)
            (chunkCenter.add ⟨-chunkSize / 4, -chunkSize / 4⟩)
            ⟨texCoords.x, texCoords.y + texCoords.w / 2, texCoords.z / 2, texCoords.w / 2⟩ r3.1
              = some r
          ∧ leafRects (m.since r.2) = leafRects (m.since r1.2) ++ leafRects (r1.2.since r2.2)
              ++ leafRects (r2.2.since r3.2) ++ leafRects (r3.2.since r.2))
    ∧ texCoords.quadrants.Perm
        [⟨texCoords.x, texCoords.y, texCoords.z / 2, texCoords.w / 2⟩,
         ⟨texCoords.x + texCoords.z / 2, texCoords.y, texCoords.z / 2, texCoords.w / 2⟩,
         ⟨texCoords.x, texCoords.y + texCoords.w / 2, texCoords.z / 2, texCoords.w / 2⟩,
         ⟨texCoords.x + texCoords.z / 2, texCoords.y + texCoords.w / 2, texCoords.z / 2,
           texCoords.w / 2⟩]
    ∧ (∀ q ∈ texCoords.quadrants, q.z = texCoords.z / 2 ∧ q.w = texCoords.w / 2
        ∧ q.z * q.w = texCoords.z * texCoords.w / 4)
    ∧ (texCoords.quadrants.Pairwise fun a b => ¬ a.overlaps b)
    ∧ (∀ px py : ℚ, texCoords.covers px py ↔ ∃ q ∈ texCoords.quadrants, q.covers px py)
    ∧ (∀ (fuel : Nat) (r : CompositeMap × ChunkManager),
        ChunkManager.createCompositeMapGeometry fuel m lod chunkSize chunkCenter texCoords
          compositeMap = some r →
        ((leafRects (m.since r.2)).Pairwise fun a b => ¬ a.overlaps b)
        ∧ (∀ l ∈ leafRects (m.since r.2), ∀ px py : ℚ, l.interior px py →
            texCoords.interior px py)
        ∧ (∀ px py : ℚ, texCoords.covers px py → ∃ l ∈ leafRects (m.since r.2), l.covers px py))
    ∧ (∀ (fuel : Nat) (r : CompositeMap × ChunkManager),
        ChunkManager.createCompositeMapGeometry fuel m lod chunkSize chunkCenter ⟨0, 0, 1, 1⟩
          compositeMap = some r →
        ((leafRects (m.since r.2)).Pairwise fun a b => ¬ a.overlaps b)
        ∧ ∀ l ∈ leafRects (m.since r.2),
            0 ≤ l.x ∧ l.x + l.z ≤ 1 ∧ 0 ≤ l.y ∧ l.y + l.w ≤ 1 ∧ 0 < l.z ∧ 0 < l.w) := by
  have hpair : ∀ (tc : Vec4f) (fuel : Nat) (r : CompositeMap × ChunkManager),
      ChunkManager.createCompositeMapGeometry fuel m lod chunkSize chunkCenter tc compositeMap
        = some r → (leafRects (m.since r.2)).Pairwise fun a b => ¬ a.overlaps b := by
    intro tc fuel r h
    unfold leafRects
    rw [List.pairwise_map]
    exact (ChunkManager.createCompositeMapGeometry_leaves_disjoint h).2
  refine ⟨fun fuel r hgt h => ?_, ?_, Vec4f.quadrants_extent texCoords,
    Vec4f.quadrants_pairwise texCoords, Vec4f.quadrants_cover texCoords,
    fun fuel r h => ⟨hpair _ fuel r h, ?_, ?_⟩, fun fuel r h => ⟨hpair _ fuel r h, ?_⟩⟩
  · obtain ⟨r1, r2, r3, h1, h2, h3, h4, hl⟩ := ChunkManager.createCompositeMapGeometry_step hgt h
    refine ⟨r1, r2, r3, h1, h2, h3, h4, ?_⟩
    simp only [leafRects, hl, List.map_append]
  · exact (List.Perm.swap _ _ _).trans
      (List.Perm.cons _ (List.Perm.cons _ (List.Perm.swap _ _ _)))
  · intro l hl px py hp
    obtain ⟨e, he, rfl⟩ := List.mem_map.mp hl
    exact (ChunkManager.createCompositeMapGeometry_leaves_disjoint h).1 e he px py hp
  · intro px py hp
    obtain ⟨e, he, hc⟩ := ChunkManager.createCompositeMapGeometry_leaves_cover h px py hp
    exact ⟨e.2, List.mem_map.mpr ⟨e, he, rfl⟩, hc⟩
  · intro l hl
    obtain ⟨e, he, rfl⟩ := List.mem_map.mp hl
    obtain ⟨a, b, c, d, e1, e2⟩ := ChunkManager.createCompositeMapGeometry_leaves_inside h
      (by norm_num) (by norm_num) e he
    simp only at a b c d
    exact ⟨a, by linarith, c, by linarith, e1, e2⟩

/-- Witness of C11: on a newly constructed manager (threshold 1) the call for chunk size 2
subdivides and returns with fuel 2. -/
theorem createCompositeMapGeometry_quadrants_partition_witness :
    (2 : ℚ) > freshManager.mMaxCompGeometrySize
    ∧ ∃ r : CompositeMap × ChunkManager,
        ChunkManager.createCompositeMapGeometry (1 + 1) freshManager 0 2 ⟨0, 0⟩ ⟨0, 0, 1, 1⟩
          ⟨0, none, []⟩ = some r
        ∧ ((leafRects (freshManager.since r.2)).Pairwise fun a b => ¬ a.overlaps b)
        ∧ ∀ l ∈ leafRects (freshManager.since r.2),
            0 ≤ l.x ∧ l.x + l.z ≤ 1 ∧ 0 ≤ l.y ∧ l.y + l.w ≤ 1 ∧ 0 < l.z ∧ 0 < l.w := by
  have hsome : (ChunkManager.createCompositeMapGeometry (1 + 1) freshManager 0 2 ⟨0, 0⟩
      ⟨0, 0, 1, 1⟩ ⟨0, none, []⟩).isSome = true := by decide!
  obtain ⟨r, hr⟩ := Option.isSome_iff_exists.mp hsome
  exact ⟨by decide!, r, hr,
    (createCompositeMapGeometry_quadrants_partition freshManager 0 2 ⟨0, 0⟩ ⟨0, 0, 1, 1⟩
      ⟨0, none, []⟩).2.2.2.2.2.2 (1 + 1) r hr⟩

/-- C12: with a positive threshold `mMaxCompGeometrySize` the recursion of
`createCompositeMapGeometry` terminates for every chunk size: there is a number `k` of halvings
after which the chunk size is at most the threshold, the call returns for every fuel above `k`,
and the call tree has at most `4 ^ k` leaves. The constructor fixes the threshold to 1, so on
every newly constructed manager every call returns once the fuel is large enough. -/
theorem createCompositeMapGeometry_terminates (m : ChunkManager) (lod : Int) (chunkSize : ℚ)
    (chunkCenter : Vec2f) (texCoords : Vec4f) (compositeMap : CompositeMap)
    (ht : 0 < m.mMaxCompGeometrySize) :
    (∃ (k : Nat) (r : CompositeMap × ChunkManager),
        chunkSize / 2 ^ k ≤ m.mMaxCompGeometrySize
        ∧ (∀ fuel, k + 1 ≤ fuel →
            ChunkManager.createCompositeMapGeometry fuel m lod chunkSize chunkCenter texCoords
              compositeMap = some r)
        ∧ (leafCalls (m.since r.2)).length ≤ 4 ^ k)
    ∧ (∀ (storage : Storage) (sceneMgr : SceneManager) (textureManager : TextureManager)
        (worldspace : RefId),
        (ChunkManager.new storage sceneMgr textureManager worldspace).mMaxCompGeometrySize = 1
        ∧ ∃ (fuel0 : Nat) (r : CompositeMap × ChunkManager), ∀ fuel, fuel0 ≤ fuel →
            ChunkManager.createCompositeMapGeometry fuel
              (ChunkManager.new storage sceneMgr textureManager worldspace) lod chunkSize
              chunkCenter texCoords compositeMap = some r) := by
  constructor
  · obtain ⟨k, hk⟩ := exists_pow_bound chunkSize m.mMaxCompGeometrySize ht
    obtain ⟨r, hr⟩ := ChunkManager.createCompositeMapGeometry_returns k m lod chunkSize chunkCenter
      texCoords compositeMap ht hk
    refine ⟨k, r, ?_, fun fuel hf =>
      ChunkManager.createCompositeMapGeometry_mono _ _ _ _ _ _ _ _ _ hf hr,
      ChunkManager.createCompositeMapGeometry_leaf_bound hr k hk⟩
    rw [div_le_iff₀ (by positivity)]
    exact hk
  · intro storage sceneMgr textureManager worldspace
    exact ⟨rfl, ChunkManager.createCompositeMapGeometry_total _ lod chunkSize chunkCenter
      texCoords compositeMap (by simp [ChunkManager.new])⟩

/-- Witness of C12: a newly constructed manager has a positive threshold. -/
theorem createCompositeMapGeometry_terminates_witness :
    0 < freshManager.mMaxCompGeometrySize
    ∧ ∃ (k : Nat) (r : CompositeMap × ChunkManager),
        (8 : ℚ) / 2 ^ k ≤ freshManager.mMaxCompGeometrySize
        ∧ (∀ fuel, k + 1 ≤ fuel →
            ChunkManager.createCompositeMapGeometry fuel freshManager 0 8 ⟨0, 0⟩ ⟨0, 0, 1, 1⟩
              ⟨0, none, []⟩ = some r)
        ∧ (leafCalls (freshManager.since r.2)).length ≤ 4 ^ k :=
  ⟨by decide!, (createCompositeMapGeometry_terminates freshManager 0 8 ⟨0, 0⟩ ⟨0, 0, 1, 1⟩
    ⟨0, none, []⟩ (by decide!)).1⟩

/-- C15: a leaf call of `createCompositeMapGeometry` returns and appends to
`compositeMap.mDrawables` exactly `n + 1` drawables, `n` the number of passes returned by
`createPasses(chunkSize, chunkCenter, true)`: first one textured quad per pass, in pass order,
with that pass as state set, and last the vertex-color drawable, built on the template geometry,
carrying the colors returned by `fillVertexBuffersCompositeMap` and a state set with blending on
and BlendFunc (ZERO, SRC_COLOR). The drawables already in the list stay as and where they were. -/
theorem createCompositeMapGeometryLeaf_appends (fuel : Nat) (m : ChunkManager) (lod : Int)
    (chunkSize : ℚ) (chunkCenter : Vec2f) (texCoords : Vec4f) (compositeMap : CompositeMap)
    (hleaf : ¬ chunkSize > m.mMaxCompGeometrySize) :
    ∃ r : CompositeMap × ChunkManager,
      ChunkManager.createCompositeMapGeometry (fuel + 1) m lod chunkSize chunkCenter texCoords
        compositeMap = some r
      ∧ r.1.mDrawables.length = compositeMap.mDrawables.length
          + ((m.leafPasses chunkSize chunkCenter texCoords).1.length + 1)
      ∧ r.1.mDrawables.take compositeMap.mDrawables.length = compositeMap.mDrawables
      ∧ (∀ i : Nat, i < (m.leafPasses chunkSize chunkCenter texCoords).1.length →
          ∃ (id : Nat) (pass : StateSet),
            (m.leafPasses chunkSize chunkCenter texCoords).1[i]? = some pass
            ∧ r.1.mDrawables[compositeMap.mDrawables.length + i]?
              = some (Drawable.texturedQuad id ⟨texCoords.x * 2 - 1, texCoords.y * 2 - 1, 0⟩
                  ⟨texCoords.z * 2, 0, 0⟩ ⟨0, texCoords.w * 2, 0⟩ pass))
      ∧ (∃ id colorId : Nat, r.1.mDrawables.getLast?
          = some (Drawable.vertexColor id
              (m.leafTemplate chunkSize chunkCenter texCoords).1.mVertexArray
              ⟨colorId, m.mStorage.fillVertexBuffersCompositeMap ((0 : Nat) : Int) chunkSize
                chunkCenter m.mWorldspace⟩
              (m.leafTemplate chunkSize chunkCenter texCoords).1.mPrimitiveSet
              (StateSet.blended BlendFactor.ZERO BlendFactor.SRC_COLOR)))
      ∧ Event.fillVertexBuffersCompositeMap ((0 : Nat) : Int) chunkSize chunkCenter ∈ m.since r.2
      ∧ r.1.mDrawables = compositeMap.mDrawables
          ++ ((m.leafPasses chunkSize chunkCenter texCoords).1.enumFrom
                (m.leafPasses chunkSize chunkCenter texCoords).2.mNextId).map (fun p =>
              Drawable.texturedQuad p.1 ⟨texCoords.x * 2 - 1, texCoords.y * 2 - 1, 0⟩
                ⟨texCoords.z * 2, 0, 0⟩ ⟨0, texCoords.w * 2, 0⟩ p.2)
          ++ [Drawable.vertexColor
                ((m.leafPasses chunkSize chunkCenter texCoords).2.mNextId
                  + (m.leafPasses chunkSize chunkCenter texCoords).1.length)
                (m.leafTemplate chunkSize chunkCenter texCoords).1.mVertexArray
                ⟨(m.leafTemplate chunkSize chunkCenter texCoords).2.mNextId,
                  m.mStorage.fillVertexBuffersCompositeMap ((0 : Nat) : Int) chunkSize chunkCenter
                    m.mWorldspace⟩
                (m.leafTemplate chunkSize chunkCenter texCoords).1.mPrimitiveSet
                (StateSet.blended BlendFactor.ZERO BlendFactor.SRC_COLOR)] := by
  refine ⟨m.createCompositeMapGeometryLeaf chunkSize chunkCenter texCoords compositeMap,
    by rw [ChunkManager.createCompositeMapGeometry, if_neg hleaf], ?_, ?_, ?_, ?_, ?_,
    ChunkManager.createCompositeMapGeometryLeaf_drawables m chunkSize chunkCenter texCoords
      compositeMap⟩
  · rw [ChunkManager.createCompositeMapGeometryLeaf_drawables]
    simp only [List.length_append, List.length_map, List.enumFrom_length, List.length_singleton]
    omega
  · rw [ChunkManager.createCompositeMapGeometryLeaf_drawables, List.append_assoc,
      List.take_left']
    rfl
  · intro i hi
    refine ⟨(m.leafPasses chunkSize chunkCenter texCoords).2.mNextId + i,
      (m.leafPasses chunkSize chunkCenter texCoords).1[i], List.getElem?_eq_getElem hi, ?_⟩
    rw [ChunkManager.createCompositeMapGeometryLeaf_drawables, List.append_assoc,
      List.getElem?_append_right (Nat.le_add_right _ _), Nat.add_sub_cancel_left,
      List.getElem?_append_left (by simpa using hi), List.getElem?_map,
      List.getElem?_enumFrom, List.getElem?_eq_getElem hi]
    rfl
  · refine ⟨(m.leafPasses chunkSize chunkCenter texCoords).2.mNextId
        + (m.leafPasses chunkSize chunkCenter texCoords).1.length,
      (m.leafTemplate chunkSize chunkCenter texCoords).2.mNextId, ?_⟩
    rw [ChunkManager.createCompositeMapGeometryLeaf_drawables, List.getLast?_concat]
  · rw [(ChunkManager.createCompositeMapGeometryLeaf_since m chunkSize chunkCenter texCoords
      compositeMap).1]
    simp

/-- Witness of C15: on a newly constructed manager (threshold 1) the call for chunk size 1 is a
leaf call; the data source has two layers, so three drawables are appended. -/
theorem createCompositeMapGeometryLeaf_appends_witness :
    ¬ (1 : ℚ) > freshManager.mMaxCompGeometrySize
    ∧ (freshManager.leafPasses 1 ⟨0, 0⟩ ⟨0, 0, 1, 1⟩).1.length = 2
    ∧ ∃ r : CompositeMap × ChunkManager,
        ChunkManager.createCompositeMapGeometry (0 + 1) freshManager 0 1 ⟨0, 0⟩ ⟨0, 0, 1, 1⟩
          ⟨0, none, []⟩ = some r
        ∧ r.1.mDrawables.length = ([] : List Drawable).length
            + ((freshManager.leafPasses 1 ⟨0, 0⟩ ⟨0, 0, 1, 1⟩).1.length + 1) := by
  obtain ⟨r, h1, h2, -⟩ := createCompositeMapGeometryLeaf_appends 0 freshManager 0 1 ⟨0, 0⟩
    ⟨0, 0, 1, 1⟩ ⟨0, none, []⟩ (by decide!)
  exact ⟨by decide!, by decide!, r, h1, h2⟩

/-- C16: the template geometry of a leaf is memoized by the key
`(chunkSize, posX, posY, width)`. A leaf call whose key is in `mCompositeMapGeometryCache` makes
none of the calls that build a template geometry, leaves the cache unchanged and builds its
vertex-color drawable on the cached geometry's vertex array and primitive set. A leaf call whose
key is absent adds exactly one entry, under that key, holding a newly allocated geometry, and
builds its drawable on it. A later leaf call with an equal key therefore works on the same
vertex array and primitive set as the first, adds no entry, and differs in its color array and
drawable, which are new objects. -/
theorem leaf_template_memoized (m : ChunkManager) (chunkSize : ℚ) (chunkCenter : Vec2f)
    (texCoords : Vec4f) (compositeMap : CompositeMap) :
    (∀ g : TemplateGeom,
        m.mCompositeMapGeometryCache.lookup (ChunkManager.leafGeomKey chunkSize texCoords) = some g →
        (m.createCompositeMapGeometryLeaf chunkSize chunkCenter texCoords
            compositeMap).2.mCompositeMapGeometryCache = m.mCompositeMapGeometryCache
        ∧ (m.since (m.createCompositeMapGeometryLeaf chunkSize chunkCenter texCoords
            compositeMap).2).filter Event.isTemplateBuild = []
        ∧ ∃ (id : Nat) (colors : OsgArray Vec4ub),
            (m.createCompositeMapGeometryLeaf chunkSize chunkCenter texCoords
                compositeMap).1.mDrawables.getLast?
              = some (Drawable.vertexColor id g.mVertexArray colors g.mPrimitiveSet
                  (StateSet.blended BlendFactor.ZERO BlendFactor.SRC_COLOR)))
    ∧ (m.mCompositeMapGeometryCache.lookup (ChunkManager.leafGeomKey chunkSize texCoords) = none →
        ∃ g : TemplateGeom,
          (m.createCompositeMapGeometryLeaf chunkSize chunkCenter texCoords
              compositeMap).2.mCompositeMapGeometryCache
            = (ChunkManager.leafGeomKey chunkSize texCoords, g) :: m.mCompositeMapGeometryCache
          ∧ (m.createCompositeMapGeometryLeaf chunkSize chunkCenter texCoords
              compositeMap).2.mCompositeMapGeometryCache.length
            = m.mCompositeMapGeometryCache.length + 1
          ∧ m.mNextId ≤ g.mVertexArray.id ∧ m.mNextId ≤ g.id
          ∧ (m.since (m.createCompositeMapGeometryLeaf chunkSize chunkCenter texCoords
              compositeMap).2).filter Event.isTemplateBuild
            = [Event.getCellVertices, Event.getUVBuffer g.mPrimitiveSet.numVerts,
                Event.getIndexBuffer g.mPrimitiveSet.numVerts 0]
          ∧ ∃ (id : Nat) (colors : OsgArray Vec4ub),
              (m.createCompositeMapGeometryLeaf chunkSize chunkCenter texCoords
                  compositeMap).1.mDrawables.getLast?
                = some (Drawable.vertexColor id g.mVertexArray colors g.mPrimitiveSet
                    (StateSet.blended BlendFactor.ZERO BlendFactor.SRC_COLOR)))
    ∧ (∀ (chunkCenter2 : Vec2f) (texCoords2 : Vec4f) (compositeMap2 : CompositeMap),
        ChunkManager.leafGeomKey chunkSize texCoords2 = ChunkManager.leafGeomKey chunkSize texCoords →
        ∃ (vertexArray : OsgArray Vec3f) (primitiveSet : IndexBuffer) (id1 id2 : Nat)
          (colors1 colors2 : OsgArray Vec4ub),
          (m.createCompositeMapGeometryLeaf chunkSize chunkCenter texCoords
              compositeMap).1.mDrawables.getLast?
            = some (Drawable.vertexColor id1 vertexArray colors1 primitiveSet
                (StateSet.blended BlendFactor.ZERO BlendFactor.SRC_COLOR))
          ∧ ((m.createCompositeMapGeometryLeaf chunkSize chunkCenter texCoords
                compositeMap).2.createCompositeMapGeometryLeaf chunkSize chunkCenter2 texCoords2
                compositeMap2).1.mDrawables.getLast?
            = some (Drawable.vertexColor id2 vertexArray colors2 primitiveSet
                (StateSet.blended BlendFactor.ZERO BlendFactor.SRC_COLOR))
          ∧ id1 ≠ id2 ∧ colors1.id ≠ colors2.id
          ∧ ((m.createCompositeMapGeometryLeaf chunkSize chunkCenter texCoords
                compositeMap).2.createCompositeMapGeometryLeaf chunkSize chunkCenter2 texCoords2
                compositeMap2).2.mCompositeMapGeometryCache
            = (m.createCompositeMapGeometryLeaf chunkSize chunkCenter texCoords
                compositeMap).2.mCompositeMapGeometryCache) := by
  refine ⟨fun g hg => ?_, fun hnone => ?_, fun cc2 tc2 cm2 hkey => ?_⟩
  · have ht := @ChunkManager.leafTemplate_hit _ _ chunkCenter _ _ hg
    refine ⟨?_, ?_, ?_⟩
    · rw [ChunkManager.createCompositeMapGeometryLeaf_geomCache, ht]
      rfl
    · rw [ChunkManager.createCompositeMapGeometryLeaf_templateBuild, ht]
      exact ChunkManager.since_self _
    · have hlast := ChunkManager.createCompositeMapGeometryLeaf_last m chunkSize chunkCenter
        texCoords compositeMap
      rw [ht] at hlast
      exact ⟨_, _, hlast⟩
  · obtain ⟨hc, hv, hid, -, hs⟩ := @ChunkManager.leafTemplate_miss _ _ chunkCenter _ hnone
    refine ⟨(m.leafTemplate chunkSize chunkCenter texCoords).1, ?_, ?_, by omega, by omega, ?_,
      _, _, ChunkManager.createCompositeMapGeometryLeaf_last m chunkSize chunkCenter texCoords
        compositeMap⟩
    · rw [ChunkManager.createCompositeMapGeometryLeaf_geomCache, hc]
    · rw [ChunkManager.createCompositeMapGeometryLeaf_geomCache, hc]
      rfl
    · rw [ChunkManager.createCompositeMapGeometryLeaf_templateBuild, hs]
  · have hlook : (m.createCompositeMapGeometryLeaf chunkSize chunkCenter texCoords
        compositeMap).2.mCompositeMapGeometryCache.lookup
        (ChunkManager.leafGeomKey chunkSize tc2)
        = some (m.leafTemplate chunkSize chunkCenter texCoords).1 := by
      rw [hkey, ChunkManager.createCompositeMapGeometryLeaf_geomCache]
      exact ChunkManager.leafTemplate_lookup m chunkSize chunkCenter texCoords
    have ht2 := @ChunkManager.leafTemplate_hit _ _ cc2 _ _ hlook
    obtain ⟨-, hn1, hp1, ht1⟩ := ChunkManager.createCompositeMapGeometryLeaf_since m chunkSize
      chunkCenter texCoords compositeMap
    obtain ⟨-, -, hp2, -⟩ := ChunkManager.createCompositeMapGeometryLeaf_since
      (m.createCompositeMapGeometryLeaf chunkSize chunkCenter texCoords compositeMap).2 chunkSize
      cc2 tc2 cm2
    have hnext2 : ((m.createCompositeMapGeometryLeaf chunkSize chunkCenter texCoords
        compositeMap).2.leafTemplate chunkSize cc2 tc2).2.mNextId
        = (m.createCompositeMapGeometryLeaf chunkSize chunkCenter texCoords
          compositeMap).2.mNextId := by
      rw [ht2]
      rfl
    have hlast2 := ChunkManager.createCompositeMapGeometryLeaf_last
      (m.createCompositeMapGeometryLeaf chunkSize chunkCenter texCoords compositeMap).2 chunkSize
      cc2 tc2 cm2
    have hpass2 : (m.createCompositeMapGeometryLeaf chunkSize chunkCenter texCoords
        compositeMap).2.mNextId + 1
        ≤ ((m.createCompositeMapGeometryLeaf chunkSize chunkCenter texCoords
          compositeMap).2.leafPasses chunkSize cc2 tc2).2.mNextId := by omega
    rw [ht2] at hlast2
    refine ⟨_, _, _, _, _, _,
      ChunkManager.createCompositeMapGeometryLeaf_last m chunkSize chunkCenter texCoords
        compositeMap, hlast2, ?_, ?_, ?_⟩
    · omega
    · have : ((m.createCompositeMapGeometryLeaf chunkSize chunkCenter texCoords
          compositeMap).2.log (Event.compositeLeaf chunkSize cc2 tc2)).mNextId
          = (m.createCompositeMapGeometryLeaf chunkSize chunkCenter texCoords
            compositeMap).2.mNextId := rfl
      simp only [this]
      omega
    · rw [ChunkManager.createCompositeMapGeometryLeaf_geomCache, ht2]
      rfl

/-- Witness of C16: on a newly constructed manager the key of the leaf call for chunk size 1 is
absent; after that leaf call it is present. -/
theorem leaf_template_memoized_witness :
    freshManager.mCompositeMapGeometryCache.lookup
        (ChunkManager.leafGeomKey 1 ⟨0, 0, 1, 1⟩) = none
    ∧ (freshManager.createCompositeMapGeometryLeaf 1 ⟨0, 0⟩ ⟨0, 0, 1, 1⟩
        ⟨0, none, []⟩).2.mCompositeMapGeometryCache.length
        = freshManager.mCompositeMapGeometryCache.length + 1
    ∧ ((freshManager.createCompositeMapGeometryLeaf 1 ⟨0, 0⟩ ⟨0, 0, 1, 1⟩
        ⟨0, none, []⟩).2.mCompositeMapGeometryCache.lookup
        (ChunkManager.leafGeomKey 1 ⟨0, 0, 1, 1⟩)).isSome = true := by
  obtain ⟨g, -, hlen, -⟩ := (leaf_template_memoized freshManager 1 ⟨0, 0⟩ ⟨0, 0, 1, 1⟩
    ⟨0, none, []⟩).2.1 (by decide!)
  exact ⟨by decide!, hlen, by decide!⟩

/-- C17: a returning `createChunk` call registers a composite map with the CompositeMapRenderer
exactly once, with `immediate = false`, when it builds a fresh composite chunk (no template and
`chunkSize >= mCompositeMapLevel`); the map registered is the chunk's composite map. In every
other case it makes no `addCompositeMap` call. With a positive `mMaxCompGeometrySize` the call
returns once the fuel is large enough. -/
theorem createChunk_registers_composite_map (m : ChunkManager) (chunkSize : ℚ)
    (chunkCenter : Vec2f) (lod lodFlags : Nat) (compile : Bool)
    (templateGeometry : Option TerrainDrawable) :
    (∀ (fuel : Nat) (r : TerrainDrawable × ChunkManager),
        m.createChunk fuel chunkSize chunkCenter lod lodFlags compile templateGeometry = some r →
        (templateGeometry = none → chunkSize ≥ m.mCompositeMapLevel →
          ∃ cm : CompositeMap, r.1.mCompositeMap = some cm
            ∧ (m.since r.2).filter Event.isAddCompositeMap = [Event.addCompositeMap cm.id false])
        ∧ (¬ (templateGeometry = none ∧ chunkSize ≥ m.mCompositeMapLevel) →
            (m.since r.2).filter Event.isAddCompositeMap = []))
    ∧ (0 < m.mMaxCompGeometrySize → ∃ (fuel0 : Nat) (r : TerrainDrawable × ChunkManager),
        ∀ fuel, fuel0 ≤ fuel →
          m.createChunk fuel chunkSize chunkCenter lod lodFlags compile templateGeometry
            = some r) := by
  refine ⟨fun fuel r h => ?_, fun ht => ChunkManager.createChunk_total m chunkSize chunkCenter lod
    lodFlags compile templateGeometry ht⟩
  obtain ⟨mat, hmat, -, -, -, -, -, -, hcm, -, -, hs⟩ := ChunkManager.createChunk_some h
  obtain ⟨hyes, hno⟩ := ChunkManager.createChunkMaterial_addCompositeMap hmat
  have harr : (m.alloc.2.since (m.alloc.2.createChunkArrays chunkSize chunkCenter lod
      (decide (chunkSize ≥ m.mCompositeMapLevel)) templateGeometry).2).filter
      Event.isAddCompositeMap = [] := by
    cases templateGeometry with
    | none => rw [ChunkManager.createChunkArrays_since_none]; rfl
    | some t => rw [ChunkManager.createChunkArrays_since_some]; rfl
  have htail : (m.createChunkTail compile templateGeometry).filter Event.isAddCompositeMap
      = [] := by
    unfold ChunkManager.createChunkTail
    split <;> rfl
  have hall : (m.since r.2).filter Event.isAddCompositeMap
      = ((m.createChunkMid chunkSize chunkCenter lod lodFlags templateGeometry).since
          mat.2).filter Event.isAddCompositeMap := by
    rw [hs]
    simp only [List.filter_append, harr, htail, List.nil_append, List.append_nil]
    rfl
  constructor
  · intro hn hge
    obtain ⟨cm, h1, h2⟩ := hyes hn (decide_eq_true hge)
    exact ⟨cm, hcm.trans h1, hall.trans h2⟩
  · intro hnot
    rw [hall]
    apply hno
    rintro ⟨hn, hd⟩
    exact hnot ⟨hn, of_decide_eq_true hd⟩

/-- Witness of C17: on a newly constructed manager the chunk of size 1, at the threshold, is
built without a template with fuel 2 and registers its composite map once, deferred. -/
theorem createChunk_registers_composite_map_witness :
    (1 : ℚ) ≥ freshManager.mCompositeMapLevel
    ∧ ∃ (r : TerrainDrawable × ChunkManager) (cm : CompositeMap),
        freshManager.createChunk 2 1 ⟨0, 0⟩ 0 0 true none = some r
        ∧ r.1.mCompositeMap = some cm
        ∧ (freshManager.since r.2).filter Event.isAddCompositeMap
            = [Event.addCompositeMap cm.id false] := by
  have hsome : (freshManager.createChunk 2 1 ⟨0, 0⟩ 0 0 true none).isSome = true := by decide!
  obtain ⟨r, hr⟩ := Option.isSome_iff_exists.mp hsome
  obtain ⟨cm, h1, h2⟩ := ((createChunk_registers_composite_map freshManager 1 ⟨0, 0⟩ 0 0 true
    none).1 2 r hr).1 rfl (by decide!)
  exact ⟨by decide!, r, cm, hr, h1, h2⟩

/-- C18: `ChunkManager::createPasses` builds one `TextureLayer` per `LayerInfo` returned by
`Storage::getBlendmaps`, in the same order and with the same count: the i-th layer has the i-th
LayerInfo's parallax and specular flags and the texture that the texture manager serves for its
diffuse map. Likewise it builds one texture per blend-map image, in order: the i-th texture is a
new object that wraps the i-th image and is clamped to edge on both axes. These layers and
textures are what it passes on to `::Terrain::createPasses`. -/
theorem createPasses_layers_and_blendmaps (m : ChunkManager) (chunkSize : ℚ) (chunkCenter : Vec2f)
    (forCompositeMap : Bool) :
    (m.createPasses chunkSize chunkCenter forCompositeMap).1
      = Terrain.createPasses (m.createPassesUseShaders chunkSize chunkCenter forCompositeMap)
          (m.createPassesTextureLayers chunkSize chunkCenter forCompositeMap)
          (m.createPassesBlendmapTextures chunkSize chunkCenter forCompositeMap)
          (m.mStorage.getBlendmapScale chunkSize) (m.mStorage.getBlendmapScale chunkSize)
    ∧ Event.getBlendmaps chunkSize chunkCenter
        ∈ m.since (m.createPasses chunkSize chunkCenter forCompositeMap).2
    ∧ (m.createPassesTextureLayers chunkSize chunkCenter forCompositeMap).length
        = (m.mStorage.getBlendmaps chunkSize chunkCenter m.mWorldspace).2.length
    ∧ (∀ (i : Nat) (it : LayerInfo),
        (m.mStorage.getBlendmaps chunkSize chunkCenter m.mWorldspace).2[i]? = some it →
        ∃ layer : TextureLayer,
          (m.createPassesTextureLayers chunkSize chunkCenter forCompositeMap)[i]? = some layer
          ∧ layer.mParallax = it.mParallax ∧ layer.mSpecular = it.mSpecular
          ∧ layer.mDiffuseMap = m.mTextureManager.getTexture it.mDiffuseMap)
    ∧ (m.createPassesBlendmapTextures chunkSize chunkCenter forCompositeMap).length
        = (m.mStorage.getBlendmaps chunkSize chunkCenter m.mWorldspace).1.length
    ∧ (∀ (i : Nat) (image : Image),
        (m.mStorage.getBlendmaps chunkSize chunkCenter m.mWorldspace).1[i]? = some image →
        ∃ texture : Texture2D,
          (m.createPassesBlendmapTextures chunkSize chunkCenter forCompositeMap)[i]? = some texture
          ∧ texture.mImage = some image ∧ texture.mWrapS = WrapMode.CLAMP_TO_EDGE
          ∧ texture.mWrapT = WrapMode.CLAMP_TO_EDGE ∧ texture.id = m.mNextId + i) := by
  refine ⟨rfl, ChunkManager.createPasses_getBlendmaps m chunkSize chunkCenter forCompositeMap,
    ?_, ?_, ?_, ?_⟩
  · rw [ChunkManager.createPassesTextureLayers_eq, List.length_map]
  · intro i it hi
    rw [ChunkManager.createPassesTextureLayers_eq, List.getElem?_map, hi]
    exact ⟨_, rfl, rfl, rfl, rfl⟩
  · rw [ChunkManager.createPassesBlendmapTextures_eq, List.length_map, List.enumFrom_length]
  · intro i image hi
    rw [ChunkManager.createPassesBlendmapTextures_eq, List.getElem?_map, List.getElem?_enumFrom,
      hi]
    exact ⟨_, rfl, rfl, rfl, rfl, rfl⟩

/-- Witness of C18: the data source of `freshManager` returns two layers and one image. -/
theorem createPasses_layers_and_blendmaps_witness :
    (freshManager.mStorage.getBlendmaps 1 ⟨0, 0⟩ freshManager.mWorldspace).2[1]?
        = some ⟨"rock", "rock_n", false, true⟩
    ∧ (freshManager.mStorage.getBlendmaps 1 ⟨0, 0⟩ freshManager.mWorldspace).1[0]? = some 7
    ∧ (∃ layer : TextureLayer,
        (freshManager.createPassesTextureLayers 1 ⟨0, 0⟩ false)[1]? = some layer
        ∧ layer.mParallax = false ∧ layer.mSpecular = true
        ∧ layer.mDiffuseMap = freshManager.mTextureManager.getTexture "rock")
    ∧ ∃ texture : Texture2D,
        (freshManager.createPassesBlendmapTextures 1 ⟨0, 0⟩ false)[0]? = some texture
        ∧ texture.mImage = some 7 ∧ texture.mWrapS = WrapMode.CLAMP_TO_EDGE
        ∧ texture.mWrapT = WrapMode.CLAMP_TO_EDGE ∧ texture.id = freshManager.mNextId + 0 :=
  ⟨by decide!, by decide!,
    (createPasses_layers_and_blendmaps freshManager 1 ⟨0, 0⟩ false).2.2.2.1 1
      ⟨"rock", "rock_n", false, true⟩ (by decide!),
    (createPasses_layers_and_blendmaps freshManager 1 ⟨0, 0⟩ false).2.2.2.2.2 0 7 (by decide!)⟩

/-- C19: in `ChunkManager::createPasses` the layer built for a LayerInfo has a normal map if and
only if `forCompositeMap` is false and the LayerInfo's normal-map name is not empty, and then it
is the texture served for that name; every layer built for composite-map source geometry has no
normal map. -/
theorem createPasses_normal_map (m : ChunkManager) (chunkSize : ℚ) (chunkCenter : Vec2f)
    (forCompositeMap : Bool) :
    (∀ (i : Nat) (it : LayerInfo) (layer : TextureLayer),
        (m.mStorage.getBlendmaps chunkSize chunkCenter m.mWorldspace).2[i]? = some it →
        (m.createPassesTextureLayers chunkSize chunkCenter forCompositeMap)[i]? = some layer →
        (layer.mNormalMap.isSome = true ↔ forCompositeMap = false ∧ it.mNormalMap ≠ "")
        ∧ (layer.mNormalMap.isSome = true →
            layer.mNormalMap = some (m.mTextureManager.getTexture it.mNormalMap)))
    ∧ (∀ layer ∈ m.createPassesTextureLayers chunkSize chunkCenter true, layer.mNormalMap = none)
    ∧ (m.createPasses chunkSize chunkCenter forCompositeMap).1
        = Terrain.createPasses (m.createPassesUseShaders chunkSize chunkCenter forCompositeMap)
            (m.createPassesTextureLayers chunkSize chunkCenter forCompositeMap)
            (m.createPassesBlendmapTextures chunkSize chunkCenter forCompositeMap)
            (m.mStorage.getBlendmapScale chunkSize) (m.mStorage.getBlendmapScale chunkSize) := by
  refine ⟨fun i it layer hi hl => ?_, fun layer hl => ?_, rfl⟩
  · rw [ChunkManager.createPassesTextureLayers_eq, List.getElem?_map, hi] at hl
    injection hl with hl
    subst hl
    have hemp : it.mNormalMap.isEmpty = true ↔ it.mNormalMap = "" := String.isEmpty_iff _
    by_cases hn : it.mNormalMap = ""
    · have he : it.mNormalMap.isEmpty = true := hemp.mpr hn
      simp [he]
      intro _
      exact hn
    · have he : it.mNormalMap.isEmpty = false := by
        cases h : it.mNormalMap.isEmpty
        · rfl
        · exact absurd (hemp.mp h) hn
      cases forCompositeMap <;> simp [he, hn]
  · rw [ChunkManager.createPassesTextureLayers_eq] at hl
    obtain ⟨it, -, rfl⟩ := List.mem_map.mp hl
    rfl

/-- Witness of C19: the second layer of `flatStorage` names a normal map. -/
theorem createPasses_normal_map_witness :
    (freshManager.mStorage.getBlendmaps 1 ⟨0, 0⟩ freshManager.mWorldspace).2[1]?
        = some ⟨"rock", "rock_n", false, true⟩
    ∧ (freshManager.createPassesTextureLayers 1 ⟨0, 0⟩ false)[1]?
        = some ⟨freshManager.mTextureManager.getTexture "rock",
            some (freshManager.mTextureManager.getTexture "rock_n"), false, true⟩
    ∧ ((some (freshManager.mTextureManager.getTexture "rock_n")).isSome = true ↔
        false = false ∧ "rock_n" ≠ "") :=
  ⟨by decide!, by decide!,
    ((createPasses_normal_map freshManager 1 ⟨0, 0⟩ false).1 1 ⟨"rock", "rock_n", false, true⟩
      ⟨freshManager.mTextureManager.getTexture "rock",
        some (freshManager.mTextureManager.getTexture "rock_n"), false, true⟩
      (by decide!) (by decide!)).1⟩

/-- Counterexample to C20 as stated: with forced shaders, clamped lighting enabled and a single
layer that does not require shaders, `createPasses(chunkSize, chunkCenter, false)` passes on
`useShaders = true`, and its one pass is made for the shader path. -/
theorem createPasses_useShaders_counterexample :
    forcedShaderManager.mSceneManager.getClampLighting = true
    ∧ (forcedShaderManager.mStorage.getBlendmaps 1 ⟨0, 0⟩ forcedShaderManager.mWorldspace).2
        = [⟨"sand", "", false, false⟩]
    ∧ (forcedShaderManager.mStorage.getBlendmaps 1 ⟨0, 0⟩ forcedShaderManager.mWorldspace).2.any
        LayerInfo.requiresShaders = false
    ∧ forcedShaderManager.createPassesUseShaders 1 ⟨0, 0⟩ false = true
    ∧ (forcedShaderManager.createPasses 1 ⟨0, 0⟩ false).1.map StateSet.usesShaders = [true] := by
  decide!

/-- C20 (amended): for non-composited chunks (`forCompositeMap = false`) the `useShaders` flag
that `ChunkManager::createPasses` passes on is true if and only if the scene manager forces
shaders, or clamped lighting is disabled, or at least one layer requires shaders; otherwise it is
false. For composite-map source geometry it is always false. -/
theorem createPasses_useShaders_iff (m : ChunkManager) (chunkSize : ℚ) (chunkCenter : Vec2f) :
    (m.createPassesUseShaders chunkSize chunkCenter false = true ↔
        m.mSceneManager.getForceShaders = true ∨ m.mSceneManager.getClampLighting = false
          ∨ ∃ it ∈ (m.mStorage.getBlendmaps chunkSize chunkCenter m.mWorldspace).2,
              it.requiresShaders = true)
    ∧ m.createPassesUseShaders chunkSize chunkCenter true = false
    ∧ (∀ forCompositeMap : Bool,
        (m.createPasses chunkSize chunkCenter forCompositeMap).1
          = Terrain.createPasses (m.createPassesUseShaders chunkSize chunkCenter forCompositeMap)
              (m.createPassesTextureLayers chunkSize chunkCenter forCompositeMap)
              (m.createPassesBlendmapTextures chunkSize chunkCenter forCompositeMap)
              (m.mStorage.getBlendmapScale chunkSize) (m.mStorage.getBlendmapScale chunkSize))
    ∧ (∀ forCompositeMap : Bool,
        ∀ pass ∈ (m.createPasses chunkSize chunkCenter forCompositeMap).1,
          pass.usesShaders = m.createPassesUseShaders chunkSize chunkCenter forCompositeMap) := by
  refine ⟨?_, ?_, fun _ => rfl, fun f pass hp => ?_⟩
  · rw [ChunkManager.createPassesUseShaders_eq]
    simp only [Bool.not_false, Bool.true_and, Bool.or_eq_true, Bool.not_eq_true',
      List.any_eq_true, or_assoc]
  · rw [ChunkManager.createPassesUseShaders_eq]
    rfl
  · rw [ChunkManager.createPasses_args] at hp
    simp only [Terrain.createPasses, List.mem_map] at hp
    obtain ⟨p, -, rfl⟩ := hp
    rfl

/-- Witness of C20 (amended): forced shaders alone make `useShaders` true. -/
theorem createPasses_useShaders_iff_witness :
    forcedShaderManager.mSceneManager.getForceShaders = true
    ∧ forcedShaderManager.createPassesUseShaders 1 ⟨0, 0⟩ false = true :=
  ⟨by decide!, (createPasses_useShaders_iff forcedShaderManager 1 ⟨0, 0⟩).1.2 (Or.inl (by decide!))⟩

/-- C21: `getChunk` ignores its `lod` argument. For any two `lod` arguments and otherwise equal
inputs and state it returns the same chunk and leaves the same state. The lod it works with is
`(lodFlags >> 16)` truncated to 8 bits: a chunk cached under the `ChunkKey` with that lod is
returned as is, and otherwise that lod is used for the `TemplateKey` of the template lookup, is
passed to `createChunk`, and is the lod of the key under which the new chunk is cached. With a
positive `mMaxCompGeometrySize` the call returns once the fuel is large enough. -/
theorem getChunk_ignores_lod (m : ChunkManager) (fuel : Nat) (size : ℚ) (center : Vec2f)
    (lodFlags : Nat) (activeGrid : Bool) (viewPoint : Vec3f) (compile : Bool) :
    (∀ lod1 lod2 : Nat,
        m.getChunk fuel size center lod1 lodFlags activeGrid viewPoint compile
          = m.getChunk fuel size center lod2 lodFlags activeGrid viewPoint compile)
    ∧ (lodFlags >>> 16) % 256 < 2 ^ 8
    ∧ (∀ (lod : Nat) (obj : TerrainDrawable),
        m.mCache.getRefFromObjectCache ⟨center, (lodFlags >>> 16) % 256, lodFlags⟩ = some obj →
        m.getChunk fuel size center lod lodFlags activeGrid viewPoint compile = some (obj, m))
    ∧ (∀ lod : Nat,
        m.mCache.getRefFromObjectCache ⟨center, (lodFlags >>> 16) % 256, lodFlags⟩ = none →
        m.getChunk fuel size center lod lodFlags activeGrid viewPoint compile
          = (m.createChunk fuel size center ((lodFlags >>> 16) % 256) lodFlags compile
              (m.getChunkTemplate center ((lodFlags >>> 16) % 256))).map fun r =>
              (r.1, { r.2 with
                mCache := r.2.mCache.addEntryToObjectCache
                  ⟨center, (lodFlags >>> 16) % 256, lodFlags⟩ r.1 }))
    ∧ (∀ lod : Nat, 0 < m.mMaxCompGeometrySize →
        ∃ (fuel0 : Nat) (r : TerrainDrawable × ChunkManager), ∀ fuel1, fuel0 ≤ fuel1 →
          m.getChunk fuel1 size center lod lodFlags activeGrid viewPoint compile = some r) := by
  refine ⟨fun lod1 lod2 => rfl, Nat.mod_lt _ (by norm_num), fun lod obj hit =>
    ChunkManager.getChunk_hit hit fuel size lod activeGrid viewPoint compile, fun lod miss =>
    ChunkManager.getChunk_miss miss fuel size lod activeGrid viewPoint compile, fun lod ht =>
    ChunkManager.getChunk_total m size center lod lodFlags activeGrid viewPoint compile ht⟩

/-- Witness of C21: on a newly constructed manager a request with `lod = 7` and `lodFlags = 0`
gives the chunk and state of the request with `lod = 0`, and a repeated request with yet
another `lod` finds that chunk in the cache. -/
theorem getChunk_ignores_lod_witness :
    freshManager.getChunk 2 (1 / 2) ⟨0, 0⟩ 7 0 true ⟨0, 0, 0⟩ true = some (firstChunk, warmManager)
    ∧ warmManager.mCache.getRefFromObjectCache ⟨⟨0, 0⟩, (0 >>> 16) % 256, 0⟩ = some firstChunk
    ∧ warmManager.getChunk 2 (1 / 2) ⟨0, 0⟩ 3 0 true ⟨0, 0, 0⟩ true = some (firstChunk, warmManager) :=
  ⟨((getChunk_ignores_lod freshManager 2 (1 / 2) ⟨0, 0⟩ 0 true ⟨0, 0, 0⟩ true).1 7 0).trans
      firstRequest_eq,
    by decide!,
    (getChunk_ignores_lod warmManager 2 (1 / 2) ⟨0, 0⟩ 0 true ⟨0, 0, 0⟩ true).2.2.1 3 firstChunk
      (by decide!)⟩

/-- C22: memoization of the leaf template geometry is sound. Every leaf reached from the initial
rectangle `(0, 0, 1, 1)` has texCoords with `z = w`, and then `height = -width`. The positions a
leaf computes for a new template geometry are, for a fixed `getCellVertices` value, a function of
the key `(chunkSize, posX, posY, width)` alone when `z = w`. The cache of a newly constructed
manager is sound, `getChunk` keeps it sound and keeps the data source, and in a sound cache the
geometry found for the key of a leaf with `z = w` is the one the leaf works with and has exactly
the positions that the leaf would compute afresh. -/
theorem leaf_template_positions_sound (m : ChunkManager) :
    (∀ (fuel : Nat) (lod : Int) (chunkSize : ℚ) (chunkCenter : Vec2f) (compositeMap : CompositeMap)
        (r : CompositeMap × ChunkManager),
        ChunkManager.createCompositeMapGeometry fuel m lod chunkSize chunkCenter ⟨0, 0, 1, 1⟩
          compositeMap = some r →
        ∀ l ∈ leafCalls (m.since r.2), l.2.z = l.2.w ∧ l.2.w * (-2) = -(l.2.z * 2))
    ∧ (∀ (chunkSize : ℚ) (chunkCenter : Vec2f) (texCoords : Vec4f),
        m.mCompositeMapGeometryCache.lookup (ChunkManager.leafGeomKey chunkSize texCoords) = none →
        (m.leafTemplate chunkSize chunkCenter texCoords).1.mVertexArray.data
          = m.leafFreshPositions chunkSize texCoords)
    ∧ (∀ (m2 : ChunkManager) (chunkSize1 chunkSize2 : ℚ) (texCoords1 texCoords2 : Vec4f),
        m2.mStorage.getCellVertices m2.mWorldspace = m.mStorage.getCellVertices m.mWorldspace →
        texCoords1.z = texCoords1.w → texCoords2.z = texCoords2.w →
        ChunkManager.leafGeomKey chunkSize1 texCoords1
          = ChunkManager.leafGeomKey chunkSize2 texCoords2 →
        m.leafFreshPositions chunkSize1 texCoords1 = m2.leafFreshPositions chunkSize2 texCoords2)
    ∧ (∀ (storage : Storage) (sceneMgr : SceneManager) (textureManager : TextureManager)
        (worldspace : RefId),
        (ChunkManager.new storage sceneMgr textureManager worldspace).geomCacheSound)
    ∧ (∀ (fuel : Nat) (size : ℚ) (center : Vec2f) (lod lodFlags : Nat) (activeGrid : Bool)
        (viewPoint : Vec3f) (compile : Bool) (r : TerrainDrawable × ChunkManager),
        m.geomCacheSound →
        m.getChunk fuel size center lod lodFlags activeGrid viewPoint compile = some r →
        r.2.geomCacheSound ∧ r.2.mStorage = m.mStorage ∧ r.2.mWorldspace = m.mWorldspace)
    ∧ (m.geomCacheSound →
        ∀ (chunkSize : ℚ) (chunkCenter : Vec2f) (texCoords : Vec4f) (g : TemplateGeom),
          texCoords.z = texCoords.w →
          m.mCompositeMapGeometryCache.lookup (ChunkManager.leafGeomKey chunkSize texCoords)
            = some g →
          (m.leafTemplate chunkSize chunkCenter texCoords).1 = g
          ∧ g.mVertexArray.data = m.leafFreshPositions chunkSize texCoords) := by
  refine ⟨fun fuel lod cs cc cm r h l hl => ?_, fun cs cc tc h =>
    ChunkManager.leafTemplate_positions h, fun m2 cs1 cs2 tc1 tc2 hcv h1 h2 hk => ?_,
    fun storage sceneMgr textureManager worldspace e he => ?_,
    fun fuel size center lod lodFlags ag vp compile r hm h => ?_,
    fun hm cs cc tc g hzw hg => ?_⟩
  · have hzw := (ChunkManager.createCompositeMapGeometry_keeps fuel m lod cs cc ⟨0, 0, 1, 1⟩ cm r
      rfl h).2 l hl
    refine ⟨hzw, ?_⟩
    rw [hzw]
    ring
  · rw [ChunkManager.leafFreshPositions_key m h1 h2 hk]
    simp only [ChunkManager.leafFreshPositions, ChunkManager.leafNumVerts, hcv]
  · simp [ChunkManager.new] at he
  · obtain ⟨hs, hw, hk⟩ := ChunkManager.getChunk_keeps h
    exact ⟨hk hm, hs, hw⟩
  · refine ⟨?_, hm _ (List.mem_of_lookup_some _ _ _ hg) cs tc hzw rfl⟩
    rw [@ChunkManager.leafTemplate_hit _ _ cc _ _ hg]

/-- Witness of C22: after the request for a chunk of size 1 the cache holds the template
geometry of the single leaf, with the positions that leaf computes. -/
theorem leaf_template_positions_sound_witness :
    freshManager.getChunk 2 1 ⟨0, 0⟩ 0 0 true ⟨0, 0, 0⟩ true
        = some (compositeRequest.get (by decide!))
    ∧ compositeManager.geomCacheSound
    ∧ ∃ g : TemplateGeom,
        compositeManager.mCompositeMapGeometryCache.lookup
            (ChunkManager.leafGeomKey 1 ⟨0, 0, 1, 1⟩) = some g
        ∧ g.mVertexArray.data = compositeManager.leafFreshPositions 1 ⟨0, 0, 1, 1⟩ := by
  have hreq : freshManager.getChunk 2 1 ⟨0, 0⟩ 0 0 true ⟨0, 0, 0⟩ true
      = some (compositeRequest.get (by decide!)) := (Option.some_get _).symm
  have hsound : compositeManager.geomCacheSound :=
    ((leaf_template_positions_sound freshManager).2.2.2.2.1 2 1 ⟨0, 0⟩ 0 0 true ⟨0, 0, 0⟩ true _
      ((leaf_template_positions_sound freshManager).2.2.2.1 flatStorage plainSceneManager
        plainTextureManager 0) hreq).1
  have hsome : (compositeManager.mCompositeMapGeometryCache.lookup
      (ChunkManager.leafGeomKey 1 ⟨0, 0, 1, 1⟩)).isSome = true := by decide!
  obtain ⟨g, hg⟩ := Option.isSome_iff_exists.mp hsome
  exact ⟨hreq, hsound, g, hg,
    ((leaf_template_positions_sound compositeManager).2.2.2.2.2 hsound 1 ⟨0, 0⟩ ⟨0, 0, 1, 1⟩ g
      rfl hg).2⟩

/-- Counterexample to C23 as stated: over a data source with 65536 vertices per cell side the
leaf of chunk size 1 on `(0, 0, 1, 1)` has `numVerts = 65536 >= 2` and its key is not in the
cache, so a new template is built. The size `numVerts * numVerts` of its position array is
computed in `unsigned int` and wraps to 0: the array has no slot at all rather than
`numVerts ^ 2`, and already the first index `vertY + vertX * numVerts = 0` is out of bounds. -/
theorem leaf_template_grid_counterexample :
    wideGridManager.leafNumVerts 1 = 65536
    ∧ 2 ≤ wideGridManager.leafNumVerts 1
    ∧ wideGridManager.mCompositeMapGeometryCache.lookup
        (ChunkManager.leafGeomKey 1 ⟨0, 0, 1, 1⟩) = none
    ∧ (wideGridManager.leafTemplate 1 ⟨0, 0⟩ ⟨0, 0, 1, 1⟩).1.mVertexArray.data
        = wideGridManager.leafFreshPositions 1 ⟨0, 0, 1, 1⟩
    ∧ (wideGridManager.leafFreshPositions 1 ⟨0, 0, 1, 1⟩).length = 0
    ∧ (wideGridManager.leafFreshPositions 1 ⟨0, 0, 1, 1⟩).length
        ≠ wideGridManager.leafNumVerts 1 * wideGridManager.leafNumVerts 1
    ∧ ¬ (0 + 0 * wideGridManager.leafNumVerts 1
          < (wideGridManager.leafFreshPositions 1 ⟨0, 0, 1, 1⟩).length)
    ∧ (wideGridManager.leafFreshPositions 1 ⟨0, 0, 1, 1⟩)[0 + 0 * wideGridManager.leafNumVerts 1]?
        = none := by
  have hn : wideGridManager.leafNumVerts 1 = 65536 := by decide!
  have hmiss : wideGridManager.mCompositeMapGeometryCache.lookup
      (ChunkManager.leafGeomKey 1 ⟨0, 0, 1, 1⟩) = none := by decide!
  have hlen : (wideGridManager.leafFreshPositions 1 ⟨0, 0, 1, 1⟩).length = 0 := by
    unfold ChunkManager.leafFreshPositions
    rw [templatePositions_length, hn]
    decide
  refine ⟨hn, by rw [hn]; decide, hmiss, ChunkManager.leafTemplate_positions hmiss, hlen, ?_, ?_,
    ?_⟩
  · rw [hlen, hn]; decide
  · rw [hlen]; exact Nat.not_lt_zero _
  · exact List.getElem?_eq_none (by rw [hlen]; exact Nat.zero_le _)

/-- C23 (amended): for a leaf with `numVerts >= 2` whose `numVerts * numVerts` fits
`unsigned int` (`numVerts < 65536`), on texCoords of non-negative extent, the template grid covers
exactly the rectangle of the leaf's textured quads. The position array has `numVerts * numVerts` slots; the index
`vertY + vertX * numVerts` is in bounds and every slot is the index of exactly one pair
`(vertX, vertY)`; the position written there has `x` in `[left, left + width2]` and `y` in
`[top, top + height2]`, where `left = 2x - 1`, `top = 2y - 1`, `width2 = 2z`, `height2 = 2w`, and
the grid corners are the rectangle's corners. The textured quads of the leaf have corner
`(left, top)` and extent `(width2, height2)`, and every leaf reached from `(0, 0, 1, 1)` has
positive extent. -/
theorem leaf_template_grid_covers_quad (m : ChunkManager) (chunkSize : ℚ) (chunkCenter : Vec2f)
    (texCoords : Vec4f) (compositeMap : CompositeMap)
    (hn : 2 ≤ m.leafNumVerts chunkSize)
    (hfit : m.leafNumVerts chunkSize * m.leafNumVerts chunkSize < 2 ^ 32)
    (hz : 0 ≤ texCoords.z) (hw : 0 ≤ texCoords.w) :
    (m.mCompositeMapGeometryCache.lookup (ChunkManager.leafGeomKey chunkSize texCoords) = none →
        (m.leafTemplate chunkSize chunkCenter texCoords).1.mVertexArray.data
          = m.leafFreshPositions chunkSize texCoords)
    ∧ (m.leafFreshPositions chunkSize texCoords).length
        = m.leafNumVerts chunkSize * m.leafNumVerts chunkSize
    ∧ (∀ vertX vertY : Nat, vertX < m.leafNumVerts chunkSize → vertY < m.leafNumVerts chunkSize →
        vertY + vertX * m.leafNumVerts chunkSize
          < m.leafNumVerts chunkSize * m.leafNumVerts chunkSize
        ∧ ∃ pos : Vec3f,
            (m.leafFreshPositions chunkSize texCoords)[vertY + vertX * m.leafNumVerts chunkSize]?
              = some pos
            ∧ texCoords.x * 2 - 1 ≤ pos.x ∧ pos.x ≤ texCoords.x * 2 - 1 + texCoords.z * 2
            ∧ texCoords.y * 2 - 1 ≤ pos.y ∧ pos.y ≤ texCoords.y * 2 - 1 + texCoords.w * 2
            ∧ pos.z = 0
            ∧ (vertX = 0 → pos.x = texCoords.x * 2 - 1)
            ∧ (vertX = m.leafNumVerts chunkSize - 1 →
                pos.x = texCoords.x * 2 - 1 + texCoords.z * 2)
            ∧ (vertY = 0 → pos.y = texCoords.y * 2 - 1 + texCoords.w * 2)
            ∧ (vertY = m.leafNumVerts chunkSize - 1 → pos.y = texCoords.y * 2 - 1))
    ∧ (∀ k : Nat, k < m.leafNumVerts chunkSize * m.leafNumVerts chunkSize →
        ∃! p : Nat × Nat, p.1 < m.leafNumVerts chunkSize ∧ p.2 < m.leafNumVerts chunkSize
          ∧ p.2 + p.1 * m.leafNumVerts chunkSize = k)
    ∧ (∀ pos ∈ m.leafFreshPositions chunkSize texCoords,
        texCoords.x * 2 - 1 ≤ pos.x ∧ pos.x ≤ texCoords.x * 2 - 1 + texCoords.z * 2
        ∧ texCoords.y * 2 - 1 ≤ pos.y ∧ pos.y ≤ texCoords.y * 2 - 1 + texCoords.w * 2)
    ∧ (∀ d ∈ ((m.createCompositeMapGeometryLeaf chunkSize chunkCenter texCoords
          compositeMap).1.mDrawables.drop compositeMap.mDrawables.length).dropLast,
        ∃ (id : Nat) (pass : StateSet),
          d = Drawable.texturedQuad id ⟨texCoords.x * 2 - 1, texCoords.y * 2 - 1, 0⟩
            ⟨texCoords.z * 2, 0, 0⟩ ⟨0, texCoords.w * 2, 0⟩ pass)
    ∧ (∀ (fuel : Nat) (lod : Int) (size : ℚ) (center : Vec2f) (cm : CompositeMap)
        (r : CompositeMap × ChunkManager),
        ChunkManager.createCompositeMapGeometry fuel m lod size center ⟨0, 0, 1, 1⟩ cm = some r →
        ∀ l ∈ leafCalls (m.since r.2), 0 < l.2.z ∧ 0 < l.2.w) := by
  have hslot : ∀ vertX vertY : Nat, vertX < m.leafNumVerts chunkSize →
      vertY < m.leafNumVerts chunkSize →
      (m.leafFreshPositions chunkSize texCoords)[vertY + vertX * m.leafNumVerts chunkSize]?
        = some ⟨((vertX : ℚ) / ((m.leafNumVerts chunkSize : ℚ) - 1) - 1 / 2) * (texCoords.z * 2)
            + (texCoords.x * 2 - 1 + texCoords.z),
          ((vertY : ℚ) / ((m.leafNumVerts chunkSize : ℚ) - 1) - 1 / 2) * (texCoords.w * (-2))
            + (texCoords.y * 2 - 1 + texCoords.w), 0⟩ := fun vertX vertY hx hy =>
    templatePositions_slot _ _ _ _ hfit hx hy
  have hlen : (m.leafFreshPositions chunkSize texCoords).length
      = m.leafNumVerts chunkSize * m.leafNumVerts chunkSize := by
    unfold ChunkManager.leafFreshPositions
    rw [templatePositions_length, Nat.mod_eq_of_lt hfit]
  have hpos : 0 < m.leafNumVerts chunkSize := by omega
  refine ⟨fun h => ChunkManager.leafTemplate_positions h, hlen, fun vertX vertY hx hy => ?_,
    fun k hk => ?_, fun pos hp => ?_, fun d hd => ?_, fun fuel lod size center cm r h l hl => ?_⟩
  · obtain ⟨⟨b1, b2, b3, b4⟩, c1, c2, c3, c4⟩ := grid_position_bounds hn hx hy texCoords hz hw
    exact ⟨grid_index_lt hx hy, _, hslot vertX vertY hx hy, b1, b2, b3, b4, rfl, c1, c2, c3, c4⟩
  · refine ⟨(k / m.leafNumVerts chunkSize, k % m.leafNumVerts chunkSize),
      ⟨Nat.div_lt_of_lt_mul hk, Nat.mod_lt _ hpos, Nat.mod_add_div' k _⟩, ?_⟩
    rintro ⟨x, y⟩ ⟨hx, hy, hxy⟩
    have hk2 : y + x * m.leafNumVerts chunkSize
        = k % m.leafNumVerts chunkSize + k / m.leafNumVerts chunkSize * m.leafNumVerts chunkSize :=
      hxy.trans (Nat.mod_add_div' k _).symm
    obtain ⟨h1, h2⟩ := grid_index_inj hy (Nat.mod_lt _ hpos) hk2
    simp only at h1 h2
    rw [h1, h2]
  · obtain ⟨k, hk, hget⟩ := List.getElem_of_mem hp
    rw [hlen] at hk
    have hx := Nat.div_lt_of_lt_mul hk
    have hy := Nat.mod_lt k hpos
    have hs := hslot _ _ hx hy
    rw [Nat.mod_add_div' k _, List.getElem?_eq_getElem (by rw [hlen]; exact hk), hget] at hs
    injection hs with hs
    subst hs
    exact (grid_position_bounds hn hx hy texCoords hz hw).1
  · rw [ChunkManager.createCompositeMapGeometryLeaf_drawables, List.append_assoc,
      List.drop_left, List.dropLast_concat] at hd
    obtain ⟨p, -, rfl⟩ := List.mem_map.mp hd
    exact ⟨_, _, rfl⟩
  · have := ChunkManager.createCompositeMapGeometry_leaves_inside h (by norm_num) (by norm_num) l hl
    exact ⟨this.2.2.2.2.1, this.2.2.2.2.2⟩

/-- Witness of C23 (amended): on a newly constructed manager over a data source with three vertices per
cell side, the leaf of chunk size 1 on `(0, 0, 1, 1)` has a grid of 3 by 3 positions. -/
theorem leaf_template_grid_covers_quad_witness :
    2 ≤ freshManager.leafNumVerts 1
    ∧ freshManager.leafNumVerts 1 * freshManager.leafNumVerts 1 < 2 ^ 32
    ∧ (0 : ℚ) ≤ (⟨0, 0, 1, 1⟩ : Vec4f).z ∧ (0 : ℚ) ≤ (⟨0, 0, 1, 1⟩ : Vec4f).w
    ∧ (freshManager.leafFreshPositions 1 ⟨0, 0, 1, 1⟩).length = 9
    ∧ (freshManager.leafFreshPositions 1 ⟨0, 0, 1, 1⟩).length
        = freshManager.leafNumVerts 1 * freshManager.leafNumVerts 1 :=
  ⟨by decide!, by decide!, by decide!, by decide!, by decide!,
    (leaf_template_grid_covers_quad freshManager 1 ⟨0, 0⟩ ⟨0, 0, 1, 1⟩ ⟨0, none, []⟩ (by decide!)
      (by decide!) (by decide!) (by decide!)).2.1⟩

/-- C24: with the constructor's thresholds (`mCompositeMapLevel = mMaxCompGeometrySize = 1`)
every leaf of a composite map built by `createChunk` has chunk size in `(1/2, 1]`, and exactly 1
when the chunk size is a power of two. For a data source with at least three vertices per cell
side (an `int`) the leaf's `numVerts` is then at least 2, so the divisor `numVerts - 1` of the
template positions is not zero. The call returns once the fuel is large enough. -/
theorem createChunk_leaf_numVerts (m : ChunkManager) (chunkSize : ℚ) (chunkCenter : Vec2f)
    (lod lodFlags : Nat) (compile : Bool) (templateGeometry : Option TerrainDrawable)
    (hlevel : m.mCompositeMapLevel = 1) (hmax : m.mMaxCompGeometrySize = 1) :
    (∀ (storage : Storage) (sceneMgr : SceneManager) (textureManager : TextureManager)
        (worldspace : RefId),
        (ChunkManager.new storage sceneMgr textureManager worldspace).mCompositeMapLevel = 1
        ∧ (ChunkManager.new storage sceneMgr textureManager worldspace).mMaxCompGeometrySize = 1)
    ∧ (∃ (fuel0 : Nat) (r : TerrainDrawable × ChunkManager), ∀ fuel, fuel0 ≤ fuel →
        m.createChunk fuel chunkSize chunkCenter lod lodFlags compile templateGeometry = some r)
    ∧ (∀ (fuel : Nat) (r : TerrainDrawable × ChunkManager),
        m.createChunk fuel chunkSize chunkCenter lod lodFlags compile templateGeometry = some r →
        ∀ l ∈ leafCalls (m.since r.2),
          1 / 2 < l.1 ∧ l.1 ≤ 1 ∧ (∀ k : ℤ, chunkSize = 2 ^ k → l.1 = 1)
          ∧ (3 ≤ m.mStorage.getCellVertices m.mWorldspace →
              m.mStorage.getCellVertices m.mWorldspace < 2 ^ 31 →
              2 ≤ m.leafNumVerts l.1
              ∧ (((m.leafNumVerts l.1 + 2 ^ 32 - 1) % 2 ^ 32 : Nat) : ℚ) ≠ 0)) := by
  refine ⟨fun _ _ _ _ => ⟨rfl, rfl⟩, ChunkManager.createChunk_total m chunkSize chunkCenter lod
    lodFlags compile templateGeometry (by rw [hmax]; exact one_pos), fun fuel r h l hl => ?_⟩
  rcases ChunkManager.createChunk_leaves h with hnil | ⟨-, hge, m0, cm, c, hm0, hc, hleaves⟩
  · rw [hnil] at hl
    cases hl
  rw [hlevel] at hge
  rw [hmax] at hm0
  rw [hleaves] at hl
  obtain ⟨k0, hk0⟩ := exists_pow_bound chunkSize 1 one_pos
  obtain ⟨d, -, hd0, hd1, hle, hrun⟩ :=
    ChunkManager.createCompositeMapGeometry_depth k0 chunkSize 1 one_pos hk0
  have hsize : l.1 = chunkSize / 2 ^ d := (hrun m0 lod chunkCenter ⟨0, 0, 1, 1⟩ cm hm0).2 fuel c hc l hl
  have hpow : (0 : ℚ) < 2 ^ d := pow_pos (by norm_num) d
  rw [one_mul] at hle
  have hupper : l.1 ≤ 1 := by
    rw [hsize]
    exact (div_le_one hpow).mpr hle
  have hlower : 1 / 2 < l.1 := by
    rw [hsize, lt_div_iff₀ hpow]
    rcases lt_or_eq_of_le hge with hgt | heq
    · obtain ⟨h1, h2⟩ := hd1 hgt
      have hsplit : (2 : ℚ) ^ d = 2 * 2 ^ (d - 1) := by
        rw [← pow_succ']
        congr 1
        omega
      rw [hsplit]
      linarith
    · have hd := hd0 heq.symm.le
      rw [hd, ← heq]
      norm_num
  refine ⟨hlower, hupper, fun k hk => ?_, fun hcv hint => ?_⟩
  · have hzp : l.1 = (2 : ℚ) ^ (k - (d : ℤ)) := by
      rw [hsize, hk, zpow_sub₀ (by norm_num : (2 : ℚ) ≠ 0), zpow_natCast]
    have h1 : k - (d : ℤ) ≤ 0 := by
      have : (2 : ℚ) ^ (k - (d : ℤ)) ≤ 2 ^ (0 : ℤ) := by
        rw [← hzp, zpow_zero]
        exact hupper
      exact (zpow_le_zpow_iff_right₀ (by norm_num : (1 : ℚ) < 2)).mp this
    have h2 : (-1 : ℤ) < k - (d : ℤ) := by
      have : (2 : ℚ) ^ (-1 : ℤ) < 2 ^ (k - (d : ℤ)) := by
        rw [← hzp]
        norm_num
        linarith
      exact (zpow_lt_zpow_iff_right₀ (by norm_num : (1 : ℚ) < 2)).mp this
    have h3 : k - (d : ℤ) = 0 := by omega
    rw [hzp, h3, zpow_zero]
  · have h2 := m.leafNumVerts_ge_two hcv hint hlower hupper
    refine ⟨h2, ?_⟩
    have hlt : m.leafNumVerts l.1 < 2 ^ 32 := Nat.mod_lt _ (by norm_num)
    have hdiv : (m.leafNumVerts l.1 + 2 ^ 32 - 1) % 2 ^ 32 = m.leafNumVerts l.1 - 1 := by omega
    rw [hdiv]
    have : 0 < m.leafNumVerts l.1 - 1 := by omega
    exact_mod_cast this.ne'

/-- Witness of C24: on a newly constructed manager over a data source with three vertices per
cell side, the chunk of size 2 has four leaves of size 1. -/
theorem createChunk_leaf_numVerts_witness :
    freshManager.mCompositeMapLevel = 1 ∧ freshManager.mMaxCompGeometrySize = 1
    ∧ (freshManager.createChunk 2 2 ⟨0, 0⟩ 0 0 true none).map
        (fun r => (leafCalls (freshManager.since r.2)).map fun l => l.1) = some [1, 1, 1, 1]
    ∧ ∃ r : TerrainDrawable × ChunkManager,
        freshManager.createChunk 2 2 ⟨0, 0⟩ 0 0 true none = some r
        ∧ ∀ l ∈ leafCalls (freshManager.since r.2), 1 / 2 < l.1 ∧ l.1 ≤ 1 := by
  have hsome : (freshManager.createChunk 2 2 ⟨0, 0⟩ 0 0 true none).isSome = true := by decide!
  obtain ⟨r, hr⟩ := Option.isSome_iff_exists.mp hsome
  exact ⟨by decide!, by decide!, by decide!, r, hr, fun l hl =>
    ⟨((createChunk_leaf_numVerts freshManager 2 ⟨0, 0⟩ 0 0 true none (by decide!)
        (by decide!)).2.2 2 r hr l hl).1,
      ((createChunk_leaf_numVerts freshManager 2 ⟨0, 0⟩ 0 0 true none (by decide!)
        (by decide!)).2.2 2 r hr l hl).2.1⟩⟩

end Terrain

/-! # Reference numbers -/

namespace ESM

/-- The function `operator<` compares `mIndex` first and `mContentFile` second. -/
theorem RefNum.lt_iff (a b : RefNum) :
    a.lt b = true ↔
      a.mIndex < b.mIndex ∨ (a.mIndex = b.mIndex ∧ a.mContentFile < b.mContentFile) := by
  unfold RefNum.lt
  by_cases h1 : a.mIndex < b.mIndex
  · simp [h1]
  · by_cases h2 : a.mIndex > b.mIndex
    · rw [if_neg h1, if_pos h2]
      constructor
      · intro h; cases h
      · rintro (h | ⟨h, -⟩) <;> exfalso <;> omega
    · have he : a.mIndex = b.mIndex := by omega
      simp [h1, h2, he]

theorem RefNum.eq_iff (a b : RefNum) : a.eq b = true ↔ a = b := by
  cases a
  cases b
  simp [RefNum.eq]

/-- C25: `operator<` on `ESM::RefNum` is a strict total order consistent with `operator==`. It is
the lexicographic order on `mIndex`, then `mContentFile`; it is irreflexive and transitive; and
for every two RefNums exactly one of `a < b`, `a == b`, `b < a` holds, where `a == b` holds
exactly when both members agree. -/
theorem refNum_lt_strict_total_order (a b c : RefNum) :
    (a.lt b = true ↔
      a.mIndex < b.mIndex ∨ (a.mIndex = b.mIndex ∧ a.mContentFile < b.mContentFile))
    ∧ (a.eq b = true ↔ a.mIndex = b.mIndex ∧ a.mContentFile = b.mContentFile)
    ∧ a.lt a = false
    ∧ (a.lt b = true → b.lt c = true → a.lt c = true)
    ∧ ((a.lt b = true ∧ a.eq b = false ∧ b.lt a = false)
        ∨ (a.lt b = false ∧ a.eq b = true ∧ b.lt a = false)
        ∨ (a.lt b = false ∧ a.eq b = false ∧ b.lt a = true)) := by
  have hab := RefNum.lt_iff a b
  have hba := RefNum.lt_iff b a
  have hbc := RefNum.lt_iff b c
  have hac := RefNum.lt_iff a c
  have haa := RefNum.lt_iff a a
  have heq : a.eq b = true ↔ a.mIndex = b.mIndex ∧ a.mContentFile = b.mContentFile := by
    simp [RefNum.eq]
  refine ⟨hab, heq, ?_, ?_, ?_⟩
  · cases h : a.lt a
    · rfl
    · rcases haa.mp h with h1 | ⟨-, h1⟩ <;> omega
  · intro h1 h2
    refine hac.mpr ?_
    rcases hab.mp h1 with h1 | ⟨h1, h1'⟩ <;> rcases hbc.mp h2 with h2 | ⟨h2, h2'⟩
    · exact Or.inl (by omega)
    · exact Or.inl (by omega)
    · exact Or.inl (by omega)
    · exact Or.inr ⟨by omega, by omega⟩
  · cases h1 : a.lt b <;> cases h2 : a.eq b <;> cases h3 : b.lt a <;>
      simp only [h1, h2, h3, Bool.false_eq_true, iff_false, iff_true, true_iff, false_iff,
        not_or, not_and, not_lt, and_self, and_true, and_false, true_and, false_and, or_true,
        or_false, true_or, false_or] at hab hba heq ⊢ <;> omega

/-- Witness of C25: three RefNums in increasing order. -/
theorem refNum_lt_strict_total_order_witness :
    RefNum.lt ⟨1, 5⟩ ⟨2, -1⟩ = true ∧ RefNum.lt ⟨2, -1⟩ ⟨2, 0⟩ = true
    ∧ RefNum.lt ⟨1, 5⟩ ⟨2, 0⟩ = true :=
  ⟨by decide, by decide,
    (refNum_lt_strict_total_order ⟨1, 5⟩ ⟨2, -1⟩ ⟨2, 0⟩).2.2.2.1 (by decide) (by decide)⟩

end ESM

/-! # Column lookup -/

namespace CSMWorld

/-- The loop entered at `i` with `left` iterations to go returns the first index from `i` on
whose column has the id, and `-1` when none of the `left` columns has it. -/
theorem CollectionBase.searchColumnIndexLoop_spec (c : CollectionBase) (id : Int) :
    ∀ (left : Nat) (i : Int), 0 ≤ i →
      (c.searchColumnIndexLoop id left i = -1
        ∧ ∀ j, i ≤ j → j < i + left → (c.getColumn j).mColumnId ≠ id)
      ∨ (i ≤ c.searchColumnIndexLoop id left i ∧ c.searchColumnIndexLoop id left i < i + left
        ∧ (c.getColumn (c.searchColumnIndexLoop id left i)).mColumnId = id
        ∧ ∀ j, i ≤ j → j < c.searchColumnIndexLoop id left i → (c.getColumn j).mColumnId ≠ id) := by
  intro left
  induction left with
  | zero =>
    intro i _
    left
    exact ⟨rfl, fun j h1 h2 => by omega⟩
  | succ n ih =>
    intro i hi
    unfold CollectionBase.searchColumnIndexLoop
    by_cases h : (c.getColumn i).mColumnId = id
    · right
      rw [if_pos h]
      exact ⟨le_refl _, by omega, h, fun j h1 h2 => by omega⟩
    · rw [if_neg h]
      rcases ih (i + 1) (by omega) with ⟨h1, h2⟩ | ⟨h1, h2, h3, h4⟩
      · left
        refine ⟨h1, fun j hj1 hj2 => ?_⟩
        by_cases hji : j = i
        · rw [hji]; exact h
        · exact h2 j (by omega) (by omega)
      · right
        refine ⟨by omega, by omega, h3, fun j hj1 hj2 => ?_⟩
        by_cases hji : j = i
        · rw [hji]; exact h
        · exact h4 j (by omega) hj2

/-- The two outcomes of `searchColumnIndex`. -/
theorem CollectionBase.searchColumnIndex_spec (c : CollectionBase) (id : Int) :
    (c.searchColumnIndex id = -1
      ∧ ∀ j, 0 ≤ j → j < c.getColumns → (c.getColumn j).mColumnId ≠ id)
    ∨ (0 ≤ c.searchColumnIndex id ∧ c.searchColumnIndex id < c.getColumns
      ∧ (c.getColumn (c.searchColumnIndex id)).mColumnId = id
      ∧ ∀ j, 0 ≤ j → j < c.searchColumnIndex id → (c.getColumn j).mColumnId ≠ id) := by
  simp only [CollectionBase.searchColumnIndex]
  rcases c.searchColumnIndexLoop_spec id c.getColumns.toNat 0 (le_refl _) with
    ⟨h1, h2⟩ | ⟨h1, h2, h3, h4⟩
  · left
    exact ⟨h1, fun j hj1 hj2 => h2 j hj1 (by omega)⟩
  · right
    exact ⟨h1, by omega, h3, h4⟩

/-- C26: `searchColumnIndex(id)` returns the smallest index `i` in `[0, getColumns())` whose
column has `mColumnId == id`, and returns -1 if and only if no column has that id. -/
theorem searchColumnIndex_smallest (c : CollectionBase) (id : Int) :
    (c.searchColumnIndex id = -1 ↔
      ∀ j, 0 ≤ j → j < c.getColumns → (c.getColumn j).mColumnId ≠ id)
    ∧ (c.searchColumnIndex id ≠ -1 →
        0 ≤ c.searchColumnIndex id ∧ c.searchColumnIndex id < c.getColumns
        ∧ (c.getColumn (c.searchColumnIndex id)).mColumnId = id
        ∧ ∀ j, 0 ≤ j → j < c.getColumns → (c.getColumn j).mColumnId = id →
            c.searchColumnIndex id ≤ j)
    ∧ (∀ i, 0 ≤ i → i < c.getColumns → (c.getColumn i).mColumnId = id →
        (∀ j, 0 ≤ j → j < i → (c.getColumn j).mColumnId ≠ id) → c.searchColumnIndex id = i) := by
  rcases c.searchColumnIndex_spec id with ⟨h1, h2⟩ | ⟨h1, h2, h3, h4⟩
  · refine ⟨⟨fun _ => h2, fun _ => h1⟩, fun h => absurd h1 h, fun i hi1 hi2 hi3 _ => ?_⟩
    exact absurd hi3 (h2 i hi1 hi2)
  · refine ⟨⟨fun h => by omega, fun h => absurd h3 (h _ h1 h2)⟩, fun _ => ⟨h1, h2, h3,
      fun j hj1 _ hj3 => ?_⟩, fun i hi1 hi2 hi3 hi4 => ?_⟩
    · by_contra hlt
      exact h4 j hj1 (by omega) hj3
    · rcases lt_trichotomy (c.searchColumnIndex id) i with hlt | heq | hgt
      · exact absurd h3 (hi4 _ h1 hlt)
      · exact heq
      · exact absurd hi3 (h4 i hi1 hgt)

/-- Witness of C26: in the collection with columns 7, 4, 7 the search for 7 returns 0 and the
search for 4 returns 1. -/
theorem searchColumnIndex_smallest_witness :
    threeColumns.searchColumnIndex 4 = 1 ∧ threeColumns.searchColumnIndex 7 = 0
    ∧ threeColumns.searchColumnIndex 7 ≠ -1
    ∧ (threeColumns.getColumn (threeColumns.searchColumnIndex 7)).mColumnId = 7 :=
  ⟨by decide, by decide, by decide,
    ((searchColumnIndex_smallest threeColumns 7).2.1 (by decide)).2.2.1⟩

/-- C27: `findColumnIndex(id)` throws `std::logic_error` if and only if no column of the
collection has `mColumnId == id`; otherwise it returns the index that `searchColumnIndex(id)`
returns, which is a valid column index whose column has the id. -/
theorem findColumnIndex_throws_iff (c : CollectionBase) (id : Int) :
    (c.findColumnIndex id = Except.error "invalid column index" ↔
      ∀ j, 0 ≤ j → j < c.getColumns → (c.getColumn j).mColumnId ≠ id)
    ∧ ((∃ j, 0 ≤ j ∧ j < c.getColumns ∧ (c.getColumn j).mColumnId = id) →
        c.findColumnIndex id = Except.ok (c.searchColumnIndex id)
        ∧ 0 ≤ c.searchColumnIndex id ∧ c.searchColumnIndex id < c.getColumns
        ∧ (c.getColumn (c.searchColumnIndex id)).mColumnId = id)
    ∧ (∀ e, c.findColumnIndex id = Except.error e → e = "invalid column index")
    ∧ (∀ index, c.findColumnIndex id = Except.ok index → index = c.searchColumnIndex id) := by
  rcases c.searchColumnIndex_spec id with ⟨h1, h2⟩ | ⟨h1, h2, h3, h4⟩
  · have hf : c.findColumnIndex id = Except.error "invalid column index" := by
      unfold CollectionBase.findColumnIndex
      simp only [h1, if_true]
    refine ⟨⟨fun _ => h2, fun _ => hf⟩, ?_, ?_, ?_⟩
    · rintro ⟨j, hj1, hj2, hj3⟩
      exact absurd hj3 (h2 j hj1 hj2)
    · intro e he
      rw [hf] at he
      injection he with he
      exact he.symm
    · intro index hi
      rw [hf] at hi
      cases hi
  · have hne : c.searchColumnIndex id ≠ -1 := by omega
    have hf : c.findColumnIndex id = Except.ok (c.searchColumnIndex id) := by
      unfold CollectionBase.findColumnIndex
      simp only [hne, if_false]
    refine ⟨⟨fun h => ?_, fun h => absurd h3 (h _ h1 h2)⟩, fun _ => ⟨hf, h1, h2, h3⟩, ?_, ?_⟩
    · rw [hf] at h
      cases h
    · intro e he
      rw [hf] at he
      cases he
    · intro index hi
      rw [hf] at hi
      injection hi with hi
      exact hi.symm

/-- Witness of C27: the collection with columns 7, 4, 7 has a column 4 and no column 5. -/
theorem findColumnIndex_throws_iff_witness :
    threeColumns.findColumnIndex 4 = Except.ok 1
    ∧ threeColumns.findColumnIndex 5 = Except.error "invalid column index"
    ∧ (0 : Int) ≤ 1 ∧ (1 : Int) < threeColumns.getColumns
    ∧ (threeColumns.getColumn 1).mColumnId = 4
    ∧ threeColumns.findColumnIndex 4 = Except.ok (threeColumns.searchColumnIndex 4) :=
  ⟨rfl, rfl, by decide, by decide, by decide,
    ((findColumnIndex_throws_iff threeColumns 4).2.1
      ⟨1, by decide, by decide, by decide⟩).1⟩

end CSMWorld

/-! # Armor records and dialogue state -/

namespace ESM

/-! ## The subrecords read by `PartReferenceList::add` -/

/-- After an INDX subrecord, `add` reads an optional BNAM and an optional CNAM: what it leaves
contains the same subrecords that reach the switch, the same NAME, AODT and DELE subrecords and
the same INDX subrecords. -/
theorem getHNOString_rest (rest : List SubRecord) :
    Armor.switchSubsFrom ["BNAM", "CNAM"] rest
        = Armor.switchSubs (getHNOString "CNAM" (getHNOString "BNAM" rest).2).2
    ∧ (getHNOString "CNAM" (getHNOString "BNAM" rest).2).2.length ≤ rest.length
    ∧ (rest.any fun s => s.name == SREC_DELE)
        = ((getHNOString "CNAM" (getHNOString "BNAM" rest).2).2.any fun s => s.name == SREC_DELE)
    ∧ (rest.any fun s => s.name == SREC_NAME)
        = ((getHNOString "CNAM" (getHNOString "BNAM" rest).2).2.any fun s => s.name == SREC_NAME)
    ∧ (rest.any fun s => s.name == "AODT")
        = ((getHNOString "CNAM" (getHNOString "BNAM" rest).2).2.any fun s => s.name == "AODT")
    ∧ Armor.partReferences rest
        = Armor.partReferences (getHNOString "CNAM" (getHNOString "BNAM" rest).2).2 := by
  have hcnam : ∀ (r : List SubRecord),
      Armor.switchSubsFrom ["CNAM"] r = Armor.switchSubs (getHNOString "CNAM" r).2
      ∧ (getHNOString "CNAM" r).2.length ≤ r.length
      ∧ (r.any fun s => s.name == SREC_DELE)
          = ((getHNOString "CNAM" r).2.any fun s => s.name == SREC_DELE)
      ∧ (r.any fun s => s.name == SREC_NAME)
          = ((getHNOString "CNAM" r).2.any fun s => s.name == SREC_NAME)
      ∧ (r.any fun s => s.name == "AODT")
          = ((getHNOString "CNAM" r).2.any fun s => s.name == "AODT")
      ∧ Armor.partReferences r = Armor.partReferences (getHNOString "CNAM" r).2 := by
    intro r
    cases r with
    | nil => exact ⟨rfl, le_refl _, rfl, rfl, rfl, rfl⟩
    | cons c r1 =>
      obtain ⟨name, data⟩ := c
      by_cases hc : name = "CNAM"
      · subst hc
        refine ⟨?_, ?_, ?_, ?_, ?_, ?_⟩
        · simp [Armor.switchSubsFrom, Armor.switchSubs, getHNOString]
        · simp [getHNOString]
        · simp [getHNOString, SREC_DELE]
        · simp [getHNOString, SREC_NAME]
        · simp [getHNOString]
        · simp [getHNOString, Armor.partReferences]
      · refine ⟨?_, ?_, ?_, ?_, ?_, ?_⟩
        · simp [Armor.switchSubsFrom, Armor.switchSubs, getHNOString, hc]
        · simp [getHNOString, hc]
        · simp [getHNOString, hc]
        · simp [getHNOString, hc]
        · simp [getHNOString, hc]
        · simp [getHNOString, hc]
  cases rest with
  | nil => exact ⟨rfl, le_refl _, rfl, rfl, rfl, rfl⟩
  | cons b r =>
    obtain ⟨name, data⟩ := b
    by_cases hb : name = "BNAM"
    · subst hb
      obtain ⟨h1, h2, h3, h4, h5, h6⟩ := hcnam r
      have hrest : (getHNOString "BNAM" (⟨"BNAM", data⟩ :: r)).2 = r := by simp [getHNOString]
      rw [hrest]
      refine ⟨?_, ?_, ?_, ?_, ?_, ?_⟩
      · rw [← h1]
        simp [Armor.switchSubsFrom]
      · simp only [List.length_cons]
        omega
      · rw [← h3]
        simp [SREC_DELE]
      · rw [← h4]
        simp [SREC_NAME]
      · rw [← h5]
        simp
      · rw [← h6]
        simp [Armor.partReferences]
    · have hrest : (getHNOString "BNAM" (⟨name, data⟩ :: r)).2 = ⟨name, data⟩ :: r := by
        simp [getHNOString, hb]
      rw [hrest]
      obtain ⟨h1, h2, h3, h4, h5, h6⟩ := hcnam (⟨name, data⟩ :: r)
      refine ⟨?_, h2, h3, h4, h5, h6⟩
      rw [← h1]
      by_cases hc : name = "CNAM"
      · subst hc
        simp [Armor.switchSubsFrom]
      · simp [Armor.switchSubsFrom, hb, hc]

/-! ## The loop of `Armor::load` -/

theorem Armor.switchSubs_cons (sub : SubRecord) (rest : List SubRecord) :
    Armor.switchSubs (sub :: rest)
      = sub :: Armor.switchSubsFrom (if sub.name = "INDX" then ["BNAM", "CNAM"] else []) rest := by
  simp [Armor.switchSubs, Armor.switchSubsFrom]

/-- A subrecord that the switch rejects makes the loop fail. -/
theorem Armor.LoadsTo.cons_reject {sub : SubRecord} {rest : List SubRecord} {st : ArmorLoad}
    {e : String} (hrej : Armor.rejects sub = true) :
    Armor.LoadsTo (sub :: rest) st (Except.error e) := by
  refine ⟨sub, ?_, hrej⟩
  rw [Armor.switchSubs_cons]
  exact List.mem_cons_self _ _

/-- A subrecord other than INDX that the switch accepts: the loop goes on with the rest. -/
theorem Armor.LoadsTo.cons_simple {sub : SubRecord} {rest : List SubRecord} {st st1 : ArmorLoad}
    {result : Except String ArmorLoad} (hindx : sub.name ≠ "INDX")
    (hrej : Armor.rejects sub = false)
    (hd : st1.isDeleted = (st.isDeleted || sub.name == SREC_DELE))
    (hn : st1.hasName = (st.hasName || sub.name == SREC_NAME))
    (hdata : st1.hasData = (st.hasData || sub.name == "AODT"))
    (hp : st1.armor.mParts = st.armor.mParts) (h : Armor.LoadsTo rest st1 result) :
    Armor.LoadsTo (sub :: rest) st result := by
  have hsw : Armor.switchSubs (sub :: rest) = sub :: Armor.switchSubs rest := by
    rw [Armor.switchSubs_cons, if_neg hindx]
    rfl
  have hparts : Armor.partReferences (sub :: rest) = Armor.partReferences rest := by
    simp [Armor.partReferences, hindx]
  cases result with
  | error e =>
    obtain ⟨s, hs, hr⟩ := h
    exact ⟨s, by rw [hsw]; exact List.mem_cons_of_mem _ hs, hr⟩
  | ok st2 =>
    obtain ⟨h1, h2, h3, h4, h5⟩ := h
    refine ⟨fun s hs => ?_, ?_, ?_, ?_, ?_⟩
    · rw [hsw] at hs
      rcases List.mem_cons.mp hs with rfl | hs
      · exact hrej
      · exact h1 s hs
    · rw [h2, hd, List.any_cons, Bool.or_assoc]
    · rw [h3, hn, List.any_cons, Bool.or_assoc]
    · rw [h4, hdata, List.any_cons, Bool.or_assoc]
    · rw [h5, hp, hparts]

/-- An INDX subrecord of one byte: `add` appends its part and the loop goes on with what `add`
leaves. -/
theorem Armor.LoadsTo.cons_indx {data : List Nat} {mPart : Nat} {rest : List SubRecord}
    {st st1 : ArmorLoad} {result : Except String ArmorLoad} (hdata : data = [mPart])
    (hd : st1.isDeleted = st.isDeleted) (hn : st1.hasName = st.hasName)
    (hhd : st1.hasData = st.hasData)
    (hp : st1.armor.mParts.mParts = st.armor.mParts.mParts
      ++ [⟨mPart, (getHNOString "BNAM" rest).1,
          (getHNOString "CNAM" (getHNOString "BNAM" rest).2).1⟩])
    (h : Armor.LoadsTo (getHNOString "CNAM" (getHNOString "BNAM" rest).2).2 st1 result) :
    Armor.LoadsTo (⟨"INDX", data⟩ :: rest) st result := by
  obtain ⟨r1, -, r3, r4, r5, r6⟩ := getHNOString_rest rest
  have hsw : Armor.switchSubs (⟨"INDX", data⟩ :: rest)
      = ⟨"INDX", data⟩
        :: Armor.switchSubs (getHNOString "CNAM" (getHNOString "BNAM" rest).2).2 := by
    rw [Armor.switchSubs_cons, if_pos rfl, r1]
  have hrej : Armor.rejects ⟨"INDX", data⟩ = false := by
    subst hdata
    simp [Armor.rejects, Armor.switchNames, SREC_NAME, SREC_DELE]
  have hparts : Armor.partReferences (⟨"INDX", data⟩ :: rest)
      = ⟨mPart, (getHNOString "BNAM" rest).1,
          (getHNOString "CNAM" (getHNOString "BNAM" rest).2).1⟩
        :: Armor.partReferences (getHNOString "CNAM" (getHNOString "BNAM" rest).2).2 := by
    subst hdata
    rw [← r6]
    simp [Armor.partReferences]
  cases result with
  | error e =>
    obtain ⟨s, hs, hr⟩ := h
    exact ⟨s, by rw [hsw]; exact List.mem_cons_of_mem _ hs, hr⟩
  | ok st2 =>
    obtain ⟨h1, h2, h3, h4, h5⟩ := h
    refine ⟨fun s hs => ?_, ?_, ?_, ?_, ?_⟩
    · rw [hsw] at hs
      rcases List.mem_cons.mp hs with rfl | hs
      · exact hrej
      · exact h1 s hs
    · rw [h2, hd, List.any_cons, ← r3]
      simp [SREC_DELE]
    · rw [h3, hn, List.any_cons, ← r4]
      simp [SREC_NAME]
    · rw [h4, hhd, List.any_cons, ← r5]
      simp
    · rw [h5, hp, hparts]
      simp

/-- The loop of `Armor::load`, given enough fuel. -/
theorem Armor.loadSubs_spec (fuel : Nat) :
    ∀ (subs : List SubRecord) (st : ArmorLoad), subs.length ≤ fuel →
      Armor.LoadsTo subs st (Armor.loadSubs fuel subs st) := by
  induction fuel with
  | zero =>
    intro subs st hlen
    cases subs with
    | nil =>
      rw [Armor.loadSubs]
      refine ⟨fun s hs => ?_, ?_, ?_, ?_, ?_⟩
      · simp [Armor.switchSubs, Armor.switchSubsFrom] at hs
      · simp
      · simp
      · simp
      · simp [Armor.partReferences]
    | cons _ _ => simp at hlen
  | succ fuel ih =>
    intro subs st hlen
    cases subs with
    | nil =>
      rw [Armor.loadSubs]
      refine ⟨fun s hs => ?_, ?_, ?_, ?_, ?_⟩
      · simp [Armor.switchSubs, Armor.switchSubsFrom] at hs
      · simp
      · simp
      · simp
      · simp [Armor.partReferences]
    | cons sub rest =>
      have hrest : rest.length ≤ fuel := by simpa using hlen
      obtain ⟨name, data⟩ := sub
      by_cases hNAME : name = "NAME"
      · subst hNAME
        have hstep : Armor.loadSubs (fuel + 1) (⟨"NAME", data⟩ :: rest) st
            = Armor.loadSubs fuel rest
                { st with armor := { st.armor with mId := SubRecord.getRefId ⟨"NAME", data⟩ }, hasName := true } := by
          rw [Armor.loadSubs]
          simp [SREC_NAME, SREC_DELE]
        rw [hstep]
        refine Armor.LoadsTo.cons_simple ?_ ?_ ?_ ?_ ?_ ?_ (ih rest _ hrest)
        · simp
        · simp [Armor.rejects, Armor.switchNames, SREC_NAME, SREC_DELE]
        · simp [SREC_DELE]
        · simp [SREC_NAME]
        · simp
        · rfl
      by_cases hMODL : name = "MODL"
      · subst hMODL
        have hstep : Armor.loadSubs (fuel + 1) (⟨"MODL", data⟩ :: rest) st
            = Armor.loadSubs fuel rest
                { st with armor := { st.armor with mModel := bytesString data } } := by
          rw [Armor.loadSubs]
          simp [SREC_NAME, SREC_DELE]
        rw [hstep]
        refine Armor.LoadsTo.cons_simple ?_ ?_ ?_ ?_ ?_ ?_ (ih rest _ hrest)
        · simp
        · simp [Armor.rejects, Armor.switchNames, SREC_NAME, SREC_DELE]
        · simp [SREC_DELE]
        · simp [SREC_NAME]
        · simp
        · rfl
      by_cases hFNAM : name = "FNAM"
      · subst hFNAM
        have hstep : Armor.loadSubs (fuel + 1) (⟨"FNAM", data⟩ :: rest) st
            = Armor.loadSubs fuel rest
                { st with armor := { st.armor with mName := bytesString data } } := by
          rw [Armor.loadSubs]
          simp [SREC_NAME, SREC_DELE]
        rw [hstep]
        refine Armor.LoadsTo.cons_simple ?_ ?_ ?_ ?_ ?_ ?_ (ih rest _ hrest)
        · simp
        · simp [Armor.rejects, Armor.switchNames, SREC_NAME, SREC_DELE]
        · simp [SREC_DELE]
        · simp [SREC_NAME]
        · simp
        · rfl
      by_cases hAODT : name = "AODT"
      · subst hAODT
        by_cases hsize : data.length = 24
        · have hstep : Armor.loadSubs (fuel + 1) (⟨"AODT", data⟩ :: rest) st
              = Armor.loadSubs fuel rest
                  { st with armor := { st.armor with mData := data }, hasData := true } := by
            rw [Armor.loadSubs]
            simp [SREC_NAME, SREC_DELE, hsize]
          rw [hstep]
          refine Armor.LoadsTo.cons_simple ?_ ?_ ?_ ?_ ?_ ?_ (ih rest _ hrest)
          · simp
          · simp [Armor.rejects, Armor.switchNames, SREC_NAME, SREC_DELE, hsize]
          · simp [SREC_DELE]
          · simp [SREC_NAME]
          · simp
          · rfl
        · have hstep : Armor.loadSubs (fuel + 1) (⟨"AODT", data⟩ :: rest) st
              = Except.error "record size mismatch" := by
            rw [Armor.loadSubs]
            simp [SREC_NAME, SREC_DELE, hsize]
          rw [hstep]
          exact Armor.LoadsTo.cons_reject
            (by simp [Armor.rejects, Armor.switchNames, SREC_NAME, SREC_DELE, hsize])
      by_cases hSCRI : name = "SCRI"
      · subst hSCRI
        have hstep : Armor.loadSubs (fuel + 1) (⟨"SCRI", data⟩ :: rest) st
            = Armor.loadSubs fuel rest
                { st with armor := { st.armor with mScript := SubRecord.getRefId ⟨"SCRI", data⟩ } } := by
          rw [Armor.loadSubs]
          simp [SREC_NAME, SREC_DELE]
        rw [hstep]
        refine Armor.LoadsTo.cons_simple ?_ ?_ ?_ ?_ ?_ ?_ (ih rest _ hrest)
        · simp
        · simp [Armor.rejects, Armor.switchNames, SREC_NAME, SREC_DELE]
        · simp [SREC_DELE]
        · simp [SREC_NAME]
        · simp
        · rfl
      by_cases hITEX : name = "ITEX"
      · subst hITEX
        have hstep : Armor.loadSubs (fuel + 1) (⟨"ITEX", data⟩ :: rest) st
            = Armor.loadSubs fuel rest
                { st with armor := { st.armor with mIcon := bytesString data } } := by
          rw [Armor.loadSubs]
          simp [SREC_NAME, SREC_DELE]
        rw [hstep]
        refine Armor.LoadsTo.cons_simple ?_ ?_ ?_ ?_ ?_ ?_ (ih rest _ hrest)
        · simp
        · simp [Armor.rejects, Armor.switchNames, SREC_NAME, SREC_DELE]
        · simp [SREC_DELE]
        · simp [SREC_NAME]
        · simp
        · rfl
      by_cases hENAM : name = "ENAM"
      · subst hENAM
        have hstep : Armor.loadSubs (fuel + 1) (⟨"ENAM", data⟩ :: rest) st
            = Armor.loadSubs fuel rest
                { st with armor := { st.armor with mEnchant := SubRecord.getRefId ⟨"ENAM", data⟩ } } := by
          rw [Armor.loadSubs]
          simp [SREC_NAME, SREC_DELE]
        rw [hstep]
        refine Armor.LoadsTo.cons_simple ?_ ?_ ?_ ?_ ?_ ?_ (ih rest _ hrest)
        · simp
        · simp [Armor.rejects, Armor.switchNames, SREC_NAME, SREC_DELE]
        · simp [SREC_DELE]
        · simp [SREC_NAME]
        · simp
        · rfl
      by_cases hINDX : name = "INDX"
      · subst hINDX
        match hdata : data with
        | [mPart] =>
          have hstep : Armor.loadSubs (fuel + 1) (⟨"INDX", [mPart]⟩ :: rest) st
              = Armor.loadSubs fuel (getHNOString "CNAM" (getHNOString "BNAM" rest).2).2
                  { st with armor := { st.armor with mParts := ⟨st.armor.mParts.mParts
                    ++ [⟨mPart, (getHNOString "BNAM" rest).1,
                        (getHNOString "CNAM" (getHNOString "BNAM" rest).2).1⟩]⟩ } } := by
            rw [Armor.loadSubs]
            simp [SREC_NAME, SREC_DELE, PartReferenceList.add]
          rw [hstep]
          refine Armor.LoadsTo.cons_indx rfl ?_ ?_ ?_ ?_
            (ih _ _ (le_trans (getHNOString_rest rest).2.1 hrest))
          · rfl
          · rfl
          · rfl
          · rfl
        | [] =>
          have hstep : Armor.loadSubs (fuel + 1) (⟨"INDX", []⟩ :: rest) st
              = Except.error "record size mismatch" := by
            rw [Armor.loadSubs]
            simp [SREC_NAME, SREC_DELE, PartReferenceList.add]
          rw [hstep]
          exact Armor.LoadsTo.cons_reject
            (by simp [Armor.rejects, Armor.switchNames, SREC_NAME, SREC_DELE])
        | b0 :: b1 :: more =>
          have hstep : Armor.loadSubs (fuel + 1) (⟨"INDX", b0 :: b1 :: more⟩ :: rest) st
              = Except.error "record size mismatch" := by
            rw [Armor.loadSubs]
            simp [SREC_NAME, SREC_DELE, PartReferenceList.add]
          rw [hstep]
          exact Armor.LoadsTo.cons_reject
            (by simp [Armor.rejects, Armor.switchNames, SREC_NAME, SREC_DELE])
      by_cases hDELE : name = "DELE"
      · subst hDELE
        have hstep : Armor.loadSubs (fuel + 1) (⟨"DELE", data⟩ :: rest) st
            = Armor.loadSubs fuel rest
                { st with isDeleted := true } := by
          rw [Armor.loadSubs]
          simp [SREC_NAME, SREC_DELE]
        rw [hstep]
        refine Armor.LoadsTo.cons_simple ?_ ?_ ?_ ?_ ?_ ?_ (ih rest _ hrest)
        · simp
        · simp [Armor.rejects, Armor.switchNames, SREC_NAME, SREC_DELE]
        · simp [SREC_DELE]
        · simp [SREC_NAME]
        · simp
        · rfl
      have hstep : Armor.loadSubs (fuel + 1) (⟨name, data⟩ :: rest) st
          = Except.error "Unknown subrecord" := by
        rw [Armor.loadSubs]
        simp [SREC_NAME, SREC_DELE, hNAME, hMODL, hFNAM, hAODT, hSCRI, hITEX, hENAM, hINDX, hDELE]
      rw [hstep]
      exact Armor.LoadsTo.cons_reject
        (by simp [Armor.rejects, Armor.switchNames, SREC_NAME, SREC_DELE, hNAME, hMODL, hFNAM, hAODT, hSCRI, hITEX, hENAM, hINDX, hDELE])

/-- The subrecords that reach the switch are subrecords of the stream, and every subrecord other
than BNAM and CNAM reaches the switch. -/
theorem Armor.mem_switchSubsFrom :
    ∀ (subs : List SubRecord) (pending : List String),
      (∀ n ∈ pending, n = "BNAM" ∨ n = "CNAM") →
      (∀ s ∈ Armor.switchSubsFrom pending subs, s ∈ subs)
      ∧ (∀ s ∈ subs, s.name ≠ "BNAM" → s.name ≠ "CNAM" → s ∈ Armor.switchSubsFrom pending subs) := by
  intro subs
  induction subs with
  | nil =>
    intro pending _
    exact ⟨fun s hs => by simp [Armor.switchSubsFrom] at hs, fun s hs => by cases hs⟩
  | cons sub rest ih =>
    intro pending hp
    unfold Armor.switchSubsFrom
    by_cases hmem : sub.name ∈ pending
    · rw [if_pos hmem]
      obtain ⟨h1, h2⟩ := ih ((pending.dropWhile fun n => n ≠ sub.name).tail) fun n hn =>
        hp n ((List.dropWhile_sublist _).subset (List.mem_of_mem_tail hn))
      refine ⟨fun s hs => List.mem_cons_of_mem _ (h1 s hs), fun s hs hb hc => ?_⟩
      rcases List.mem_cons.mp hs with rfl | hs
      · rcases hp _ hmem with h | h
        · exact absurd h hb
        · exact absurd h hc
      · exact h2 s hs hb hc
    · rw [if_neg hmem]
      obtain ⟨h1, h2⟩ := ih (if sub.name = "INDX" then ["BNAM", "CNAM"] else []) (by
        intro n hn
        split at hn
        · simpa using hn
        · cases hn)
      refine ⟨fun s hs => ?_, fun s hs hb hc => ?_⟩
      · rcases List.mem_cons.mp hs with rfl | hs
        · exact List.mem_cons_self _ _
        · exact List.mem_cons_of_mem _ (h1 s hs)
      · rcases List.mem_cons.mp hs with rfl | hs
        · exact List.mem_cons_self _ _
        · exact List.mem_cons_of_mem _ (h2 s hs hb hc)

/-- The parts of a stream: one per INDX subrecord, with that subrecord's byte. -/
theorem Armor.partReferences_indx (subs : List SubRecord) :
    (Armor.partReferences subs).map (fun p => p.mPart)
      = (subs.filter fun s => s.name = "INDX").map fun s => s.data.headD 0 := by
  induction subs with
  | nil => rfl
  | cons sub rest ih =>
    unfold Armor.partReferences
    by_cases h : sub.name = "INDX"
    · rw [if_pos h, List.filter_cons, if_pos (by simpa using h), List.map_cons, List.map_cons, ih]
    · rw [if_neg h, List.filter_cons, if_neg (by simpa using h), ih]

theorem any_name_iff (subs : List SubRecord) (name : String) :
    (subs.any fun s => s.name == name) = true ↔ ∃ s ∈ subs, s.name = name := by
  simp [List.any_eq_true]

/-- Counterexample to C28 as stated. The record `armorRecord` contains a BNAM subrecord, which is
none of the nine names, and `Armor::load` succeeds on it: the BNAM is read by
`PartReferenceList::add` as the male part of the INDX before it. The record `shortDataRecord`
has only a NAME and an AODT subrecord, and `Armor::load` fails on it: the AODT has three bytes
where `getHTSized<24>` wants 24. -/
theorem armor_load_counterexample :
    (∃ s ∈ armorRecord.subs,
        s.name ∉ ["NAME", "MODL", "FNAM", "AODT", "SCRI", "ITEX", "ENAM", "INDX", "DELE"])
    ∧ (Armor.load Armor.blankArmor armorRecord).toOption.map
        (fun r => (r.1.mId, r.1.mParts.mParts, r.2)) = some ("helm", [⟨1, "a_helm", ""⟩], false)
    ∧ (∀ s ∈ shortDataRecord.subs,
        s.name ∈ ["NAME", "MODL", "FNAM", "AODT", "SCRI", "ITEX", "ENAM", "INDX", "DELE"])
    ∧ (∃ s ∈ shortDataRecord.subs, s.name = "NAME")
    ∧ (∃ s ∈ shortDataRecord.subs, s.name = "AODT")
    ∧ (Armor.load Armor.blankArmor shortDataRecord).toOption = none := by
  decide!

/-- C28 (amended): `Armor::load` fails if and only if the switch rejects a subrecord that
reaches it, or the record has no NAME subrecord, or it has no AODT subrecord while not being
marked deleted (no DELE subrecord). The switch rejects a subrecord that is none of NAME, MODL,
FNAM, AODT, SCRI, ITEX, ENAM, INDX, DELE, an AODT whose size is not 24 and an INDX whose size is
not 1. Every subrecord other than BNAM and CNAM reaches the switch; a BNAM directly after an
INDX and a CNAM directly after an INDX or after that BNAM are read by `PartReferenceList::add`.
On success `isDeleted` is true exactly when a DELE subrecord was present and `mParts` holds one
part per INDX subrecord in stream order, whatever parts the armor had before. -/
theorem armor_load_fails_iff (a : Armor) (esm : ESMReader) :
    ((∃ e, Armor.load a esm = Except.error e) ↔
        (∃ s ∈ Armor.switchSubs esm.subs, Armor.rejects s = true)
        ∨ (∀ s ∈ esm.subs, s.name ≠ "NAME")
        ∨ ((∀ s ∈ esm.subs, s.name ≠ "AODT") ∧ ∀ s ∈ esm.subs, s.name ≠ "DELE"))
    ∧ (∀ s : SubRecord, Armor.rejects s = true ↔
        s.name ∉ ["NAME", "MODL", "FNAM", "AODT", "SCRI", "ITEX", "ENAM", "INDX", "DELE"]
        ∨ (s.name = "AODT" ∧ s.data.length ≠ 24) ∨ (s.name = "INDX" ∧ s.data.length ≠ 1))
    ∧ (∀ s ∈ Armor.switchSubs esm.subs, s ∈ esm.subs)
    ∧ (∀ s ∈ esm.subs, s.name ≠ "BNAM" → s.name ≠ "CNAM" → s ∈ Armor.switchSubs esm.subs)
    ∧ (∀ (a1 : Armor) (isDeleted : Bool), Armor.load a esm = Except.ok (a1, isDeleted) →
        (isDeleted = true ↔ ∃ s ∈ esm.subs, s.name = "DELE")
        ∧ a1.mParts.mParts = Armor.partReferences esm.subs
        ∧ a1.mParts.mParts.length = (esm.subs.filter fun s => s.name = "INDX").length
        ∧ a1.mParts.mParts.map (fun p => p.mPart)
            = (esm.subs.filter fun s => s.name = "INDX").map fun s => s.data.headD 0) := by
  have hspec := Armor.loadSubs_spec esm.subs.length esm.subs
    ⟨{ a with mRecordFlags := esm.mRecordFlags, mParts := ⟨[]⟩ }, false, false, false⟩ (le_refl _)
  have hmem := Armor.mem_switchSubsFrom esm.subs [] (fun n hn => by cases hn)
  have hname := any_name_iff esm.subs "NAME"
  have hdata := any_name_iff esm.subs "AODT"
  have hdele := any_name_iff esm.subs "DELE"
  refine ⟨?_, fun s => ?_, hmem.1, hmem.2, ?_⟩
  · unfold Armor.load
    simp only
    cases hr : Armor.loadSubs esm.subs.length esm.subs
        ⟨{ a with mRecordFlags := esm.mRecordFlags, mParts := ⟨[]⟩ }, false, false, false⟩ with
    | error e =>
      rw [hr] at hspec
      simp only
      exact ⟨fun _ => Or.inl hspec, fun _ => ⟨e, rfl⟩⟩
    | ok st1 =>
      rw [hr] at hspec
      obtain ⟨hrej, h2, h3, h4, -⟩ := hspec
      simp only [Bool.false_or, SREC_NAME, SREC_DELE] at h2 h3 h4
      have hnorej : ¬ ∃ s ∈ Armor.switchSubs esm.subs, Armor.rejects s = true := by
        rintro ⟨s, hs, hr⟩
        rw [hrej s hs] at hr
        cases hr
      simp only
      cases hN : st1.hasName
      · have hno : ∀ s ∈ esm.subs, s.name ≠ "NAME" := by
          intro s hs hn
          have : (esm.subs.any fun s => s.name == "NAME") = true := hname.mpr ⟨s, hs, hn⟩
          rw [← h3, hN] at this
          cases this
        simp only [Bool.not_false, if_true]
        exact ⟨fun _ => Or.inr (Or.inl hno), fun _ => ⟨_, rfl⟩⟩
      · have hyes : ∃ s ∈ esm.subs, s.name = "NAME" := hname.mp (by rw [← h3, hN])
        have hnot1 : ¬ ∀ s ∈ esm.subs, s.name ≠ "NAME" := by
          rintro hall
          obtain ⟨s, hs, hn⟩ := hyes
          exact hall s hs hn
        simp only [Bool.not_true, Bool.false_eq_true, if_false]
        cases hD : st1.hasData
        · cases hX : st1.isDeleted
          · have hnoA : ∀ s ∈ esm.subs, s.name ≠ "AODT" := by
              intro s hs hn
              have : (esm.subs.any fun s => s.name == "AODT") = true := hdata.mpr ⟨s, hs, hn⟩
              rw [← h4, hD] at this
              cases this
            have hnoD : ∀ s ∈ esm.subs, s.name ≠ "DELE" := by
              intro s hs hn
              have : (esm.subs.any fun s => s.name == "DELE") = true := hdele.mpr ⟨s, hs, hn⟩
              rw [← h2, hX] at this
              cases this
            simp only [Bool.not_false, Bool.and_self, if_true]
            exact ⟨fun _ => Or.inr (Or.inr ⟨hnoA, hnoD⟩), fun _ => ⟨_, rfl⟩⟩
          · have hyesD : ∃ s ∈ esm.subs, s.name = "DELE" := hdele.mp (by rw [← h2, hX])
            simp only [Bool.not_false, Bool.not_true, Bool.and_false, Bool.false_eq_true, if_false]
            refine ⟨fun ⟨e, he⟩ => (by cases he), ?_⟩
            rintro (h | h | ⟨-, h⟩)
            · exact absurd h hnorej
            · exact absurd h hnot1
            · obtain ⟨s, hs, hn⟩ := hyesD
              exact absurd hn (h s hs)
        · have hyesA : ∃ s ∈ esm.subs, s.name = "AODT" := hdata.mp (by rw [← h4, hD])
          simp only [Bool.not_true, Bool.false_and, Bool.false_eq_true, if_false]
          refine ⟨fun ⟨e, he⟩ => (by cases he), ?_⟩
          rintro (h | h | ⟨h, -⟩)
          · exact absurd h hnorej
          · exact absurd h hnot1
          · obtain ⟨s, hs, hn⟩ := hyesA
            exact absurd hn (h s hs)
  · have hc : Armor.switchNames.contains s.name = true ↔
        s.name ∈ ["NAME", "MODL", "FNAM", "AODT", "SCRI", "ITEX", "ENAM", "INDX", "DELE"] := by
      simp [Armor.switchNames, SREC_NAME, SREC_DELE]
    have hc2 : Armor.switchNames.contains s.name = false ↔
        s.name ∉ ["NAME", "MODL", "FNAM", "AODT", "SCRI", "ITEX", "ENAM", "INDX", "DELE"] := by
      rw [← hc, Bool.not_eq_true]
    simp only [Armor.rejects, Bool.or_eq_true, Bool.and_eq_true, Bool.not_eq_true', beq_iff_eq,
      bne_iff_ne, ne_eq]
    rw [hc2, or_assoc]
  · intro a1 isDeleted hload
    unfold Armor.load at hload
    simp only at hload
    cases hr : Armor.loadSubs esm.subs.length esm.subs
        ⟨{ a with mRecordFlags := esm.mRecordFlags, mParts := ⟨[]⟩ }, false, false, false⟩ with
    | error e =>
      rw [hr] at hload
      cases hload
    | ok st1 =>
      rw [hr] at hload hspec
      obtain ⟨-, h2, -, -, h5⟩ := hspec
      simp only [Bool.false_or, List.nil_append, SREC_DELE] at h2 h5
      simp only at hload
      split at hload
      · cases hload
      · split at hload
        · cases hload
        · injection hload with hload
          injection hload with ha hd
          subst ha
          subst hd
          refine ⟨?_, h5, ?_, ?_⟩
          · rw [h2]
            exact hdele
          · rw [h5, ← List.length_map (Armor.partReferences esm.subs) (fun p => p.mPart),
              Armor.partReferences_indx, List.length_map]
          · rw [h5, Armor.partReferences_indx]

/-- Witness of C28 (amended): the record with NAME, AODT, INDX and BNAM loads into an armor with
one part and is not marked deleted. -/
theorem armor_load_fails_iff_witness :
    Armor.load Armor.blankArmor armorRecord
        = Except.ok ({ Armor.blankArmor with mId := "helm", mData := List.replicate 24 0,
                                             mParts := ⟨[⟨1, "a_helm", ""⟩]⟩ }, false)
    ∧ ((false = true) ↔ ∃ s ∈ armorRecord.subs, s.name = "DELE")
    ∧ [(⟨1, "a_helm", ""⟩ : PartReference)] = Armor.partReferences armorRecord.subs := by
  have hopt : (Armor.load Armor.blankArmor armorRecord).toOption
      = some ({ Armor.blankArmor with mId := "helm", mData := List.replicate 24 0,
                                      mParts := ⟨[⟨1, "a_helm", ""⟩]⟩ }, false) := by decide!
  have hload : Armor.load Armor.blankArmor armorRecord
      = Except.ok ({ Armor.blankArmor with mId := "helm", mData := List.replicate 24 0,
                                           mParts := ⟨[⟨1, "a_helm", ""⟩]⟩ }, false) := by
    cases h : Armor.load Armor.blankArmor armorRecord with
    | error e =>
      rw [h] at hopt
      cases hopt
    | ok r =>
      rw [h] at hopt
      simp only [Except.toOption, Option.some.injEq] at hopt
      rw [hopt]
  obtain ⟨h1, h2, -⟩ := (armor_load_fails_iff Armor.blankArmor armorRecord).2.2.2.2 _ _ hload
  exact ⟨hload, h1, h2⟩

/-! ## Reading back what was written -/

theorem bytesString_stringBytes (s : String) : bytesString (stringBytes s) = s := by
  unfold bytesString stringBytes
  rw [List.map_map]
  have h : (Char.ofNat ∘ Char.toNat) = id := by
    funext c
    exact Char.ofNat_toNat c
  rw [h, List.map_id]
  cases s
  rfl

theorem bytesInt_intBytes {v : Int} (h0 : -2 ^ 31 ≤ v) (h1 : v < 2 ^ 31) :
    bytesInt (intBytes v) = some v := by
  unfold intBytes bytesInt
  simp only [Option.some.injEq]
  have hu : (v % 2 ^ 32).toNat < 2 ^ 32 := by omega
  have hsum : (v % 2 ^ 32).toNat % 256 + 256 * ((v % 2 ^ 32).toNat / 256 % 256)
      + 65536 * ((v % 2 ^ 32).toNat / 65536 % 256)
      + 16777216 * ((v % 2 ^ 32).toNat / 16777216 % 256) = (v % 2 ^ 32).toNat := by omega
  rw [hsum]
  have hcast : (((v % 2 ^ 32).toNat : Nat) : Int) = v % 2 ^ 32 := by omega
  rw [hcast]
  unfold Int.bmod
  simp only [Int.emod_emod_of_dvd, dvd_refl]
  split <;> omega

theorem getRefId_writeHNString (name : String) (id : RefId) :
    (writeHNString name id).getRefId = id := bytesString_stringBytes id

/-! ## Maps in key order -/

theorem mapAssign_of_lt {V : Type} (key : RefId) (value : V) :
    ∀ (m : List (RefId × V)), (∀ e ∈ m, e.1 < key) → mapAssign key value m = m ++ [(key, value)] := by
  intro m
  induction m with
  | nil => intro _; rfl
  | cons e rest ih =>
    intro h
    have he := h e (List.mem_cons_self _ _)
    unfold mapAssign
    rw [if_neg (lt_asymm he), if_pos he, ih fun x hx => h x (List.mem_cons_of_mem _ hx)]
    rfl

theorem mapAssign_last {V : Type} (key : RefId) (value old : V) :
    ∀ (m : List (RefId × V)), (∀ e ∈ m, e.1 < key) →
      mapAssign key value (m ++ [(key, old)]) = m ++ [(key, value)] := by
  intro m
  induction m with
  | nil =>
    intro _
    simp only [List.nil_append, mapAssign, lt_irrefl, if_false]
  | cons e rest ih =>
    intro h
    have he := h e (List.mem_cons_self _ _)
    rw [List.cons_append]
    unfold mapAssign
    rw [if_neg (lt_asymm he), if_pos he, ih fun x hx => h x (List.mem_cons_of_mem _ hx)]
    rfl

theorem mapFind_of_lt {V : Type} (key : RefId) :
    ∀ (m : List (RefId × V)), (∀ e ∈ m, e.1 < key) → mapFind key m = none := by
  intro m
  induction m with
  | nil => intro _; rfl
  | cons e rest ih =>
    intro h
    have he := h e (List.mem_cons_self _ _)
    unfold mapFind
    rw [if_neg (ne_of_lt he), ih fun x hx => h x (List.mem_cons_of_mem _ hx)]

theorem mapFind_last {V : Type} (key : RefId) (old : V) :
    ∀ (m : List (RefId × V)), (∀ e ∈ m, e.1 < key) →
      mapFind key (m ++ [(key, old)]) = some old := by
  intro m
  induction m with
  | nil =>
    intro _
    simp only [List.nil_append, mapFind, if_true]
  | cons e rest ih =>
    intro h
    have he := h e (List.mem_cons_self _ _)
    rw [List.cons_append]
    unfold mapFind
    rw [if_neg (ne_of_lt he), ih fun x hx => h x (List.mem_cons_of_mem _ hx)]

/-- The reactions of one faction, assigned in key order after the entries of smaller factions,
make up that faction's entry. -/
theorem setReaction_foldl (faction : RefId) (m : List (RefId × List (RefId × Int)))
    (hm : ∀ e ∈ m, e.1 < faction) :
    ∀ (todo done : List (RefId × Int)), done ≠ [] →
      ((done ++ todo).map fun r => r.1).Pairwise (fun a b => a < b) →
      todo.foldl (fun acc r => DialogueState.setReaction faction r.1 r.2 acc)
        (m ++ [(faction, done)]) = m ++ [(faction, done ++ todo)] := by
  intro todo
  induction todo with
  | nil => intro done _ _; rw [List.append_nil]; rfl
  | cons r rest ih =>
    intro done hne hs
    have hlt : ∀ e ∈ done, e.1 < r.1 := by
      intro e he
      rw [List.map_append, List.pairwise_append] at hs
      exact hs.2.2 e.1 (List.mem_map_of_mem _ he) r.1
        (List.mem_map_of_mem _ (List.mem_cons_self _ _))
    have hstep : DialogueState.setReaction faction r.1 r.2 (m ++ [(faction, done)])
        = m ++ [(faction, done ++ [r])] := by
      unfold DialogueState.setReaction
      rw [mapFind_last faction done m hm, Option.getD_some, mapAssign_of_lt r.1 r.2 done hlt,
        mapAssign_last faction _ done m hm]
    rw [List.foldl_cons, hstep, ih (done ++ [r]) (by simp) (by simpa using hs)]
    simp

theorem setReaction_foldl_all (faction : RefId) (m : List (RefId × List (RefId × Int)))
    (hm : ∀ e ∈ m, e.1 < faction) (reactions : List (RefId × Int)) (hne : reactions ≠ [])
    (hs : (reactions.map fun r => r.1).Pairwise (fun a b => a < b)) :
    reactions.foldl (fun acc r => DialogueState.setReaction faction r.1 r.2 acc) m
      = m ++ [(faction, reactions)] := by
  cases reactions with
  | nil => exact absurd rfl hne
  | cons r rest =>
    have hstep : DialogueState.setReaction faction r.1 r.2 m = m ++ [(faction, [r])] := by
      unfold DialogueState.setReaction
      rw [mapFind_of_lt faction m hm, mapAssign_of_lt faction _ m hm]
      rfl
    rw [List.foldl_cons, hstep, setReaction_foldl faction m hm rest [r] (by simp) (by simpa using hs)]
    rfl

/-- Assigning the reactions of all factions, in key order, rebuilds the map. -/
theorem setReaction_foldl_factions :
    ∀ (factions m : List (RefId × List (RefId × Int))),
      ((m ++ factions).map fun f => f.1).Pairwise (fun a b => a < b) →
      (∀ f ∈ factions, f.2 ≠ [] ∧ (f.2.map fun r => r.1).Pairwise (fun a b => a < b)) →
      factions.foldl (fun acc f =>
        f.2.foldl (fun acc r => DialogueState.setReaction f.1 r.1 r.2 acc) acc) m
        = m ++ factions := by
  intro factions
  induction factions with
  | nil => intro m _ _; rw [List.append_nil]; rfl
  | cons f rest ih =>
    intro m hs hf
    have hlt : ∀ e ∈ m, e.1 < f.1 := by
      intro e he
      rw [List.map_append, List.pairwise_append] at hs
      exact hs.2.2 e.1 (List.mem_map_of_mem _ he) f.1
        (List.mem_map_of_mem _ (List.mem_cons_self _ _))
    obtain ⟨hne, hsorted⟩ := hf f (List.mem_cons_self _ _)
    rw [List.foldl_cons, setReaction_foldl_all f.1 m hlt f.2 hne hsorted,
      ih (m ++ [(f.1, f.2)]) (by simpa using hs) fun g hg => hf g (List.mem_cons_of_mem _ hg)]
    simp

/-! ## Loading a saved dialogue state -/

theorem DialogueState.loadTopics_written (topics : List RefId) (rest : List SubRecord)
    (hrest : ∀ sub ∈ rest.head?, sub.name ≠ "TOPI") :
    ∀ acc : List RefId,
      DialogueState.loadTopics (topics.map (fun topic => writeHNString "TOPI" topic) ++ rest) acc
        = (acc ++ topics, rest) := by
  induction topics with
  | nil =>
    intro acc
    rw [List.map_nil, List.nil_append, List.append_nil]
    cases rest with
    | nil => rfl
    | cons sub r =>
      unfold DialogueState.loadTopics
      rw [if_neg (hrest sub rfl)]
  | cons t ts ih =>
    intro acc
    rw [List.map_cons, List.cons_append]
    unfold DialogueState.loadTopics
    have hname : (writeHNString "TOPI" t).name = "TOPI" := rfl
    rw [if_pos hname, ih, getRefId_writeHNString, List.append_assoc]
    rfl

theorem DialogueState.loadReactions_written (faction : RefId) (rest : List SubRecord)
    (hrest : ∀ sub ∈ rest.head?, sub.name ≠ "REA2") :
    ∀ (reactions : List (RefId × Int)) (m : List (RefId × List (RefId × Int))),
      (∀ r ∈ reactions, -2 ^ 31 ≤ r.2 ∧ r.2 < 2 ^ 31) →
      DialogueState.loadReactions faction
        ((reactions.flatMap fun reaction =>
            [writeHNString "REA2" reaction.1, writeHNT "INTV" reaction.2]) ++ rest) m
        = Except.ok (reactions.foldl
            (fun acc r => DialogueState.setReaction faction r.1 r.2 acc) m, rest) := by
  intro reactions
  induction reactions with
  | nil =>
    intro m _
    rw [List.flatMap_nil, List.nil_append]
    match rest, hrest with
    | [], _ => rfl
    | [sub], h =>
      unfold DialogueState.loadReactions
      rw [if_neg (h sub rfl)]
      rfl
    | sub :: intv :: r, h =>
      unfold DialogueState.loadReactions
      rw [if_neg (h sub rfl)]
      rfl
  | cons r rs ih =>
    intro m hint
    obtain ⟨h0, h1⟩ := hint r (List.mem_cons_self _ _)
    rw [List.flatMap_cons, List.append_assoc, List.cons_append, List.cons_append, List.nil_append]
    unfold DialogueState.loadReactions
    have hn1 : (writeHNString "REA2" r.1).name = "REA2" := rfl
    have hn2 : (writeHNT "INTV" r.2).name = "INTV" := rfl
    have hd : bytesInt (writeHNT "INTV" r.2).data = some r.2 := bytesInt_intBytes h0 h1
    rw [if_pos hn1, if_pos hn2]
    simp only [hd, getRefId_writeHNString]
    rw [ih _ fun x hx => hint x (List.mem_cons_of_mem _ hx)]
    rfl

theorem DialogueState.loadObsolete_none (rest : List SubRecord)
    (hrest : ∀ sub ∈ rest.head?, sub.name ≠ "REAC") :
    DialogueState.loadObsolete rest = Except.ok rest := by
  match rest, hrest with
  | [], _ => rfl
  | [sub], h =>
    unfold DialogueState.loadObsolete
    rw [if_neg (h sub rfl)]
  | sub :: next :: r, h =>
    unfold DialogueState.loadObsolete
    rw [if_neg (h sub rfl)]

/-- The head of the subrecords written for a list of factions is a FACT subrecord. -/
theorem factions_head (factions : List (RefId × List (RefId × Int))) :
    ∀ sub ∈ (factions.flatMap fun faction =>
        writeHNString "FACT" faction.1
          :: faction.2.flatMap fun reaction =>
              [writeHNString "REA2" reaction.1, writeHNT "INTV" reaction.2]).head?,
      sub.name = "FACT" := by
  intro sub hsub
  cases factions with
  | nil => cases hsub
  | cons f rest =>
    rw [List.flatMap_cons, List.cons_append, List.head?_cons] at hsub
    cases hsub
    rfl

theorem DialogueState.loadFactions_written :
    ∀ (factions : List (RefId × List (RefId × Int))) (fuel : Nat)
      (m : List (RefId × List (RefId × Int))), factions.length ≤ fuel →
      (∀ f ∈ factions, ∀ r ∈ f.2, -2 ^ 31 ≤ r.2 ∧ r.2 < 2 ^ 31) →
      DialogueState.loadFactions fuel
        (factions.flatMap fun faction =>
          writeHNString "FACT" faction.1
            :: faction.2.flatMap fun reaction =>
                [writeHNString "REA2" reaction.1, writeHNT "INTV" reaction.2]) m
        = Except.ok (factions.foldl (fun acc f =>
            f.2.foldl (fun acc r => DialogueState.setReaction f.1 r.1 r.2 acc) acc) m, []) := by
  intro factions
  induction factions with
  | nil =>
    intro fuel m _ _
    cases fuel <;> rfl
  | cons f rest ih =>
    intro fuel m hfuel hint
    cases fuel with
    | zero => simp at hfuel
    | succ fuel =>
      rw [List.flatMap_cons, List.cons_append]
      unfold DialogueState.loadFactions
      have hname : (writeHNString "FACT" f.1).name = "FACT" := rfl
      have hnext1 : ∀ sub ∈ (rest.flatMap fun faction =>
          writeHNString "FACT" faction.1
            :: faction.2.flatMap fun reaction =>
                [writeHNString "REA2" reaction.1, writeHNT "INTV" reaction.2]).head?,
          sub.name ≠ "REA2" := by
        intro sub hsub
        rw [factions_head rest sub hsub]
        decide
      have hnext2 : ∀ sub ∈ (rest.flatMap fun faction =>
          writeHNString "FACT" faction.1
            :: faction.2.flatMap fun reaction =>
                [writeHNString "REA2" reaction.1, writeHNT "INTV" reaction.2]).head?,
          sub.name ≠ "REAC" := by
        intro sub hsub
        rw [factions_head rest sub hsub]
        decide
      rw [if_pos hname]
      simp only [getRefId_writeHNString]
      rw [DialogueState.loadReactions_written f.1 _ hnext1 f.2 m
        (hint f (List.mem_cons_self _ _))]
      simp only
      rw [DialogueState.loadObsolete_none _ hnext2]
      simp only
      rw [ih fuel _ (by simpa using hfuel) fun g hg => hint g (List.mem_cons_of_mem _ hg)]
      rfl

/-- Assigning the reactions of all factions, in key order: a faction without reactions gets no
entry, every other faction gets its entry back. -/
theorem setReaction_foldl_filter :
    ∀ (factions m : List (RefId × List (RefId × Int))),
      ((m ++ factions).map fun f => f.1).Pairwise (fun a b => a < b) →
      (∀ f ∈ factions, (f.2.map fun r => r.1).Pairwise (fun a b => a < b)) →
      factions.foldl (fun acc f =>
        f.2.foldl (fun acc r => DialogueState.setReaction f.1 r.1 r.2 acc) acc) m
        = m ++ factions.filter fun f => !f.2.isEmpty := by
  intro factions
  induction factions with
  | nil => intro m _ _; rw [List.filter_nil, List.append_nil]; rfl
  | cons f rest ih =>
    intro m hs hf
    have hrest := fun g hg => hf g (List.mem_cons_of_mem f hg)
    rw [List.foldl_cons]
    cases hempty : f.2 with
    | nil =>
      have hsub : ((m ++ rest).map fun f => f.1).Pairwise (fun a b => a < b) :=
        hs.sublist (((List.Sublist.refl m).append (List.sublist_cons_self f rest)).map _)
      rw [List.foldl_nil, ih m hsub hrest, List.filter_cons, hempty]
      rfl
    | cons r rs =>
      have hlt : ∀ e ∈ m, e.1 < f.1 := by
        intro e he
        rw [List.map_append, List.pairwise_append] at hs
        exact hs.2.2 e.1 (List.mem_map_of_mem _ he) f.1
          (List.mem_map_of_mem _ (List.mem_cons_self _ _))
      have hsorted := hf f (List.mem_cons_self _ _)
      rw [hempty] at hsorted
      have hff : (f.1, r :: rs) = f := by rw [← hempty]
      rw [setReaction_foldl_all f.1 m hlt (r :: rs) (by simp) hsorted, hff,
        ih (m ++ [f]) (by simpa using hs) hrest, List.filter_cons, hempty]
      simp

/-- Counterexample to C29 as stated: a state in which a faction has an entry with no reaction is
written as a lone FACT subrecord; loading it into an empty state gives a state without that
entry, which differs from the state saved. -/
theorem dialogueState_roundtrip_counterexample :
    emptyReactionState.wellFormed
    ∧ emptyReactionState.save = [writeHNString "TOPI" "greeting", writeHNString "FACT" "hlaalu"]
    ∧ (DialogueState.load ⟨[], []⟩ ⟨0, emptyReactionState.save⟩).toOption
        = some (⟨["greeting"], []⟩, ⟨0, []⟩)
    ∧ (⟨["greeting"], []⟩ : DialogueState) ≠ emptyReactionState := by
  refine ⟨?_, by decide!, by decide!, by decide⟩
  unfold DialogueState.wellFormed emptyReactionState
  simp

/-- C29 (amended): for every DialogueState whose maps are in key order and whose reactions are
`int`s, loading the subrecords written by `save` into an empty DialogueState succeeds, reads all
subrecords, and yields the same known topics in the same order and the faction-reaction map
without the factions that have no reaction. When no faction has an empty reaction map the state
loaded is equal to the state saved. -/
theorem dialogueState_save_load (s : DialogueState) (flags : Nat) (hwf : s.wellFormed) :
    DialogueState.load ⟨[], []⟩ ⟨flags, s.save⟩
      = Except.ok (⟨s.mKnownTopics, s.mChangedFactionReaction.filter fun f => !f.2.isEmpty⟩,
          ⟨flags, []⟩)
    ∧ ((∀ f ∈ s.mChangedFactionReaction, f.2 ≠ []) →
        DialogueState.load ⟨[], []⟩ ⟨flags, s.save⟩ = Except.ok (s, ⟨flags, []⟩)) := by
  obtain ⟨hkeys, hinner⟩ := hwf
  have hload : DialogueState.load ⟨[], []⟩ ⟨flags, s.save⟩
      = Except.ok (⟨s.mKnownTopics, s.mChangedFactionReaction.filter fun f => !f.2.isEmpty⟩,
          ⟨flags, []⟩) := by
    have hhead : ∀ sub ∈ (s.mChangedFactionReaction.flatMap fun faction =>
        writeHNString "FACT" faction.1
          :: faction.2.flatMap fun reaction =>
              [writeHNString "REA2" reaction.1, writeHNT "INTV" reaction.2]).head?,
        sub.name ≠ "TOPI" := by
      intro sub hsub
      rw [factions_head _ sub hsub]
      decide
    unfold DialogueState.load DialogueState.save
    simp only
    rw [DialogueState.loadTopics_written s.mKnownTopics _ hhead []]
    simp only
    rw [DialogueState.loadFactions_written s.mChangedFactionReaction _ []
      (by
        rw [List.length_flatMap]
        calc s.mChangedFactionReaction.length
            = (s.mChangedFactionReaction.map fun _ => 1).sum := by simp
          _ ≤ _ := List.sum_le_sum fun f _ => by simp)
      fun f hf => (hinner f hf).2]
    simp only
    rw [setReaction_foldl_filter s.mChangedFactionReaction [] (by simpa using hkeys)
      fun f hf => (hinner f hf).1]
    rfl
  refine ⟨hload, fun hne => ?_⟩
  rw [hload]
  have hfilter : (s.mChangedFactionReaction.filter fun f => !f.2.isEmpty)
      = s.mChangedFactionReaction := by
    rw [List.filter_eq_self]
    intro f hf
    have := hne f hf
    cases h : f.2 with
    | nil => exact absurd h this
    | cons _ _ => rfl
  rw [hfilter]

/-- Witness of C29 (amended): a state with two topics and one faction with two reactions. -/
theorem dialogueState_save_load_witness :
    sampleState.wellFormed
    ∧ (∀ f ∈ sampleState.mChangedFactionReaction, f.2 ≠ [])
    ∧ DialogueState.load ⟨[], []⟩ ⟨0, sampleState.save⟩ = Except.ok (sampleState, ⟨0, []⟩) := by
  have hwf : sampleState.wellFormed := by
    unfold DialogueState.wellFormed sampleState
    simp only [List.map_cons, List.map_nil, List.pairwise_cons, List.mem_singleton, forall_eq,
      List.not_mem_nil, false_implies, implies_true, List.Pairwise.nil, and_true, true_and,
      List.mem_cons, forall_eq_or_imp]
    exact ⟨by decide!, ⟨by decide, by decide⟩, by decide, by decide⟩
  have hne : ∀ f ∈ sampleState.mChangedFactionReaction, f.2 ≠ [] := by
    unfold sampleState
    simp
  exact ⟨hwf, hne, (dialogueState_save_load sampleState 0 hwf).2 hne⟩

end ESM

/-! # Texture brush history -/

namespace CSVWidget

/-- Exchanging the entry at index `i` with the first entry permutes the list. -/
theorem swap_first_perm {α : Type} :
    ∀ (l : List α) (i : Nat) (x first : α), l[i]? = some x → l[0]? = some first →
      ((l.set i first).set 0 x).Perm l := by
  intro l i x first hx hf
  cases l with
  | nil => cases hf
  | cons a t =>
    simp only [List.getElem?_cons_zero, Option.some.injEq] at hf
    subst hf
    cases i with
    | zero =>
      simp only [List.getElem?_cons_zero, Option.some.injEq] at hx
      subst hx
      exact List.Perm.refl _
    | succ j =>
      simp only [List.getElem?_cons_succ] at hx
      have hj : j < t.length := by
        by_contra hge
        rw [List.getElem?_eq_none (Nat.le_of_not_lt hge)] at hx
        cases hx
      have hxj : t[j] = x := by
        rw [List.getElem?_eq_getElem hj] at hx
        exact Option.some.inj hx
      have ht : t = t.take j ++ x :: t.drop (j + 1) := by
        rw [← hxj]
        exact (List.take_append_drop j t).symm.trans (by rw [List.drop_eq_getElem_cons hj])
      simp only [List.set_cons_succ, List.set_cons_zero]
      rw [List.set_eq_take_append_cons_drop, if_pos hj]
      have hfinal : a :: (t.take j ++ x :: t.drop (j + 1)) = a :: t := by rw [← ht]
      exact (((List.Perm.cons x List.perm_middle).trans (List.Perm.swap a x _)).trans
        (List.Perm.cons a List.perm_middle.symm)).trans (List.Perm.of_eq hfinal)

/-- The history after `updateBrushHistory`: the new texture, then the old entries, cut to 5. -/
theorem SceneToolTextureBrush.updateBrushHistory_eq (s : SceneToolTextureBrush)
    (brushTexture : String) (h : s.mBrushHistory.length ≤ 5) :
    (s.updateBrushHistory brushTexture).mBrushHistory = (brushTexture :: s.mBrushHistory).take 5
    ∧ (s.updateBrushHistory brushTexture).mTableRows = s.mTableRows := by
  refine ⟨?_, rfl⟩
  simp only [SceneToolTextureBrush.updateBrushHistory]
  by_cases h5 : (brushTexture :: s.mBrushHistory).length > 5
  · rw [if_pos h5, List.dropLast_eq_take]
    have : (brushTexture :: s.mBrushHistory).length = 6 := by
      simp only [List.length_cons] at h5 ⊢
      omega
    rw [this]
  · rw [if_neg h5, List.take_of_length_le (by omega)]

/-- What a click does to the history. -/
theorem SceneToolTextureBrush.clicked_some {s s1 : SceneToolTextureBrush} {row column : Int}
    (h : s.clicked row column = some s1) :
    s1.mBrushHistory.Perm s.mBrushHistory
    ∧ (column = 0 → 0 ≤ row ∧ row.toNat < s.mBrushHistory.length
        ∧ s1.mBrushHistory = (s.mBrushHistory.set row.toNat (s.mBrushHistory.headD "")).set 0
            (s.mBrushHistory.getD row.toNat "")
        ∧ s1.mTableRows = s1.mBrushHistory.length)
    ∧ (column ≠ 0 → s1.mBrushHistory = s.mBrushHistory ∧ s1.mTableRows = s.mTableRows) := by
  unfold SceneToolTextureBrush.clicked at h
  by_cases hc : column = 0
  · rw [if_pos hc] at h
    by_cases hr : 0 ≤ row
    · rw [if_pos hr] at h
      cases hx : s.mBrushHistory[row.toNat]? with
      | none => rw [hx] at h; cases h
      | some x =>
        cases hf : s.mBrushHistory[0]? with
        | none => rw [hx, hf] at h; cases h
        | some first =>
          rw [hx, hf] at h
          simp only [Option.some.injEq] at h
          subst h
          have hlt : row.toNat < s.mBrushHistory.length := by
            by_contra hge
            rw [List.getElem?_eq_none (Nat.le_of_not_lt hge)] at hx
            cases hx
          have hhead : s.mBrushHistory.headD "" = first := by
            cases hl : s.mBrushHistory with
            | nil => rw [hl] at hf; cases hf
            | cons a t =>
              rw [hl] at hf
              simp only [List.getElem?_cons_zero, Option.some.injEq] at hf
              simp [hf]
          have hget : s.mBrushHistory.getD row.toNat "" = x := by
            rw [List.getD_eq_getElem?_getD, hx]
            rfl
          refine ⟨swap_first_perm _ _ _ _ hx hf, fun _ => ⟨hr, hlt, ?_, rfl⟩,
            fun hne => absurd hc hne⟩
          rw [hhead, hget]
          rfl
    · rw [if_neg hr] at h
      cases h
  · rw [if_neg hc] at h
    have hs : s1.mBrushHistory = s.mBrushHistory ∧ s1.mTableRows = s.mTableRows := by
      by_cases h1 : column = 1
      · rw [if_pos h1] at h
        injection h with h
        subst h
        exact ⟨rfl, rfl⟩
      · rw [if_neg h1] at h
        injection h with h
        subst h
        exact ⟨rfl, rfl⟩
    exact ⟨by rw [hs.1], fun h0 => absurd h0 hc, fun _ => hs⟩

/-- A click on a row of the table always goes through. -/
theorem SceneToolTextureBrush.clicked_accepts (s : SceneToolTextureBrush) (row column : Int)
    (hok : s.historyOk) (hacc : s.accepts (Call.clicked row column)) :
    ∃ s1, s.clicked row column = some s1 := by
  unfold SceneToolTextureBrush.clicked
  by_cases hc : column = 0
  · obtain ⟨hr, hlt⟩ := hacc hc
    have hlen : row.toNat < s.mBrushHistory.length := by
      have := hok.2.2
      omega
    have h0 : 0 < s.mBrushHistory.length := by omega
    rw [if_pos hc, if_pos hr, List.getElem?_eq_getElem hlen, List.getElem?_eq_getElem h0]
    exact ⟨_, rfl⟩
  · rw [if_neg hc]
    by_cases h1 : column = 1
    · rw [if_pos h1]
      exact ⟨_, rfl⟩
    · rw [if_neg h1]
      exact ⟨_, rfl⟩

/-- Every call keeps the history between 1 and 5 entries. -/
theorem SceneToolTextureBrush.call_historyOk {s s1 : SceneToolTextureBrush} {c : Call}
    (hok : s.historyOk) (h : s.call c = some s1) : s1.historyOk := by
  obtain ⟨h1, h5, hrows⟩ := hok
  cases c with
  | updateBrushHistory brushTexture =>
    simp only [SceneToolTextureBrush.call, Option.some.injEq] at h
    subst h
    obtain ⟨he, hr⟩ := s.updateBrushHistory_eq brushTexture h5
    unfold SceneToolTextureBrush.historyOk
    rw [he, hr, List.length_take, List.length_cons]
    omega
  | clicked row column =>
    obtain ⟨hperm, h0, hne⟩ := SceneToolTextureBrush.clicked_some h
    have hlen := hperm.length_eq
    unfold SceneToolTextureBrush.historyOk
    by_cases hc : column = 0
    · have := (h0 hc).2.2.2
      omega
    · have := (hne hc).2
      omega
  | showPanel =>
    simp only [SceneToolTextureBrush.call, Option.some.injEq] at h
    subst h
    exact ⟨h1, h5, le_refl _⟩

theorem SceneToolTextureBrush.run_historyOk (calls : List Call) :
    ∀ {s s1 : SceneToolTextureBrush}, s.historyOk → s.run calls = some s1 → s1.historyOk := by
  induction calls with
  | nil =>
    intro s s1 hok h
    simp only [SceneToolTextureBrush.run, Option.some.injEq] at h
    subst h
    exact hok
  | cons c rest ih =>
    intro s s1 hok h
    simp only [SceneToolTextureBrush.run, Option.bind_eq_some] at h
    obtain ⟨s2, h2, h3⟩ := h
    exact ih (SceneToolTextureBrush.call_historyOk hok h2) h3

/-- C30: the texture-brush history always holds between 1 and 5 entries. It starts with one
entry. `updateBrushHistory` puts the new texture at index 0, shifts the others back by one and
drops the oldest entry when the size would exceed 5. `clicked` on a row of the table in column
0 exchanges that row's entry with entry 0 and nothing else, so the history stays a permutation
of itself; a click elsewhere leaves the history as it is. After every sequence of these calls
from the constructor on, the history has between 1 and 5 entries. -/
theorem brushHistory_bounds (s : SceneToolTextureBrush) (hok : s.historyOk) :
    SceneToolTextureBrush.new.mBrushHistory = ["L0#0"]
    ∧ SceneToolTextureBrush.new.historyOk
    ∧ (∀ brushTexture : String,
        (s.updateBrushHistory brushTexture).historyOk
        ∧ (s.updateBrushHistory brushTexture).mBrushHistory
            = (brushTexture :: s.mBrushHistory).take 5
        ∧ (s.updateBrushHistory brushTexture).mBrushHistory[0]? = some brushTexture
        ∧ (∀ i : Nat, i + 1 < 5 →
            (s.updateBrushHistory brushTexture).mBrushHistory[i + 1]? = s.mBrushHistory[i]?)
        ∧ (s.mBrushHistory.length < 5 →
            (s.updateBrushHistory brushTexture).mBrushHistory = brushTexture :: s.mBrushHistory)
        ∧ (s.mBrushHistory.length = 5 →
            (s.updateBrushHistory brushTexture).mBrushHistory
              = brushTexture :: s.mBrushHistory.dropLast))
    ∧ (∀ row column : Int, s.accepts (Call.clicked row column) →
        ∃ s1, s.clicked row column = some s1 ∧ s1.historyOk
          ∧ s1.mBrushHistory.Perm s.mBrushHistory
          ∧ (column = 0 →
              s1.mBrushHistory[0]? = s.mBrushHistory[row.toNat]?
              ∧ s1.mBrushHistory[row.toNat]? = s.mBrushHistory[0]?
              ∧ ∀ i : Nat, i ≠ 0 → i ≠ row.toNat → s1.mBrushHistory[i]? = s.mBrushHistory[i]?)
          ∧ (column ≠ 0 → s1.mBrushHistory = s.mBrushHistory))
    ∧ (∀ (calls : List Call) (s1 : SceneToolTextureBrush),
        SceneToolTextureBrush.new.run calls = some s1 →
        1 ≤ s1.mBrushHistory.length ∧ s1.mBrushHistory.length ≤ 5) := by
  have hnew : SceneToolTextureBrush.new.historyOk := by
    unfold SceneToolTextureBrush.historyOk SceneToolTextureBrush.new
    simp
  refine ⟨rfl, hnew, fun brushTexture => ?_, fun row column hacc => ?_, fun calls s1 h => ?_⟩
  · obtain ⟨he, -⟩ := s.updateBrushHistory_eq brushTexture hok.2.1
    refine ⟨SceneToolTextureBrush.call_historyOk (c := Call.updateBrushHistory brushTexture) hok
      rfl, he, ?_, fun i hi => ?_, fun hlt => ?_, fun heq => ?_⟩
    · rw [he, List.getElem?_take, if_pos (by omega), List.getElem?_cons_zero]
    · rw [he, List.getElem?_take, if_pos hi, List.getElem?_cons_succ]
    · rw [he, List.take_of_length_le (by rw [List.length_cons]; omega)]
    · rw [he]
      show brushTexture :: s.mBrushHistory.take 4 = _
      rw [List.dropLast_eq_take, heq]
  · obtain ⟨s1, h1⟩ := s.clicked_accepts row column hok hacc
    obtain ⟨hperm, h0, hne⟩ := SceneToolTextureBrush.clicked_some h1
    refine ⟨s1, h1, SceneToolTextureBrush.call_historyOk (c := Call.clicked row column) hok h1,
      hperm, fun hc => ?_, fun hc => (hne hc).1⟩
    obtain ⟨hr, hlt, he, -⟩ := h0 hc
    have hpos : 0 < s.mBrushHistory.length := by omega
    have hheadD : ∀ (l : List String) (h : 0 < l.length), l.headD "" = l[0] := by
      intro l h
      cases l with
      | nil => cases h
      | cons a t => rfl
    have hhead : s.mBrushHistory.headD "" = s.mBrushHistory[0] := hheadD _ hpos
    have hget : s.mBrushHistory.getD row.toNat "" = s.mBrushHistory[row.toNat] := by
      rw [List.getD_eq_getElem?_getD, List.getElem?_eq_getElem hlt]
      rfl
    rw [he, hhead, hget]
    refine ⟨?_, ?_, fun i hi0 hir => ?_⟩
    · rw [List.getElem?_set, if_pos rfl, List.length_set, if_pos hpos,
        List.getElem?_eq_getElem hlt]
    · by_cases hz : row.toNat = 0
      · rw [List.getElem?_set, if_pos hz.symm, List.length_set, if_pos hpos,
          List.getElem?_eq_getElem hpos]
        simp only [hz]
      · rw [List.getElem?_set, if_neg (Ne.symm hz), List.getElem?_set, if_pos rfl, if_pos hlt,
          List.getElem?_eq_getElem hpos]
    · rw [List.getElem?_set, if_neg (Ne.symm hi0), List.getElem?_set, if_neg (Ne.symm hir)]
  · obtain ⟨h1, h5, -⟩ := SceneToolTextureBrush.run_historyOk calls hnew h
    exact ⟨h1, h5⟩

/-- Witness of C30: five updates after construction fill the history, the sixth drops the
oldest entry `"L0#0"`, and after `showPanel` a click on row 2 exchanges entries 2 and 0. -/
theorem brushHistory_bounds_witness :
    (SceneToolTextureBrush.new.run
        [Call.updateBrushHistory "a", Call.updateBrushHistory "b", Call.updateBrushHistory "c",
         Call.updateBrushHistory "d", Call.updateBrushHistory "e", Call.showPanel,
         Call.clicked 2 0]).map (fun s => s.mBrushHistory) = some ["c", "d", "e", "b", "a"]
    ∧ SceneToolTextureBrush.new.historyOk
    ∧ SceneToolTextureBrush.new.showPanel.accepts (Call.clicked 0 0)
    ∧ ∃ s1, SceneToolTextureBrush.new.showPanel.clicked 0 0 = some s1
        ∧ s1.mBrushHistory.Perm SceneToolTextureBrush.new.showPanel.mBrushHistory := by
  have hok : SceneToolTextureBrush.new.showPanel.historyOk := by
    unfold SceneToolTextureBrush.historyOk
    decide
  have hacc : SceneToolTextureBrush.new.showPanel.accepts (Call.clicked 0 0) := by
    intro _
    decide
  obtain ⟨s1, h1, -, hperm, -⟩ :=
    (brushHistory_bounds SceneToolTextureBrush.new.showPanel hok).2.2.2.1 0 0 hacc
  exact ⟨by decide, (brushHistory_bounds SceneToolTextureBrush.new.showPanel hok).2.1, hacc,
    s1, h1, hperm⟩

end CSVWidget
